import Mathlib

/-!
# TurtleDexCore: the consensus diff generator

A shallow embedding of `modules/consensus/applytransaction.go` together with the
parts of `types/transactions.go` and `types/encoding.go` it relies on.

Conventions of the embedding:

* byte strings are lists of natural numbers (each below 256);
* `uint64`, `BlockHeight` and array indices are natural numbers; the binary
  encoding reduces them modulo `2^64` where the source writes eight bytes;
* `Currency` (a wrapper around an arbitrary precision integer) is a natural
  number;
* a `bolt` bucket is a finite map, embedded as a function from keys to optional
  values;
* a Go `panic` is the `fatal` outcome, which keeps the state reached when the
  panic was raised and stops every later statement.
-/

namespace TurtleDex

/-! ## Byte level encoding (package `encoding`) -/

/-- Byte strings. -/
abbrev Bytes := List Nat

/-- The function `encoding.WriteUint64`: eight little-endian bytes. -/
def WriteUint64 (u : Nat) : Bytes :=
  (List.range 8).map (fun k => (u % 2 ^ 64) / 256 ^ k % 256)

/-- The function `encoding.WriteInt`: a length written as a `uint64`. -/
def WriteInt (n : Nat) : Bytes := WriteUint64 n

/-- The function `encoding.WritePrefixedBytes`: length prefix, then the bytes. -/
def WritePrefixedBytes (b : Bytes) : Bytes := WriteInt b.length ++ b

/-- The function `encoding.WriteBool`: one byte. -/
def WriteBool (b : Bool) : Bytes := [if b then 1 else 0]

/-! ## Package `crypto` and `types`: basic types -/

/-- The type `crypto.Hash`, a 32 byte array. -/
abbrev Hash := Bytes

/-- The Go zero value of a `crypto.Hash`. -/
def Hash.zero : Hash := List.replicate 32 0

namespace types

abbrev TransactionID := Hash
abbrev TurtleDexcoinOutputID := Hash
abbrev TurtleDexfundOutputID := Hash
abbrev FileContractID := Hash
abbrev OutputID := Hash
abbrev UnlockHash := Hash
abbrev BlockID := Hash
abbrev BlockHeight := Nat
abbrev Currency := Nat
abbrev Specifier := Bytes

/-- The constant `SpecifierLen`. -/
def SpecifierLen : Nat := 16

/-- The function `NewSpecifier`: the bytes of the name, zero padded to sixteen bytes. -/
def NewSpecifier (name : String) : Specifier :=
  let b := name.toList.map Char.toNat
  b ++ List.replicate (SpecifierLen - b.length) 0

def SpecifierClaimOutput : Specifier := NewSpecifier "claim output"
def SpecifierFileContract : Specifier := NewSpecifier "file contract"
def SpecifierFileContractRevision : Specifier := NewSpecifier "file contract re"
def SpecifierMinerFee : Specifier := NewSpecifier "miner fee"
def SpecifierMinerPayout : Specifier := NewSpecifier "miner payout"
def SpecifierTurtleDexcoinInput : Specifier := NewSpecifier "ttdc input"
def SpecifierTurtleDexcoinOutput : Specifier := NewSpecifier "ttdc output"
def SpecifierTurtleDexfundInput : Specifier := NewSpecifier "siafund input"
def SpecifierTurtleDexfundOutput : Specifier := NewSpecifier "siafund output"
def SpecifierStorageProofOutput : Specifier := NewSpecifier "storage proof"
def SpecifierFoundation : Specifier := NewSpecifier "foundation"

/-- Modelled from the spec: `Currency.Add` (types/currency.go is not part of the
sources at hand); currencies are non-negative integers of arbitrary size. -/
def Currency.Add (x y : Currency) : Currency := x + y

/-- Modelled from the spec: `Currency.Sub`, the difference `x - y` of the claim
formula `(pool - claimStart) / fundSupply * value`; it is only meaningful for
`y ≤ x` and is truncated at zero otherwise. -/
def Currency.Sub (x y : Currency) : Currency := x - y

/-- Modelled from the spec: `Currency.Div`, integer division rounding down. -/
def Currency.Div (x y : Currency) : Currency := x / y

/-- Modelled from the spec: `Currency.Mul`. -/
def Currency.Mul (x y : Currency) : Currency := x * y

structure TurtleDexPublicKey where
  Algorithm : Specifier
  Key : Bytes
deriving DecidableEq, Repr

structure UnlockConditions where
  Timelock : BlockHeight
  PublicKeys : List TurtleDexPublicKey
  SignaturesRequired : Nat
deriving DecidableEq, Repr

structure TurtleDexcoinInput where
  ParentID : TurtleDexcoinOutputID
  UnlockConditions : types.UnlockConditions
deriving DecidableEq, Repr

structure TurtleDexcoinOutput where
  Value : Currency
  UnlockHash : types.UnlockHash
deriving DecidableEq, Repr

structure TurtleDexfundInput where
  ParentID : TurtleDexfundOutputID
  UnlockConditions : types.UnlockConditions
  ClaimUnlockHash : types.UnlockHash
deriving DecidableEq, Repr

structure TurtleDexfundOutput where
  Value : Currency
  UnlockHash : types.UnlockHash
  ClaimStart : Currency
deriving DecidableEq, Repr

structure FileContract where
  FileSize : Nat
  FileMerkleRoot : Hash
  WindowStart : BlockHeight
  WindowEnd : BlockHeight
  Payout : Currency
  ValidProofOutputs : List TurtleDexcoinOutput
  MissedProofOutputs : List TurtleDexcoinOutput
  UnlockHash : types.UnlockHash
  RevisionNumber : Nat
deriving DecidableEq, Repr

structure FileContractRevision where
  ParentID : FileContractID
  UnlockConditions : types.UnlockConditions
  NewRevisionNumber : Nat
  NewFileSize : Nat
  NewFileMerkleRoot : Hash
  NewWindowStart : BlockHeight
  NewWindowEnd : BlockHeight
  NewValidProofOutputs : List TurtleDexcoinOutput
  NewMissedProofOutputs : List TurtleDexcoinOutput
  NewUnlockHash : types.UnlockHash
deriving DecidableEq, Repr

structure StorageProof where
  ParentID : FileContractID
  Segment : Bytes
  HashSet : List Hash
deriving DecidableEq, Repr

structure CoveredFields where
  WholeTransaction : Bool
  TurtleDexcoinInputs : List Nat
  TurtleDexcoinOutputs : List Nat
  FileContracts : List Nat
  FileContractRevisions : List Nat
  StorageProofs : List Nat
  TurtleDexfundInputs : List Nat
  TurtleDexfundOutputs : List Nat
  MinerFees : List Nat
  ArbitraryData : List Nat
  TransactionSignatures : List Nat
deriving DecidableEq, Repr

structure TransactionSignature where
  ParentID : Hash
  PublicKeyIndex : Nat
  Timelock : BlockHeight
  CoveredFields : types.CoveredFields
  Signature : Bytes
deriving DecidableEq, Repr

structure Transaction where
  TurtleDexcoinInputs : List TurtleDexcoinInput
  TurtleDexcoinOutputs : List TurtleDexcoinOutput
  FileContracts : List FileContract
  FileContractRevisions : List FileContractRevision
  StorageProofs : List StorageProof
  TurtleDexfundInputs : List TurtleDexfundInput
  TurtleDexfundOutputs : List TurtleDexfundOutput
  MinerFees : List Currency
  ArbitraryData : List Bytes
  TransactionSignatures : List TransactionSignature
deriving DecidableEq, Repr

structure FoundationUnlockHashUpdate where
  NewPrimary : types.UnlockHash
  NewFailsafe : types.UnlockHash
deriving DecidableEq, Repr

/-- The Go zero value of a `TurtleDexcoinOutput`. -/
def TurtleDexcoinOutput.zero : TurtleDexcoinOutput := ⟨0, Hash.zero⟩

/-- The Go zero value of a `TurtleDexfundOutput`. -/
def TurtleDexfundOutput.zero : TurtleDexfundOutput := ⟨0, Hash.zero, 0⟩

/-- The Go zero value of a `FileContract`. -/
def FileContract.zero : FileContract :=
  ⟨0, Hash.zero, 0, 0, 0, [], [], Hash.zero, 0⟩

/-- The Go zero value of a `Transaction`. -/
def Transaction.zero : Transaction := ⟨[], [], [], [], [], [], [], [], [], []⟩

/-! ## Binary encoding of the transaction fields (`types/encoding.go`) -/

/-- The little-endian 64-bit words of a number, without a leading zero word;
the first argument bounds the number of words. -/
def Currency.words : Nat → Nat → List Nat
  | 0, _ => []
  | fuel + 1, n => if n = 0 then [] else (n % 2 ^ 64) :: Currency.words fuel (n / 2 ^ 64)

/-- The method `big.Int.Bits` on a 64-bit platform: the little-endian 64-bit
words of the magnitude, without a leading zero word. -/
def Currency.Bits (c : Currency) : List Nat := Currency.words c c

/-- The expression `bits[i/_S] >> (uint(i%_S)*8)` with `_S = 8`. -/
def Currency.shifted (bits : List Nat) (i : Nat) : Nat :=
  (bits.getD (i / 8) 0) >>> ((i % 8) * 8)

/-- The first loop of `Currency.MarshalTurtleDex`, counting down from `k - 1`;
the result is `i + 1` for the index `i` at which the loop stops. -/
def Currency.seek (bits : List Nat) : Nat → Nat
  | 0 => 0
  | k + 1 => if Currency.shifted bits k ≠ 0 then k + 1 else Currency.seek bits k

/-- The method `Currency.MarshalTurtleDex`. -/
def Currency.MarshalTurtleDex (c : Currency) : Bytes :=
  let bits := Currency.Bits c
  let n := Currency.seek bits (bits.length * 8)
  WriteInt n ++ (List.range n).reverse.map (fun i => Currency.shifted bits i % 256)

/-- The method `TurtleDexPublicKey.MarshalTurtleDex`. -/
def TurtleDexPublicKey.MarshalTurtleDex (spk : TurtleDexPublicKey) : Bytes :=
  spk.Algorithm ++ WritePrefixedBytes spk.Key

/-- The method `UnlockConditions.MarshalTurtleDex`. -/
def UnlockConditions.MarshalTurtleDex (uc : UnlockConditions) : Bytes :=
  WriteUint64 uc.Timelock ++ WriteInt uc.PublicKeys.length
    ++ (uc.PublicKeys.map TurtleDexPublicKey.MarshalTurtleDex).flatten
    ++ WriteUint64 uc.SignaturesRequired

/-- The method `TurtleDexcoinInput.MarshalTurtleDex`. -/
def TurtleDexcoinInput.MarshalTurtleDex (sci : TurtleDexcoinInput) : Bytes :=
  sci.ParentID ++ sci.UnlockConditions.MarshalTurtleDex

/-- The method `TurtleDexcoinOutput.MarshalTurtleDex`. -/
def TurtleDexcoinOutput.MarshalTurtleDex (sco : TurtleDexcoinOutput) : Bytes :=
  Currency.MarshalTurtleDex sco.Value ++ sco.UnlockHash

/-- The method `FileContract.MarshalTurtleDex`. -/
def FileContract.MarshalTurtleDex (fc : FileContract) : Bytes :=
  WriteUint64 fc.FileSize ++ fc.FileMerkleRoot ++ WriteUint64 fc.WindowStart
    ++ WriteUint64 fc.WindowEnd ++ Currency.MarshalTurtleDex fc.Payout
    ++ WriteInt fc.ValidProofOutputs.length
    ++ (fc.ValidProofOutputs.map TurtleDexcoinOutput.MarshalTurtleDex).flatten
    ++ WriteInt fc.MissedProofOutputs.length
    ++ (fc.MissedProofOutputs.map TurtleDexcoinOutput.MarshalTurtleDex).flatten
    ++ fc.UnlockHash ++ WriteUint64 fc.RevisionNumber

/-- The method `FileContractRevision.MarshalTurtleDex`. -/
def FileContractRevision.MarshalTurtleDex (fcr : FileContractRevision) : Bytes :=
  fcr.ParentID ++ fcr.UnlockConditions.MarshalTurtleDex
    ++ WriteUint64 fcr.NewRevisionNumber ++ WriteUint64 fcr.NewFileSize
    ++ fcr.NewFileMerkleRoot ++ WriteUint64 fcr.NewWindowStart
    ++ WriteUint64 fcr.NewWindowEnd
    ++ WriteInt fcr.NewValidProofOutputs.length
    ++ (fcr.NewValidProofOutputs.map TurtleDexcoinOutput.MarshalTurtleDex).flatten
    ++ WriteInt fcr.NewMissedProofOutputs.length
    ++ (fcr.NewMissedProofOutputs.map TurtleDexcoinOutput.MarshalTurtleDex).flatten
    ++ fcr.NewUnlockHash

/-- The method `StorageProof.MarshalTurtleDex`. -/
def StorageProof.MarshalTurtleDex (sp : StorageProof) : Bytes :=
  sp.ParentID ++ sp.Segment ++ WriteInt sp.HashSet.length ++ sp.HashSet.flatten

/-- The method `TurtleDexfundInput.MarshalTurtleDex`. -/
def TurtleDexfundInput.MarshalTurtleDex (sfi : TurtleDexfundInput) : Bytes :=
  sfi.ParentID ++ sfi.UnlockConditions.MarshalTurtleDex ++ sfi.ClaimUnlockHash

/-- The method `TurtleDexfundOutput.MarshalTurtleDex`. -/
def TurtleDexfundOutput.MarshalTurtleDex (sfo : TurtleDexfundOutput) : Bytes :=
  Currency.MarshalTurtleDex sfo.Value ++ sfo.UnlockHash
    ++ Currency.MarshalTurtleDex sfo.ClaimStart

/-- The method `Transaction.marshalTurtleDexNoSignatures`: every field but the
signatures, each slice behind its length. -/
def Transaction.marshalTurtleDexNoSignatures (t : Transaction) : Bytes :=
  WriteInt t.TurtleDexcoinInputs.length
    ++ (t.TurtleDexcoinInputs.map TurtleDexcoinInput.MarshalTurtleDex).flatten
    ++ WriteInt t.TurtleDexcoinOutputs.length
    ++ (t.TurtleDexcoinOutputs.map TurtleDexcoinOutput.MarshalTurtleDex).flatten
    ++ WriteInt t.FileContracts.length
    ++ (t.FileContracts.map FileContract.MarshalTurtleDex).flatten
    ++ WriteInt t.FileContractRevisions.length
    ++ (t.FileContractRevisions.map FileContractRevision.MarshalTurtleDex).flatten
    ++ WriteInt t.StorageProofs.length
    ++ (t.StorageProofs.map StorageProof.MarshalTurtleDex).flatten
    ++ WriteInt t.TurtleDexfundInputs.length
    ++ (t.TurtleDexfundInputs.map TurtleDexfundInput.MarshalTurtleDex).flatten
    ++ WriteInt t.TurtleDexfundOutputs.length
    ++ (t.TurtleDexfundOutputs.map TurtleDexfundOutput.MarshalTurtleDex).flatten
    ++ WriteInt t.MinerFees.length
    ++ (t.MinerFees.map Currency.MarshalTurtleDex).flatten
    ++ WriteInt t.ArbitraryData.length
    ++ (t.ArbitraryData.map WritePrefixedBytes).flatten

end types

/-! ## What the build and the other packages provide -/

/-- The constants and functions that applytransaction.go takes from the build
configuration and from files outside the sources at hand: the debug switch
`build.DEBUG`, the hash function of package `crypto`, `types.Tax`, the output
identifiers of `types` that are not defined in transactions.go, the consensus
constants, and the decoder `encoding.Unmarshal` at type
`FoundationUnlockHashUpdate` (the value left in the target and whether an error
was returned). -/
structure Env where
  DEBUG : Bool
  HashBytes : Bytes → Hash
  Tax : types.BlockHeight → types.Currency → types.Currency
  StorageProofOutputID : types.FileContractID → Bool → Nat → types.TurtleDexcoinOutputID
  FoundationSubsidyID : types.BlockID → types.TurtleDexcoinOutputID
  MaturityDelay : types.BlockHeight
  FoundationHardforkHeight : types.BlockHeight
  FoundationSubsidyFrequency : types.BlockHeight
  TurtleDexfundCount : types.Currency
  Unmarshal : Bytes → types.FoundationUnlockHashUpdate × Bool
  FoundationSubsidyFrequency_pos : 0 < FoundationSubsidyFrequency
  TurtleDexfundCount_pos : 0 < TurtleDexfundCount

namespace types

/-- The constant `ProofValid`. -/
def ProofValid : Bool := true

/-- The constant `ProofMissed`. -/
def ProofMissed : Bool := false

/-- The method `Transaction.ID`. -/
def Transaction.ID (env : Env) (t : Transaction) : TransactionID :=
  env.HashBytes t.marshalTurtleDexNoSignatures

/-- The method `Transaction.TurtleDexcoinOutputID`. -/
def Transaction.TurtleDexcoinOutputID (env : Env) (t : Transaction) (i : Nat) :
    TurtleDexcoinOutputID :=
  env.HashBytes (SpecifierTurtleDexcoinOutput ++ t.marshalTurtleDexNoSignatures ++ WriteUint64 i)

/-- The method `Transaction.FileContractID`. -/
def Transaction.FileContractID (env : Env) (t : Transaction) (i : Nat) : FileContractID :=
  env.HashBytes (SpecifierFileContract ++ t.marshalTurtleDexNoSignatures ++ WriteUint64 i)

/-- The method `Transaction.TurtleDexfundOutputID`. -/
def Transaction.TurtleDexfundOutputID (env : Env) (t : Transaction) (i : Nat) :
    TurtleDexfundOutputID :=
  env.HashBytes (SpecifierTurtleDexfundOutput ++ t.marshalTurtleDexNoSignatures ++ WriteUint64 i)

/-- The method `TurtleDexfundOutputID.TurtleDexClaimOutputID`: the hash of the
identifier. -/
def TurtleDexClaimOutputID (env : Env) (id : TurtleDexfundOutputID) : TurtleDexcoinOutputID :=
  env.HashBytes id

/-- The method `Transaction.TurtleDexcoinOutputSum`. -/
def Transaction.TurtleDexcoinOutputSum (t : Transaction) : Currency :=
  let sum := t.TurtleDexcoinOutputs.foldl (fun sum sco => Currency.Add sum sco.Value) 0
  let sum := t.FileContracts.foldl (fun sum fc => Currency.Add sum fc.Payout) sum
  t.MinerFees.foldl (fun sum fee => Currency.Add sum fee) sum

end types

/-! ## Package `modules`: the diff records -/

namespace modules

/-- The type `DiffDirection` with its two values `DiffApply` and `DiffRevert`. -/
inductive DiffDirection where
  | DiffApply
  | DiffRevert
deriving DecidableEq, Repr

structure TurtleDexcoinOutputDiff where
  Direction : DiffDirection
  ID : types.TurtleDexcoinOutputID
  TurtleDexcoinOutput : types.TurtleDexcoinOutput
deriving DecidableEq, Repr

structure FileContractDiff where
  Direction : DiffDirection
  ID : types.FileContractID
  FileContract : types.FileContract
deriving DecidableEq, Repr

structure TurtleDexfundOutputDiff where
  Direction : DiffDirection
  ID : types.TurtleDexfundOutputID
  TurtleDexfundOutput : types.TurtleDexfundOutput
deriving DecidableEq, Repr

structure DelayedTurtleDexcoinOutputDiff where
  Direction : DiffDirection
  ID : types.TurtleDexcoinOutputID
  TurtleDexcoinOutput : types.TurtleDexcoinOutput
  MaturityHeight : types.BlockHeight
deriving DecidableEq, Repr

structure TurtleDexfundPoolDiff where
  Direction : DiffDirection
  Previous : types.Currency
  Adjusted : types.Currency
deriving DecidableEq, Repr

end modules

/-! ## Package `consensus`: the database and the diff committer -/

namespace consensus

open modules types

/-- The values a consensus `panic` is raised with. -/
inductive Fatal where
  | errNilItem
  | errRepeatInsert
  | errMissingItem
  | errMissingBucket
  | errNegativePoolAdjustment
  | errApplyTurtleDexfundPoolDiffMismatch
  | errRevertTurtleDexfundPoolDiffMismatch
  | errDecode
deriving DecidableEq, Repr

/-- The buckets of the consensus database that applytransaction.go reads and
writes through the `bolt` transaction `tx`: the coin outputs, the file
contracts, the fund outputs, one bucket of delayed outputs per maturity height,
the fund pool, the block height, the block path, the current Foundation unlock
hashes (primary, failsafe) and the archive of prior hashes keyed by height. -/
structure ConsensusDB where
  TurtleDexcoinOutputs : TurtleDexcoinOutputID → Option TurtleDexcoinOutput
  FileContracts : FileContractID → Option FileContract
  TurtleDexfundOutputs : TurtleDexfundOutputID → Option TurtleDexfundOutput
  DelayedTurtleDexcoinOutputs :
    BlockHeight → Option (TurtleDexcoinOutputID → Option TurtleDexcoinOutput)
  TurtleDexfundPool : Currency
  BlockHeight : types.BlockHeight
  BlockPath : types.BlockHeight → Option BlockID
  FoundationUnlockHashes : UnlockHash × UnlockHash
  PriorFoundationUnlockHashes : types.BlockHeight → Option (UnlockHash × UnlockHash)

/-- The fields of `processedBlock` that applytransaction.go uses. -/
structure processedBlock where
  Height : BlockHeight
  TurtleDexcoinOutputDiffs : List TurtleDexcoinOutputDiff
  FileContractDiffs : List FileContractDiff
  TurtleDexfundOutputDiffs : List TurtleDexfundOutputDiff
  DelayedTurtleDexcoinOutputDiffs : List DelayedTurtleDexcoinOutputDiff
  TurtleDexfundPoolDiffs : List TurtleDexfundPoolDiff
deriving DecidableEq, Repr

/-- The result of running statements on `tx` and `pb`: either they ran to the
end, or a panic stopped them; both carry the database and the processed block
as they were left. -/
inductive Outcome where
  | ok (tx : ConsensusDB) (pb : processedBlock)
  | fatal (err : Fatal) (tx : ConsensusDB) (pb : processedBlock)

/-- Sequencing: the next statements run only when no panic was raised. -/
def Outcome.andThen (o : Outcome) (f : ConsensusDB → processedBlock → Outcome) : Outcome :=
  match o with
  | .ok tx pb => f tx pb
  | .fatal e tx pb => .fatal e tx pb

/-- The database an outcome leaves. -/
def Outcome.tx : Outcome → ConsensusDB
  | .ok tx _ => tx
  | .fatal _ tx _ => tx

/-- The processed block an outcome leaves. -/
def Outcome.pb : Outcome → processedBlock
  | .ok _ pb => pb
  | .fatal _ _ pb => pb

/-- Whether a panic was raised. -/
def Outcome.isFatal : Outcome → Bool
  | .ok _ _ => false
  | .fatal _ _ _ => true

/-- The outcome of a database update made while the processed block is `pb`. -/
def Outcome.ofUpdate (r : Except Fatal ConsensusDB) (tx : ConsensusDB) (pb : processedBlock) :
    Outcome :=
  match r with
  | .ok tx1 => .ok tx1 pb
  | .error e => .fatal e tx pb

/-- The statement `for _, x := range xs` with the given body. -/
def forRange {α : Type} (body : α → ConsensusDB → processedBlock → Outcome) :
    List α → ConsensusDB → processedBlock → Outcome
  | [], tx, pb => .ok tx pb
  | x :: rest, tx, pb => (body x tx pb).andThen (forRange body rest)

/-- The statement `for i, x := range xs` with the given body, the first index
being `i`. -/
def forRangeFrom {α : Type} (body : Nat → α → ConsensusDB → processedBlock → Outcome) :
    Nat → List α → ConsensusDB → processedBlock → Outcome
  | _, [], tx, pb => .ok tx pb
  | i, x :: rest, tx, pb => (body i x tx pb).andThen (forRangeFrom body (i + 1) rest)

/-- Modelled from the spec: `getTurtleDexcoinOutput` (database.go is not part
of the sources at hand) looks an output up; a missing output gives the zero
value and the error `errNilItem`. -/
def getTurtleDexcoinOutput (tx : ConsensusDB) (id : TurtleDexcoinOutputID) :
    TurtleDexcoinOutput × Option Fatal :=
  match tx.TurtleDexcoinOutputs id with
  | some sco => (sco, none)
  | none => (TurtleDexcoinOutput.zero, some .errNilItem)

/-- Modelled from the spec: `getFileContract`, as `getTurtleDexcoinOutput`. -/
def getFileContract (tx : ConsensusDB) (id : FileContractID) : FileContract × Option Fatal :=
  match tx.FileContracts id with
  | some fc => (fc, none)
  | none => (FileContract.zero, some .errNilItem)

/-- Modelled from the spec: `getTurtleDexfundOutput`, as `getTurtleDexcoinOutput`. -/
def getTurtleDexfundOutput (tx : ConsensusDB) (id : TurtleDexfundOutputID) :
    TurtleDexfundOutput × Option Fatal :=
  match tx.TurtleDexfundOutputs id with
  | some sfo => (sfo, none)
  | none => (TurtleDexfundOutput.zero, some .errNilItem)

/-- Modelled from the spec: `getTurtleDexfundPool` reads the fund pool. -/
def getTurtleDexfundPool (tx : ConsensusDB) : Currency := tx.TurtleDexfundPool

/-- Modelled from the spec: `blockHeight` reads the chain height. -/
def blockHeight (tx : ConsensusDB) : types.BlockHeight := tx.BlockHeight

/-- Modelled from the spec: `getPath` reads the block at a height of the
canonical path. -/
def getPath (tx : ConsensusDB) (height : types.BlockHeight) : Option BlockID :=
  tx.BlockPath height

/-- Modelled from the spec: `addTurtleDexcoinOutput` inserts an output; inserting
under an identifier that is already present is a fatal inconsistency. -/
def addTurtleDexcoinOutput (tx : ConsensusDB) (id : TurtleDexcoinOutputID)
    (sco : TurtleDexcoinOutput) : Except Fatal ConsensusDB :=
  if (tx.TurtleDexcoinOutputs id).isSome then .error .errRepeatInsert
  else .ok { tx with TurtleDexcoinOutputs := Function.update tx.TurtleDexcoinOutputs id (some sco) }

/-- Modelled from the spec: `removeTurtleDexcoinOutput` deletes an output;
deleting a missing output is a fatal inconsistency. -/
def removeTurtleDexcoinOutput (tx : ConsensusDB) (id : TurtleDexcoinOutputID) :
    Except Fatal ConsensusDB :=
  if (tx.TurtleDexcoinOutputs id).isNone then .error .errMissingItem
  else .ok { tx with TurtleDexcoinOutputs := Function.update tx.TurtleDexcoinOutputs id none }

/-- Modelled from the spec: `addFileContract`, as `addTurtleDexcoinOutput`. -/
def addFileContract (tx : ConsensusDB) (id : FileContractID) (fc : FileContract) :
    Except Fatal ConsensusDB :=
  if (tx.FileContracts id).isSome then .error .errRepeatInsert
  else .ok { tx with FileContracts := Function.update tx.FileContracts id (some fc) }

/-- Modelled from the spec: `removeFileContract`, as `removeTurtleDexcoinOutput`. -/
def removeFileContract (tx : ConsensusDB) (id : FileContractID) : Except Fatal ConsensusDB :=
  if (tx.FileContracts id).isNone then .error .errMissingItem
  else .ok { tx with FileContracts := Function.update tx.FileContracts id none }

/-- Modelled from the spec: `addTurtleDexfundOutput`, as `addTurtleDexcoinOutput`. -/
def addTurtleDexfundOutput (tx : ConsensusDB) (id : TurtleDexfundOutputID)
    (sfo : TurtleDexfundOutput) : Except Fatal ConsensusDB :=
  if (tx.TurtleDexfundOutputs id).isSome then .error .errRepeatInsert
  else .ok { tx with TurtleDexfundOutputs := Function.update tx.TurtleDexfundOutputs id (some sfo) }

/-- Modelled from the spec: `removeTurtleDexfundOutput`, as
`removeTurtleDexcoinOutput`. -/
def removeTurtleDexfundOutput (tx : ConsensusDB) (id : TurtleDexfundOutputID) :
    Except Fatal ConsensusDB :=
  if (tx.TurtleDexfundOutputs id).isNone then .error .errMissingItem
  else .ok { tx with TurtleDexfundOutputs := Function.update tx.TurtleDexfundOutputs id none }

/-- Modelled from the spec: `addDSCO` inserts a delayed output into the bucket
of its maturity height; the bucket has to exist (buckets are created before the
diffs of a block are committed) and must not hold the identifier yet. -/
def addDSCO (tx : ConsensusDB) (bh : types.BlockHeight) (id : TurtleDexcoinOutputID)
    (sco : TurtleDexcoinOutput) : Except Fatal ConsensusDB :=
  match tx.DelayedTurtleDexcoinOutputs bh with
  | none => .error .errMissingBucket
  | some bucket =>
    if (bucket id).isSome then .error .errRepeatInsert
    else
      let bucket1 := Function.update bucket id (some sco)
      .ok { tx with DelayedTurtleDexcoinOutputs :=
              Function.update tx.DelayedTurtleDexcoinOutputs bh (some bucket1) }

/-- Modelled from the spec: `removeDSCO` deletes a delayed output from the
bucket of its maturity height; bucket and output have to exist. -/
def removeDSCO (tx : ConsensusDB) (bh : types.BlockHeight) (id : TurtleDexcoinOutputID) :
    Except Fatal ConsensusDB :=
  match tx.DelayedTurtleDexcoinOutputs bh with
  | none => .error .errMissingBucket
  | some bucket =>
    if (bucket id).isNone then .error .errMissingItem
    else
      let bucket1 := Function.update bucket id none
      .ok { tx with DelayedTurtleDexcoinOutputs :=
              Function.update tx.DelayedTurtleDexcoinOutputs bh (some bucket1) }

/-- Modelled from the spec: `commitTurtleDexcoinOutputDiff` commits one coin
output diff in direction `dir`: the output is inserted when `dir` is the
direction of the diff and deleted otherwise. -/
def commitTurtleDexcoinOutputDiff (tx : ConsensusDB) (scod : TurtleDexcoinOutputDiff)
    (dir : DiffDirection) : Except Fatal ConsensusDB :=
  if scod.Direction = dir then addTurtleDexcoinOutput tx scod.ID scod.TurtleDexcoinOutput
  else removeTurtleDexcoinOutput tx scod.ID

/-- Modelled from the spec: `commitFileContractDiff`, as
`commitTurtleDexcoinOutputDiff`. -/
def commitFileContractDiff (tx : ConsensusDB) (fcd : FileContractDiff) (dir : DiffDirection) :
    Except Fatal ConsensusDB :=
  if fcd.Direction = dir then addFileContract tx fcd.ID fcd.FileContract
  else removeFileContract tx fcd.ID

/-- Modelled from the spec: `commitTurtleDexfundOutputDiff`, as
`commitTurtleDexcoinOutputDiff`. -/
def commitTurtleDexfundOutputDiff (tx : ConsensusDB) (sfod : TurtleDexfundOutputDiff)
    (dir : DiffDirection) : Except Fatal ConsensusDB :=
  if sfod.Direction = dir then addTurtleDexfundOutput tx sfod.ID sfod.TurtleDexfundOutput
  else removeTurtleDexfundOutput tx sfod.ID

/-- Modelled from the spec: `commitDelayedTurtleDexcoinOutputDiff`, as
`commitTurtleDexcoinOutputDiff`, on the bucket of the maturity height. -/
def commitDelayedTurtleDexcoinOutputDiff (tx : ConsensusDB)
    (dscod : DelayedTurtleDexcoinOutputDiff) (dir : DiffDirection) : Except Fatal ConsensusDB :=
  if dscod.Direction = dir then
    addDSCO tx dscod.MaturityHeight dscod.ID dscod.TurtleDexcoinOutput
  else removeDSCO tx dscod.MaturityHeight dscod.ID

/-- Modelled from the spec: `commitTurtleDexfundPoolDiff` rejects a diff that
lowers the pool, asserts that the pool is `Previous` before an apply and
`Adjusted` before a revert, and sets the pool to the other value. -/
def commitTurtleDexfundPoolDiff (tx : ConsensusDB) (sfpd : TurtleDexfundPoolDiff)
    (dir : DiffDirection) : Except Fatal ConsensusDB :=
  if sfpd.Adjusted < sfpd.Previous then .error .errNegativePoolAdjustment
  else if dir = .DiffApply then
    if getTurtleDexfundPool tx ≠ sfpd.Previous then .error .errApplyTurtleDexfundPoolDiffMismatch
    else .ok { tx with TurtleDexfundPool := sfpd.Adjusted }
  else
    if getTurtleDexfundPool tx ≠ sfpd.Adjusted then .error .errRevertTurtleDexfundPoolDiffMismatch
    else .ok { tx with TurtleDexfundPool := sfpd.Previous }

/-- Modelled from the spec: `setPriorFoundationUnlockHashes` snapshots the
current Foundation unlock hashes into the archive entry of the height. -/
def setPriorFoundationUnlockHashes (tx : ConsensusDB) (height : types.BlockHeight) :
    ConsensusDB :=
  { tx with PriorFoundationUnlockHashes :=
      Function.update tx.PriorFoundationUnlockHashes height (some tx.FoundationUnlockHashes) }

/-- Modelled from the spec: `setFoundationUnlockHashes` rewrites the current
Foundation unlock hashes. -/
def setFoundationUnlockHashes (tx : ConsensusDB) (primary failsafe : UnlockHash) : ConsensusDB :=
  { tx with FoundationUnlockHashes := (primary, failsafe) }

/-! ## applytransaction.go -/

/-- The body of the loop of `applyTurtleDexcoinInputs`. -/
def applyTurtleDexcoinInputsBody (env : Env) (sci : TurtleDexcoinInput) (tx : ConsensusDB)
    (pb : processedBlock) : Outcome :=
  let r := getTurtleDexcoinOutput tx sci.ParentID
  if env.DEBUG && r.2.isSome then .fatal (r.2.getD .errNilItem) tx pb
  else
    let scod : TurtleDexcoinOutputDiff :=
      { Direction := .DiffRevert, ID := sci.ParentID, TurtleDexcoinOutput := r.1 }
    let pb1 := { pb with TurtleDexcoinOutputDiffs := pb.TurtleDexcoinOutputDiffs ++ [scod] }
    Outcome.ofUpdate (commitTurtleDexcoinOutputDiff tx scod .DiffApply) tx pb1

/-- The function `applyTurtleDexcoinInputs`. -/
def applyTurtleDexcoinInputs (env : Env) (tx : ConsensusDB) (pb : processedBlock)
    (t : Transaction) : Outcome :=
  forRange (applyTurtleDexcoinInputsBody env) t.TurtleDexcoinInputs tx pb

/-- The body of the loop of `applyTurtleDexcoinOutputs`. -/
def applyTurtleDexcoinOutputsBody (env : Env) (t : Transaction) (i : Nat)
    (sco : TurtleDexcoinOutput) (tx : ConsensusDB) (pb : processedBlock) : Outcome :=
  let scoid := t.TurtleDexcoinOutputID env i
  let scod : TurtleDexcoinOutputDiff :=
    { Direction := .DiffApply, ID := scoid, TurtleDexcoinOutput := sco }
  let pb1 := { pb with TurtleDexcoinOutputDiffs := pb.TurtleDexcoinOutputDiffs ++ [scod] }
  Outcome.ofUpdate (commitTurtleDexcoinOutputDiff tx scod .DiffApply) tx pb1

/-- The function `applyTurtleDexcoinOutputs`. -/
def applyTurtleDexcoinOutputs (env : Env) (tx : ConsensusDB) (pb : processedBlock)
    (t : Transaction) : Outcome :=
  forRangeFrom (applyTurtleDexcoinOutputsBody env t) 0 t.TurtleDexcoinOutputs tx pb

/-- The second half of the body of the loop of `applyFileContracts`: the fund
pool receives the tax on the payout. -/
def applyFileContractsTax (env : Env) (fc : FileContract) (tx : ConsensusDB)
    (pb : processedBlock) : Outcome :=
  let sfp := getTurtleDexfundPool tx
  let sfpd : TurtleDexfundPoolDiff :=
    { Direction := .DiffApply, Previous := sfp,
      Adjusted := Currency.Add sfp (env.Tax (blockHeight tx) fc.Payout) }
  let pb1 := { pb with TurtleDexfundPoolDiffs := pb.TurtleDexfundPoolDiffs ++ [sfpd] }
  Outcome.ofUpdate (commitTurtleDexfundPoolDiff tx sfpd .DiffApply) tx pb1

/-- The body of the loop of `applyFileContracts`. -/
def applyFileContractsBody (env : Env) (t : Transaction) (i : Nat) (fc : FileContract)
    (tx : ConsensusDB) (pb : processedBlock) : Outcome :=
  let fcid := t.FileContractID env i
  let fcd : FileContractDiff := { Direction := .DiffApply, ID := fcid, FileContract := fc }
  let pb1 := { pb with FileContractDiffs := pb.FileContractDiffs ++ [fcd] }
  (Outcome.ofUpdate (commitFileContractDiff tx fcd .DiffApply) tx pb1).andThen
    (applyFileContractsTax env fc)

/-- The function `applyFileContracts`. -/
def applyFileContracts (env : Env) (tx : ConsensusDB) (pb : processedBlock)
    (t : Transaction) : Outcome :=
  forRangeFrom (applyFileContractsBody env t) 0 t.FileContracts tx pb

/-- The contract that `applyFileContractRevisions` builds from a revision and
the contract it revises. -/
def revisedFileContract (fcr : FileContractRevision) (fc : FileContract) : FileContract :=
  { FileSize := fcr.NewFileSize
    FileMerkleRoot := fcr.NewFileMerkleRoot
    WindowStart := fcr.NewWindowStart
    WindowEnd := fcr.NewWindowEnd
    Payout := fc.Payout
    ValidProofOutputs := fcr.NewValidProofOutputs
    MissedProofOutputs := fcr.NewMissedProofOutputs
    UnlockHash := fcr.NewUnlockHash
    RevisionNumber := fcr.NewRevisionNumber }

/-- The second half of the body of the loop of `applyFileContractRevisions`: the
revised contract is added. -/
def applyFileContractRevisionsAdd (fcr : FileContractRevision) (fc : FileContract)
    (tx : ConsensusDB) (pb : processedBlock) : Outcome :=
  let newFC := revisedFileContract fcr fc
  let fcd : FileContractDiff :=
    { Direction := .DiffApply, ID := fcr.ParentID, FileContract := newFC }
  let pb1 := { pb with FileContractDiffs := pb.FileContractDiffs ++ [fcd] }
  Outcome.ofUpdate (commitFileContractDiff tx fcd .DiffApply) tx pb1

/-- The body of the loop of `applyFileContractRevisions`. -/
def applyFileContractRevisionsBody (env : Env) (fcr : FileContractRevision)
    (tx : ConsensusDB) (pb : processedBlock) : Outcome :=
  let r := getFileContract tx fcr.ParentID
  if env.DEBUG && r.2.isSome then .fatal (r.2.getD .errNilItem) tx pb
  else
    let fcd : FileContractDiff :=
      { Direction := .DiffRevert, ID := fcr.ParentID, FileContract := r.1 }
    let pb1 := { pb with FileContractDiffs := pb.FileContractDiffs ++ [fcd] }
    (Outcome.ofUpdate (commitFileContractDiff tx fcd .DiffApply) tx pb1).andThen
      (applyFileContractRevisionsAdd fcr r.1)

/-- The function `applyFileContractRevisions`. -/
def applyFileContractRevisions (env : Env) (tx : ConsensusDB) (pb : processedBlock)
    (t : Transaction) : Outcome :=
  forRange (applyFileContractRevisionsBody env) t.FileContractRevisions tx pb

/-- The body of the inner loop of `applyStorageProofs`, over the valid proof
outputs of the contract. -/
def applyStorageProofsOutput (env : Env) (sp : StorageProof) (i : Nat)
    (vpo : TurtleDexcoinOutput) (tx : ConsensusDB) (pb : processedBlock) : Outcome :=
  let spoid := env.StorageProofOutputID sp.ParentID ProofValid i
  let dscod : DelayedTurtleDexcoinOutputDiff :=
    { Direction := .DiffApply, ID := spoid, TurtleDexcoinOutput := vpo,
      MaturityHeight := pb.Height + env.MaturityDelay }
  let pb1 := { pb with
    DelayedTurtleDexcoinOutputDiffs := pb.DelayedTurtleDexcoinOutputDiffs ++ [dscod] }
  Outcome.ofUpdate (commitDelayedTurtleDexcoinOutputDiff tx dscod .DiffApply) tx pb1

/-- The end of the body of the loop of `applyStorageProofs`: the proven contract
is removed. -/
def applyStorageProofsRemove (sp : StorageProof) (fc : FileContract) (tx : ConsensusDB)
    (pb : processedBlock) : Outcome :=
  let fcd : FileContractDiff :=
    { Direction := .DiffRevert, ID := sp.ParentID, FileContract := fc }
  let pb1 := { pb with FileContractDiffs := pb.FileContractDiffs ++ [fcd] }
  Outcome.ofUpdate (commitFileContractDiff tx fcd .DiffApply) tx pb1

/-- The body of the loop of `applyStorageProofs`. -/
def applyStorageProofsBody (env : Env) (sp : StorageProof) (tx : ConsensusDB)
    (pb : processedBlock) : Outcome :=
  let r := getFileContract tx sp.ParentID
  if env.DEBUG && r.2.isSome then .fatal (r.2.getD .errNilItem) tx pb
  else
    (forRangeFrom (applyStorageProofsOutput env sp) 0 r.1.ValidProofOutputs tx pb).andThen
      (applyStorageProofsRemove sp r.1)

/-- The function `applyStorageProofs`. -/
def applyStorageProofs (env : Env) (tx : ConsensusDB) (pb : processedBlock)
    (t : Transaction) : Outcome :=
  forRange (applyStorageProofsBody env) t.StorageProofs tx pb

/-- The claim of a fund output: `claimPortion` in `applyTurtleDexfundInputs`. -/
def claimPortion (env : Env) (tx : ConsensusDB) (sfo : TurtleDexfundOutput) : Currency :=
  Currency.Mul
    (Currency.Div (Currency.Sub (getTurtleDexfundPool tx) sfo.ClaimStart) env.TurtleDexfundCount)
    sfo.Value

/-- The end of the body of the loop of `applyTurtleDexfundInputs`: the fund
output is removed. -/
def applyTurtleDexfundInputsRemove (sfi : TurtleDexfundInput) (sfo : TurtleDexfundOutput)
    (tx : ConsensusDB) (pb : processedBlock) : Outcome :=
  let sfod : TurtleDexfundOutputDiff :=
    { Direction := .DiffRevert, ID := sfi.ParentID, TurtleDexfundOutput := sfo }
  let pb1 := { pb with TurtleDexfundOutputDiffs := pb.TurtleDexfundOutputDiffs ++ [sfod] }
  Outcome.ofUpdate (commitTurtleDexfundOutputDiff tx sfod .DiffApply) tx pb1

/-- The body of the loop of `applyTurtleDexfundInputs`. -/
def applyTurtleDexfundInputsBody (env : Env) (sfi : TurtleDexfundInput) (tx : ConsensusDB)
    (pb : processedBlock) : Outcome :=
  let r := getTurtleDexfundOutput tx sfi.ParentID
  if env.DEBUG && r.2.isSome then .fatal (r.2.getD .errNilItem) tx pb
  else
    let sco : TurtleDexcoinOutput :=
      { Value := claimPortion env tx r.1, UnlockHash := sfi.ClaimUnlockHash }
    let sfoid := TurtleDexClaimOutputID env sfi.ParentID
    let dscod : DelayedTurtleDexcoinOutputDiff :=
      { Direction := .DiffApply, ID := sfoid, TurtleDexcoinOutput := sco,
        MaturityHeight := pb.Height + env.MaturityDelay }
    let pb1 := { pb with
      DelayedTurtleDexcoinOutputDiffs := pb.DelayedTurtleDexcoinOutputDiffs ++ [dscod] }
    (Outcome.ofUpdate (commitDelayedTurtleDexcoinOutputDiff tx dscod .DiffApply) tx pb1).andThen
      (applyTurtleDexfundInputsRemove sfi r.1)

/-- The function `applyTurtleDexfundInputs`. -/
def applyTurtleDexfundInputs (env : Env) (tx : ConsensusDB) (pb : processedBlock)
    (t : Transaction) : Outcome :=
  forRange (applyTurtleDexfundInputsBody env) t.TurtleDexfundInputs tx pb

/-- The body of the loop of `applyTurtleDexfundOutputs`; the assignment to
`ClaimStart` changes the loop variable, a copy of the output. -/
def applyTurtleDexfundOutputsBody (env : Env) (t : Transaction) (i : Nat)
    (sfo : TurtleDexfundOutput) (tx : ConsensusDB) (pb : processedBlock) : Outcome :=
  let sfoid := t.TurtleDexfundOutputID env i
  let sfo1 := { sfo with ClaimStart := getTurtleDexfundPool tx }
  let sfod : TurtleDexfundOutputDiff :=
    { Direction := .DiffApply, ID := sfoid, TurtleDexfundOutput := sfo1 }
  let pb1 := { pb with TurtleDexfundOutputDiffs := pb.TurtleDexfundOutputDiffs ++ [sfod] }
  Outcome.ofUpdate (commitTurtleDexfundOutputDiff tx sfod .DiffApply) tx pb1

/-- The function `applyTurtleDexfundOutputs`. -/
def applyTurtleDexfundOutputs (env : Env) (tx : ConsensusDB) (pb : processedBlock)
    (t : Transaction) : Outcome :=
  forRangeFrom (applyTurtleDexfundOutputsBody env t) 0 t.TurtleDexfundOutputs tx pb

/-- The loop of `transferFoundationOutputs`, `height` being the loop variable.
The first argument bounds the number of iterations; as the subsidy frequency is
positive, `currentHeight` iterations are never exceeded. -/
def transferFoundationOutputsLoop (env : Env) (currentHeight : types.BlockHeight)
    (newPrimary : UnlockHash) :
    Nat → types.BlockHeight → ConsensusDB → processedBlock → Outcome
  | 0, _, tx, pb => .ok tx pb
  | fuel + 1, height, tx, pb =>
    if height < currentHeight then
      match getPath tx height with
      | none =>
        if env.DEBUG then .fatal .errNilItem tx pb
        else transferFoundationOutputsLoop env currentHeight newPrimary fuel
          (height + env.FoundationSubsidyFrequency) tx pb
      | some blockID =>
        let id := env.FoundationSubsidyID blockID
        let r := getTurtleDexcoinOutput tx id
        if r.2.isSome then
          transferFoundationOutputsLoop env currentHeight newPrimary fuel
            (height + env.FoundationSubsidyFrequency) tx pb
        else
          let sco := { r.1 with UnlockHash := newPrimary }
          match (removeTurtleDexcoinOutput tx id).bind (fun tx1 => addTurtleDexcoinOutput tx1 id sco) with
          | .error e => .fatal e tx pb
          | .ok tx2 =>
            transferFoundationOutputsLoop env currentHeight newPrimary fuel
              (height + env.FoundationSubsidyFrequency) tx2 pb
    else .ok tx pb

/-- The function `transferFoundationOutputs`. -/
def transferFoundationOutputs (env : Env) (tx : ConsensusDB) (pb : processedBlock)
    (currentHeight : types.BlockHeight) (newPrimary : UnlockHash) : Outcome :=
  transferFoundationOutputsLoop env currentHeight newPrimary currentHeight
    env.FoundationHardforkHeight tx pb

/-- The body of the loop of `applyArbitraryData`. -/
def applyArbitraryDataBody (env : Env) (arb : Bytes) (tx : ConsensusDB) (pb : processedBlock) :
    Outcome :=
  if List.isPrefixOf SpecifierFoundation arb then
    let r := env.Unmarshal (arb.drop SpecifierLen)
    if env.DEBUG && r.2 then .fatal .errDecode tx pb
    else if (tx.PriorFoundationUnlockHashes pb.Height).isSome then .ok tx pb
    else
      let tx1 := setPriorFoundationUnlockHashes tx pb.Height
      let tx2 := setFoundationUnlockHashes tx1 r.1.NewPrimary r.1.NewFailsafe
      transferFoundationOutputs env tx2 pb pb.Height r.1.NewPrimary
  else .ok tx pb

/-- The function `applyArbitraryData`. -/
def applyArbitraryData (env : Env) (tx : ConsensusDB) (pb : processedBlock)
    (t : Transaction) : Outcome :=
  if pb.Height < env.FoundationHardforkHeight then .ok tx pb
  else forRange (applyArbitraryDataBody env) t.ArbitraryData tx pb

/-- The function `applyTransaction`. -/
def applyTransaction (env : Env) (tx : ConsensusDB) (pb : processedBlock)
    (t : Transaction) : Outcome :=
  (applyTurtleDexcoinInputs env tx pb t).andThen fun tx pb =>
  (applyTurtleDexcoinOutputs env tx pb t).andThen fun tx pb =>
  (applyFileContracts env tx pb t).andThen fun tx pb =>
  (applyFileContractRevisions env tx pb t).andThen fun tx pb =>
  (applyStorageProofs env tx pb t).andThen fun tx pb =>
  (applyTurtleDexfundInputs env tx pb t).andThen fun tx pb =>
  (applyTurtleDexfundOutputs env tx pb t).andThen fun tx pb =>
  applyArbitraryData env tx pb t

/-! ## Auxiliary definitions used to state the properties -/

/-- Running functions of the shape of the `apply*` functions one after the
other on the same `tx`, `pb` and transaction. -/
def runInOrder (env : Env) (t : Transaction) :
    List (Env → ConsensusDB → processedBlock → Transaction → Outcome) →
      ConsensusDB → processedBlock → Outcome
  | [], tx, pb => .ok tx pb
  | f :: fs, tx, pb => (f env tx pb t).andThen (runInOrder env t fs)

/-- A bucket without the keys of a list. -/
def withoutKeys {V : Type} (m : Hash → Option V) (ks : List Hash) : Hash → Option V :=
  fun k => if k ∈ ks then none else m k

/-- A bucket overwritten by the entries of a list, later entries winning. -/
def withEntries {V : Type} (m : Hash → Option V) : List (Hash × V) → Hash → Option V
  | [] => m
  | (k, v) :: rest => withEntries (Function.update m k (some v)) rest

/-- A database without any entry: height zero, empty pool, and the zero hashes
as Foundation unlock hashes. -/
def ConsensusDB.empty : ConsensusDB :=
  { TurtleDexcoinOutputs := fun _ => none
    FileContracts := fun _ => none
    TurtleDexfundOutputs := fun _ => none
    DelayedTurtleDexcoinOutputs := fun _ => none
    TurtleDexfundPool := 0
    BlockHeight := 0
    BlockPath := fun _ => none
    FoundationUnlockHashes := (Hash.zero, Hash.zero)
    PriorFoundationUnlockHashes := fun _ => none }

/-- A processed block at a height, without diffs. -/
def processedBlock.new (height : types.BlockHeight) : processedBlock :=
  { Height := height
    TurtleDexcoinOutputDiffs := []
    FileContractDiffs := []
    TurtleDexfundOutputDiffs := []
    DelayedTurtleDexcoinOutputDiffs := []
    TurtleDexfundPoolDiffs := [] }

/-- A decoder for the sample environment: two hashes of 32 bytes each are read
in turn into a zeroed update, and an error is reported when the input ends
early. -/
def sampleUnmarshal (b : Bytes) : FoundationUnlockHashUpdate × Bool :=
  let p := b.take 32
  let f := (b.drop 32).take 32
  ({ NewPrimary := p ++ List.replicate (32 - p.length) 0
     NewFailsafe := f ++ List.replicate (32 - f.length) 0 }, decide (b.length < 64))

/-- A sample environment, with the constants of a small test network, the
identity as a collision free stand-in for the hash function and a tax of 3.9%
rounded down to a multiple of the fund count. -/
def sampleEnv (debug : Bool) : Env :=
  { DEBUG := debug
    HashBytes := fun b => b
    Tax := fun _ payout => payout * 39 / 1000 / 10000 * 10000
    StorageProofOutputID := fun fcid status i =>
      SpecifierStorageProofOutput ++ fcid ++ WriteBool status ++ WriteUint64 i
    FoundationSubsidyID := fun bid => bid ++ SpecifierFoundation
    MaturityDelay := 3
    FoundationHardforkHeight := 50
    FoundationSubsidyFrequency := 5
    TurtleDexfundCount := 10000
    Unmarshal := sampleUnmarshal
    FoundationSubsidyFrequency_pos := by decide
    TurtleDexfundCount_pos := by decide }

/-- The coin output diff that consuming an input appends: the output stored
under the parent identifier, to be reverted. -/
def coinInputDiff (tx : ConsensusDB) (sci : TurtleDexcoinInput) : TurtleDexcoinOutputDiff :=
  { Direction := .DiffRevert, ID := sci.ParentID,
    TurtleDexcoinOutput := (getTurtleDexcoinOutput tx sci.ParentID).1 }

/-- Committing a list of coin output diffs in order, all in one direction. -/
def commitTurtleDexcoinOutputDiffs (dir : DiffDirection) :
    List TurtleDexcoinOutputDiff → ConsensusDB → Except Fatal ConsensusDB
  | [], tx => .ok tx
  | d :: ds, tx =>
    match commitTurtleDexcoinOutputDiff tx d dir with
    | .ok tx1 => commitTurtleDexcoinOutputDiffs dir ds tx1
    | .error e => .error e

/-- Sample data: two coin outputs and the identifiers they are stored under. -/
def sampleID1 : Hash := List.replicate 32 1

def sampleID2 : Hash := List.replicate 32 2

def sampleOutput1 : TurtleDexcoinOutput := { Value := 7, UnlockHash := List.replicate 32 9 }

def sampleOutput2 : TurtleDexcoinOutput := { Value := 11, UnlockHash := List.replicate 32 8 }

/-- Sample data: a database that holds the two sample coin outputs. -/
def sampleDB : ConsensusDB :=
  { ConsensusDB.empty with
    TurtleDexcoinOutputs :=
      withEntries (fun _ => none) [(sampleID1, sampleOutput1), (sampleID2, sampleOutput2)] }

/-- Sample data: a coin input spending the output stored under an identifier. -/
def sampleInput (id : Hash) : TurtleDexcoinInput :=
  { ParentID := id, UnlockConditions := { Timelock := 0, PublicKeys := [], SignaturesRequired := 0 } }

/-- Sample data: a transaction that spends both sample coin outputs. -/
def sampleSpendBoth : Transaction :=
  { Transaction.zero with TurtleDexcoinInputs := [sampleInput sampleID1, sampleInput sampleID2] }

/-- Sample data: a transaction that names the first sample coin output in two
inputs. -/
def sampleSpendTwice : Transaction :=
  { Transaction.zero with TurtleDexcoinInputs := [sampleInput sampleID1, sampleInput sampleID1] }

/-- The entries `(id i, x_i)`, `(id (i+1), x_(i+1))`, ... that a loop
`for i, x := range xs` creates under the identifiers given by `id`, the first
index being `i`. -/
def entriesFrom {V : Type} (id : Nat → Hash) : Nat → List V → List (Hash × V)
  | _, [] => []
  | i, x :: rest => (id i, x) :: entriesFrom id (i + 1) rest

/-- The coin output diff that creating an output appends. -/
def coinOutputDiff (e : Hash × TurtleDexcoinOutput) : TurtleDexcoinOutputDiff :=
  { Direction := .DiffApply, ID := e.1, TurtleDexcoinOutput := e.2 }

/-- The coin outputs of a transaction with the identifiers they are created
under: `(t.TurtleDexcoinOutputID(i), t.TurtleDexcoinOutputs[i])` in index order. -/
def coinOutputEntries (env : Env) (t : Transaction) : List (Hash × TurtleDexcoinOutput) :=
  entriesFrom (t.TurtleDexcoinOutputID env) 0 t.TurtleDexcoinOutputs

/-- Sample data: a transaction that creates the two sample coin outputs. -/
def sampleCreateBoth : Transaction :=
  { Transaction.zero with TurtleDexcoinOutputs := [sampleOutput1, sampleOutput2] }

/-- Sample data: a database in which the identifier of the first coin output of
`sampleCreateBoth` already holds the second sample output. -/
def sampleTakenDB : ConsensusDB :=
  { ConsensusDB.empty with
    TurtleDexcoinOutputs := Function.update (fun _ => none)
      (sampleCreateBoth.TurtleDexcoinOutputID (sampleEnv true) 0) (some sampleOutput2) }

/-- The file contract diff that creating a contract appends. -/
def fileContractDiff (e : Hash × FileContract) : FileContractDiff :=
  { Direction := .DiffApply, ID := e.1, FileContract := e.2 }

/-- The file contracts of a transaction with the identifiers they are created
under: `(t.FileContractID(i), t.FileContracts[i])` in index order. -/
def fileContractEntries (env : Env) (t : Transaction) : List (Hash × FileContract) :=
  entriesFrom (t.FileContractID env) 0 t.FileContracts

/-- The sum of the taxes `Tax(h, fc.Payout)` of a list of contracts. -/
def taxSum (env : Env) (h : types.BlockHeight) (l : List FileContract) : Currency :=
  (l.map (fun fc => env.Tax h fc.Payout)).sum

/-- The fund pool diffs of a list of contracts created at height `h` while the
pool is `pool`: each diff starts from the pool the previous one left and adds
the tax on the payout of its contract. -/
def poolDiffsFrom (env : Env) (h : types.BlockHeight) :
    Currency → List FileContract → List TurtleDexfundPoolDiff
  | _, [] => []
  | pool, fc :: rest =>
    { Direction := .DiffApply, Previous := pool,
      Adjusted := Currency.Add pool (env.Tax h fc.Payout) }
      :: poolDiffsFrom env h (Currency.Add pool (env.Tax h fc.Payout)) rest

/-- Sample data: a transaction creating two contracts, with payouts 1 and
300,000. -/
def sampleContracts : Transaction :=
  { Transaction.zero with
    FileContracts := [{ FileContract.zero with Payout := 1 },
                      { FileContract.zero with Payout := 300000 }] }

/-- Sample data: a database at height 7 with a fund pool of 500. -/
def samplePoolDB : ConsensusDB :=
  { ConsensusDB.empty with TurtleDexfundPool := 500, BlockHeight := 7 }

/-- Sample data: `samplePoolDB` in which the identifier of the first contract of
`sampleContracts` is already taken. -/
def sampleTakenContractDB : ConsensusDB :=
  { samplePoolDB with
    FileContracts := Function.update (fun _ => none)
      (sampleContracts.FileContractID (sampleEnv true) 0) (some FileContract.zero) }

/-- Sample data: a contract with payout 5 and revision number 1. -/
def sampleContract : FileContract :=
  { FileContract.zero with Payout := 5, RevisionNumber := 1 }

/-- Sample data: a database holding `sampleContract` under `sampleID1`, with an
empty bucket of delayed outputs for height 10. -/
def sampleContractDB : ConsensusDB :=
  { ConsensusDB.empty with
    FileContracts := Function.update (fun _ => none) sampleID1 (some sampleContract)
    DelayedTurtleDexcoinOutputs := Function.update (fun _ => none) 10 (some (fun _ => none)) }

/-- Sample data: a revision of the contract stored under an identifier. -/
def sampleRevision (id : Hash) (size rev : Nat) : FileContractRevision :=
  { ParentID := id
    UnlockConditions := { Timelock := 0, PublicKeys := [], SignaturesRequired := 0 }
    NewRevisionNumber := rev
    NewFileSize := size
    NewFileMerkleRoot := Hash.zero
    NewWindowStart := 0
    NewWindowEnd := 0
    NewValidProofOutputs := [sampleOutput1]
    NewMissedProofOutputs := []
    NewUnlockHash := Hash.zero }

/-- Sample data: a transaction revising the sample contract twice. -/
def sampleRevisions : Transaction :=
  { Transaction.zero with
    FileContractRevisions := [sampleRevision sampleID1 1 2, sampleRevision sampleID1 2 3] }

/-- Sample data: the sample contract after the first sample revision. -/
def sampleRevised1 : FileContract :=
  revisedFileContract (sampleRevision sampleID1 1 2) sampleContract

/-- Sample data: the sample contract after both sample revisions. -/
def sampleRevised2 : FileContract :=
  revisedFileContract (sampleRevision sampleID1 2 3) sampleRevised1

/-- Sample data: the database after the first sample revision. -/
def sampleContractDB1 : ConsensusDB :=
  { sampleContractDB with
    FileContracts := Function.update sampleContractDB.FileContracts sampleID1 (some sampleRevised1) }

/-- Sample data: the processed block after the first sample revision. -/
def samplePB1 : processedBlock :=
  { processedBlock.new 7 with
    FileContractDiffs :=
      [{ Direction := .DiffRevert, ID := sampleID1, FileContract := sampleContract },
       { Direction := .DiffApply, ID := sampleID1, FileContract := sampleRevised1 }] }

/-- The delayed output diff that a payout maturing at height `h` appends. -/
def delayedOutputDiff (h : types.BlockHeight) (e : Hash × TurtleDexcoinOutput) :
    DelayedTurtleDexcoinOutputDiff :=
  { Direction := .DiffApply, ID := e.1, TurtleDexcoinOutput := e.2, MaturityHeight := h }

/-- The valid proof outputs of a contract with the identifiers a storage proof
creates them under: `(ParentID.StorageProofOutputID(ProofValid, i),
fc.ValidProofOutputs[i])` in index order. -/
def storageProofEntries (env : Env) (sp : StorageProof) (fc : FileContract) :
    List (Hash × TurtleDexcoinOutput) :=
  entriesFrom (env.StorageProofOutputID sp.ParentID ProofValid) 0 fc.ValidProofOutputs

/-- The delayed outputs after the entries of a list were put into the bucket
of height `h`. -/
def putDelayed (m : types.BlockHeight → Option (Hash → Option TurtleDexcoinOutput))
    (h : types.BlockHeight) (es : List (Hash × TurtleDexcoinOutput)) :
    types.BlockHeight → Option (Hash → Option TurtleDexcoinOutput) :=
  match m h with
  | some bucket => Function.update m h (some (withEntries bucket es))
  | none => m

/-- Sample data: a contract with two valid proof outputs. -/
def sampleProvenContract : FileContract :=
  { FileContract.zero with Payout := 20, ValidProofOutputs := [sampleOutput1, sampleOutput2] }

/-- Sample data: a database holding `sampleProvenContract` under `sampleID2`,
with an empty bucket of delayed outputs for height 10. -/
def sampleProofDB : ConsensusDB :=
  { ConsensusDB.empty with
    FileContracts := Function.update (fun _ => none) sampleID2 (some sampleProvenContract)
    DelayedTurtleDexcoinOutputs := Function.update (fun _ => none) 10 (some (fun _ => none)) }

/-- Sample data: `sampleProofDB` without any bucket of delayed outputs. -/
def sampleNoBucketDB : ConsensusDB :=
  { ConsensusDB.empty with
    FileContracts := Function.update (fun _ => none) sampleID2 (some sampleProvenContract) }

/-- Sample data: a storage proof for the contract stored under an identifier. -/
def sampleProof (id : Hash) : StorageProof :=
  { ParentID := id, Segment := List.replicate 64 0, HashSet := [] }

/-- Sample data: a transaction proving the contract stored under `sampleID2`. -/
def sampleProofs : Transaction :=
  { Transaction.zero with StorageProofs := [sampleProof sampleID2] }

/-- Sample data: a fund output of 40 funds whose claim started at a pool of
20,500. -/
def sampleFundOutput : TurtleDexfundOutput :=
  { Value := 40, UnlockHash := List.replicate 32 5, ClaimStart := 20500 }

/-- Sample data: a database with a fund pool of 60,500 that holds
`sampleFundOutput` under `sampleID1`, with an empty bucket of delayed outputs
for height 10. -/
def sampleFundDB : ConsensusDB :=
  { ConsensusDB.empty with
    TurtleDexfundOutputs := Function.update (fun _ => none) sampleID1 (some sampleFundOutput)
    TurtleDexfundPool := 60500
    DelayedTurtleDexcoinOutputs := Function.update (fun _ => none) 10 (some (fun _ => none)) }

/-- Sample data: `sampleFundDB` without any bucket of delayed outputs. -/
def sampleFundNoBucketDB : ConsensusDB :=
  { ConsensusDB.empty with
    TurtleDexfundOutputs := Function.update (fun _ => none) sampleID1 (some sampleFundOutput)
    TurtleDexfundPool := 60500 }

/-- Sample data: a fund input spending the output stored under an identifier. -/
def sampleFundInput (id : Hash) : TurtleDexfundInput :=
  { ParentID := id
    UnlockConditions := { Timelock := 0, PublicKeys := [], SignaturesRequired := 0 }
    ClaimUnlockHash := List.replicate 32 6 }

/-- Sample data: a transaction spending the sample fund output. -/
def sampleFundSpend : Transaction :=
  { Transaction.zero with TurtleDexfundInputs := [sampleFundInput sampleID1] }

/-- The fund output diff that creating a fund output appends. -/
def fundOutputDiff (e : Hash × TurtleDexfundOutput) : TurtleDexfundOutputDiff :=
  { Direction := .DiffApply, ID := e.1, TurtleDexfundOutput := e.2 }

/-- A fund output with its claim start replaced by the fund pool. -/
def stampClaimStart (pool : Currency) (sfo : TurtleDexfundOutput) : TurtleDexfundOutput :=
  { sfo with ClaimStart := pool }

/-- The fund outputs of a transaction, stamped with the fund pool, with the
identifiers they are created under: `t.TurtleDexfundOutputID(i)`, computed from
the transaction as given, in index order. -/
def fundOutputEntries (env : Env) (pool : Currency) (t : Transaction) :
    List (Hash × TurtleDexfundOutput) :=
  entriesFrom (t.TurtleDexfundOutputID env) 0 (t.TurtleDexfundOutputs.map (stampClaimStart pool))

/-- Sample data: a transaction creating two fund outputs, the second carrying a
claim start of its own. -/
def sampleFundCreate : Transaction :=
  { Transaction.zero with
    TurtleDexfundOutputs := [{ Value := 1, UnlockHash := Hash.zero, ClaimStart := 0 },
                             { Value := 2, UnlockHash := Hash.zero, ClaimStart := 77 }] }

/-- Sample data: a database with a fund pool of 101. -/
def samplePool101DB : ConsensusDB :=
  { ConsensusDB.empty with TurtleDexfundPool := 101 }

/-- Sample data: `samplePool101DB` in which the identifier of the first fund
output of `sampleFundCreate` is already taken. -/
def sampleTakenFundDB : ConsensusDB :=
  { samplePool101DB with
    TurtleDexfundOutputs := Function.update (fun _ => none)
      (sampleFundCreate.TurtleDexfundOutputID (sampleEnv true) 0) (some sampleFundOutput) }

/-- Sample data: transactions whose only coin input, revision, storage proof or
fund input names `sampleID1`. -/
def sampleMissingInput : Transaction :=
  { Transaction.zero with TurtleDexcoinInputs := [sampleInput sampleID1] }

def sampleMissingRevision : Transaction :=
  { Transaction.zero with FileContractRevisions := [sampleRevision sampleID1 1 2] }

def sampleMissingProof : Transaction :=
  { Transaction.zero with StorageProofs := [sampleProof sampleID1] }

def sampleMissingFundInput : Transaction :=
  { Transaction.zero with TurtleDexfundInputs := [sampleFundInput sampleID1] }

/-- Sample data: a transaction without a Foundation update: one entry shorter
than a specifier, and one update behind the specifier `foo`. -/
def sampleInertData : Transaction :=
  { Transaction.zero with
    ArbitraryData := [[102, 111, 117], NewSpecifier "foo" ++ List.replicate 64 0] }

/-- Sample data: a transaction with a Foundation update. -/
def sampleUpdateData : Transaction :=
  { Transaction.zero with
    ArbitraryData := [SpecifierFoundation ++ List.replicate 32 1 ++ List.replicate 32 4] }

/-- Sample data: the sample contract creation with one signature added. -/
def sampleSigned : Transaction :=
  { sampleContracts with
    TransactionSignatures :=
      [{ ParentID := sampleID1, PublicKeyIndex := 0, Timelock := 0,
         CoveredFields :=
           { WholeTransaction := true, TurtleDexcoinInputs := [], TurtleDexcoinOutputs := [],
             FileContracts := [], FileContractRevisions := [], StorageProofs := [],
             TurtleDexfundInputs := [], TurtleDexfundOutputs := [], MinerFees := [],
             ArbitraryData := [], TransactionSignatures := [] },
         Signature := [1, 2, 3] }] }

/-- Sample data: a transaction revising the sample contract, whose revision
number is 1, with a revision that carries the revision number 0. -/
def sampleStaleRevision : Transaction :=
  { Transaction.zero with FileContractRevisions := [sampleRevision sampleID1 9 0] }

/-- Two databases that agree on everything but the coin outputs. -/
def ConsensusDB.sameButCoins (a b : ConsensusDB) : Prop :=
  a.FileContracts = b.FileContracts ∧ a.TurtleDexfundOutputs = b.TurtleDexfundOutputs
    ∧ a.DelayedTurtleDexcoinOutputs = b.DelayedTurtleDexcoinOutputs
    ∧ a.TurtleDexfundPool = b.TurtleDexfundPool ∧ a.BlockHeight = b.BlockHeight
    ∧ a.BlockPath = b.BlockPath ∧ a.FoundationUnlockHashes = b.FoundationUnlockHashes
    ∧ a.PriorFoundationUnlockHashes = b.PriorFoundationUnlockHashes

/-- A database in which the coin output under an identifier is replaced by a
copy with a new unlock hash. -/
def readdressed (tx : ConsensusDB) (id : TurtleDexcoinOutputID) (sco : TurtleDexcoinOutput)
    (np : UnlockHash) : ConsensusDB :=
  { tx with
    TurtleDexcoinOutputs :=
      Function.update tx.TurtleDexcoinOutputs id (some { sco with UnlockHash := np }) }

/-- The identifier `id` is the identifier of a subsidy output that the loop of
`transferFoundationOutputs` visits when it starts at height `h`: the subsidy
of the path block at a height `h + k * FoundationSubsidyFrequency` below
`cur`. -/
def visitsSubsidy (env : Env) (path : types.BlockHeight → Option BlockID)
    (cur h : Nat) (id : TurtleDexcoinOutputID) : Prop :=
  ∃ k b, h + k * env.FoundationSubsidyFrequency < cur
    ∧ path (h + k * env.FoundationSubsidyFrequency) = some b ∧ env.FoundationSubsidyID b = id

/-- A map from heights overwritten by the entries of a list. -/
def withEntriesAt {V : Type} (m : Nat → Option V) : List (Nat × V) → Nat → Option V
  | [] => m
  | (k, v) :: rest => withEntriesAt (Function.update m k (some v)) rest

/-- A coin output with a new unlock hash. -/
def withUnlockHash (np : UnlockHash) (sco : TurtleDexcoinOutput) : TurtleDexcoinOutput :=
  { sco with UnlockHash := np }

/-- Sample data: a path with blocks at the heights 50 and 55; the subsidy
output of the first block is unspent, that of the second is spent, and one
other coin output exists. -/
def sampleSubsidyDB : ConsensusDB :=
  { ConsensusDB.empty with
    BlockPath := withEntriesAt (fun _ => none) [(50, sampleID1), (55, sampleID2)]
    TurtleDexcoinOutputs :=
      withEntries (fun _ => none)
        [((sampleEnv true).FoundationSubsidyID sampleID1, sampleOutput1),
         (sampleID1, sampleOutput2)] }

/-- Running `applyArbitraryData` on the transactions of a block, one after the
other. -/
def applyArbitraryDataBlock (env : Env) (ts : List Transaction) (tx : ConsensusDB)
    (pb : processedBlock) : Outcome :=
  forRange (fun t tx pb => applyArbitraryData env tx pb t) ts tx pb

/-- Sample data: a transaction whose first Foundation entry has no payload and
whose second Foundation entry is a complete update. -/
def sampleTruncatedUpdate : Transaction :=
  { Transaction.zero with
    ArbitraryData :=
      [SpecifierFoundation,
       SpecifierFoundation ++ List.replicate 32 1 ++ List.replicate 32 4] }

/-- Sample data: a transaction with a second Foundation update. -/
def sampleSwapData : Transaction :=
  { Transaction.zero with
    ArbitraryData := [SpecifierFoundation ++ List.replicate 32 4 ++ List.replicate 32 1] }

/-- Sample data: the update that `sampleUpdateData` carries. -/
def sampleUpdate : FoundationUnlockHashUpdate :=
  { NewPrimary := List.replicate 32 1, NewFailsafe := List.replicate 32 4 }

/-- A diff of any of the five categories that a processed block keeps. -/
inductive Diff where
  | coin (d : TurtleDexcoinOutputDiff)
  | contract (d : FileContractDiff)
  | fund (d : TurtleDexfundOutputDiff)
  | delayed (d : DelayedTurtleDexcoinOutputDiff)
  | pool (d : TurtleDexfundPoolDiff)
deriving DecidableEq, Repr

/-- The category of a diff, numbered in the order of the fields of a processed
block. -/
def Diff.category : Diff → Nat
  | .coin _ => 0
  | .contract _ => 1
  | .fund _ => 2
  | .delayed _ => 3
  | .pool _ => 4

/-- Appending a diff to the list of its category: the statements
`pb.XDiffs = append(pb.XDiffs, d)` of applytransaction.go. -/
def processedBlock.record (pb : processedBlock) : Diff → processedBlock
  | .coin d => { pb with TurtleDexcoinOutputDiffs := pb.TurtleDexcoinOutputDiffs ++ [d] }
  | .contract d => { pb with FileContractDiffs := pb.FileContractDiffs ++ [d] }
  | .fund d => { pb with TurtleDexfundOutputDiffs := pb.TurtleDexfundOutputDiffs ++ [d] }
  | .delayed d =>
    { pb with DelayedTurtleDexcoinOutputDiffs := pb.DelayedTurtleDexcoinOutputDiffs ++ [d] }
  | .pool d => { pb with TurtleDexfundPoolDiffs := pb.TurtleDexfundPoolDiffs ++ [d] }

/-- Appending diffs one after the other. -/
def processedBlock.recordAll (pb : processedBlock) (ds : List Diff) : processedBlock :=
  ds.foldl processedBlock.record pb

/-- Committing a diff with the committer of its category. -/
def commitDiff (tx : ConsensusDB) : Diff → DiffDirection → Except Fatal ConsensusDB
  | .coin d, dir => commitTurtleDexcoinOutputDiff tx d dir
  | .contract d, dir => commitFileContractDiff tx d dir
  | .fund d, dir => commitTurtleDexfundOutputDiff tx d dir
  | .delayed d, dir => commitDelayedTurtleDexcoinOutputDiff tx d dir
  | .pool d, dir => commitTurtleDexfundPoolDiff tx d dir

/-- Committing diffs one after the other, all in one direction; the first
failure stops the run. -/
def commitDiffs (dir : DiffDirection) : List Diff → ConsensusDB → Except Fatal ConsensusDB
  | [], tx => .ok tx
  | d :: ds, tx => (commitDiff tx d dir).bind (commitDiffs dir ds)

/-- The diffs of a processed block in category order: coin outputs, file
contracts, fund outputs, delayed outputs, fund pool; every category in index
order. -/
def processedBlock.diffs (pb : processedBlock) : List Diff :=
  pb.TurtleDexcoinOutputDiffs.map Diff.coin ++ pb.FileContractDiffs.map Diff.contract
    ++ pb.TurtleDexfundOutputDiffs.map Diff.fund
    ++ pb.DelayedTurtleDexcoinOutputDiffs.map Diff.delayed
    ++ pb.TurtleDexfundPoolDiffs.map Diff.pool

/-- Modelled from the spec: `commitNodeDiffs` (diffs.go is not part of the
sources at hand) commits every diff of a processed block, in forward category
order for `DiffApply` and in exact reverse category and index order for
`DiffRevert`. -/
def commitNodeDiffs (tx : ConsensusDB) (pb : processedBlock) (dir : DiffDirection) :
    Except Fatal ConsensusDB :=
  if dir = .DiffApply then commitDiffs dir pb.diffs tx
  else commitDiffs dir pb.diffs.reverse tx

/-- The diffs that a processed block holds beyond those of an earlier version
of it. -/
def processedBlock.since (pb1 pb : processedBlock) : processedBlock :=
  { Height := pb1.Height
    TurtleDexcoinOutputDiffs := pb1.TurtleDexcoinOutputDiffs.drop pb.TurtleDexcoinOutputDiffs.length
    FileContractDiffs := pb1.FileContractDiffs.drop pb.FileContractDiffs.length
    TurtleDexfundOutputDiffs := pb1.TurtleDexfundOutputDiffs.drop pb.TurtleDexfundOutputDiffs.length
    DelayedTurtleDexcoinOutputDiffs :=
      pb1.DelayedTurtleDexcoinOutputDiffs.drop pb.DelayedTurtleDexcoinOutputDiffs.length
    TurtleDexfundPoolDiffs := pb1.TurtleDexfundPoolDiffs.drop pb.TurtleDexfundPoolDiffs.length }

/-- The pair of statements that every stage is made of: a diff is appended to
the processed block and committed to the database in the apply direction. -/
def emit (d : Diff) (tx : ConsensusDB) (pb : processedBlock) : Outcome :=
  Outcome.ofUpdate (commitDiff tx d .DiffApply) tx (pb.record d)

/-- Whether the committer accepts a diff in a direction. -/
def Diff.allowed (dir : DiffDirection) (tx : ConsensusDB) : Diff → Bool
  | .coin c =>
    if c.Direction = dir then (tx.TurtleDexcoinOutputs c.ID).isNone
    else (tx.TurtleDexcoinOutputs c.ID).isSome
  | .contract c =>
    if c.Direction = dir then (tx.FileContracts c.ID).isNone
    else (tx.FileContracts c.ID).isSome
  | .fund c =>
    if c.Direction = dir then (tx.TurtleDexfundOutputs c.ID).isNone
    else (tx.TurtleDexfundOutputs c.ID).isSome
  | .delayed c =>
    match tx.DelayedTurtleDexcoinOutputs c.MaturityHeight with
    | none => false
    | some bucket => if c.Direction = dir then (bucket c.ID).isNone else (bucket c.ID).isSome
  | .pool p =>
    decide (p.Previous ≤ p.Adjusted)
      && (if dir = .DiffApply then decide (tx.TurtleDexfundPool = p.Previous)
          else decide (tx.TurtleDexfundPool = p.Adjusted))

/-- The database that the committer leaves when it accepts a diff. -/
def Diff.effect (dir : DiffDirection) (tx : ConsensusDB) : Diff → ConsensusDB
  | .coin c =>
    { tx with
      TurtleDexcoinOutputs :=
        Function.update tx.TurtleDexcoinOutputs c.ID
          (if c.Direction = dir then some c.TurtleDexcoinOutput else none) }
  | .contract c =>
    { tx with
      FileContracts :=
        Function.update tx.FileContracts c.ID
          (if c.Direction = dir then some c.FileContract else none) }
  | .fund c =>
    { tx with
      TurtleDexfundOutputs :=
        Function.update tx.TurtleDexfundOutputs c.ID
          (if c.Direction = dir then some c.TurtleDexfundOutput else none) }
  | .delayed c =>
    { tx with
      DelayedTurtleDexcoinOutputs :=
        Function.update tx.DelayedTurtleDexcoinOutputs c.MaturityHeight
          ((tx.DelayedTurtleDexcoinOutputs c.MaturityHeight).map fun bucket =>
            Function.update bucket c.ID
              (if c.Direction = dir then some c.TurtleDexcoinOutput else none)) }
  | .pool p =>
    { tx with TurtleDexfundPool := if dir = .DiffApply then p.Adjusted else p.Previous }

/-- What holds of a diff at the moment a stage emits it: a diff that consumes
an object carries the object as it is read from the database, the delayed
outputs are only created, and a fund pool diff starts at the pool as it is
and does not lower it. -/
def Diff.sound (tx : ConsensusDB) : Diff → Prop
  | .coin c =>
    c.Direction = .DiffRevert → c.TurtleDexcoinOutput = (getTurtleDexcoinOutput tx c.ID).1
  | .contract c =>
    c.Direction = .DiffRevert → c.FileContract = (getFileContract tx c.ID).1
  | .fund c =>
    c.Direction = .DiffRevert → c.TurtleDexfundOutput = (getTurtleDexfundOutput tx c.ID).1
  | .delayed c => c.Direction = .DiffApply
  | .pool p => p.Previous = getTurtleDexfundPool tx ∧ p.Previous ≤ p.Adjusted

/-- A property of the outcome of a run: `P` of the state when the run came to
its end, `F` of the state a panic left. -/
def Outcome.satisfies (P F : ConsensusDB → processedBlock → Prop) : Outcome → Prop
  | .ok tx pb => P tx pb
  | .fatal _ tx pb => F tx pb

/-- The stages of `applyTransaction` that emit diffs, in order. -/
def diffStages : List (Env → ConsensusDB → processedBlock → Transaction → Outcome) :=
  [applyTurtleDexcoinInputs, applyTurtleDexcoinOutputs, applyFileContracts,
    applyFileContractRevisions, applyStorageProofs, applyTurtleDexfundInputs,
    applyTurtleDexfundOutputs]

/-- Running `applyTransaction` on the transactions of a block, one after the
other. -/
def applyTransactions (env : Env) (ts : List Transaction) (tx : ConsensusDB)
    (pb : processedBlock) : Outcome :=
  forRange (fun t tx pb => applyTransaction env tx pb t) ts tx pb

/-- Fund pool diffs that continue one another from the pool `p`: the first
starts at `p`, every other one where the one before it ends, and none lowers
the pool. -/
def poolChained : Currency → List TurtleDexfundPoolDiff → Prop
  | _, [] => True
  | p, d :: ds => d.Previous = p ∧ d.Previous ≤ d.Adjusted ∧ poolChained d.Adjusted ds

/-- The pool that a list of fund pool diffs ends at, `p` when there is none. -/
def poolAfter : Currency → List TurtleDexfundPoolDiff → Currency
  | p, [] => p
  | _, d :: ds => poolAfter d.Adjusted ds

/-- The fund pool diffs added to those of `pb` continue one another from the
pool of `tx`, and the pool is where they end. -/
def poolTracked (tx : ConsensusDB) (pb : processedBlock) (tx1 : ConsensusDB)
    (pb1 : processedBlock) : Prop :=
  ∃ added, pb1.TurtleDexfundPoolDiffs = pb.TurtleDexfundPoolDiffs ++ added
    ∧ poolChained tx.TurtleDexfundPool added
    ∧ tx1.TurtleDexfundPool = poolAfter tx.TurtleDexfundPool added

/-- The coin output diff in a diff of that category. -/
def Diff.asCoin : Diff → Option TurtleDexcoinOutputDiff
  | .coin d => some d
  | _ => none

/-- The file contract diff in a diff of that category. -/
def Diff.asContract : Diff → Option FileContractDiff
  | .contract d => some d
  | _ => none

/-- The fund output diff in a diff of that category. -/
def Diff.asFund : Diff → Option TurtleDexfundOutputDiff
  | .fund d => some d
  | _ => none

/-- The delayed output diff in a diff of that category. -/
def Diff.asDelayed : Diff → Option DelayedTurtleDexcoinOutputDiff
  | .delayed d => some d
  | _ => none

/-- The fund pool diff in a diff of that category. -/
def Diff.asPool : Diff → Option TurtleDexfundPoolDiff
  | .pool d => some d
  | _ => none

/-- No Foundation update can take effect in `applyArbitraryData`: the height is
below the hardfork, or the archive holds an entry for the height, or no entry
of the arbitrary data has the Foundation prefix. -/
def foundationInert (env : Env) (tx : ConsensusDB) (pb : processedBlock)
    (arbs : List Bytes) : Prop :=
  pb.Height < env.FoundationHardforkHeight
    ∨ (tx.PriorFoundationUnlockHashes pb.Height).isSome
    ∨ ∀ arb ∈ arbs, ¬ SpecifierFoundation <+: arb

/-- Sample data: a database at height 7 with the two sample coin outputs, the
sample contract and the sample fund output under `sampleID1`, a fund pool of
60,500 and an empty bucket of delayed outputs for height 10. -/
def sampleLedgerDB : ConsensusDB :=
  { sampleDB with
    FileContracts := Function.update (fun _ => none) sampleID1 (some sampleContract)
    TurtleDexfundOutputs := Function.update (fun _ => none) sampleID1 (some sampleFundOutput)
    DelayedTurtleDexcoinOutputs := Function.update (fun _ => none) 10 (some (fun _ => none))
    TurtleDexfundPool := 60500
    BlockHeight := 7 }

/-- Sample data: a transaction with one item of every kind: it spends a coin
output, creates one, creates a contract, revises the stored contract (the
revision has one valid proof output), proves it, spends the fund output, creates
one, and carries arbitrary data without the Foundation prefix. -/
def sampleMixed : Transaction :=
  { Transaction.zero with
    TurtleDexcoinInputs := [sampleInput sampleID1]
    TurtleDexcoinOutputs := [sampleOutput2]
    FileContracts := [{ FileContract.zero with Payout := 300000 }]
    FileContractRevisions := [sampleRevision sampleID1 1 2]
    StorageProofs := [sampleProof sampleID1]
    TurtleDexfundInputs := [sampleFundInput sampleID1]
    TurtleDexfundOutputs := [{ Value := 1, UnlockHash := Hash.zero, ClaimStart := 0 }]
    ArbitraryData := [[102, 111, 117]] }

/-- The state `tx1`, `pb1` is reached from `tx`, `pb` by emitting diffs: the
processed block received them, committing them in the apply direction leads
from `tx` to `tx1`, and committing them in the revert direction, last diff
first, leads back. -/
def traced (tx : ConsensusDB) (pb : processedBlock) (tx1 : ConsensusDB)
    (pb1 : processedBlock) : Prop :=
  ∃ ds : List Diff, pb1 = pb.recordAll ds ∧ commitDiffs .DiffApply ds tx = .ok tx1
    ∧ commitDiffs .DiffRevert ds.reverse tx1 = .ok tx

/-- The number of diffs of a category in a processed block. -/
def processedBlock.count (pb : processedBlock) : Nat → Nat
  | 0 => pb.TurtleDexcoinOutputDiffs.length
  | 1 => pb.FileContractDiffs.length
  | 2 => pb.TurtleDexfundOutputDiffs.length
  | 3 => pb.DelayedTurtleDexcoinOutputDiffs.length
  | 4 => pb.TurtleDexfundPoolDiffs.length
  | _ => 0

/-- One for the category of a diff, zero for the others. -/
def Diff.unit (d : Diff) (c : Nat) : Nat := if d.category = c then 1 else 0

/-- The contracts of `tx1` are contracts of `tx`: none was added or changed. -/
def contractsWithin (tx tx1 : ConsensusDB) : Prop :=
  ∀ id, tx1.FileContracts id = none ∨ tx1.FileContracts id = tx.FileContracts id

end consensus

/-! ## The Go standard library: strings, hexadecimal text, UTF-8 -/

/-- The function `strings.Split` for a separator `sep` of one byte: the pieces
of `s` between the occurrences of the separator (Go strings are byte
strings). -/
def strings.Split (s : Bytes) (sep : Nat) : List Bytes :=
  match s with
  | [] => [[]]
  | c :: rest =>
    if c = sep then [] :: strings.Split rest sep
    else
      match strings.Split rest sep with
      | [] => [[c]]
      | e :: es => (c :: e) :: es

/-- The function `strings.HasPrefix`. -/
def strings.HasPrefix (s pre : Bytes) : Bool := pre.isPrefixOf s

/-- The function `strings.TrimPrefix`: `s` without the leading `pre`, if it
starts with it. -/
def strings.TrimPrefix (s pre : Bytes) : Bytes :=
  if strings.HasPrefix s pre then s.drop pre.length else s

/-- The function `strings.HasSuffix`. -/
def strings.HasSuffix (s suf : Bytes) : Bool := suf.isSuffixOf s

/-- The function `strings.TrimSuffix`: `s` without the trailing `suf`, if it
ends with it. -/
def strings.TrimSuffix (s suf : Bytes) : Bytes :=
  if strings.HasSuffix s suf then s.take (s.length - suf.length) else s

/-- A continuation byte of UTF-8, within the bounds the first byte asks for. -/
def utf8.between (lo hi b : Nat) : Bool := decide (lo ≤ b) && decide (b ≤ hi)

/-- The function `utf8.ValidString`: whether the bytes are a sequence of
well-formed UTF-8 encodings (no overlong forms, no surrogates, nothing above
U+10FFFF). -/
def utf8.ValidString : Bytes → Bool
  | [] => true
  | b0 :: rest =>
    if b0 < 0x80 then utf8.ValidString rest
    else if utf8.between 0xC2 0xDF b0 then
      match rest with
      | b1 :: rest1 => utf8.between 0x80 0xBF b1 && utf8.ValidString rest1
      | _ => false
    else if utf8.between 0xE0 0xEF b0 then
      match rest with
      | b1 :: b2 :: rest2 =>
        utf8.between (if b0 = 0xE0 then 0xA0 else 0x80) (if b0 = 0xED then 0x9F else 0xBF) b1
          && utf8.between 0x80 0xBF b2 && utf8.ValidString rest2
      | _ => false
    else if utf8.between 0xF0 0xF4 b0 then
      match rest with
      | b1 :: b2 :: b3 :: rest3 =>
        utf8.between (if b0 = 0xF0 then 0x90 else 0x80) (if b0 = 0xF4 then 0x8F else 0xBF) b1
          && utf8.between 0x80 0xBF b2 && utf8.between 0x80 0xBF b3 && utf8.ValidString rest3
      | _ => false
    else false

/-- The function `filepath.ToSlash` on a system whose separator is the byte
`separator`: every separator becomes a slash; nothing changes when the
separator is the slash. -/
def filepath.ToSlash (separator : Nat) (s : Bytes) : Bytes :=
  if separator = 47 then s else s.map (fun c => if c = separator then 47 else c)

/-- The table `hextable` of package `encoding/hex`: the characters
`0123456789abcdef`. -/
def hex.hextable : Bytes := [48, 49, 50, 51, 52, 53, 54, 55, 56, 57, 97, 98, 99, 100, 101, 102]

/-- The function `hex.EncodeToString`, which is also the verb `%x` of
`fmt.Sprintf` on a byte slice: for every byte `v` the characters
`hextable[v>>4]` and `hextable[v&0x0f]`. -/
def hex.EncodeToString (src : Bytes) : Bytes :=
  src.flatMap (fun v => [hex.hextable.getD (v / 16) 0, hex.hextable.getD (v % 16) 0])

/-- The function `hex.Encode(dst, src)`: the content of `dst` afterwards, or
`none` when `dst` is too short for the hexadecimal text, which makes the
function panic with an index out of range. -/
def hex.Encode (dst src : Bytes) : Option Bytes :=
  if dst.length < 2 * src.length then none
  else some (hex.EncodeToString src ++ dst.drop (2 * src.length))

/-- The value of a hexadecimal digit, of either case: `fromHexChar` of package
`encoding/hex` and `hexDigit` of package `fmt`. -/
def hex.fromHexChar (c : Nat) : Option Nat :=
  if 48 ≤ c ∧ c ≤ 57 then some (c - 48)
  else if 97 ≤ c ∧ c ≤ 102 then some (c - 97 + 10)
  else if 65 ≤ c ∧ c ≤ 70 then some (c - 65 + 10)
  else none

/-- The errors of `hex.Decode`, and those of scanning with the verb `%x`. -/
inductive hex.Error where
  | InvalidByteError (c : Nat)
  | ErrLength
  | unexpectedNewline
  | ErrUnexpectedEOF
  | illegalHexDigit
  | noHexData
deriving DecidableEq, Repr

/-- The function `hex.DecodeString`: the bytes of a hexadecimal text, or the
error met first. -/
def hex.DecodeString : Bytes → Except hex.Error Bytes
  | [] => .ok []
  | [p] =>
    match hex.fromHexChar p with
    | none => .error (.InvalidByteError p)
    | some _ => .error .ErrLength
  | p :: q :: rest =>
    match hex.fromHexChar p, hex.fromHexChar q with
    | none, _ => .error (.InvalidByteError p)
    | some _, none => .error (.InvalidByteError q)
    | some a, some b =>
      match hex.DecodeString rest with
      | .ok out => .ok ((a * 16 + b) :: out)
      | .error e => .error e

/-- The number of bytes of the space character, other than the newline, that
the text starts with, zero when it starts with none: the characters of `isSpace`
of package `fmt` in their UTF-8 encoding. -/
def fmt.spaceLen : Bytes → Nat
  | 9 :: _ => 1
  | 11 :: _ => 1
  | 12 :: _ => 1
  | 13 :: _ => 1
  | 32 :: _ => 1
  | 194 :: 133 :: _ => 2
  | 194 :: 160 :: _ => 2
  | 225 :: 154 :: 128 :: _ => 3
  | 226 :: 128 :: c :: _ =>
    if (128 ≤ c ∧ c ≤ 138) ∨ c = 168 ∨ c = 169 ∨ c = 175 then 3 else 0
  | 226 :: 129 :: 159 :: _ => 3
  | 227 :: 128 :: 128 :: _ => 3
  | _ => 0

/-- The method `ss.SkipSpace` when a newline is not a space, as in
`fmt.Sscanf`: the text without its leading spaces, a newline being an error. The
first argument bounds the number of steps. -/
def fmt.SkipSpace : Nat → Bytes → Except hex.Error Bytes
  | 0, s => .ok s
  | fuel + 1, s =>
    match s with
    | [] => .ok []
    | 10 :: _ => .error .unexpectedNewline
    | c :: rest =>
      if fmt.spaceLen (c :: rest) = 0 then .ok (c :: rest)
      else fmt.SkipSpace fuel ((c :: rest).drop (fmt.spaceLen (c :: rest)))

/-- The loop of `ss.hexString`: pairs of hexadecimal digits up to the first
character that is no such digit; a digit without a second one is an error. -/
def fmt.hexBytes : Bytes → Except hex.Error Bytes
  | [] => .ok []
  | [c] =>
    match hex.fromHexChar c with
    | none => .ok []
    | some _ => .error .ErrUnexpectedEOF
  | c :: c2 :: rest =>
    match hex.fromHexChar c with
    | none => .ok []
    | some a =>
      match hex.fromHexChar c2 with
      | none => .error .illegalHexDigit
      | some b =>
        match fmt.hexBytes rest with
        | .ok out => .ok ((a * 16 + b) :: out)
        | .error e => .error e

/-- The call `fmt.Sscanf(str, "%x", &b)` with `b` a byte slice: the bytes
scanned, or the error. The text after the hexadecimal digits is not looked at. -/
def fmt.SscanfHex (str : Bytes) : Except hex.Error Bytes :=
  match fmt.SkipSpace str.length str with
  | .error e => .error e
  | .ok [] => .error .ErrUnexpectedEOF
  | .ok s =>
    match fmt.hexBytes s with
    | .error e => .error e
    | .ok [] => .error .noHexData
    | .ok out => .ok out

/-- The function `bytes.TrimRight(s, "\x00")`: the text without the zero bytes
that it ends with. -/
def bytes.TrimRightZero (s : Bytes) : Bytes :=
  (s.reverse.dropWhile (fun c => c = 0)).reverse

/-- The builtin `copy(dst, src)`: the content of `dst` afterwards. -/
def copy (dst src : Bytes) : Bytes := src.take dst.length ++ dst.drop src.length

/-- The function `strings.Join`: the elements with `sep` between them. -/
def strings.Join : List Bytes → Bytes → Bytes
  | [], _ => []
  | [e], _ => e
  | e :: e2 :: rest, sep => e ++ sep ++ strings.Join (e2 :: rest) sep

/-! ## Package `types`: decoding, sizes and strings (`types/encoding.go`) -/

namespace types

/-- The byte strings that the identifiers of a transaction are hashes of: the
encoding without signatures, the three specifiers followed by that encoding and
an index below `2^64`, and every fund output identifier (of which the claim
output identifier is the hash). -/
def Transaction.hashed (env : Env) (t : Transaction) (b : Bytes) : Prop :=
  b = t.marshalTurtleDexNoSignatures
    ∨ (∃ i, i < 2 ^ 64
        ∧ b = SpecifierTurtleDexcoinOutput ++ t.marshalTurtleDexNoSignatures ++ WriteUint64 i)
    ∨ (∃ i, i < 2 ^ 64
        ∧ b = SpecifierFileContract ++ t.marshalTurtleDexNoSignatures ++ WriteUint64 i)
    ∨ (∃ i, i < 2 ^ 64
        ∧ b = SpecifierTurtleDexfundOutput ++ t.marshalTurtleDexNoSignatures ++ WriteUint64 i)
    ∨ (∃ i, i < 2 ^ 64 ∧ b = t.TurtleDexfundOutputID env i)

/-- The function `encoding.DecUint64`: the number that eight little-endian
bytes stand for. -/
def DecUint64 (b : Bytes) : Nat :=
  b.getD 0 0 + b.getD 1 0 * 256 + b.getD 2 0 * 256 ^ 2 + b.getD 3 0 * 256 ^ 3
    + b.getD 4 0 * 256 ^ 4 + b.getD 5 0 * 256 ^ 5 + b.getD 6 0 * 256 ^ 6
    + b.getD 7 0 * 256 ^ 7

/-- A number that stands for a byte string, different strings having different
numbers. -/
def packBytes : Bytes → Nat
  | [] => 0
  | x :: rest => Nat.pair x (packBytes rest) + 1

/-- A sample environment whose hash function has 32 components and no
collisions: the first component is the number of the byte string. -/
def sampleHashEnv : Env :=
  { consensus.sampleEnv true with
    HashBytes := fun b => packBytes b :: List.replicate 31 0 }

/-- The inner loop of `Currency.MarshalTurtleDexSize` on the word `w`, counting
down from `j = k - 1`, with the running `size`: the size reached, and whether
`break zeros` was taken. A size of zero is not decremented: it never happens in
the method, which starts with one unit of size for every byte it visits. -/
def Currency.sizeBytes (w : Nat) : Nat → Nat → Nat × Bool
  | 0, size => (size, false)
  | k + 1, size =>
    if w >>> (k * 8) ≠ 0 then (size, true) else Currency.sizeBytes w k (size - 1)

/-- The outer loop of `Currency.MarshalTurtleDexSize`, counting down from
`i = k - 1`. -/
def Currency.sizeWords (bits : List Nat) : Nat → Nat → Nat
  | 0, size => size
  | k + 1, size =>
    match Currency.sizeBytes (bits.getD k 0) 8 size with
    | (size1, true) => size1
    | (size1, false) => Currency.sizeWords bits k size1

/-- The method `Currency.MarshalTurtleDexSize`. -/
def Currency.MarshalTurtleDexSize (c : Currency) : Nat :=
  let bits := Currency.Bits c
  8 + Currency.sizeWords bits bits.length (bits.length * 8)

/-- The constant `crypto.HashSize`: the length of the array type `crypto.Hash`. -/
def HashSize : Nat := 32

/-- The method `CoveredFields.MarshalTurtleDex`. -/
def CoveredFields.MarshalTurtleDex (cf : CoveredFields) : Bytes :=
  let fields := [cf.TurtleDexcoinInputs, cf.TurtleDexcoinOutputs, cf.FileContracts,
    cf.FileContractRevisions, cf.StorageProofs, cf.TurtleDexfundInputs,
    cf.TurtleDexfundOutputs, cf.MinerFees, cf.ArbitraryData, cf.TransactionSignatures]
  WriteBool cf.WholeTransaction
    ++ (fields.map (fun f => WriteInt f.length ++ (f.map WriteUint64).flatten)).flatten

/-- The method `TransactionSignature.MarshalTurtleDex`. -/
def TransactionSignature.MarshalTurtleDex (ts : TransactionSignature) : Bytes :=
  ts.ParentID ++ WriteUint64 ts.PublicKeyIndex ++ WriteUint64 ts.Timelock
    ++ ts.CoveredFields.MarshalTurtleDex ++ WritePrefixedBytes ts.Signature

/-- The method `Transaction.MarshalTurtleDex`. -/
def Transaction.MarshalTurtleDex (t : Transaction) : Bytes :=
  t.marshalTurtleDexNoSignatures ++ WriteInt t.TransactionSignatures.length
    ++ (t.TransactionSignatures.map TransactionSignature.MarshalTurtleDex).flatten

/-- The method `CoveredFields.MarshalTurtleDexSize`. -/
def CoveredFields.MarshalTurtleDexSize (cf : CoveredFields) : Nat :=
  let size := 0
  let size := size + 1
  let size := size + (8 + cf.TurtleDexcoinInputs.length * 8)
  let size := size + (8 + cf.TurtleDexcoinOutputs.length * 8)
  let size := size + (8 + cf.FileContracts.length * 8)
  let size := size + (8 + cf.FileContractRevisions.length * 8)
  let size := size + (8 + cf.StorageProofs.length * 8)
  let size := size + (8 + cf.TurtleDexfundInputs.length * 8)
  let size := size + (8 + cf.TurtleDexfundOutputs.length * 8)
  let size := size + (8 + cf.MinerFees.length * 8)
  let size := size + (8 + cf.ArbitraryData.length * 8)
  let size := size + (8 + cf.TransactionSignatures.length * 8)
  size

/-- The method `UnlockConditions.MarshalTurtleDexSize`; `len` of an array is the
length that its type fixes, here the length of the value. -/
def UnlockConditions.MarshalTurtleDexSize (uc : UnlockConditions) : Nat :=
  let size := 0
  let size := size + 8
  let size := size + 8
  let size := uc.PublicKeys.foldl
    (fun size spk => size + spk.Algorithm.length + (8 + spk.Key.length)) size
  let size := size + 8
  size

/-- The loop over coin outputs that the size methods share: the size of the
value and the length of the unlock hash of every output. -/
def sizeOfOutputs (size : Nat) (outputs : List TurtleDexcoinOutput) : Nat :=
  outputs.foldl
    (fun size sco => size + Currency.MarshalTurtleDexSize sco.Value + sco.UnlockHash.length) size

/-- The method `FileContract.MarshalTurtleDexSize`. -/
def FileContract.MarshalTurtleDexSize (fc : FileContract) : Nat :=
  let size := 0
  let size := size + 8
  let size := size + fc.FileMerkleRoot.length
  let size := size + (8 + 8)
  let size := size + Currency.MarshalTurtleDexSize fc.Payout
  let size := size + 8
  let size := sizeOfOutputs size fc.ValidProofOutputs
  let size := size + 8
  let size := sizeOfOutputs size fc.MissedProofOutputs
  let size := size + fc.UnlockHash.length
  let size := size + 8
  size

/-- The method `FileContractRevision.MarshalTurtleDexSize`. -/
def FileContractRevision.MarshalTurtleDexSize (fcr : FileContractRevision) : Nat :=
  let size := 0
  let size := size + fcr.ParentID.length
  let size := size + fcr.UnlockConditions.MarshalTurtleDexSize
  let size := size + 8
  let size := size + 8
  let size := size + fcr.NewFileMerkleRoot.length
  let size := size + (8 + 8)
  let size := size + 8
  let size := sizeOfOutputs size fcr.NewValidProofOutputs
  let size := size + 8
  let size := sizeOfOutputs size fcr.NewMissedProofOutputs
  let size := size + fcr.NewUnlockHash.length
  size

/-- The method `Transaction.MarshalTurtleDexSize`. -/
def Transaction.MarshalTurtleDexSize (t : Transaction) : Nat :=
  let size := 0
  let size := size + 8
  let size := t.TurtleDexcoinInputs.foldl
    (fun size sci => size + sci.ParentID.length + sci.UnlockConditions.MarshalTurtleDexSize) size
  let size := size + 8
  let size := sizeOfOutputs size t.TurtleDexcoinOutputs
  let size := size + 8
  let size := t.FileContracts.foldl (fun size fc => size + fc.MarshalTurtleDexSize) size
  let size := size + 8
  let size := t.FileContractRevisions.foldl (fun size fcr => size + fcr.MarshalTurtleDexSize) size
  let size := size + 8
  let size := t.StorageProofs.foldl
    (fun size sp => size + sp.ParentID.length + sp.Segment.length
      + (8 + sp.HashSet.length * HashSize)) size
  let size := size + 8
  let size := t.TurtleDexfundInputs.foldl
    (fun size sfi => size + sfi.ParentID.length + sfi.ClaimUnlockHash.length
      + sfi.UnlockConditions.MarshalTurtleDexSize) size
  let size := size + 8
  let size := t.TurtleDexfundOutputs.foldl
    (fun size sfo => size + Currency.MarshalTurtleDexSize sfo.Value + sfo.UnlockHash.length
      + Currency.MarshalTurtleDexSize sfo.ClaimStart) size
  let size := size + 8
  let size := t.MinerFees.foldl (fun size fee => size + Currency.MarshalTurtleDexSize fee) size
  let size := size + 8
  let size := t.ArbitraryData.foldl (fun size data => size + (8 + data.length)) size
  let size := size + 8
  let size := t.TransactionSignatures.foldl
    (fun size ts => size + ts.ParentID.length + 8 + 8 + ts.CoveredFields.MarshalTurtleDexSize
      + (8 + ts.Signature.length)) size
  size

/-- The errors that a `Decoder` of package `encoding` keeps: those of
`io.ReadFull` and those of its own limits. -/
inductive DecodeError where
  | EOF
  | ErrUnexpectedEOF
  | ErrAllocLimitExceeded
  | ErrSliceTooLarge
deriving DecidableEq, Repr

/-- The type `encoding.Decoder`, of the package `github.com/turtledex/encoding`
that the repository imports: the input that is left in the underlying reader,
the number `n` of bytes read so far, the allocation limit `maxAlloc` and the
first error met, which every later operation keeps. -/
structure Decoder where
  r : Bytes
  n : Nat
  maxAlloc : Nat
  err : Option DecodeError
deriving DecidableEq, Repr

/-- The function `encoding.NewDecoder` on a reader that is not a decoder. On a
reader that is a `Decoder` it returns that decoder; this is why the methods
`UnmarshalTurtleDex` below take the decoder of their caller and go on with it. -/
def NewDecoder (r : Bytes) (maxAlloc : Nat) : Decoder :=
  { r := r, n := 0, maxAlloc := maxAlloc, err := none }

/-- The method `Decoder.ReadFull(p)`: nothing after an error; otherwise
`io.ReadFull` fills `p` from the input, a short input being an error, and the
bytes read count against the allocation limit. The result is the content of `p`
afterwards. -/
def Decoder.ReadFull (p : Bytes) : StateM Decoder Bytes := fun d =>
  if d.err ≠ none then (p, d)
  else if d.r.length < p.length then
    (d.r ++ p.drop d.r.length,
      { d with
        r := [], n := d.n + d.r.length,
        err := some (if d.r = [] then .EOF else .ErrUnexpectedEOF) })
  else
    (d.r.take p.length,
      { d with
        r := d.r.drop p.length, n := d.n + p.length,
        err := if d.n + p.length > d.maxAlloc then some .ErrAllocLimitExceeded else none })

/-- The method `Decoder.NextUint64`: eight bytes as a little-endian number, zero
after an error. -/
def Decoder.NextUint64 : StateM Decoder Nat := fun d =>
  let (buf, d) := Decoder.ReadFull (List.replicate 8 0) d
  if d.err ≠ none then (0, d) else (DecUint64 buf, d)

/-- The method `Decoder.NextPrefix(elemSize)`: a length prefix, which is an
error, and read as zero, when it exceeds `1<<31 - 1` or when that many elements
of `elemSize` bytes exceed the allocation limit. -/
def Decoder.NextPrefix (elemSize : Nat) : StateM Decoder Nat := fun d =>
  let (n, d) := Decoder.NextUint64 d
  if d.err ≠ none then (0, d)
  else if n > 2 ^ 31 - 1 ∨ n * elemSize % 2 ^ 64 > d.maxAlloc then
    (0, { d with err := some .ErrSliceTooLarge })
  else (n, d)

/-- The method `Decoder.ReadPrefixedBytes`: a length prefix and that many
bytes; the nil slice after an error. -/
def Decoder.ReadPrefixedBytes : StateM Decoder Bytes := fun d =>
  let (n, d) := Decoder.NextPrefix 1 d
  let (buf, d) := Decoder.ReadFull (List.replicate n 0) d
  if d.err ≠ none then ([], d) else (buf, d)

/-- The method `big.Int.SetBytes`: the number of a big-endian magnitude. -/
def SetBytes (buf : Bytes) : Nat := buf.foldl (fun z b => z * 256 + b) 0

/-- The method `Currency.UnmarshalTurtleDex` on the decoder `d` that
`encoding.NewDecoder(r, encoding.DefaultAllocLimit)` returns: the receiver
afterwards; the error returned is `d.Err()`, the error of the decoder
afterwards. -/
def Currency.UnmarshalTurtleDex (_c : Currency) : StateM Decoder Currency := do
  let dec := SetBytes (← Decoder.ReadPrefixedBytes)
  return dec

/-- What it is for `m` to decode the value `v` from the bytes `enc` under the
allocation limit `maxAlloc`: on every decoder without error and with that limit
whose input starts with `enc`, and for which the bytes of `enc` stay within the
limit, `m` returns `v`, consumes exactly `enc` and sets no error. -/
def Decodes {α : Type} (maxAlloc : Nat) (m : StateM Decoder α) (enc : Bytes) (v : α) : Prop :=
  ∀ (d : Decoder) (rest : Bytes), d.err = none → d.maxAlloc = maxAlloc →
    d.r = enc ++ rest → d.n + enc.length ≤ maxAlloc →
    m d = (v, { d with r := rest, n := d.n + enc.length })

/-- The values of `unsafe.Sizeof` that the decoding methods pass to
`NextPrefix`: the sizes in memory of the element types, which depend on the
platform and on type declarations outside the sources at hand. -/
structure Sizeof where
  TurtleDexcoinInput : Nat
  TurtleDexcoinOutput : Nat
  FileContract : Nat
  FileContractRevision : Nat
  StorageProof : Nat
  TurtleDexfundInput : Nat
  TurtleDexfundOutput : Nat
  Currency : Nat
  ByteSlice : Nat
  TransactionSignature : Nat
  TurtleDexPublicKey : Nat
  Hash : Nat
  Uint64 : Nat
deriving DecidableEq, Repr

/-- The sizes on a 64-bit platform, where a slice header has 24 bytes and a
`big.Int` 32. -/
def Sizeof.amd64 : Sizeof :=
  { TurtleDexcoinInput := 72, TurtleDexcoinOutput := 64, FileContract := 176,
    FileContractRevision := 216, StorageProof := 120, TurtleDexfundInput := 104,
    TurtleDexfundOutput := 96, Currency := 32, ByteSlice := 24, TransactionSignature := 320,
    TurtleDexPublicKey := 40, Hash := 32, Uint64 := 8 }

/-- Sizes that a platform can have: each is below `1<<32`. -/
abbrev Sizeof.bounded (S : Sizeof) : Prop :=
  S.TurtleDexcoinInput < 2 ^ 32 ∧ S.TurtleDexcoinOutput < 2 ^ 32 ∧ S.FileContract < 2 ^ 32
    ∧ S.FileContractRevision < 2 ^ 32 ∧ S.StorageProof < 2 ^ 32
    ∧ S.TurtleDexfundInput < 2 ^ 32 ∧ S.TurtleDexfundOutput < 2 ^ 32 ∧ S.Currency < 2 ^ 32
    ∧ S.ByteSlice < 2 ^ 32 ∧ S.TransactionSignature < 2 ^ 32 ∧ S.TurtleDexPublicKey < 2 ^ 32
    ∧ S.Hash < 2 ^ 32 ∧ S.Uint64 < 2 ^ 32

/-- The constant `crypto.SegmentSize`: the length of the array type of
`StorageProof.Segment`. -/
def SegmentSize : Nat := 64

/-- The Go zero value of a `TurtleDexPublicKey`. -/
def TurtleDexPublicKey.zero : TurtleDexPublicKey :=
  { Algorithm := List.replicate SpecifierLen 0, Key := [] }

/-- The Go zero value of `UnlockConditions`. -/
def UnlockConditions.zero : UnlockConditions :=
  { Timelock := 0, PublicKeys := [], SignaturesRequired := 0 }

/-- The Go zero value of a `TurtleDexcoinInput`. -/
def TurtleDexcoinInput.zero : TurtleDexcoinInput :=
  { ParentID := Hash.zero, UnlockConditions := UnlockConditions.zero }

/-- The Go zero value of a `TurtleDexfundInput`. -/
def TurtleDexfundInput.zero : TurtleDexfundInput :=
  { ParentID := Hash.zero, UnlockConditions := UnlockConditions.zero,
    ClaimUnlockHash := Hash.zero }

/-- The Go zero value of a `FileContractRevision`. -/
def FileContractRevision.zero : FileContractRevision :=
  { ParentID := Hash.zero, UnlockConditions := UnlockConditions.zero, NewRevisionNumber := 0,
    NewFileSize := 0, NewFileMerkleRoot := Hash.zero, NewWindowStart := 0, NewWindowEnd := 0,
    NewValidProofOutputs := [], NewMissedProofOutputs := [], NewUnlockHash := Hash.zero }

/-- The Go zero value of a `StorageProof`. -/
def StorageProof.zero : StorageProof :=
  { ParentID := Hash.zero, Segment := List.replicate SegmentSize 0, HashSet := [] }

/-- The Go zero value of `CoveredFields`. -/
def CoveredFields.zero : CoveredFields :=
  { WholeTransaction := false, TurtleDexcoinInputs := [], TurtleDexcoinOutputs := [],
    FileContracts := [], FileContractRevisions := [], StorageProofs := [],
    TurtleDexfundInputs := [], TurtleDexfundOutputs := [], MinerFees := [], ArbitraryData := [],
    TransactionSignatures := [] }

/-- The Go zero value of a `TransactionSignature`. -/
def TransactionSignature.zero : TransactionSignature :=
  { ParentID := Hash.zero, PublicKeyIndex := 0, Timelock := 0,
    CoveredFields := CoveredFields.zero, Signature := [] }

/-- The loop `for i := range xs` of the decoding methods, which decodes every
element of the slice `xs` in place. -/
def Decoder.each {α : Type} (f : α → StateM Decoder α) : List α → StateM Decoder (List α)
  | [] => pure []
  | x :: xs => do
    let y ← f x
    let ys ← Decoder.each f xs
    return y :: ys

/-- The method `TurtleDexPublicKey.UnmarshalTurtleDex`, on the decoder that
`encoding.NewDecoder` returns; the result is the receiver afterwards, and the
error returned is that of the decoder. The same holds of the methods below. -/
def TurtleDexPublicKey.UnmarshalTurtleDex (spk : TurtleDexPublicKey) :
    StateM Decoder TurtleDexPublicKey := do
  let algorithm ← Decoder.ReadFull spk.Algorithm
  let key ← Decoder.ReadPrefixedBytes
  return { Algorithm := algorithm, Key := key }

/-- The method `UnlockConditions.UnmarshalTurtleDex`. -/
def UnlockConditions.UnmarshalTurtleDex (S : Sizeof) (_uc : UnlockConditions) :
    StateM Decoder UnlockConditions := do
  let timelock ← Decoder.NextUint64
  let n ← Decoder.NextPrefix S.TurtleDexPublicKey
  let keys ← Decoder.each TurtleDexPublicKey.UnmarshalTurtleDex
    (List.replicate n TurtleDexPublicKey.zero)
  let required ← Decoder.NextUint64
  return { Timelock := timelock, PublicKeys := keys, SignaturesRequired := required }

/-- The method `TurtleDexcoinInput.UnmarshalTurtleDex`. -/
def TurtleDexcoinInput.UnmarshalTurtleDex (S : Sizeof) (sci : TurtleDexcoinInput) :
    StateM Decoder TurtleDexcoinInput := do
  let parent ← Decoder.ReadFull sci.ParentID
  let conditions ← UnlockConditions.UnmarshalTurtleDex S sci.UnlockConditions
  return { ParentID := parent, UnlockConditions := conditions }

/-- The method `TurtleDexcoinOutput.UnmarshalTurtleDex`. -/
def TurtleDexcoinOutput.UnmarshalTurtleDex (sco : TurtleDexcoinOutput) :
    StateM Decoder TurtleDexcoinOutput := do
  let value ← Currency.UnmarshalTurtleDex sco.Value
  let unlockHash ← Decoder.ReadFull sco.UnlockHash
  return { Value := value, UnlockHash := unlockHash }

/-- The method `FileContract.UnmarshalTurtleDex`. -/
def FileContract.UnmarshalTurtleDex (S : Sizeof) (fc : FileContract) :
    StateM Decoder FileContract := do
  let fileSize ← Decoder.NextUint64
  let root ← Decoder.ReadFull fc.FileMerkleRoot
  let windowStart ← Decoder.NextUint64
  let windowEnd ← Decoder.NextUint64
  let payout ← Currency.UnmarshalTurtleDex fc.Payout
  let nValid ← Decoder.NextPrefix S.TurtleDexcoinOutput
  let valid ← Decoder.each TurtleDexcoinOutput.UnmarshalTurtleDex
    (List.replicate nValid TurtleDexcoinOutput.zero)
  let nMissed ← Decoder.NextPrefix S.TurtleDexcoinOutput
  let missed ← Decoder.each TurtleDexcoinOutput.UnmarshalTurtleDex
    (List.replicate nMissed TurtleDexcoinOutput.zero)
  let unlockHash ← Decoder.ReadFull fc.UnlockHash
  let revisionNumber ← Decoder.NextUint64
  return { FileSize := fileSize, FileMerkleRoot := root, WindowStart := windowStart,
           WindowEnd := windowEnd, Payout := payout, ValidProofOutputs := valid,
           MissedProofOutputs := missed, UnlockHash := unlockHash,
           RevisionNumber := revisionNumber }

/-- The method `FileContractRevision.UnmarshalTurtleDex`. -/
def FileContractRevision.UnmarshalTurtleDex (S : Sizeof) (fcr : FileContractRevision) :
    StateM Decoder FileContractRevision := do
  let parent ← Decoder.ReadFull fcr.ParentID
  let conditions ← UnlockConditions.UnmarshalTurtleDex S fcr.UnlockConditions
  let revisionNumber ← Decoder.NextUint64
  let fileSize ← Decoder.NextUint64
  let root ← Decoder.ReadFull fcr.NewFileMerkleRoot
  let windowStart ← Decoder.NextUint64
  let windowEnd ← Decoder.NextUint64
  let nValid ← Decoder.NextPrefix S.TurtleDexcoinOutput
  let valid ← Decoder.each TurtleDexcoinOutput.UnmarshalTurtleDex
    (List.replicate nValid TurtleDexcoinOutput.zero)
  let nMissed ← Decoder.NextPrefix S.TurtleDexcoinOutput
  let missed ← Decoder.each TurtleDexcoinOutput.UnmarshalTurtleDex
    (List.replicate nMissed TurtleDexcoinOutput.zero)
  let unlockHash ← Decoder.ReadFull fcr.NewUnlockHash
  return { ParentID := parent, UnlockConditions := conditions,
           NewRevisionNumber := revisionNumber, NewFileSize := fileSize,
           NewFileMerkleRoot := root, NewWindowStart := windowStart,
           NewWindowEnd := windowEnd, NewValidProofOutputs := valid,
           NewMissedProofOutputs := missed, NewUnlockHash := unlockHash }

/-- The method `StorageProof.UnmarshalTurtleDex`. -/
def StorageProof.UnmarshalTurtleDex (S : Sizeof) (sp : StorageProof) :
    StateM Decoder StorageProof := do
  let parent ← Decoder.ReadFull sp.ParentID
  let segment ← Decoder.ReadFull sp.Segment
  let n ← Decoder.NextPrefix S.Hash
  let hashSet ← Decoder.each Decoder.ReadFull (List.replicate n Hash.zero)
  return { ParentID := parent, Segment := segment, HashSet := hashSet }

/-- The method `TurtleDexfundInput.UnmarshalTurtleDex`. -/
def TurtleDexfundInput.UnmarshalTurtleDex (S : Sizeof) (sfi : TurtleDexfundInput) :
    StateM Decoder TurtleDexfundInput := do
  let parent ← Decoder.ReadFull sfi.ParentID
  let conditions ← UnlockConditions.UnmarshalTurtleDex S sfi.UnlockConditions
  let claim ← Decoder.ReadFull sfi.ClaimUnlockHash
  return { ParentID := parent, UnlockConditions := conditions, ClaimUnlockHash := claim }

/-- The method `TurtleDexfundOutput.UnmarshalTurtleDex`. -/
def TurtleDexfundOutput.UnmarshalTurtleDex (sfo : TurtleDexfundOutput) :
    StateM Decoder TurtleDexfundOutput := do
  let value ← Currency.UnmarshalTurtleDex sfo.Value
  let unlockHash ← Decoder.ReadFull sfo.UnlockHash
  let claimStart ← Currency.UnmarshalTurtleDex sfo.ClaimStart
  return { Value := value, UnlockHash := unlockHash, ClaimStart := claimStart }

/-- The body of the loop of `CoveredFields.UnmarshalTurtleDex`: a slice of
`uint64` behind its length. -/
def CoveredFields.field (S : Sizeof) (_f : List Nat) : StateM Decoder (List Nat) := do
  let n ← Decoder.NextPrefix S.Uint64
  let f ← Decoder.each (fun _ => Decoder.NextUint64) (List.replicate n 0)
  return f

/-- The method `CoveredFields.UnmarshalTurtleDex`. -/
def CoveredFields.UnmarshalTurtleDex (S : Sizeof) (cf : CoveredFields) :
    StateM Decoder CoveredFields := do
  let buf ← Decoder.ReadFull (List.replicate 1 0)
  let wholeTransaction := decide (buf.getD 0 0 = 1)
  let fields ← Decoder.each (CoveredFields.field S)
    [cf.TurtleDexcoinInputs, cf.TurtleDexcoinOutputs, cf.FileContracts,
      cf.FileContractRevisions, cf.StorageProofs, cf.TurtleDexfundInputs,
      cf.TurtleDexfundOutputs, cf.MinerFees, cf.ArbitraryData, cf.TransactionSignatures]
  return { WholeTransaction := wholeTransaction,
           TurtleDexcoinInputs := fields.getD 0 [], TurtleDexcoinOutputs := fields.getD 1 [],
           FileContracts := fields.getD 2 [], FileContractRevisions := fields.getD 3 [],
           StorageProofs := fields.getD 4 [], TurtleDexfundInputs := fields.getD 5 [],
           TurtleDexfundOutputs := fields.getD 6 [], MinerFees := fields.getD 7 [],
           ArbitraryData := fields.getD 8 [], TransactionSignatures := fields.getD 9 [] }

/-- The method `TransactionSignature.UnmarshalTurtleDex`. -/
def TransactionSignature.UnmarshalTurtleDex (S : Sizeof) (ts : TransactionSignature) :
    StateM Decoder TransactionSignature := do
  let parent ← Decoder.ReadFull ts.ParentID
  let publicKeyIndex ← Decoder.NextUint64
  let timelock ← Decoder.NextUint64
  let coveredFields ← CoveredFields.UnmarshalTurtleDex S ts.CoveredFields
  let signature ← Decoder.ReadPrefixedBytes
  return { ParentID := parent, PublicKeyIndex := publicKeyIndex, Timelock := timelock,
           CoveredFields := coveredFields, Signature := signature }

/-- The method `Transaction.UnmarshalTurtleDex`. -/
def Transaction.UnmarshalTurtleDex (S : Sizeof) (_t : Transaction) :
    StateM Decoder Transaction := do
  let n ← Decoder.NextPrefix S.TurtleDexcoinInput
  let coinInputs ← Decoder.each (TurtleDexcoinInput.UnmarshalTurtleDex S)
    (List.replicate n TurtleDexcoinInput.zero)
  let n ← Decoder.NextPrefix S.TurtleDexcoinOutput
  let coinOutputs ← Decoder.each TurtleDexcoinOutput.UnmarshalTurtleDex
    (List.replicate n TurtleDexcoinOutput.zero)
  let n ← Decoder.NextPrefix S.FileContract
  let contracts ← Decoder.each (FileContract.UnmarshalTurtleDex S)
    (List.replicate n FileContract.zero)
  let n ← Decoder.NextPrefix S.FileContractRevision
  let revisions ← Decoder.each (FileContractRevision.UnmarshalTurtleDex S)
    (List.replicate n FileContractRevision.zero)
  let n ← Decoder.NextPrefix S.StorageProof
  let proofs ← Decoder.each (StorageProof.UnmarshalTurtleDex S)
    (List.replicate n StorageProof.zero)
  let n ← Decoder.NextPrefix S.TurtleDexfundInput
  let fundInputs ← Decoder.each (TurtleDexfundInput.UnmarshalTurtleDex S)
    (List.replicate n TurtleDexfundInput.zero)
  let n ← Decoder.NextPrefix S.TurtleDexfundOutput
  let fundOutputs ← Decoder.each TurtleDexfundOutput.UnmarshalTurtleDex
    (List.replicate n TurtleDexfundOutput.zero)
  let n ← Decoder.NextPrefix S.Currency
  let fees ← Decoder.each Currency.UnmarshalTurtleDex (List.replicate n 0)
  let n ← Decoder.NextPrefix S.ByteSlice
  let data ← Decoder.each (fun _ => Decoder.ReadPrefixedBytes) (List.replicate n [])
  let n ← Decoder.NextPrefix S.TransactionSignature
  let signatures ← Decoder.each (TransactionSignature.UnmarshalTurtleDex S)
    (List.replicate n TransactionSignature.zero)
  return { TurtleDexcoinInputs := coinInputs, TurtleDexcoinOutputs := coinOutputs,
           FileContracts := contracts, FileContractRevisions := revisions,
           StorageProofs := proofs, TurtleDexfundInputs := fundInputs,
           TurtleDexfundOutputs := fundOutputs, MinerFees := fees, ArbitraryData := data,
           TransactionSignatures := signatures }

/-- A number that a `uint64` holds. -/
abbrev isUint64 (u : Nat) : Prop := u < 2 ^ 64

/-- A value of the array type `crypto.Hash`. -/
abbrev isHash (h : Hash) : Prop := h.length = HashSize

/-- A slice that `NextPrefix` accepts under the allocation limit `maxAlloc`:
`count` elements of `elemSize` bytes. -/
abbrev fits (maxAlloc elemSize count : Nat) : Prop :=
  count ≤ 2 ^ 31 - 1 ∧ count * elemSize ≤ maxAlloc

/-- A currency whose magnitude `ReadPrefixedBytes` accepts. -/
abbrev Currency.withinLimit (c : Currency) : Prop :=
  (Currency.MarshalTurtleDex c).length - 8 ≤ 2 ^ 31 - 1

/-- A value of the Go type `TurtleDexPublicKey`: the algorithm is a specifier. -/
abbrev TurtleDexPublicKey.wellTyped (spk : TurtleDexPublicKey) : Prop :=
  spk.Algorithm.length = SpecifierLen

/-- A public key within the limits of the decoder. -/
abbrev TurtleDexPublicKey.withinLimit (spk : TurtleDexPublicKey) : Prop :=
  spk.Key.length ≤ 2 ^ 31 - 1

/-- A value of the Go type `UnlockConditions`. -/
abbrev UnlockConditions.wellTyped (uc : UnlockConditions) : Prop :=
  isUint64 uc.Timelock ∧ (∀ spk ∈ uc.PublicKeys, spk.wellTyped)
    ∧ isUint64 uc.SignaturesRequired

/-- Unlock conditions within the limits of the decoder. -/
abbrev UnlockConditions.withinLimit (S : Sizeof) (maxAlloc : Nat) (uc : UnlockConditions) :
    Prop :=
  fits maxAlloc S.TurtleDexPublicKey uc.PublicKeys.length
    ∧ ∀ spk ∈ uc.PublicKeys, spk.withinLimit

/-- A value of the Go type `TurtleDexcoinInput`. -/
abbrev TurtleDexcoinInput.wellTyped (sci : TurtleDexcoinInput) : Prop :=
  isHash sci.ParentID ∧ sci.UnlockConditions.wellTyped

/-- A value of the Go type `TurtleDexcoinOutput`. -/
abbrev TurtleDexcoinOutput.wellTyped (sco : TurtleDexcoinOutput) : Prop :=
  isHash sco.UnlockHash

/-- A value of the Go type `FileContract`. -/
abbrev FileContract.wellTyped (fc : FileContract) : Prop :=
  isUint64 fc.FileSize ∧ isHash fc.FileMerkleRoot ∧ isUint64 fc.WindowStart
    ∧ isUint64 fc.WindowEnd ∧ (∀ sco ∈ fc.ValidProofOutputs, sco.wellTyped)
    ∧ (∀ sco ∈ fc.MissedProofOutputs, sco.wellTyped) ∧ isHash fc.UnlockHash
    ∧ isUint64 fc.RevisionNumber

/-- A file contract within the limits of the decoder. -/
abbrev FileContract.withinLimit (S : Sizeof) (maxAlloc : Nat) (fc : FileContract) : Prop :=
  Currency.withinLimit fc.Payout
    ∧ fits maxAlloc S.TurtleDexcoinOutput fc.ValidProofOutputs.length
    ∧ (∀ sco ∈ fc.ValidProofOutputs, Currency.withinLimit sco.Value)
    ∧ fits maxAlloc S.TurtleDexcoinOutput fc.MissedProofOutputs.length
    ∧ ∀ sco ∈ fc.MissedProofOutputs, Currency.withinLimit sco.Value

/-- A value of the Go type `FileContractRevision`. -/
abbrev FileContractRevision.wellTyped (fcr : FileContractRevision) : Prop :=
  isHash fcr.ParentID ∧ fcr.UnlockConditions.wellTyped ∧ isUint64 fcr.NewRevisionNumber
    ∧ isUint64 fcr.NewFileSize ∧ isHash fcr.NewFileMerkleRoot ∧ isUint64 fcr.NewWindowStart
    ∧ isUint64 fcr.NewWindowEnd ∧ (∀ sco ∈ fcr.NewValidProofOutputs, sco.wellTyped)
    ∧ (∀ sco ∈ fcr.NewMissedProofOutputs, sco.wellTyped) ∧ isHash fcr.NewUnlockHash

/-- A revision within the limits of the decoder. -/
abbrev FileContractRevision.withinLimit (S : Sizeof) (maxAlloc : Nat)
    (fcr : FileContractRevision) : Prop :=
  fcr.UnlockConditions.withinLimit S maxAlloc
    ∧ fits maxAlloc S.TurtleDexcoinOutput fcr.NewValidProofOutputs.length
    ∧ (∀ sco ∈ fcr.NewValidProofOutputs, Currency.withinLimit sco.Value)
    ∧ fits maxAlloc S.TurtleDexcoinOutput fcr.NewMissedProofOutputs.length
    ∧ ∀ sco ∈ fcr.NewMissedProofOutputs, Currency.withinLimit sco.Value

/-- A value of the Go type `StorageProof`. -/
abbrev StorageProof.wellTyped (sp : StorageProof) : Prop :=
  isHash sp.ParentID ∧ sp.Segment.length = SegmentSize ∧ ∀ h ∈ sp.HashSet, isHash h

/-- A value of the Go type `TurtleDexfundInput`. -/
abbrev TurtleDexfundInput.wellTyped (sfi : TurtleDexfundInput) : Prop :=
  isHash sfi.ParentID ∧ sfi.UnlockConditions.wellTyped ∧ isHash sfi.ClaimUnlockHash

/-- A value of the Go type `TurtleDexfundOutput`. -/
abbrev TurtleDexfundOutput.wellTyped (sfo : TurtleDexfundOutput) : Prop :=
  isHash sfo.UnlockHash

/-- A fund output within the limits of the decoder. -/
abbrev TurtleDexfundOutput.withinLimit (sfo : TurtleDexfundOutput) : Prop :=
  Currency.withinLimit sfo.Value ∧ Currency.withinLimit sfo.ClaimStart

/-- The ten slices of `CoveredFields`, in the order of the encoding. -/
def CoveredFields.fields (cf : CoveredFields) : List (List Nat) :=
  [cf.TurtleDexcoinInputs, cf.TurtleDexcoinOutputs, cf.FileContracts,
    cf.FileContractRevisions, cf.StorageProofs, cf.TurtleDexfundInputs,
    cf.TurtleDexfundOutputs, cf.MinerFees, cf.ArbitraryData, cf.TransactionSignatures]

/-- A value of the Go type `CoveredFields`. -/
abbrev CoveredFields.wellTyped (cf : CoveredFields) : Prop :=
  ∀ f ∈ cf.fields, ∀ u ∈ f, isUint64 u

/-- Covered fields within the limits of the decoder. -/
abbrev CoveredFields.withinLimit (S : Sizeof) (maxAlloc : Nat) (cf : CoveredFields) : Prop :=
  ∀ f ∈ cf.fields, fits maxAlloc S.Uint64 f.length

/-- A value of the Go type `TransactionSignature`. -/
abbrev TransactionSignature.wellTyped (ts : TransactionSignature) : Prop :=
  isHash ts.ParentID ∧ isUint64 ts.PublicKeyIndex ∧ isUint64 ts.Timelock
    ∧ ts.CoveredFields.wellTyped

/-- A signature within the limits of the decoder. -/
abbrev TransactionSignature.withinLimit (S : Sizeof) (maxAlloc : Nat)
    (ts : TransactionSignature) : Prop :=
  ts.CoveredFields.withinLimit S maxAlloc ∧ ts.Signature.length ≤ 2 ^ 31 - 1

/-- A value of the Go type `Transaction`: the arrays have the length of their
type and the numbers of type `uint64` are below `1<<64`. -/
abbrev Transaction.wellTyped (t : Transaction) : Prop :=
  (∀ sci ∈ t.TurtleDexcoinInputs, sci.wellTyped)
    ∧ (∀ sco ∈ t.TurtleDexcoinOutputs, sco.wellTyped)
    ∧ (∀ fc ∈ t.FileContracts, fc.wellTyped)
    ∧ (∀ fcr ∈ t.FileContractRevisions, fcr.wellTyped)
    ∧ (∀ sp ∈ t.StorageProofs, sp.wellTyped)
    ∧ (∀ sfi ∈ t.TurtleDexfundInputs, sfi.wellTyped)
    ∧ (∀ sfo ∈ t.TurtleDexfundOutputs, sfo.wellTyped)
    ∧ ∀ ts ∈ t.TransactionSignatures, ts.wellTyped

/-- A transaction whose slices stay within the allocation limit `maxAlloc` of
the decoder: every slice has at most `1<<31 - 1` elements, its elements take at
most `maxAlloc` bytes of memory, and the encoding has at most `maxAlloc`
bytes. -/
abbrev Transaction.withinLimit (S : Sizeof) (maxAlloc : Nat) (t : Transaction) : Prop :=
  (fits maxAlloc S.TurtleDexcoinInput t.TurtleDexcoinInputs.length
      ∧ ∀ sci ∈ t.TurtleDexcoinInputs, sci.UnlockConditions.withinLimit S maxAlloc)
    ∧ (fits maxAlloc S.TurtleDexcoinOutput t.TurtleDexcoinOutputs.length
      ∧ ∀ sco ∈ t.TurtleDexcoinOutputs, Currency.withinLimit sco.Value)
    ∧ (fits maxAlloc S.FileContract t.FileContracts.length
      ∧ ∀ fc ∈ t.FileContracts, fc.withinLimit S maxAlloc)
    ∧ (fits maxAlloc S.FileContractRevision t.FileContractRevisions.length
      ∧ ∀ fcr ∈ t.FileContractRevisions, fcr.withinLimit S maxAlloc)
    ∧ (fits maxAlloc S.StorageProof t.StorageProofs.length
      ∧ ∀ sp ∈ t.StorageProofs, fits maxAlloc S.Hash sp.HashSet.length)
    ∧ (fits maxAlloc S.TurtleDexfundInput t.TurtleDexfundInputs.length
      ∧ ∀ sfi ∈ t.TurtleDexfundInputs, sfi.UnlockConditions.withinLimit S maxAlloc)
    ∧ (fits maxAlloc S.TurtleDexfundOutput t.TurtleDexfundOutputs.length
      ∧ ∀ sfo ∈ t.TurtleDexfundOutputs, sfo.withinLimit)
    ∧ (fits maxAlloc S.Currency t.MinerFees.length
      ∧ ∀ fee ∈ t.MinerFees, Currency.withinLimit fee)
    ∧ (fits maxAlloc S.ByteSlice t.ArbitraryData.length
      ∧ ∀ data ∈ t.ArbitraryData, data.length ≤ 2 ^ 31 - 1)
    ∧ (fits maxAlloc S.TransactionSignature t.TransactionSignatures.length
      ∧ ∀ ts ∈ t.TransactionSignatures, ts.withinLimit S maxAlloc)
    ∧ t.MarshalTurtleDex.length ≤ maxAlloc

/-- A sample: unlock conditions with one key. -/
def sampleConditions : UnlockConditions :=
  { Timelock := 4
    PublicKeys := [{ Algorithm := NewSpecifier "ed25519", Key := List.replicate 32 7 }]
    SignaturesRequired := 1 }

/-- A sample: a transaction with every kind of field, among them a file
contract, a revision with unlock conditions, a storage proof with a hash set,
a fund input, arbitrary data and a signature with covered fields. -/
def sampleFull : Transaction :=
  { TurtleDexcoinInputs :=
      [{ ParentID := List.replicate 32 1, UnlockConditions := sampleConditions }]
    TurtleDexcoinOutputs := [{ Value := 300, UnlockHash := List.replicate 32 2 }]
    FileContracts :=
      [{ FileSize := 5, FileMerkleRoot := List.replicate 32 3, WindowStart := 10,
         WindowEnd := 20, Payout := 70000,
         ValidProofOutputs := [{ Value := 65536, UnlockHash := List.replicate 32 4 }],
         MissedProofOutputs := [{ Value := 0, UnlockHash := List.replicate 32 5 }],
         UnlockHash := List.replicate 32 6, RevisionNumber := 1 }]
    FileContractRevisions :=
      [{ ParentID := List.replicate 32 8, UnlockConditions := sampleConditions,
         NewRevisionNumber := 2, NewFileSize := 6, NewFileMerkleRoot := List.replicate 32 9,
         NewWindowStart := 11, NewWindowEnd := 21,
         NewValidProofOutputs := [{ Value := 255, UnlockHash := List.replicate 32 4 }],
         NewMissedProofOutputs := [], NewUnlockHash := List.replicate 32 6 }]
    StorageProofs :=
      [{ ParentID := List.replicate 32 8, Segment := List.replicate 64 10,
         HashSet := [List.replicate 32 11, List.replicate 32 12] }]
    TurtleDexfundInputs :=
      [{ ParentID := List.replicate 32 13, UnlockConditions := sampleConditions,
         ClaimUnlockHash := List.replicate 32 14 }]
    TurtleDexfundOutputs :=
      [{ Value := 9, UnlockHash := List.replicate 32 15, ClaimStart := 0 }]
    MinerFees := [3, 0]
    ArbitraryData := [[1, 2, 3], []]
    TransactionSignatures :=
      [{ ParentID := List.replicate 32 1, PublicKeyIndex := 0, Timelock := 0,
         CoveredFields :=
           { WholeTransaction := false, TurtleDexcoinInputs := [0], TurtleDexcoinOutputs := [0],
             FileContracts := [0], FileContractRevisions := [0], StorageProofs := [0],
             TurtleDexfundInputs := [0], TurtleDexfundOutputs := [0], MinerFees := [0, 1],
             ArbitraryData := [1], TransactionSignatures := [] },
         Signature := List.replicate 64 16 }] }

/-- Modelled from the spec: the constant `SignatureEd25519` of
types/signatures.go, which is not part of the sources at hand: the specifier of
the name `ed25519`, the name that `TurtleDexPublicKey.String` writes for it. -/
def SignatureEd25519 : Specifier := NewSpecifier "ed25519"

/-- The method `Specifier.String`: the specifier without its trailing zero
bytes. -/
def Specifier.String (s : Specifier) : Bytes := bytes.TrimRightZero s

/-- The method `TurtleDexPublicKey.String`; `none` when `hex.Encode` panics. -/
def TurtleDexPublicKey.String (spk : TurtleDexPublicKey) : Option Bytes :=
  if spk.Algorithm = SignatureEd25519 then
    let buf := List.replicate 72 0
    let buf := copy (buf.take 8) ("ed25519:".toList.map Char.toNat) ++ buf.drop 8
    match hex.Encode (buf.drop 8) spk.Key with
    | none => none
    | some tail => some (buf.take 8 ++ tail)
  else
    some (Specifier.String spk.Algorithm ++ [58] ++ hex.EncodeToString spk.Key)

/-- The errors of `TurtleDexPublicKey.LoadString`. -/
inductive LoadStringError where
  | missingSpecifier
  | invalidHex (err : hex.Error)
  | invalidLength
deriving DecidableEq, Repr

/-- The method `TurtleDexPublicKey.LoadString`: the receiver afterwards, and the
error. -/
def TurtleDexPublicKey.LoadString (spk : TurtleDexPublicKey) (s : Bytes) :
    TurtleDexPublicKey × Option LoadStringError :=
  let parts := strings.Split s 58
  if parts.length ≠ 2 then (spk, some .missingSpecifier)
  else
    match hex.DecodeString (parts.getD 1 []) with
    | .error err => ({ spk with Key := [] }, some (.invalidHex err))
    | .ok key =>
      let spk := { spk with Key := key }
      let specifierBytes := parts.getD 0 []
      if spk.Algorithm.length < specifierBytes.length then (spk, some .invalidLength)
      else ({ spk with Algorithm := copy spk.Algorithm specifierBytes }, none)

/-- A sample: a public key of another algorithm. -/
def sampleKey : TurtleDexPublicKey :=
  { Algorithm := NewSpecifier "entropy", Key := [0, 171, 255] }

/-- A sample: an Ed25519 public key. -/
def sampleEd25519Key : TurtleDexPublicKey :=
  { Algorithm := SignatureEd25519, Key := (List.range 32).map (fun i => 8 * i) }

/-- The constant `UnlockHashChecksumSize`. -/
def UnlockHashChecksumSize : Nat := 6

/-- The errors of `UnlockHash.LoadString`. -/
inductive UnlockHashError where
  | ErrUnlockHashWrongLen
  | scan (err : hex.Error)
  | ErrInvalidUnlockHashChecksum
deriving DecidableEq, Repr

/-- The method `UnlockHash.String`. The checksum `crypto.HashObject(uh)` is the
hash of the encoding of `uh`, and the encoding of an array of bytes is the
array. -/
def UnlockHash.String (env : Env) (uh : UnlockHash) : Bytes :=
  let uhChecksum := env.HashBytes uh
  hex.EncodeToString uh ++ hex.EncodeToString (uhChecksum.take UnlockHashChecksumSize)

/-- The method `UnlockHash.LoadString`: the receiver afterwards, and the error. -/
def UnlockHash.LoadString (env : Env) (uh : UnlockHash) (strUH : Bytes) :
    UnlockHash × Option UnlockHashError :=
  if strUH.length ≠ HashSize * 2 + UnlockHashChecksumSize * 2 then
    (uh, some .ErrUnlockHashWrongLen)
  else
    match fmt.SscanfHex (strUH.take (HashSize * 2)) with
    | .error err => (uh, some (.scan err))
    | .ok byteUnlockHash =>
      match fmt.SscanfHex (strUH.drop (HashSize * 2)) with
      | .error err => (uh, some (.scan err))
      | .ok checksum =>
        let expectedChecksum := env.HashBytes byteUnlockHash
        if expectedChecksum.take UnlockHashChecksumSize ≠ checksum then
          (uh, some .ErrInvalidUnlockHashChecksum)
        else (copy uh byteUnlockHash, none)

/-- A sample: a hash function whose values are arrays of 32 bytes. -/
def sampleByteEnv : Env :=
  { consensus.sampleEnv true with
    HashBytes := fun b => (b.map (fun v => (v + 1) % 256) ++ List.replicate 32 7).take 32 }

/-- The letter of lower case for a letter of upper case. -/
def toLower (c : Nat) : Nat := if 65 ≤ c ∧ c ≤ 90 then c + 32 else c

end types

/-! ## Package `modules`: paths (`modules/turtledexpath.go`) -/

namespace modules

/-- The errors of turtledexpath.go; `extend` stands for `errors.Extend`, the
composition of two errors, `joinEmpty` for the error of `Join` ("cannot join an
empty string to a siapath") and `notBase` for the error of `Rebase` ("'%v' isn't
the base of '%v'" with the paths of the old base and of the receiver). -/
inductive PathError where
  | ErrEmptyPath
  | ErrInvalidTurtleDexPath
  | ErrInvalidPathString
  | isDotDot
  | isDot
  | beginsWithSlash
  | beginsWithDotDotSlash
  | beginsWithDotSlash
  | dotElement
  | doubleSlash
  | invalidUTF8
  | extend (err other : PathError)
  | joinEmpty
  | notBase (oldBase sp : Bytes)
deriving DecidableEq, Repr

/-- The type `TurtleDexPath`. -/
structure TurtleDexPath where
  Path : Bytes
deriving DecidableEq, Repr

/-- The string `"/"`. -/
def slash : Bytes := [47]

/-- The string `"."`. -/
def dot : Bytes := [46]

/-- The string `".."`. -/
def dotdot : Bytes := [46, 46]

/-- The loop of `validatePath` over the elements of the path, `prevElem` being
the element of the iteration before; `none` when the loop comes to its end. -/
def validateElems : Bytes → List Bytes → Option PathError
  | _, [] => none
  | prevElem, pathElem :: rest =>
    if pathElem = dot ∨ pathElem = dotdot then some .dotElement
    else if prevElem ≠ [] ∧ pathElem = [] then some .ErrEmptyPath
    else if prevElem = slash ∨ pathElem = slash then some .doubleSlash
    else validateElems pathElem rest

/-- The function `validatePath`; `none` is the `nil` error. -/
def validatePath (path : Bytes) (isRoot : Bool) : Option PathError :=
  if path = [] ∧ isRoot = false then some .ErrEmptyPath
  else if path = dotdot then some .isDotDot
  else if path = dot then some .isDot
  else if strings.HasPrefix path slash then some .beginsWithSlash
  else if strings.HasPrefix path (dotdot ++ slash) then some .beginsWithDotDotSlash
  else if strings.HasPrefix path (dot ++ slash) then some .beginsWithDotSlash
  else
    match validateElems [] (strings.Split path 47) with
    | some err => some err
    | none => if utf8.ValidString path then none else some .invalidUTF8

/-- The method `TurtleDexPath.Validate`. -/
def TurtleDexPath.Validate (sp : TurtleDexPath) (isRoot : Bool) : Option PathError :=
  match validatePath sp.Path isRoot with
  | some err => some (.extend err .ErrInvalidTurtleDexPath)
  | none => none

/-- The function `ValidatePathString`. -/
def ValidatePathString (path : Bytes) (isRoot : Bool) : Option PathError :=
  match validatePath path isRoot with
  | some err => some (.extend err .ErrInvalidPathString)
  | none => none

/-- The function `clean`, on a system whose separator is the byte
`separator`. -/
def clean (separator : Nat) (s : Bytes) : Bytes :=
  strings.TrimSuffix (strings.TrimPrefix (filepath.ToSlash separator s) slash) slash

/-- The function `newTurtleDexPath`: the path and the error. -/
def newTurtleDexPath (separator : Nat) (s : Bytes) : TurtleDexPath × Option PathError :=
  let sp : TurtleDexPath := { Path := clean separator s }
  (sp, sp.Validate false)

/-- The function `NewTurtleDexPath`. -/
def NewTurtleDexPath (separator : Nat) (s : Bytes) : TurtleDexPath × Option PathError :=
  newTurtleDexPath separator s

/-- The method `TurtleDexPath.LoadString`: the receiver afterwards and the
error. -/
def TurtleDexPath.LoadString (_sp : TurtleDexPath) (separator : Nat) (s : Bytes) :
    TurtleDexPath × Option PathError :=
  let sp : TurtleDexPath := { Path := clean separator s }
  (sp, sp.Validate false)

/-- An element that a valid path may have: not empty, not `.` and not `..`. -/
def goodElement (e : Bytes) : Prop := e ≠ [] ∧ e ≠ dot ∧ e ≠ dotdot

/-- A string without one leading slash, if it has one. -/
def withoutLeadingSlash : Bytes → Bytes
  | 47 :: rest => rest
  | s => s

/-- A string without one trailing slash, if it has one. -/
def withoutTrailingSlash (s : Bytes) : Bytes :=
  if s.getLast? = some 47 then s.dropLast else s

/-- The function `RootTurtleDexPath`. -/
def RootTurtleDexPath : TurtleDexPath := { Path := [] }

/-- The method `TurtleDexPath.Dir`: the path and the error. -/
def TurtleDexPath.Dir (sp : TurtleDexPath) (separator : Nat) : TurtleDexPath × Option PathError :=
  let pathElements := strings.Split sp.Path 47
  if pathElements.length ≤ 1 then (RootTurtleDexPath, none)
  else
    let dir := strings.Join (pathElements.take (pathElements.length - 1)) slash
    if dir = [] ∨ dir = dot then (RootTurtleDexPath, none)
    else newTurtleDexPath separator dir

/-- The method `TurtleDexPath.Join`: the path and the error. -/
def TurtleDexPath.Join (sp : TurtleDexPath) (separator : Nat) (s : Bytes) :
    TurtleDexPath × Option PathError :=
  let cleanStr := clean separator s
  if s = [] ∨ cleanStr = [] then ({ Path := [] }, some .joinEmpty)
  else newTurtleDexPath separator (sp.Path ++ slash ++ cleanStr)

/-- The method `TurtleDexPath.Name`. -/
def TurtleDexPath.Name (sp : TurtleDexPath) : Bytes :=
  let pathElements := strings.Split sp.Path 47
  let name := pathElements.getD (pathElements.length - 1) []
  if name = dot then [] else name

/-- The method `TurtleDexPath.Rebase`: the path and the error. -/
def TurtleDexPath.Rebase (sp : TurtleDexPath) (separator : Nat) (oldBase newBase : TurtleDexPath) :
    TurtleDexPath × Option PathError :=
  if strings.HasPrefix sp.Path oldBase.Path = false then
    ({ Path := [] }, some (.notBase oldBase.Path sp.Path))
  else
    let relPath := strings.TrimPrefix sp.Path oldBase.Path
    if relPath = [] then (newBase, none)
    else newBase.Join separator relPath

/-- The path that `Join` makes of the path `p` of the receiver and the cleaned
string `x`. -/
def joined (p x : Bytes) : Bytes := if p = [] then x else p ++ slash ++ x

/-- The path `test`. -/
def sampleTest : TurtleDexPath := { Path := [116, 101, 115, 116] }

/-- The path `a/b`. -/
def sampleAB : TurtleDexPath := { Path := [97, 47, 98] }

/-- The path `a`. -/
def sampleA : TurtleDexPath := { Path := [97] }

/-- The path `x`. -/
def sampleX : TurtleDexPath := { Path := [120] }

/-- The string `myfile`. -/
def sampleMyfile : Bytes := [109, 121, 102, 105, 108, 101]

/-- The path `a/b/myfile`. -/
def sampleABMyfile : TurtleDexPath := { Path := [97, 47, 98, 47, 109, 121, 102, 105, 108, 101] }

/-- The path `a/bc/file`. -/
def sampleABCFile : TurtleDexPath := { Path := [97, 47, 98, 99, 47, 102, 105, 108, 101] }

/-- The path whose string is `a`, a backslash, `b`: one element, with the
separator of Windows in it. -/
def sampleBackslash : TurtleDexPath := { Path := [97, 92, 98] }

/-- The path whose string is `a`, a backslash, `b/c`. -/
def sampleBackslashC : TurtleDexPath := { Path := [97, 92, 98, 47, 99] }

end modules

/-! ## Package `typesutil`: the transaction graph (`types/typesutil/transactiongraphexports.go`) -/

namespace typesutil

open types

/-- The errors of the transaction graph. `ErrTurtleDexcoinInputsOutputsMismatch`
is returned extended by a text with the two totals, which are kept here. -/
inductive GraphError where
  | ErrTurtleDexcoinSourceAlreadyAdded
  | ErrTurtleDexcoinInputAlreadyUsed
  | ErrNoSuchTurtleDexcoinInput
  | ErrTurtleDexcoinInputsOutputsMismatch (totalIn totalOut : Currency)
deriving DecidableEq, Repr

/-- The struct `ttdcInput`. -/
structure ttdcInput where
  input : TurtleDexcoinInput
  used : Bool
  value : Currency
deriving DecidableEq, Repr

/-- The Go zero value of a `ttdcInput`. -/
def ttdcInput.zero : ttdcInput :=
  { input := TurtleDexcoinInput.zero, used := false, value := 0 }

/-- The struct `TransactionGraph`; the map `usedTurtleDexcoinInputSources` is the
list of its keys. -/
structure TransactionGraph where
  usedTurtleDexcoinInputSources : List TurtleDexcoinOutputID
  ttdcInputs : List ttdcInput
  transactions : List Transaction
deriving DecidableEq, Repr

/-- The struct `SimpleTransaction`; the input indexes are Go `int`s. -/
structure SimpleTransaction where
  TurtleDexcoinInputs : List Int
  TurtleDexcoinOutputs : List Currency
  MinerFees : List Currency
deriving DecidableEq, Repr

/-- The function `NewTransactionGraph`. -/
def NewTransactionGraph : TransactionGraph :=
  { usedTurtleDexcoinInputSources := [], ttdcInputs := [], transactions := [] }

/-- The method `TransactionGraph.Transactions`. -/
def TransactionGraph.Transactions (tg : TransactionGraph) : List Transaction :=
  tg.transactions

/-- The method `TransactionGraph.AddTurtleDexcoinSource`: the graph after the
call, the returned index and the returned error. -/
def TransactionGraph.AddTurtleDexcoinSource (tg : TransactionGraph)
    (scoid : TurtleDexcoinOutputID) (value : Currency) :
    TransactionGraph × Int × Option GraphError :=
  if scoid ∈ tg.usedTurtleDexcoinInputSources then
    (tg, -1, some .ErrTurtleDexcoinSourceAlreadyAdded)
  else
    let i := tg.ttdcInputs.length
    ({ tg with
        ttdcInputs := tg.ttdcInputs ++
          [{ input := { ParentID := scoid, UnlockConditions := UnlockConditions.zero },
             used := false, value := value }]
        usedTurtleDexcoinInputSources := tg.usedTurtleDexcoinInputSources ++ [scoid] },
      (i : Int), none)

/-- The state of the first loop of `AddTransaction` when it is left: the inputs
and the total collected, the error returned from inside the loop, or the
run-time panic of an index expression out of range. -/
inductive Consumed where
  | done (inputs : List TurtleDexcoinInput) (totalIn : Currency)
  | failed (err : GraphError)
  | panicked
deriving DecidableEq, Repr

/-- The first loop of `AddTransaction` ("Consume all of the inputs") from the
state `txn.TurtleDexcoinInputs`, `totalIn`. A negative index passes the check
`sci >= len(tg.ttdcInputs)` and the index expression panics. -/
def AddTransaction.consume (tg : TransactionGraph) :
    List Int → List TurtleDexcoinInput → Currency → Consumed
  | [], inputs, totalIn => .done inputs totalIn
  | sci :: rest, inputs, totalIn =>
    if sci ≥ (tg.ttdcInputs.length : Int) then .failed .ErrNoSuchTurtleDexcoinInput
    else if sci < 0 then .panicked
    else
      let x := tg.ttdcInputs.getD sci.toNat ttdcInput.zero
      if x.used then .failed .ErrTurtleDexcoinInputAlreadyUsed
      else AddTransaction.consume tg rest (inputs ++ [x.input]) (Currency.Add totalIn x.value)

/-- The assignment `tg.ttdcInputs[sci].used = true`. -/
def AddTransaction.markUsed (inputs : List ttdcInput) (sci : Int) : List ttdcInput :=
  inputs.set sci.toNat { (inputs.getD sci.toNat ttdcInput.zero) with used := true }

/-- The last loop of `AddTransaction`, from the index `i` of the output, on the
state `newTurtleDexcoinInputs`, `tg.ttdcInputs`. -/
def AddTransaction.addOutputs (env : Env) (txn : Transaction) :
    Nat → List TurtleDexcoinOutput → List Int × List ttdcInput → List Int × List ttdcInput
  | _, [], acc => acc
  | i, sco :: rest, (newInputs, inputs) =>
    AddTransaction.addOutputs env txn (i + 1) rest
      (newInputs ++ [(inputs.length : Int)],
        inputs ++ [{ input := { ParentID := txn.TurtleDexcoinOutputID env (i % 2 ^ 64),
                                UnlockConditions := UnlockConditions.zero },
                     used := false, value := sco.Value }])

/-- The transaction that `AddTransaction` builds from the collected inputs. -/
def AddTransaction.txn (AnyoneCanSpendUnlockHash : UnlockHash) (st : SimpleTransaction)
    (inputs : List TurtleDexcoinInput) : Transaction :=
  { Transaction.zero with
    TurtleDexcoinInputs := inputs
    TurtleDexcoinOutputs := st.TurtleDexcoinOutputs.map
      (fun scov => { UnlockHash := AnyoneCanSpendUnlockHash, Value := scov })
    MinerFees := st.MinerFees }

/-- The total `totalOut` of `AddTransaction` after the loops over the outputs
and the fees. -/
def AddTransaction.totalOut (st : SimpleTransaction) : Currency :=
  st.MinerFees.foldl Currency.Add (st.TurtleDexcoinOutputs.foldl Currency.Add 0)

/-- The method `TransactionGraph.AddTransaction`: `none` when the call panics,
else the graph after the call, the returned indexes and the returned error.
`AnyoneCanSpendUnlockHash` is the package variable of that name, the unlock hash
of the empty unlock conditions. -/
def TransactionGraph.AddTransaction (env : Env) (AnyoneCanSpendUnlockHash : UnlockHash)
    (tg : TransactionGraph) (st : SimpleTransaction) :
    Option (TransactionGraph × List Int × Option GraphError) :=
  match AddTransaction.consume tg st.TurtleDexcoinInputs [] 0 with
  | .panicked => none
  | .failed err => some (tg, [], some err)
  | .done inputs totalIn =>
    let txn := AddTransaction.txn AnyoneCanSpendUnlockHash st inputs
    let totalOut := AddTransaction.totalOut st
    if totalIn ≠ totalOut then
      some (tg, [], some (.ErrTurtleDexcoinInputsOutputsMismatch totalIn totalOut))
    else
      let marked := st.TurtleDexcoinInputs.foldl AddTransaction.markUsed tg.ttdcInputs
      let r := AddTransaction.addOutputs env txn 0 txn.TurtleDexcoinOutputs ([], marked)
      some ({ tg with ttdcInputs := r.2, transactions := tg.transactions ++ [txn] }, r.1, none)

/-- An input index that passes both checks of the first loop of
`AddTransaction`: it is in range and the input is not used. -/
def TransactionGraph.usable (tg : TransactionGraph) (sci : Int) : Prop :=
  0 ≤ sci ∧ sci < (tg.ttdcInputs.length : Int)
    ∧ (tg.ttdcInputs.getD sci.toNat ttdcInput.zero).used = false

instance (tg : TransactionGraph) (sci : Int) : Decidable (tg.usable sci) := by
  unfold TransactionGraph.usable; infer_instance

/-- The value of the input with the index `sci`. -/
def TransactionGraph.valueOf (tg : TransactionGraph) (sci : Int) : Currency :=
  (tg.ttdcInputs.getD sci.toNat ttdcInput.zero).value

/-- A source identifier. -/
def sampleSource : TurtleDexcoinOutputID := List.replicate 32 7

/-- A graph with one source of value 3 that a transaction has spent: the input 0
is used, the input 1 is the output of the transaction. -/
def sampleGraph : TransactionGraph :=
  match TransactionGraph.AddTransaction (consensus.sampleEnv true) Hash.zero
      (NewTransactionGraph.AddTurtleDexcoinSource sampleSource 3).1
      { TurtleDexcoinInputs := [0], TurtleDexcoinOutputs := [2], MinerFees := [1] } with
  | some r => r.1
  | none => NewTransactionGraph

/-- The graph with one source of value 1. -/
def sampleSourceGraph : TransactionGraph :=
  (NewTransactionGraph.AddTurtleDexcoinSource sampleSource 1).1

end typesutil

/-! ## Package `wallet`: the balance (`modules/wallet/money.go`) -/

namespace wallet

open types

/-- The callback that `Wallet.ConfirmedBalance` runs on every fund output of the
wallet, on the pair `siafundBalance`, `siafundClaimBalance`: the value is added
to the balance, and the claim `pool.Sub(ClaimStart).Mul(Value).Div(count)` to
the claim balance unless the claim start exceeds the pool. -/
def ConfirmedBalance.fundOutput (env : Env) (siafundPool : Currency)
    (balances : Currency × Currency) (sfo : TurtleDexfundOutput) : Currency × Currency :=
  let siafundBalance := Currency.Add balances.1 sfo.Value
  if sfo.ClaimStart > siafundPool then (siafundBalance, balances.2)
  else
    (siafundBalance,
      Currency.Add balances.2
        (Currency.Div (Currency.Mul (Currency.Sub siafundPool sfo.ClaimStart) sfo.Value)
          env.TurtleDexfundCount))

/-- The fund balances of `Wallet.ConfirmedBalance`: `siafundBalance` and
`siafundClaimBalance` after the loop over the fund outputs of the wallet. -/
def ConfirmedBalance.funds (env : Env) (siafundPool : Currency)
    (outputs : List TurtleDexfundOutput) : Currency × Currency :=
  outputs.foldl (ConfirmedBalance.fundOutput env siafundPool) (0, 0)

end wallet

/-! ## Package `explorer`: the indexes (`modules/explorer/update.go`) -/

namespace explorer

open types modules

/-- The type `types.Target`. -/
abbrev Target := Hash

/-- The type `types.Block` (types/block.go is not among the sources at hand)
with the fields that `ProcessConsensusChange` reads. -/
structure Block where
  ParentID : BlockID
  Timestamp : Nat
  MinerPayouts : List TurtleDexcoinOutput
  Transactions : List Transaction
deriving DecidableEq, Repr

/-- The Go zero value of a `Block`. -/
def Block.zero : Block :=
  { ParentID := Hash.zero, Timestamp := 0, MinerPayouts := [], Transactions := [] }

/-- The type `blockFacts` with the fields that `ProcessConsensusChange` itself
reads or writes; the other statistics are written by `dbCalculateBlockFacts`
only. -/
structure blockFacts where
  BlockID : types.BlockID
  ActiveContractCost : Currency
  ActiveContractCount : Nat
  ActiveContractSize : Currency
deriving DecidableEq, Repr

/-- The type `fileContractHistory`. -/
structure fileContractHistory where
  Contract : FileContract
  Revisions : List FileContractRevision
  StorageProof : types.StorageProof
deriving DecidableEq, Repr

/-- The type `modules.ConsensusChange` with the fields that
`ProcessConsensusChange` reads. -/
structure ConsensusChange where
  ID : Hash
  RevertedBlocks : List Block
  AppliedBlocks : List Block
  TurtleDexcoinOutputDiffs : List TurtleDexcoinOutputDiff
  FileContractDiffs : List FileContractDiff
  TurtleDexfundOutputDiffs : List TurtleDexfundOutputDiff
deriving DecidableEq, Repr

/-- What the explorer `e` works with and the sources at hand do not hold: the
consensus set `e.cs` (`ChildTarget`, `BlockAtHeight`), the methods `Block.ID`,
`Block.MinerPayoutID` and `UnlockConditions.UnlockHash`, the constants
`GenesisID`, `GenesisBlock` and `RootTarget`, the facts that
`dbAddGenesisBlock` stores, and the function `dbCalculateBlockFacts`, which
computes the facts of a block from the facts of its parent and from the
consensus set and writes no bucket (`none` is its panic). -/
structure Explorer where
  ID : Block → BlockID
  MinerPayoutID : Block → Nat → TurtleDexcoinOutputID
  UnlockHash : UnlockConditions → types.UnlockHash
  GenesisID : BlockID
  GenesisBlock : Block
  RootTarget : Target
  ChildTarget : BlockID → Option Target
  BlockAtHeight : BlockHeight → Option Block
  dbCalculateBlockFacts : blockFacts → Block → Option blockFacts
  genesisFacts : blockFacts

/-- The buckets of the explorer database as a bolt transaction sees them. A
bucket of values is a function of the key; a bucket of buckets
(`bucketUnlockHashes` and the three buckets of identifiers) holds for a key the
list of the transaction identifiers put into the bucket of that key, or `none`
when there is no bucket for the key; the two keys of `bucketInternal` are the
stored block height and the recent change. -/
structure Tx where
  BlockFacts : BlockID → Option blockFacts
  BlockIDs : BlockID → Option BlockHeight
  BlockTargets : BlockID → Option Target
  FileContractHistories : FileContractID → Option fileContractHistory
  FileContractIDs : FileContractID → Option (List TransactionID)
  TurtleDexcoinOutputIDs : TurtleDexcoinOutputID → Option (List TransactionID)
  TurtleDexcoinOutputs : TurtleDexcoinOutputID → Option TurtleDexcoinOutput
  TurtleDexfundOutputIDs : TurtleDexfundOutputID → Option (List TransactionID)
  TurtleDexfundOutputs : TurtleDexfundOutputID → Option TurtleDexfundOutput
  TransactionIDs : TransactionID → Option BlockHeight
  UnlockHashes : types.UnlockHash → Option (List TransactionID)
  internalBlockHeight : Option BlockHeight
  internalRecentChange : Option Hash

/-- The database with empty buckets and the block height `height`. -/
def Tx.empty (height : BlockHeight) : Tx :=
  { BlockFacts := fun _ => none, BlockIDs := fun _ => none, BlockTargets := fun _ => none,
    FileContractHistories := fun _ => none, FileContractIDs := fun _ => none,
    TurtleDexcoinOutputIDs := fun _ => none, TurtleDexcoinOutputs := fun _ => none,
    TurtleDexfundOutputIDs := fun _ => none, TurtleDexfundOutputs := fun _ => none,
    TransactionIDs := fun _ => none, UnlockHashes := fun _ => none,
    internalBlockHeight := some height, internalRecentChange := none }

/-- The function `mustPutSet` on the keys of a bucket: the key is in the
bucket afterwards. -/
def mustPutSet (bucket : List TransactionID) (key : TransactionID) : List TransactionID :=
  if key ∈ bucket then bucket else bucket ++ [key]

/-- The body shared by `dbAddFileContractID`, `dbAddTurtleDexcoinOutputID`,
`dbAddTurtleDexfundOutputID` and `dbAddUnlockHash`: `CreateBucketIfNotExists`
for the key `id`, then `mustPutSet` of `txid`. -/
def addID (bucket : Hash → Option (List TransactionID)) (id : Hash) (txid : TransactionID) :
    Hash → Option (List TransactionID) :=
  Function.update bucket id (some (mustPutSet ((bucket id).getD []) txid))

/-- The body shared by `dbRemoveFileContractID`, `dbRemoveTurtleDexcoinOutputID`,
`dbRemoveTurtleDexfundOutputID` and `dbRemoveUnlockHash`: `mustDelete` of
`txid` in the bucket of the key `id`, and `DeleteBucket` when that bucket is
empty afterwards. When there is no bucket for the key, `Bucket` returns nil
and `mustDelete` panics (`none`). -/
def removeID (bucket : Hash → Option (List TransactionID)) (id : Hash) (txid : TransactionID) :
    Option (Hash → Option (List TransactionID)) :=
  match bucket id with
  | none => none
  | some b =>
    some (Function.update bucket id (if b.erase txid = [] then none else some (b.erase txid)))

/-- The function `dbAddBlockID`. -/
def dbAddBlockID (tx : Tx) (id : BlockID) (height : BlockHeight) : Tx :=
  { tx with BlockIDs := Function.update tx.BlockIDs id (some height) }

/-- The function `dbRemoveBlockID`. -/
def dbRemoveBlockID (tx : Tx) (id : BlockID) : Tx :=
  { tx with BlockIDs := Function.update tx.BlockIDs id none }

/-- The function `dbAddBlockFacts`. -/
def dbAddBlockFacts (tx : Tx) (facts : blockFacts) : Tx :=
  { tx with BlockFacts := Function.update tx.BlockFacts facts.BlockID (some facts) }

/-- The function `dbRemoveBlockFacts`. -/
def dbRemoveBlockFacts (tx : Tx) (id : BlockID) : Tx :=
  { tx with BlockFacts := Function.update tx.BlockFacts id none }

/-- The function `dbAddBlockTarget`. -/
def dbAddBlockTarget (tx : Tx) (id : BlockID) (target : Target) : Tx :=
  { tx with BlockTargets := Function.update tx.BlockTargets id (some target) }

/-- The function `dbRemoveBlockTarget`. -/
def dbRemoveBlockTarget (tx : Tx) (id : BlockID) (_target : Target) : Tx :=
  { tx with BlockTargets := Function.update tx.BlockTargets id none }

/-- The function `dbAddFileContract`. -/
def dbAddFileContract (tx : Tx) (id : FileContractID) (fc : FileContract) : Tx :=
  { tx with
    FileContractHistories := Function.update tx.FileContractHistories id
      (some { Contract := fc, Revisions := [], StorageProof := StorageProof.zero }) }

/-- The function `dbRemoveFileContract`. -/
def dbRemoveFileContract (tx : Tx) (id : FileContractID) : Tx :=
  { tx with FileContractHistories := Function.update tx.FileContractHistories id none }

/-- The function `dbAddFileContractID`. -/
def dbAddFileContractID (tx : Tx) (id : FileContractID) (txid : TransactionID) : Tx :=
  { tx with FileContractIDs := addID tx.FileContractIDs id txid }

/-- The function `dbRemoveFileContractID`; `none` is a panic. -/
def dbRemoveFileContractID (tx : Tx) (id : FileContractID) (txid : TransactionID) : Option Tx :=
  (removeID tx.FileContractIDs id txid).map (fun b => { tx with FileContractIDs := b })

/-- The function `dbAddFileContractRevision`; `none` is the panic of
`assertNil`. The helper `dbGetAndDecode` (database.go, not among the sources at
hand) is taken to give the value stored under the key, and an error when there
is none. -/
def dbAddFileContractRevision (tx : Tx) (fcid : FileContractID) (fcr : FileContractRevision) :
    Option Tx :=
  match tx.FileContractHistories fcid with
  | none => none
  | some history =>
    some { tx with
      FileContractHistories := Function.update tx.FileContractHistories fcid
        (some { history with Revisions := history.Revisions ++ [fcr] }) }

/-- The function `dbRemoveFileContractRevision`; `none` is a panic, of
`assertNil` or of the slice expression when there is no revision. -/
def dbRemoveFileContractRevision (tx : Tx) (fcid : FileContractID) : Option Tx :=
  match tx.FileContractHistories fcid with
  | none => none
  | some history =>
    if history.Revisions = [] then none
    else
      some { tx with
        FileContractHistories := Function.update tx.FileContractHistories fcid
          (some { history with Revisions := history.Revisions.dropLast }) }

/-- The function `dbAddTurtleDexcoinOutput`. -/
def dbAddTurtleDexcoinOutput (tx : Tx) (id : TurtleDexcoinOutputID) (output : TurtleDexcoinOutput) :
    Tx :=
  { tx with TurtleDexcoinOutputs := Function.update tx.TurtleDexcoinOutputs id (some output) }

/-- The function `dbRemoveTurtleDexcoinOutput`. -/
def dbRemoveTurtleDexcoinOutput (tx : Tx) (id : TurtleDexcoinOutputID) : Tx :=
  { tx with TurtleDexcoinOutputs := Function.update tx.TurtleDexcoinOutputs id none }

/-- The function `dbAddTurtleDexcoinOutputID`. -/
def dbAddTurtleDexcoinOutputID (tx : Tx) (id : TurtleDexcoinOutputID) (txid : TransactionID) :
    Tx :=
  { tx with TurtleDexcoinOutputIDs := addID tx.TurtleDexcoinOutputIDs id txid }

/-- The function `dbRemoveTurtleDexcoinOutputID`; `none` is a panic. -/
def dbRemoveTurtleDexcoinOutputID (tx : Tx) (id : TurtleDexcoinOutputID)
    (txid : TransactionID) : Option Tx :=
  (removeID tx.TurtleDexcoinOutputIDs id txid).map
    (fun b => { tx with TurtleDexcoinOutputIDs := b })

/-- The function `dbAddTurtleDexfundOutput`. -/
def dbAddTurtleDexfundOutput (tx : Tx) (id : TurtleDexfundOutputID) (output : TurtleDexfundOutput) :
    Tx :=
  { tx with TurtleDexfundOutputs := Function.update tx.TurtleDexfundOutputs id (some output) }

/-- The function `dbAddTurtleDexfundOutputID`. -/
def dbAddTurtleDexfundOutputID (tx : Tx) (id : TurtleDexfundOutputID) (txid : TransactionID) :
    Tx :=
  { tx with TurtleDexfundOutputIDs := addID tx.TurtleDexfundOutputIDs id txid }

/-- The function `dbRemoveTurtleDexfundOutputID`; `none` is a panic. -/
def dbRemoveTurtleDexfundOutputID (tx : Tx) (id : TurtleDexfundOutputID)
    (txid : TransactionID) : Option Tx :=
  (removeID tx.TurtleDexfundOutputIDs id txid).map
    (fun b => { tx with TurtleDexfundOutputIDs := b })

/-- The function `dbAddStorageProof`; `none` is the panic of `assertNil`. -/
def dbAddStorageProof (tx : Tx) (fcid : FileContractID) (sp : StorageProof) : Option Tx :=
  match tx.FileContractHistories fcid with
  | none => none
  | some history =>
    some { tx with
      FileContractHistories := Function.update tx.FileContractHistories fcid
        (some { history with StorageProof := sp }) }

/-- The function `dbRemoveStorageProof`. -/
def dbRemoveStorageProof (tx : Tx) (fcid : FileContractID) : Option Tx :=
  dbAddStorageProof tx fcid StorageProof.zero

/-- The function `dbAddTransactionID`. -/
def dbAddTransactionID (tx : Tx) (id : TransactionID) (height : BlockHeight) : Tx :=
  { tx with TransactionIDs := Function.update tx.TransactionIDs id (some height) }

/-- The function `dbRemoveTransactionID`. -/
def dbRemoveTransactionID (tx : Tx) (id : TransactionID) : Tx :=
  { tx with TransactionIDs := Function.update tx.TransactionIDs id none }

/-- The function `dbAddUnlockHash`. -/
def dbAddUnlockHash (tx : Tx) (uh : types.UnlockHash) (txid : TransactionID) : Tx :=
  { tx with UnlockHashes := addID tx.UnlockHashes uh txid }

/-- The function `dbRemoveUnlockHash`; `none` is a panic. -/
def dbRemoveUnlockHash (tx : Tx) (uh : types.UnlockHash) (txid : TransactionID) : Option Tx :=
  (removeID tx.UnlockHashes uh txid).map (fun b => { tx with UnlockHashes := b })

/-- A loop `for _, x := range xs` whose body may panic. -/
def forEach {α : Type} (body : Tx → α → Option Tx) : List α → Tx → Option Tx
  | [], tx => some tx
  | x :: xs, tx =>
    match body tx x with
    | none => none
    | some tx1 => forEach body xs tx1

/-- A loop `for i, x := range xs` whose body may panic, from the index `i`. -/
def forEachIdx {α : Type} (body : Tx → Nat → α → Option Tx) : Nat → List α → Tx → Option Tx
  | _, [], tx => some tx
  | i, x :: xs, tx =>
    match body tx i x with
    | none => none
    | some tx1 => forEachIdx body (i + 1) xs tx1

/-- The two statements of the loops over proof outputs and miner payouts of the
reverted blocks: `dbRemoveTurtleDexcoinOutputID` and `dbRemoveUnlockHash`. -/
def removeOutput (txid : TransactionID) (scoid : TurtleDexcoinOutputID)
    (sco : TurtleDexcoinOutput) (tx : Tx) : Option Tx :=
  (dbRemoveTurtleDexcoinOutputID tx scoid txid).bind
    (fun tx1 => dbRemoveUnlockHash tx1 sco.UnlockHash txid)

/-- The two statements of the loops over proof outputs and miner payouts of the
applied blocks: `dbAddTurtleDexcoinOutputID` and `dbAddUnlockHash`. -/
def addOutput (txid : TransactionID) (scoid : TurtleDexcoinOutputID)
    (sco : TurtleDexcoinOutput) (tx : Tx) : Tx :=
  dbAddUnlockHash (dbAddTurtleDexcoinOutputID tx scoid txid) sco.UnlockHash txid

/-- The body of the loop "Remove transactions" of `ProcessConsensusChange`. -/
def revertTransaction (env : Env) (e : Explorer) (tx : Tx) (txn : Transaction) : Option Tx :=
  let txid := txn.ID env
  let tx := dbRemoveTransactionID tx txid
  (forEach (fun tx sci =>
      (dbRemoveTurtleDexcoinOutputID tx sci.ParentID txid).bind
        (fun tx => dbRemoveUnlockHash tx (e.UnlockHash sci.UnlockConditions) txid))
    txn.TurtleDexcoinInputs tx).bind fun tx =>
  (forEachIdx (fun tx k sco =>
      let scoid := txn.TurtleDexcoinOutputID env (k % 2 ^ 64)
      (removeOutput txid scoid sco tx).map (fun tx => dbRemoveTurtleDexcoinOutput tx scoid))
    0 txn.TurtleDexcoinOutputs tx).bind fun tx =>
  (forEachIdx (fun tx k fc =>
      let fcid := txn.FileContractID env (k % 2 ^ 64)
      (dbRemoveFileContractID tx fcid txid).bind fun tx =>
      (dbRemoveUnlockHash tx fc.UnlockHash txid).bind fun tx =>
      (forEachIdx (fun tx l sco =>
          removeOutput txid (env.StorageProofOutputID fcid ProofValid (l % 2 ^ 64)) sco tx)
        0 fc.ValidProofOutputs tx).bind fun tx =>
      (forEachIdx (fun tx l sco =>
          removeOutput txid (env.StorageProofOutputID fcid ProofMissed (l % 2 ^ 64)) sco tx)
        0 fc.MissedProofOutputs tx).map fun tx =>
      dbRemoveFileContract tx fcid)
    0 txn.FileContracts tx).bind fun tx =>
  (forEach (fun tx fcr =>
      (dbRemoveFileContractID tx fcr.ParentID txid).bind fun tx =>
      (dbRemoveUnlockHash tx (e.UnlockHash fcr.UnlockConditions) txid).bind fun tx =>
      (dbRemoveUnlockHash tx fcr.NewUnlockHash txid).bind fun tx =>
      (forEachIdx (fun tx l sco =>
          removeOutput txid (env.StorageProofOutputID fcr.ParentID ProofValid (l % 2 ^ 64))
            sco tx)
        0 fcr.NewValidProofOutputs tx).bind fun tx =>
      (forEachIdx (fun tx l sco =>
          removeOutput txid (env.StorageProofOutputID fcr.ParentID ProofMissed (l % 2 ^ 64))
            sco tx)
        0 fcr.NewMissedProofOutputs tx).bind fun tx =>
      dbRemoveFileContractRevision tx fcr.ParentID)
    txn.FileContractRevisions tx).bind fun tx =>
  (forEach (fun tx sp => dbRemoveStorageProof tx sp.ParentID) txn.StorageProofs tx).bind fun tx =>
  (forEach (fun tx sfi =>
      (dbRemoveTurtleDexfundOutputID tx sfi.ParentID txid).bind fun tx =>
      (dbRemoveUnlockHash tx (e.UnlockHash sfi.UnlockConditions) txid).bind fun tx =>
      dbRemoveUnlockHash tx sfi.ClaimUnlockHash txid)
    txn.TurtleDexfundInputs tx).bind fun tx =>
  forEachIdx (fun tx k sfo =>
      (dbRemoveTurtleDexfundOutputID tx (txn.TurtleDexfundOutputID env (k % 2 ^ 64)) txid).bind
        fun tx => dbRemoveUnlockHash tx sfo.UnlockHash txid)
    0 txn.TurtleDexfundOutputs tx

/-- The body of the loop over `cc.RevertedBlocks` of `ProcessConsensusChange`,
on the database and the variable `blockheight`. -/
def revertBlock (env : Env) (e : Explorer) (tx : Tx) (blockheight : BlockHeight)
    (block : Block) : Option (Tx × BlockHeight) :=
  let bid := e.ID block
  let tbid : TransactionID := bid
  let blockheight := (blockheight + 2 ^ 64 - 1) % 2 ^ 64
  let tx := dbRemoveBlockID tx bid
  let tx := dbRemoveTransactionID tx tbid
  let target := (e.ChildTarget block.ParentID).getD e.RootTarget
  let tx := dbRemoveBlockTarget tx bid target
  (forEachIdx (fun tx j payout =>
      removeOutput tbid (e.MinerPayoutID block (j % 2 ^ 64)) payout tx)
    0 block.MinerPayouts tx).bind fun tx =>
  (forEach (revertTransaction env e) block.Transactions tx).map fun tx =>
  (dbRemoveBlockFacts tx bid, blockheight)

/-- The loop over `cc.RevertedBlocks`. -/
def revertBlocks (env : Env) (e : Explorer) :
    List Block → Tx → BlockHeight → Option (Tx × BlockHeight)
  | [], tx, blockheight => some (tx, blockheight)
  | block :: rest, tx, blockheight =>
    match revertBlock env e tx blockheight block with
    | none => none
    | some (tx1, blockheight1) => revertBlocks env e rest tx1 blockheight1

/-- The body of the loop "Update cumulative stats for applied transactions" of
`ProcessConsensusChange`. -/
def applyTransaction (env : Env) (e : Explorer) (blockheight : BlockHeight) (tx : Tx)
    (txn : Transaction) : Option Tx :=
  let txid := txn.ID env
  let tx := dbAddTransactionID tx txid blockheight
  let tx := txn.TurtleDexcoinInputs.foldl (fun tx sci =>
      dbAddUnlockHash (dbAddTurtleDexcoinOutputID tx sci.ParentID txid)
        (e.UnlockHash sci.UnlockConditions) txid) tx
  (forEachIdx (fun tx j sco =>
      some (addOutput txid (txn.TurtleDexcoinOutputID env (j % 2 ^ 64)) sco tx))
    0 txn.TurtleDexcoinOutputs tx).bind fun tx =>
  (forEachIdx (fun tx k fc =>
      let fcid := txn.FileContractID env (k % 2 ^ 64)
      let tx := dbAddFileContractID tx fcid txid
      let tx := dbAddUnlockHash tx fc.UnlockHash txid
      let tx := dbAddFileContract tx fcid fc
      (forEachIdx (fun tx l sco =>
          some (addOutput txid (env.StorageProofOutputID fcid ProofValid (l % 2 ^ 64)) sco tx))
        0 fc.ValidProofOutputs tx).bind fun tx =>
      forEachIdx (fun tx l sco =>
          some (addOutput txid (env.StorageProofOutputID fcid ProofMissed (l % 2 ^ 64)) sco tx))
        0 fc.MissedProofOutputs tx)
    0 txn.FileContracts tx).bind fun tx =>
  (forEach (fun tx fcr =>
      let tx := dbAddFileContractID tx fcr.ParentID txid
      let tx := dbAddUnlockHash tx (e.UnlockHash fcr.UnlockConditions) txid
      let tx := dbAddUnlockHash tx fcr.NewUnlockHash txid
      (forEachIdx (fun tx l sco =>
          some (addOutput txid
            (env.StorageProofOutputID fcr.ParentID ProofValid (l % 2 ^ 64)) sco tx))
        0 fcr.NewValidProofOutputs tx).bind fun tx =>
      (forEachIdx (fun tx l sco =>
          some (addOutput txid
            (env.StorageProofOutputID fcr.ParentID ProofMissed (l % 2 ^ 64)) sco tx))
        0 fcr.NewMissedProofOutputs tx).bind fun tx =>
      dbAddFileContractRevision tx fcr.ParentID fcr)
    txn.FileContractRevisions tx).bind fun tx =>
  (forEach (fun tx sp =>
      dbAddStorageProof (dbAddFileContractID tx sp.ParentID txid) sp.ParentID sp)
    txn.StorageProofs tx).bind fun tx =>
  (forEach (fun tx sfi =>
      some (dbAddUnlockHash
        (dbAddUnlockHash (dbAddTurtleDexfundOutputID tx sfi.ParentID txid)
          (e.UnlockHash sfi.UnlockConditions) txid)
        sfi.ClaimUnlockHash txid))
    txn.TurtleDexfundInputs tx).bind fun tx =>
  forEachIdx (fun tx k sfo =>
      some (dbAddUnlockHash
        (dbAddTurtleDexfundOutputID tx (txn.TurtleDexfundOutputID env (k % 2 ^ 64)) txid)
        sfo.UnlockHash txid))
    0 txn.TurtleDexfundOutputs tx

/-- The function `dbAddGenesisBlock`. -/
def dbAddGenesisBlock (env : Env) (e : Explorer) (tx : Tx) : Option Tx :=
  let id := e.GenesisID
  let tx := dbAddBlockID tx id 0
  (forEach (fun tx transaction =>
      let txid := Transaction.ID env transaction
      let tx := dbAddTransactionID tx txid 0
      (forEachIdx (fun tx i sco =>
          let scoid := Transaction.TurtleDexcoinOutputID env transaction (i % 2 ^ 64)
          some (dbAddTurtleDexcoinOutput (addOutput txid scoid sco tx) scoid sco))
        0 transaction.TurtleDexcoinOutputs tx).bind fun tx =>
      forEachIdx (fun tx i sfo =>
          let sfoid := Transaction.TurtleDexfundOutputID env transaction (i % 2 ^ 64)
          some (dbAddTurtleDexfundOutput
            (dbAddUnlockHash (dbAddTurtleDexfundOutputID tx sfoid txid) sfo.UnlockHash txid)
            sfoid sfo))
        0 transaction.TurtleDexfundOutputs tx)
    e.GenesisBlock.Transactions tx).map fun tx =>
  dbAddBlockFacts tx { e.genesisFacts with BlockID := id }

/-- The body of the loop over `cc.AppliedBlocks` of `ProcessConsensusChange`,
on the database and the variable `blockheight`. -/
def applyBlock (env : Env) (e : Explorer) (tx : Tx) (blockheight : BlockHeight)
    (block : Block) : Option (Tx × BlockHeight) :=
  let bid := e.ID block
  let tbid : TransactionID := bid
  if bid = e.GenesisID then (dbAddGenesisBlock env e tx).map (fun tx => (tx, blockheight))
  else
    let blockheight := (blockheight + 1) % 2 ^ 64
    let tx := dbAddBlockID tx bid blockheight
    let tx := dbAddTransactionID tx tbid blockheight
    let target := (e.ChildTarget block.ParentID).getD e.RootTarget
    let tx := dbAddBlockTarget tx bid target
    (forEachIdx (fun tx j payout =>
        some (addOutput tbid (e.MinerPayoutID block (j % 2 ^ 64)) payout tx))
      0 block.MinerPayouts tx).bind fun tx =>
    (forEach (applyTransaction env e blockheight) block.Transactions tx).bind fun tx =>
    match tx.BlockFacts block.ParentID with
    | none => some (tx, blockheight)
    | some parentFacts =>
      (e.dbCalculateBlockFacts parentFacts block).map
        (fun facts => (dbAddBlockFacts tx facts, blockheight))

/-- The loop over `cc.AppliedBlocks`. -/
def applyBlocks (env : Env) (e : Explorer) :
    List Block → Tx → BlockHeight → Option (Tx × BlockHeight)
  | [], tx, blockheight => some (tx, blockheight)
  | block :: rest, tx, blockheight =>
    match applyBlock env e tx blockheight block with
    | none => none
    | some (tx1, blockheight1) => applyBlocks env e rest tx1 blockheight1

/-- The loop over `cc.FileContractDiffs` on the facts of the current block. -/
def activeContracts (facts : blockFacts) (diff : FileContractDiff) : blockFacts :=
  if diff.Direction = .DiffApply then
    { facts with
      ActiveContractCount := (facts.ActiveContractCount + 1) % 2 ^ 64
      ActiveContractCost := Currency.Add facts.ActiveContractCost diff.FileContract.Payout
      ActiveContractSize := Currency.Add facts.ActiveContractSize diff.FileContract.FileSize }
  else
    { facts with
      ActiveContractCount := (facts.ActiveContractCount + 2 ^ 64 - 1) % 2 ^ 64
      ActiveContractCost := Currency.Sub facts.ActiveContractCost diff.FileContract.Payout
      ActiveContractSize := Currency.Sub facts.ActiveContractSize diff.FileContract.FileSize }

/-- The function that `ProcessConsensusChange` passes to `e.db.Update`: the
database it leaves, or `none` when it returns an error (a panic of the body is
recovered into an error). `build.Critical` panics when `build.DEBUG` is set and
only prints otherwise. -/
def update (env : Env) (e : Explorer) (cc : ConsensusChange) (tx : Tx) : Option Tx :=
  match tx.internalBlockHeight with
  | none => none
  | some blockheight =>
    (revertBlocks env e cc.RevertedBlocks tx blockheight).bind fun (tx, blockheight) =>
    (applyBlocks env e cc.AppliedBlocks tx blockheight).bind fun (tx, blockheight) =>
    let tx := cc.TurtleDexcoinOutputDiffs.foldl (fun tx scod =>
        if scod.Direction = .DiffApply then
          dbAddTurtleDexcoinOutput tx scod.ID scod.TurtleDexcoinOutput
        else tx) tx
    let tx := cc.TurtleDexfundOutputDiffs.foldl (fun tx sfod =>
        if sfod.Direction = .DiffApply then
          dbAddTurtleDexfundOutput tx sfod.ID sfod.TurtleDexfundOutput
        else tx) tx
    if (e.BlockAtHeight blockheight).isNone ∧ env.DEBUG = true then none
    else
      let currentBlock := (e.BlockAtHeight blockheight).getD Block.zero
      let currentID := e.ID currentBlock
      let tx :=
        match tx.BlockFacts currentID with
        | none => tx
        | some facts =>
          { tx with
            BlockFacts := Function.update tx.BlockFacts currentID
              (some (cc.FileContractDiffs.foldl activeContracts facts)) }
      some { tx with
        internalBlockHeight := some blockheight
        internalRecentChange := some cc.ID }

/-- How a call of `ProcessConsensusChange` ends: it returns with the database
updated, it returns after `build.Critical` has printed that the update failed
(bolt has rolled the database back), or it panics (`build.Critical` with
`build.DEBUG` set). -/
inductive Result where
  | done (db : Tx)
  | failed (db : Tx)
  | panicked

/-- Whether the call returned with the database updated. -/
def Result.isDone : Result → Bool
  | .done _ => true
  | _ => false

/-- Whether the call panicked. -/
def Result.isPanicked : Result → Bool
  | .panicked => true
  | _ => false

/-- The database after the call, when it returned. -/
def Result.db (fallback : Tx) : Result → Tx
  | .done db => db
  | .failed db => db
  | .panicked => fallback

/-- The method `Explorer.ProcessConsensusChange` on the database `db`. -/
def ProcessConsensusChange (env : Env) (e : Explorer) (db : Tx) (cc : ConsensusChange) :
    Result :=
  if cc.AppliedBlocks = [] ∧ env.DEBUG = true then .panicked
  else
    match update env e cc db with
    | some tx => .done tx
    | none => if env.DEBUG = true then .panicked else .failed db

/-- A sample explorer: no target is known, every height has a block, and the
identifiers are the parent identifier behind a tag. -/
def sampleExplorer : Explorer :=
  { ID := fun b => 66 :: b.ParentID
    MinerPayoutID := fun b j => 77 :: j :: b.ParentID
    UnlockHash := fun uc => 85 :: uc.MarshalTurtleDex
    GenesisID := [0]
    GenesisBlock := Block.zero
    RootTarget := [0]
    ChildTarget := fun _ => none
    BlockAtHeight := fun _ => some Block.zero
    dbCalculateBlockFacts := fun parentFacts _ => some parentFacts
    genesisFacts := { BlockID := [0], ActiveContractCost := 0, ActiveContractCount := 0,
                      ActiveContractSize := 0 } }

/-- A database at the height 5 that knows one file contract, with the
identifier `[70]`, created by the transaction `[71]`, without revisions and
without a storage proof. -/
def sampleDB : Tx :=
  { Tx.empty 5 with
    FileContractHistories := Function.update (fun _ => none) [70]
      (some { Contract := FileContract.zero, Revisions := [], StorageProof := StorageProof.zero })
    FileContractIDs := Function.update (fun _ => none) [70] (some [[71]]) }

/-- A transaction with one storage proof, for the contract `[70]`. -/
def sampleProofTransaction : Transaction :=
  { Transaction.zero with StorageProofs := [{ StorageProof.zero with ParentID := [70] }] }

/-- A block with one miner payout and the transaction with the storage proof;
it is not the genesis block. -/
def sampleProofBlock : Block :=
  { ParentID := [9], Timestamp := 0, MinerPayouts := [{ Value := 1, UnlockHash := [80] }],
    Transactions := [sampleProofTransaction] }

/-- The change that applies the block `block`. -/
def applies (block : Block) : ConsensusChange :=
  { ID := [1], RevertedBlocks := [], AppliedBlocks := [block], TurtleDexcoinOutputDiffs := [],
    FileContractDiffs := [], TurtleDexfundOutputDiffs := [] }

/-- The change that reverts the block `block`. -/
def reverts (block : Block) : ConsensusChange :=
  { ID := [2], RevertedBlocks := [block], AppliedBlocks := [], TurtleDexcoinOutputDiffs := [],
    FileContractDiffs := [], TurtleDexfundOutputDiffs := [] }

/-- The database after the change that applies `block` and then the change
that reverts it have been processed, from the database `db`. -/
def appliedThenReverted (env : Env) (e : Explorer) (db : Tx) (block : Block) : Result :=
  ProcessConsensusChange env e
    ((ProcessConsensusChange env e db (applies block)).db db) (reverts block)

/-- A transaction that creates a file contract. -/
def sampleCreate : Transaction :=
  { Transaction.zero with FileContracts := [{ FileContract.zero with UnlockHash := [81] }] }

/-- A transaction that revises the file contract of `sampleCreate`. -/
def sampleRevise : Transaction :=
  { Transaction.zero with
    FileContractRevisions :=
      [{ FileContractRevision.zero with
         ParentID := sampleCreate.FileContractID (consensus.sampleEnv false) 0
         NewRevisionNumber := 1, NewUnlockHash := [82] }] }

/-- A block that creates a contract and revises it. -/
def sampleReviseBlock : Block :=
  { ParentID := [9], Timestamp := 0, MinerPayouts := [{ Value := 1, UnlockHash := [80] }],
    Transactions := [sampleCreate, sampleRevise] }

end explorer

namespace consensus

open modules types

/-- A sample: three fund outputs with the claim start 300. -/
def sampleClaims : List TurtleDexfundOutput :=
  [{ Value := 2500, UnlockHash := Hash.zero, ClaimStart := 300 },
   { Value := 7000, UnlockHash := Hash.zero, ClaimStart := 300 },
   { Value := 1, UnlockHash := Hash.zero, ClaimStart := 300 }]

/-- A sample: a database whose fund pool is 123456. -/
def sampleClaimDB : ConsensusDB := { sampleDB with TurtleDexfundPool := 123456 }

/-- Sample data: a database whose current Foundation unlock hashes are not the
zero hashes and whose archive is empty. -/
def sampleFoundationDB : ConsensusDB :=
  { ConsensusDB.empty with
    FoundationUnlockHashes := (List.replicate 32 9, List.replicate 32 8) }

/-- Sample data: a transaction whose only entry is the Foundation specifier
without a payload. -/
def sampleNoPayload : Transaction :=
  { Transaction.zero with ArbitraryData := [SpecifierFoundation] }

/-- The fund pool diff that creating the contract `fc` appends when the
database is at height `h` and the pool is `pool`. -/
def fileContractTax (env : Env) (h : types.BlockHeight) (pool : Currency) (fc : FileContract) :
    TurtleDexfundPoolDiff :=
  { Direction := .DiffApply, Previous := pool,
    Adjusted := Currency.Add pool (env.Tax h fc.Payout) }

/-- The diffs of a list of contracts in the order in which `applyFileContracts`
appends them when the database is at height `h` and the pool is `pool`: for
the contract with the index `i` its file contract diff and, right after it, the
fund pool diff that adds the tax on its payout to the pool the diffs before
have left. -/
def fileContractTrace (env : Env) (t : Transaction) (h : types.BlockHeight) :
    Currency → Nat → List FileContract → List Diff
  | _, _, [] => []
  | pool, i, fc :: rest =>
    .contract (fileContractDiff (t.FileContractID env i, fc))
      :: .pool (fileContractTax env h pool fc)
      :: fileContractTrace env t h (Currency.Add pool (env.Tax h fc.Payout)) (i + 1) rest

/-- Sample data: the sample environment with a tax that changes at height 7,
as `types.Tax` changes at the height of its hardfork. -/
def sampleTaxEnv : Env :=
  { sampleEnv true with
    Tax := fun height payout =>
      if height < 7 then payout * 39 / 1000 else payout * 39 / 1000 / 10000 * 10000 }

/-- Sample data: a transaction creating one contract with the payout
300,000. -/
def sampleOneContract : Transaction :=
  { Transaction.zero with FileContracts := [{ FileContract.zero with Payout := 300000 }] }

/-- Sample data: a database at height 6 with a fund pool of 500. -/
def sampleLowDB : ConsensusDB :=
  { ConsensusDB.empty with TurtleDexfundPool := 500, BlockHeight := 6 }

/-! ## Sequencing lemmas -/

@[simp] theorem Outcome.andThen_ok (tx : ConsensusDB) (pb : processedBlock)
    (f : ConsensusDB → processedBlock → Outcome) : (Outcome.ok tx pb).andThen f = f tx pb := rfl

@[simp] theorem Outcome.andThen_fatal (e : Fatal) (tx : ConsensusDB) (pb : processedBlock)
    (f : ConsensusDB → processedBlock → Outcome) :
    (Outcome.fatal e tx pb).andThen f = Outcome.fatal e tx pb := rfl

@[simp] theorem Outcome.andThen_ok_right (o : Outcome) : o.andThen Outcome.ok = o := by
  cases o <;> rfl

theorem Outcome.andThen_assoc (o : Outcome) (f g : ConsensusDB → processedBlock → Outcome) :
    (o.andThen f).andThen g = o.andThen (fun tx pb => (f tx pb).andThen g) := by
  cases o <;> rfl

@[simp] theorem forRange_nil {α : Type} (body : α → ConsensusDB → processedBlock → Outcome)
    (tx : ConsensusDB) (pb : processedBlock) : forRange body [] tx pb = .ok tx pb := rfl

@[simp] theorem forRange_cons {α : Type} (body : α → ConsensusDB → processedBlock → Outcome)
    (x : α) (rest : List α) (tx : ConsensusDB) (pb : processedBlock) :
    forRange body (x :: rest) tx pb = (body x tx pb).andThen (forRange body rest) := rfl

theorem forRange_append {α : Type} (body : α → ConsensusDB → processedBlock → Outcome)
    (xs ys : List α) (tx : ConsensusDB) (pb : processedBlock) :
    forRange body (xs ++ ys) tx pb = (forRange body xs tx pb).andThen (forRange body ys) := by
  induction xs generalizing tx pb with
  | nil => simp
  | cons x rest ih =>
    simp only [List.cons_append, forRange_cons, Outcome.andThen_assoc]
    congr 1
    funext tx1 pb1
    exact ih tx1 pb1

@[simp] theorem forRangeFrom_nil {α : Type}
    (body : Nat → α → ConsensusDB → processedBlock → Outcome) (i : Nat)
    (tx : ConsensusDB) (pb : processedBlock) : forRangeFrom body i [] tx pb = .ok tx pb := by
  simp [forRangeFrom]

@[simp] theorem forRangeFrom_cons {α : Type}
    (body : Nat → α → ConsensusDB → processedBlock → Outcome) (i : Nat) (x : α) (rest : List α)
    (tx : ConsensusDB) (pb : processedBlock) :
    forRangeFrom body i (x :: rest) tx pb
      = (body i x tx pb).andThen (forRangeFrom body (i + 1) rest) := by
  simp [forRangeFrom]

theorem forRangeFrom_append {α : Type}
    (body : Nat → α → ConsensusDB → processedBlock → Outcome) (i : Nat) (xs ys : List α)
    (tx : ConsensusDB) (pb : processedBlock) :
    forRangeFrom body i (xs ++ ys) tx pb
      = (forRangeFrom body i xs tx pb).andThen (forRangeFrom body (i + xs.length) ys) := by
  induction xs generalizing i tx pb with
  | nil => simp
  | cons x rest ih =>
    simp only [List.cons_append, forRangeFrom_cons, Outcome.andThen_assoc, List.length_cons]
    congr 1
    funext tx1 pb1
    rw [ih (i + 1) tx1 pb1]
    have h : i + 1 + rest.length = i + (rest.length + 1) := by omega
    rw [h]

/-! ## C1: the order of the stages of `applyTransaction` -/

/-- C1: `applyTransaction` has exactly the effect of running
`applyTurtleDexcoinInputs`, `applyTurtleDexcoinOutputs`, `applyFileContracts`,
`applyFileContractRevisions`, `applyStorageProofs`, `applyTurtleDexfundInputs`,
`applyTurtleDexfundOutputs` and `applyArbitraryData` in this order on the same
arguments (a panic of one stage stops the later ones); in particular the coin
inputs are consumed first and the coin outputs are created on the state the
inputs left. -/
theorem applyTransaction_order (env : Env) (tx : ConsensusDB) (pb : processedBlock)
    (t : Transaction) :
    applyTransaction env tx pb t
        = runInOrder env t
            [applyTurtleDexcoinInputs, applyTurtleDexcoinOutputs, applyFileContracts,
              applyFileContractRevisions, applyStorageProofs, applyTurtleDexfundInputs,
              applyTurtleDexfundOutputs, applyArbitraryData] tx pb
      ∧ applyTransaction env tx pb t
        = (applyTurtleDexcoinInputs env tx pb t).andThen (fun tx1 pb1 =>
            (applyTurtleDexcoinOutputs env tx1 pb1 t).andThen
              (runInOrder env t
                [applyFileContracts, applyFileContractRevisions, applyStorageProofs,
                  applyTurtleDexfundInputs, applyTurtleDexfundOutputs, applyArbitraryData])) := by
  constructor <;> simp [applyTransaction, runInOrder]

/-! ## C2: coin inputs -/

theorem applyTurtleDexcoinInputsBody_present (env : Env) (sci : TurtleDexcoinInput)
    (tx : ConsensusDB) (pb : processedBlock) (o : TurtleDexcoinOutput)
    (h : tx.TurtleDexcoinOutputs sci.ParentID = some o) :
    applyTurtleDexcoinInputsBody env sci tx pb
      = .ok { tx with TurtleDexcoinOutputs := Function.update tx.TurtleDexcoinOutputs sci.ParentID none }
          { pb with TurtleDexcoinOutputDiffs := pb.TurtleDexcoinOutputDiffs ++
              [{ Direction := .DiffRevert, ID := sci.ParentID, TurtleDexcoinOutput := o }] } := by
  simp [applyTurtleDexcoinInputsBody, getTurtleDexcoinOutput, h, commitTurtleDexcoinOutputDiff,
    removeTurtleDexcoinOutput, Outcome.ofUpdate]

theorem withoutKeys_nil {V : Type} (m : Hash → Option V) : withoutKeys m [] = m := by
  funext k
  simp [withoutKeys]

theorem withoutKeys_update_none {V : Type} (m : Hash → Option V) (a : Hash) (ks : List Hash) :
    withoutKeys (Function.update m a none) ks = withoutKeys m (a :: ks) := by
  funext k
  by_cases hk : k = a
  · subst hk
    by_cases hmem : k ∈ ks <;> simp [withoutKeys, hmem]
  · by_cases hmem : k ∈ ks <;> simp [withoutKeys, hmem, hk, Function.update_noteq hk]

theorem coinInputDiff_update_ne (tx : ConsensusDB) (a : Hash) (v : Option TurtleDexcoinOutput)
    (sci : TurtleDexcoinInput) (h : sci.ParentID ≠ a) :
    coinInputDiff { tx with TurtleDexcoinOutputs := Function.update tx.TurtleDexcoinOutputs a v } sci
      = coinInputDiff tx sci := by
  simp [coinInputDiff, getTurtleDexcoinOutput, Function.update_noteq h]

theorem forRange_applyTurtleDexcoinInputsBody (env : Env) (l : List TurtleDexcoinInput) :
    ∀ (tx : ConsensusDB) (pb : processedBlock),
      (∀ sci ∈ l, (tx.TurtleDexcoinOutputs sci.ParentID).isSome) →
      (l.map (fun sci => sci.ParentID)).Nodup →
      forRange (applyTurtleDexcoinInputsBody env) l tx pb
        = .ok { tx with TurtleDexcoinOutputs :=
                  withoutKeys tx.TurtleDexcoinOutputs (l.map (fun sci => sci.ParentID)) }
            { pb with TurtleDexcoinOutputDiffs :=
                  pb.TurtleDexcoinOutputDiffs ++ l.map (coinInputDiff tx) } := by
  induction l with
  | nil =>
    intro tx pb _ _
    simp [withoutKeys_nil]
  | cons sci rest ih =>
    intro tx pb hpresent hnodup
    obtain ⟨o, ho⟩ := Option.isSome_iff_exists.mp (hpresent sci (List.mem_cons_self _ _))
    rw [List.map_cons, List.nodup_cons] at hnodup
    obtain ⟨hnot, hrest⟩ := hnodup
    have hne : ∀ s ∈ rest, s.ParentID ≠ sci.ParentID := by
      intro s hs heq
      exact hnot (List.mem_map.mpr ⟨s, hs, heq⟩)
    rw [forRange_cons, applyTurtleDexcoinInputsBody_present env sci tx pb o ho,
      Outcome.andThen_ok, ih]
    · have hmap := List.map_congr_left
        (fun s (hs : s ∈ rest) => coinInputDiff_update_ne tx sci.ParentID none s (hne s hs))
      simp [withoutKeys_update_none, hmap, coinInputDiff, getTurtleDexcoinOutput, ho]
    · intro s hs
      simpa [Function.update_noteq (hne s hs)] using hpresent s (List.mem_cons_of_mem _ hs)
    · exact hrest

theorem commitTurtleDexcoinOutputDiffs_inputs (l : List TurtleDexcoinInput) :
    ∀ (tx : ConsensusDB),
      (∀ sci ∈ l, (tx.TurtleDexcoinOutputs sci.ParentID).isSome) →
      (l.map (fun sci => sci.ParentID)).Nodup →
      commitTurtleDexcoinOutputDiffs .DiffApply (l.map (coinInputDiff tx)) tx
        = .ok { tx with TurtleDexcoinOutputs :=
                  withoutKeys tx.TurtleDexcoinOutputs (l.map (fun sci => sci.ParentID)) } := by
  induction l with
  | nil =>
    intro tx _ _
    simp [commitTurtleDexcoinOutputDiffs, withoutKeys_nil]
  | cons sci rest ih =>
    intro tx hpresent hnodup
    obtain ⟨o, ho⟩ := Option.isSome_iff_exists.mp (hpresent sci (List.mem_cons_self _ _))
    rw [List.map_cons, List.nodup_cons] at hnodup
    obtain ⟨hnot, hrest⟩ := hnodup
    have hne : ∀ s ∈ rest, s.ParentID ≠ sci.ParentID := by
      intro s hs heq
      exact hnot (List.mem_map.mpr ⟨s, hs, heq⟩)
    have hmap := List.map_congr_left
      (fun s (hs : s ∈ rest) => coinInputDiff_update_ne tx sci.ParentID none s (hne s hs))
    have hstep : commitTurtleDexcoinOutputDiff tx (coinInputDiff tx sci) .DiffApply
        = .ok { tx with TurtleDexcoinOutputs :=
                  Function.update tx.TurtleDexcoinOutputs sci.ParentID none } := by
      simp [commitTurtleDexcoinOutputDiff, coinInputDiff, removeTurtleDexcoinOutput, ho]
    rw [List.map_cons, commitTurtleDexcoinOutputDiffs, hstep, ← hmap]
    simp only []
    rw [ih]
    · simp [withoutKeys_update_none]
    · intro s hs
      simpa [Function.update_noteq (hne s hs)] using hpresent s (List.mem_cons_of_mem _ hs)
    · exact hrest

/-- C2 (amended): for a transaction whose coin inputs name pairwise distinct
outputs that are all present in the coin output set, `applyTurtleDexcoinInputs`
runs to the end and appends to `pb.TurtleDexcoinOutputDiffs`, in input order,
exactly one diff per input, with direction `DiffRevert`, the parent identifier
of the input and the output stored under it; the database it leaves is the one
obtained by committing these diffs in the apply direction, and none of the
consumed identifiers is in the coin output set afterwards. -/
theorem applyTurtleDexcoinInputs_distinct (env : Env) (tx : ConsensusDB) (pb : processedBlock)
    (t : Transaction)
    (hpresent : ∀ sci ∈ t.TurtleDexcoinInputs, (tx.TurtleDexcoinOutputs sci.ParentID).isSome)
    (hdistinct : (t.TurtleDexcoinInputs.map (fun sci => sci.ParentID)).Nodup) :
    applyTurtleDexcoinInputs env tx pb t
        = .ok { tx with TurtleDexcoinOutputs := withoutKeys tx.TurtleDexcoinOutputs
                          (t.TurtleDexcoinInputs.map (fun sci => sci.ParentID)) }
            { pb with TurtleDexcoinOutputDiffs :=
                          pb.TurtleDexcoinOutputDiffs ++ t.TurtleDexcoinInputs.map (coinInputDiff tx) }
      ∧ (∀ sci ∈ t.TurtleDexcoinInputs, ∃ o, tx.TurtleDexcoinOutputs sci.ParentID = some o ∧
          coinInputDiff tx sci
            = { Direction := .DiffRevert, ID := sci.ParentID, TurtleDexcoinOutput := o })
      ∧ commitTurtleDexcoinOutputDiffs .DiffApply (t.TurtleDexcoinInputs.map (coinInputDiff tx)) tx
        = .ok { tx with TurtleDexcoinOutputs := withoutKeys tx.TurtleDexcoinOutputs
                          (t.TurtleDexcoinInputs.map (fun sci => sci.ParentID)) }
      ∧ (∀ sci ∈ t.TurtleDexcoinInputs,
          withoutKeys tx.TurtleDexcoinOutputs
            (t.TurtleDexcoinInputs.map (fun sci => sci.ParentID)) sci.ParentID = none) := by
  refine ⟨forRange_applyTurtleDexcoinInputsBody env _ tx pb hpresent hdistinct, ?_,
    commitTurtleDexcoinOutputDiffs_inputs _ tx hpresent hdistinct, ?_⟩
  · intro sci hsci
    obtain ⟨o, ho⟩ := Option.isSome_iff_exists.mp (hpresent sci hsci)
    exact ⟨o, ho, by simp [coinInputDiff, getTurtleDexcoinOutput, ho]⟩
  · intro sci hsci
    have hmem : sci.ParentID ∈ t.TurtleDexcoinInputs.map (fun sci => sci.ParentID) :=
      List.mem_map.mpr ⟨sci, hsci, rfl⟩
    simp [withoutKeys, hmem]

/-- Witness for C2 (amended): the sample transaction spending the two sample
outputs. -/
theorem applyTurtleDexcoinInputs_distinct_witness :
    applyTurtleDexcoinInputs (sampleEnv true) sampleDB (processedBlock.new 7) sampleSpendBoth
        = .ok { sampleDB with
                  TurtleDexcoinOutputs := withoutKeys sampleDB.TurtleDexcoinOutputs
                    (sampleSpendBoth.TurtleDexcoinInputs.map (fun sci => sci.ParentID)) }
            { processedBlock.new 7 with
                  TurtleDexcoinOutputDiffs := (processedBlock.new 7).TurtleDexcoinOutputDiffs
                    ++ sampleSpendBoth.TurtleDexcoinInputs.map (coinInputDiff sampleDB) } :=
  (applyTurtleDexcoinInputs_distinct (sampleEnv true) sampleDB (processedBlock.new 7)
    sampleSpendBoth (by decide) (by decide)).1

/-- C2 as stated fails: both inputs of the sample transaction name an output
that is present, yet the second input finds it consumed. With `build.DEBUG` the
function panics after a single diff; without it the second diff carries the
zero output instead of the output that was stored. -/
theorem applyTurtleDexcoinInputs_repeated_parent :
    (∀ sci ∈ sampleSpendTwice.TurtleDexcoinInputs,
        (sampleDB.TurtleDexcoinOutputs sci.ParentID).isSome)
      ∧ (applyTurtleDexcoinInputs (sampleEnv true) sampleDB (processedBlock.new 7)
          sampleSpendTwice).isFatal = true
      ∧ (applyTurtleDexcoinInputs (sampleEnv true) sampleDB (processedBlock.new 7)
          sampleSpendTwice).pb.TurtleDexcoinOutputDiffs
        = [{ Direction := .DiffRevert, ID := sampleID1, TurtleDexcoinOutput := sampleOutput1 }]
      ∧ (applyTurtleDexcoinInputs (sampleEnv false) sampleDB (processedBlock.new 7)
          sampleSpendTwice).pb.TurtleDexcoinOutputDiffs
        = [{ Direction := .DiffRevert, ID := sampleID1, TurtleDexcoinOutput := sampleOutput1 },
           { Direction := .DiffRevert, ID := sampleID1,
             TurtleDexcoinOutput := TurtleDexcoinOutput.zero }] := by
  decide

/-! ## Buckets and the entries a loop creates -/

theorem withEntries_of_not_mem {V : Type} (es : List (Hash × V)) :
    ∀ (m : Hash → Option V) (k : Hash), k ∉ es.map Prod.fst → withEntries m es k = m k := by
  induction es with
  | nil => intro m k _; rfl
  | cons e rest ih =>
    intro m k hk
    obtain ⟨k0, v0⟩ := e
    simp only [List.map_cons, List.mem_cons, not_or] at hk
    rw [withEntries, ih _ k hk.2, Function.update_noteq hk.1]

theorem withEntries_of_mem {V : Type} (es : List (Hash × V)) :
    ∀ (m : Hash → Option V) (e : Hash × V), e ∈ es → (es.map Prod.fst).Nodup →
      withEntries m es e.1 = some e.2 := by
  induction es with
  | nil => intro m e he; simp at he
  | cons e0 rest ih =>
    intro m e he hnodup
    obtain ⟨k0, v0⟩ := e0
    rw [List.map_cons, List.nodup_cons] at hnodup
    rw [withEntries]
    rcases List.mem_cons.mp he with heq | hmem
    · subst heq
      rw [withEntries_of_not_mem rest _ _ hnodup.1]
      simp
    · exact ih _ e hmem hnodup.2

theorem length_entriesFrom {V : Type} (id : Nat → Hash) (l : List V) :
    ∀ i, (entriesFrom id i l).length = l.length := by
  induction l with
  | nil => intro i; rfl
  | cons x rest ih => intro i; simp [entriesFrom, ih]

theorem getElem?_entriesFrom {V : Type} (id : Nat → Hash) (l : List V) :
    ∀ i k, (entriesFrom id i l)[k]? = (l[k]?).map (fun x => (id (i + k), x)) := by
  induction l with
  | nil => intro i k; simp [entriesFrom]
  | cons x rest ih =>
    intro i k
    cases k with
    | zero => simp [entriesFrom]
    | succ k =>
      simp only [entriesFrom, List.getElem?_cons_succ, ih]
      have h : i + 1 + k = i + (k + 1) := by omega
      rw [h]

/-! ## C3: coin outputs -/

theorem applyTurtleDexcoinOutputsBody_fresh (env : Env) (t : Transaction) (i : Nat)
    (sco : TurtleDexcoinOutput) (tx : ConsensusDB) (pb : processedBlock)
    (h : tx.TurtleDexcoinOutputs (t.TurtleDexcoinOutputID env i) = none) :
    applyTurtleDexcoinOutputsBody env t i sco tx pb
      = .ok { tx with TurtleDexcoinOutputs :=
                Function.update tx.TurtleDexcoinOutputs (t.TurtleDexcoinOutputID env i) (some sco) }
          { pb with TurtleDexcoinOutputDiffs := pb.TurtleDexcoinOutputDiffs ++
                [coinOutputDiff (t.TurtleDexcoinOutputID env i, sco)] } := by
  simp [applyTurtleDexcoinOutputsBody, h, commitTurtleDexcoinOutputDiff,
    addTurtleDexcoinOutput, Outcome.ofUpdate, coinOutputDiff]

theorem forRangeFrom_applyTurtleDexcoinOutputsBody (env : Env) (t : Transaction)
    (l : List TurtleDexcoinOutput) :
    ∀ (i : Nat) (tx : ConsensusDB) (pb : processedBlock),
      (∀ e ∈ entriesFrom (t.TurtleDexcoinOutputID env) i l, tx.TurtleDexcoinOutputs e.1 = none) →
      ((entriesFrom (t.TurtleDexcoinOutputID env) i l).map Prod.fst).Nodup →
      forRangeFrom (applyTurtleDexcoinOutputsBody env t) i l tx pb
        = .ok { tx with TurtleDexcoinOutputs :=
                  withEntries tx.TurtleDexcoinOutputs (entriesFrom (t.TurtleDexcoinOutputID env) i l) }
            { pb with TurtleDexcoinOutputDiffs := pb.TurtleDexcoinOutputDiffs ++
                  (entriesFrom (t.TurtleDexcoinOutputID env) i l).map coinOutputDiff } := by
  induction l with
  | nil =>
    intro i tx pb _ _
    simp [entriesFrom, withEntries]
  | cons x rest ih =>
    intro i tx pb hfresh hnodup
    simp only [entriesFrom, List.map_cons, List.nodup_cons] at hnodup
    have hhead : tx.TurtleDexcoinOutputs (t.TurtleDexcoinOutputID env i) = none :=
      hfresh (t.TurtleDexcoinOutputID env i, x) (by simp [entriesFrom])
    rw [forRangeFrom_cons, applyTurtleDexcoinOutputsBody_fresh env t i x tx pb hhead,
      Outcome.andThen_ok, ih]
    · simp [entriesFrom, withEntries]
    · intro e he
      have hne : e.1 ≠ t.TurtleDexcoinOutputID env i := by
        intro heq
        exact hnodup.1 (heq ▸ List.mem_map_of_mem Prod.fst he)
      simpa [Function.update_noteq hne] using hfresh e (by simp [entriesFrom, he])
    · exact hnodup.2

/-- C3 (amended): for a transaction whose coin output identifiers
`t.TurtleDexcoinOutputID(i)` are pairwise distinct and not yet in the coin
output set, `applyTurtleDexcoinOutputs` runs to the end and appends to
`pb.TurtleDexcoinOutputDiffs`, in index order, exactly one diff per coin output
`i`, with direction `DiffApply`, the identifier `t.TurtleDexcoinOutputID(i)` and
the output `t.TurtleDexcoinOutputs[i]`; afterwards each of these identifiers is
in the coin output set with that output. -/
theorem applyTurtleDexcoinOutputs_fresh (env : Env) (tx : ConsensusDB) (pb : processedBlock)
    (t : Transaction)
    (hfresh : ∀ e ∈ coinOutputEntries env t, tx.TurtleDexcoinOutputs e.1 = none)
    (hdistinct : ((coinOutputEntries env t).map Prod.fst).Nodup) :
    applyTurtleDexcoinOutputs env tx pb t
        = .ok { tx with TurtleDexcoinOutputs :=
                  withEntries tx.TurtleDexcoinOutputs (coinOutputEntries env t) }
            { pb with TurtleDexcoinOutputDiffs := pb.TurtleDexcoinOutputDiffs ++
                  (coinOutputEntries env t).map coinOutputDiff }
      ∧ ((coinOutputEntries env t).map coinOutputDiff).length = t.TurtleDexcoinOutputs.length
      ∧ (∀ i (h : i < t.TurtleDexcoinOutputs.length),
          ((coinOutputEntries env t).map coinOutputDiff)[i]?
            = some { Direction := .DiffApply, ID := t.TurtleDexcoinOutputID env i,
                     TurtleDexcoinOutput := t.TurtleDexcoinOutputs[i] })
      ∧ (∀ i (h : i < t.TurtleDexcoinOutputs.length),
          withEntries tx.TurtleDexcoinOutputs (coinOutputEntries env t)
              (t.TurtleDexcoinOutputID env i)
            = some t.TurtleDexcoinOutputs[i]) := by
  refine ⟨forRangeFrom_applyTurtleDexcoinOutputsBody env t _ 0 tx pb hfresh hdistinct, ?_, ?_, ?_⟩
  · simp [coinOutputEntries, length_entriesFrom]
  · intro i h
    simp [coinOutputEntries, getElem?_entriesFrom, List.getElem?_eq_getElem h, coinOutputDiff]
  · intro i h
    have hmem : (t.TurtleDexcoinOutputID env i, t.TurtleDexcoinOutputs[i])
        ∈ coinOutputEntries env t := by
      apply List.mem_iff_getElem?.mpr
      exact ⟨i, by simp [coinOutputEntries, getElem?_entriesFrom, List.getElem?_eq_getElem h]⟩
    exact withEntries_of_mem _ _ _ hmem hdistinct

set_option maxRecDepth 100000 in
/-- Witness for C3 (amended): the sample transaction creating the two sample
outputs on the empty database. -/
theorem applyTurtleDexcoinOutputs_fresh_witness :
    ((coinOutputEntries (sampleEnv true) sampleCreateBoth).map Prod.fst).Nodup
      ∧ applyTurtleDexcoinOutputs (sampleEnv true) ConsensusDB.empty (processedBlock.new 7)
          sampleCreateBoth
        = .ok { ConsensusDB.empty with
                  TurtleDexcoinOutputs := withEntries ConsensusDB.empty.TurtleDexcoinOutputs
                    (coinOutputEntries (sampleEnv true) sampleCreateBoth) }
            { processedBlock.new 7 with
                  TurtleDexcoinOutputDiffs := (processedBlock.new 7).TurtleDexcoinOutputDiffs ++
                    (coinOutputEntries (sampleEnv true) sampleCreateBoth).map coinOutputDiff } :=
  ⟨by decide,
    (applyTurtleDexcoinOutputs_fresh (sampleEnv true) ConsensusDB.empty (processedBlock.new 7)
      sampleCreateBoth (fun _ _ => rfl) (by decide)).1⟩

set_option maxRecDepth 100000 in
/-- C3 as stated fails: when the identifier of the first coin output of the
sample transaction is already in the coin output set, the function panics
after appending a single diff; the set still holds the old output under that
identifier and the second output is never created. -/
theorem applyTurtleDexcoinOutputs_existing_id :
    (applyTurtleDexcoinOutputs (sampleEnv true) sampleTakenDB (processedBlock.new 7)
        sampleCreateBoth).isFatal = true
      ∧ (applyTurtleDexcoinOutputs (sampleEnv true) sampleTakenDB (processedBlock.new 7)
          sampleCreateBoth).pb.TurtleDexcoinOutputDiffs.length = 1
      ∧ (applyTurtleDexcoinOutputs (sampleEnv true) sampleTakenDB (processedBlock.new 7)
          sampleCreateBoth).tx.TurtleDexcoinOutputs
            (sampleCreateBoth.TurtleDexcoinOutputID (sampleEnv true) 0) = some sampleOutput2
      ∧ sampleCreateBoth.TurtleDexcoinOutputs[0]? = some sampleOutput1
      ∧ sampleOutput1 ≠ sampleOutput2
      ∧ (applyTurtleDexcoinOutputs (sampleEnv true) sampleTakenDB (processedBlock.new 7)
          sampleCreateBoth).tx.TurtleDexcoinOutputs
            (sampleCreateBoth.TurtleDexcoinOutputID (sampleEnv true) 1) = none := by
  decide

/-! ## C4: file contracts -/

theorem applyFileContractsBody_fresh (env : Env) (t : Transaction) (i : Nat)
    (fc : FileContract) (tx : ConsensusDB) (pb : processedBlock)
    (h : tx.FileContracts (t.FileContractID env i) = none) :
    applyFileContractsBody env t i fc tx pb
      = .ok { tx with
                FileContracts := Function.update tx.FileContracts (t.FileContractID env i) (some fc)
                TurtleDexfundPool :=
                  Currency.Add tx.TurtleDexfundPool (env.Tax tx.BlockHeight fc.Payout) }
          { pb with
                FileContractDiffs := pb.FileContractDiffs ++
                  [fileContractDiff (t.FileContractID env i, fc)]
                TurtleDexfundPoolDiffs := pb.TurtleDexfundPoolDiffs ++
                  [{ Direction := .DiffApply, Previous := tx.TurtleDexfundPool,
                     Adjusted := Currency.Add tx.TurtleDexfundPool
                       (env.Tax tx.BlockHeight fc.Payout) }] } := by
  simp [applyFileContractsBody, applyFileContractsTax, h, commitFileContractDiff,
    addFileContract, Outcome.ofUpdate, fileContractDiff, commitTurtleDexfundPoolDiff,
    getTurtleDexfundPool, blockHeight, Currency.Add]

theorem forRangeFrom_applyFileContractsBody (env : Env) (t : Transaction)
    (l : List FileContract) :
    ∀ (i : Nat) (tx : ConsensusDB) (pb : processedBlock),
      (∀ e ∈ entriesFrom (t.FileContractID env) i l, tx.FileContracts e.1 = none) →
      ((entriesFrom (t.FileContractID env) i l).map Prod.fst).Nodup →
      forRangeFrom (applyFileContractsBody env t) i l tx pb
        = .ok { tx with
                  FileContracts :=
                    withEntries tx.FileContracts (entriesFrom (t.FileContractID env) i l)
                  TurtleDexfundPool :=
                    Currency.Add tx.TurtleDexfundPool (taxSum env tx.BlockHeight l) }
            { pb with
                  FileContractDiffs := pb.FileContractDiffs ++
                    (entriesFrom (t.FileContractID env) i l).map fileContractDiff
                  TurtleDexfundPoolDiffs := pb.TurtleDexfundPoolDiffs ++
                    poolDiffsFrom env tx.BlockHeight tx.TurtleDexfundPool l } := by
  induction l with
  | nil =>
    intro i tx pb _ _
    simp [entriesFrom, withEntries, taxSum, poolDiffsFrom, Currency.Add]
  | cons x rest ih =>
    intro i tx pb hfresh hnodup
    simp only [entriesFrom, List.map_cons, List.nodup_cons] at hnodup
    have hhead : tx.FileContracts (t.FileContractID env i) = none :=
      hfresh (t.FileContractID env i, x) (by simp [entriesFrom])
    rw [forRangeFrom_cons, applyFileContractsBody_fresh env t i x tx pb hhead,
      Outcome.andThen_ok, ih]
    · simp [entriesFrom, withEntries, taxSum, poolDiffsFrom, Currency.Add, Nat.add_assoc]
    · intro e he
      have hne : e.1 ≠ t.FileContractID env i := by
        intro heq
        exact hnodup.1 (heq ▸ List.mem_map_of_mem Prod.fst he)
      simpa [Function.update_noteq hne] using hfresh e (by simp [entriesFrom, he])
    · exact hnodup.2

theorem length_poolDiffsFrom (env : Env) (h : types.BlockHeight) (l : List FileContract) :
    ∀ pool, (poolDiffsFrom env h pool l).length = l.length := by
  induction l with
  | nil => intro pool; rfl
  | cons x rest ih => intro pool; simp [poolDiffsFrom, ih]

theorem getElem?_poolDiffsFrom (env : Env) (h : types.BlockHeight) (l : List FileContract) :
    ∀ (pool : Currency) (i : Nat) (hi : i < l.length),
      (poolDiffsFrom env h pool l)[i]?
        = some { Direction := .DiffApply
                 Previous := Currency.Add pool (taxSum env h (l.take i))
                 Adjusted := Currency.Add (Currency.Add pool (taxSum env h (l.take i)))
                   (env.Tax h l[i].Payout) } := by
  induction l with
  | nil => intro pool i hi; simp at hi
  | cons x rest ih =>
    intro pool i hi
    cases i with
    | zero => simp [poolDiffsFrom, taxSum, Currency.Add]
    | succ i =>
      have hi1 : i < rest.length := by simpa using hi
      simp only [poolDiffsFrom, List.getElem?_cons_succ, ih _ i hi1]
      simp [taxSum, Currency.Add, Nat.add_assoc]

theorem forRange_emit_fileContractTrace (env : Env) (t : Transaction)
    (l : List FileContract) :
    ∀ (i : Nat) (tx : ConsensusDB) (pb : processedBlock),
      (∀ e ∈ entriesFrom (t.FileContractID env) i l, tx.FileContracts e.1 = none) →
      ((entriesFrom (t.FileContractID env) i l).map Prod.fst).Nodup →
      forRange emit (fileContractTrace env t tx.BlockHeight tx.TurtleDexfundPool i l) tx pb
        = forRangeFrom (applyFileContractsBody env t) i l tx pb := by
  induction l with
  | nil =>
    intro i tx pb _ _
    rfl
  | cons x rest ih =>
    intro i tx pb hfresh hnodup
    simp only [entriesFrom, List.map_cons, List.nodup_cons] at hnodup
    have hhead : tx.FileContracts (t.FileContractID env i) = none :=
      hfresh (t.FileContractID env i, x) (by simp [entriesFrom])
    have hrest : ∀ e ∈ entriesFrom (t.FileContractID env) (i + 1) rest,
        (Function.update tx.FileContracts (t.FileContractID env i) (some x)) e.1 = none := by
      intro e he
      have hne : e.1 ≠ t.FileContractID env i := by
        intro heq
        exact hnodup.1 (heq ▸ List.mem_map_of_mem Prod.fst he)
      simpa [Function.update_noteq hne] using hfresh e (by simp [entriesFrom, he])
    rw [forRangeFrom_cons, applyFileContractsBody_fresh env t i x tx pb hhead,
      Outcome.andThen_ok]
    rw [← ih (i + 1) _ _ hrest hnodup.2]
    simp [fileContractTrace, forRange_cons, emit, commitDiff, commitFileContractDiff,
      addFileContract, hhead, Outcome.ofUpdate, processedBlock.record, fileContractDiff,
      commitTurtleDexfundPoolDiff, getTurtleDexfundPool, Currency.Add, fileContractTax,
      Outcome.andThen_ok]

/-- C4 (amended): for a transaction whose file contract identifiers
`t.FileContractID(i)` are pairwise distinct and not yet in the contract set,
applied by a block at height `pb.Height` while the database is at the height
`blockHeight(tx)`, `applyFileContracts` runs to the end, and what it does is to
append and commit, for each contract `i` in index order, a file contract diff
with direction `DiffApply`, the identifier `t.FileContractID(i)` and the
contract itself, and immediately after it a fund pool diff with direction
`DiffApply` whose `Previous` is the fund pool at that moment (the initial pool
plus the taxes of the contracts before `i`) and whose `Adjusted` is
`Previous + Tax(blockHeight(tx), contract.Payout)`; the pool ends at the
initial pool plus all taxes. The tax is taken at the height of the database:
it is `Tax(pb.Height, contract.Payout)` when the database is at the height of
the block. -/
theorem applyFileContracts_fresh (env : Env) (tx : ConsensusDB) (pb : processedBlock)
    (t : Transaction)
    (hfresh : ∀ e ∈ fileContractEntries env t, tx.FileContracts e.1 = none)
    (hdistinct : ((fileContractEntries env t).map Prod.fst).Nodup) :
    applyFileContracts env tx pb t
        = .ok { tx with
                  FileContracts := withEntries tx.FileContracts (fileContractEntries env t)
                  TurtleDexfundPool :=
                    Currency.Add tx.TurtleDexfundPool (taxSum env (blockHeight tx) t.FileContracts) }
            { pb with
                  FileContractDiffs := pb.FileContractDiffs ++
                    (fileContractEntries env t).map fileContractDiff
                  TurtleDexfundPoolDiffs := pb.TurtleDexfundPoolDiffs ++
                    poolDiffsFrom env (blockHeight tx) tx.TurtleDexfundPool t.FileContracts }
      ∧ applyFileContracts env tx pb t
          = forRange emit
              (fileContractTrace env t (blockHeight tx) (getTurtleDexfundPool tx) 0
                t.FileContracts) tx pb
      ∧ ((fileContractEntries env t).map fileContractDiff).length = t.FileContracts.length
      ∧ (poolDiffsFrom env (blockHeight tx) tx.TurtleDexfundPool t.FileContracts).length
          = t.FileContracts.length
      ∧ (∀ i (h : i < t.FileContracts.length),
          ((fileContractEntries env t).map fileContractDiff)[i]?
              = some { Direction := .DiffApply, ID := t.FileContractID env i,
                       FileContract := t.FileContracts[i] }
            ∧ (poolDiffsFrom env (blockHeight tx) tx.TurtleDexfundPool t.FileContracts)[i]?
              = some { Direction := .DiffApply
                       Previous := Currency.Add tx.TurtleDexfundPool
                         (taxSum env (blockHeight tx) (t.FileContracts.take i))
                       Adjusted := Currency.Add (Currency.Add tx.TurtleDexfundPool
                           (taxSum env (blockHeight tx) (t.FileContracts.take i)))
                         (env.Tax (blockHeight tx) t.FileContracts[i].Payout) }
            ∧ (blockHeight tx = pb.Height →
                (poolDiffsFrom env (blockHeight tx) tx.TurtleDexfundPool t.FileContracts)[i]?
                  = some { Direction := .DiffApply
                           Previous := Currency.Add tx.TurtleDexfundPool
                             (taxSum env pb.Height (t.FileContracts.take i))
                           Adjusted := Currency.Add (Currency.Add tx.TurtleDexfundPool
                               (taxSum env pb.Height (t.FileContracts.take i)))
                             (env.Tax pb.Height t.FileContracts[i].Payout) })) := by
  refine ⟨forRangeFrom_applyFileContractsBody env t _ 0 tx pb hfresh hdistinct, ?_, ?_, ?_, ?_⟩
  · exact (forRange_emit_fileContractTrace env t _ 0 tx pb hfresh hdistinct).symm
  · simp [fileContractEntries, length_entriesFrom]
  · exact length_poolDiffsFrom env _ _ _
  · intro i h
    refine ⟨?_, getElem?_poolDiffsFrom env _ _ _ i h, fun hh => ?_⟩
    · simp [fileContractEntries, getElem?_entriesFrom, List.getElem?_eq_getElem h,
        fileContractDiff]
    · rw [← hh]
      exact getElem?_poolDiffsFrom env _ _ _ i h

set_option maxRecDepth 100000 in
/-- Witness for C4 (amended): two contracts with payouts 1 and 300,000 created
by a block at height 7 while the database is at height 7 and the pool is 500;
the sample tax on 300,000 is 10,000, and each contract diff is followed by its
pool diff. -/
theorem applyFileContracts_fresh_witness :
    ((fileContractEntries (sampleEnv true) sampleContracts).map Prod.fst).Nodup
      ∧ (sampleEnv true).Tax 7 300000 = 10000
      ∧ poolDiffsFrom (sampleEnv true) (blockHeight samplePoolDB) samplePoolDB.TurtleDexfundPool
          sampleContracts.FileContracts
        = [{ Direction := .DiffApply, Previous := 500, Adjusted := 500 },
           { Direction := .DiffApply, Previous := 500, Adjusted := 10500 }]
      ∧ fileContractTrace (sampleEnv true) sampleContracts 7 500 0 sampleContracts.FileContracts
        = [.contract (fileContractDiff (sampleContracts.FileContractID (sampleEnv true) 0,
              { FileContract.zero with Payout := 1 })),
           .pool { Direction := .DiffApply, Previous := 500, Adjusted := 500 },
           .contract (fileContractDiff (sampleContracts.FileContractID (sampleEnv true) 1,
              { FileContract.zero with Payout := 300000 })),
           .pool { Direction := .DiffApply, Previous := 500, Adjusted := 10500 }]
      ∧ applyFileContracts (sampleEnv true) samplePoolDB (processedBlock.new 7) sampleContracts
        = forRange emit
            (fileContractTrace (sampleEnv true) sampleContracts 7 500 0
              sampleContracts.FileContracts) samplePoolDB (processedBlock.new 7)
      ∧ applyFileContracts (sampleEnv true) samplePoolDB (processedBlock.new 7) sampleContracts
        = .ok { samplePoolDB with
                  FileContracts := withEntries samplePoolDB.FileContracts
                    (fileContractEntries (sampleEnv true) sampleContracts)
                  TurtleDexfundPool := Currency.Add samplePoolDB.TurtleDexfundPool
                    (taxSum (sampleEnv true) (blockHeight samplePoolDB)
                      sampleContracts.FileContracts) }
            { processedBlock.new 7 with
                  FileContractDiffs := (processedBlock.new 7).FileContractDiffs ++
                    (fileContractEntries (sampleEnv true) sampleContracts).map fileContractDiff
                  TurtleDexfundPoolDiffs := (processedBlock.new 7).TurtleDexfundPoolDiffs ++
                    poolDiffsFrom (sampleEnv true) (blockHeight samplePoolDB)
                      samplePoolDB.TurtleDexfundPool sampleContracts.FileContracts } :=
  ⟨by decide, by decide, by decide, by decide,
    (applyFileContracts_fresh (sampleEnv true) samplePoolDB (processedBlock.new 7)
      sampleContracts (fun _ _ => rfl) (by decide)).2.1,
    (applyFileContracts_fresh (sampleEnv true) samplePoolDB (processedBlock.new 7)
      sampleContracts (fun _ _ => rfl) (by decide)).1⟩

set_option maxRecDepth 100000 in
/-- C4 as stated fails. When the identifier of the first contract of the sample
transaction is already in the contract set, the function panics after
appending the contract diff; no fund pool diff follows and the pool is
unchanged. And when the block is at height 7 while the database is at height
6, under a tax that changes at height 7, the pool diff of a contract with the
payout 300,000 adds the tax of height 6, 11,700, not the tax of height 7,
10,000. -/
theorem applyFileContracts_taken_id_or_height :
    (applyFileContracts (sampleEnv true) sampleTakenContractDB (processedBlock.new 7)
        sampleContracts).isFatal = true
      ∧ (applyFileContracts (sampleEnv true) sampleTakenContractDB (processedBlock.new 7)
          sampleContracts).pb.FileContractDiffs.length = 1
      ∧ (applyFileContracts (sampleEnv true) sampleTakenContractDB (processedBlock.new 7)
          sampleContracts).pb.TurtleDexfundPoolDiffs = []
      ∧ (applyFileContracts (sampleEnv true) sampleTakenContractDB (processedBlock.new 7)
          sampleContracts).tx.TurtleDexfundPool = 500
      ∧ (processedBlock.new 7).Height = 7
      ∧ blockHeight sampleLowDB = 6
      ∧ sampleTaxEnv.Tax 7 300000 = 10000
      ∧ sampleTaxEnv.Tax 6 300000 = 11700
      ∧ (applyFileContracts sampleTaxEnv sampleLowDB (processedBlock.new 7)
          sampleOneContract).isFatal = false
      ∧ (applyFileContracts sampleTaxEnv sampleLowDB (processedBlock.new 7)
          sampleOneContract).pb.TurtleDexfundPoolDiffs
            = [{ Direction := .DiffApply, Previous := 500, Adjusted := 12200 }] := by
  decide

/-! ## C5: file contract revisions -/

theorem applyFileContractRevisionsBody_present (env : Env) (fcr : FileContractRevision)
    (tx : ConsensusDB) (pb : processedBlock) (old : FileContract)
    (h : tx.FileContracts fcr.ParentID = some old) :
    applyFileContractRevisionsBody env fcr tx pb
      = .ok { tx with FileContracts :=
                Function.update tx.FileContracts fcr.ParentID (some (revisedFileContract fcr old)) }
          { pb with FileContractDiffs := pb.FileContractDiffs ++
                [{ Direction := .DiffRevert, ID := fcr.ParentID, FileContract := old },
                 { Direction := .DiffApply, ID := fcr.ParentID,
                   FileContract := revisedFileContract fcr old }] } := by
  simp [applyFileContractRevisionsBody, applyFileContractRevisionsAdd, getFileContract, h,
    commitFileContractDiff, removeFileContract, addFileContract, Outcome.ofUpdate]

/-- C5: when `applyFileContractRevisions` reaches a revision whose `ParentID`
names a stored contract `old`, it appends two adjacent contract diffs with
`ID = ParentID`, first one with direction `DiffRevert` carrying `old`, then one
with direction `DiffApply` carrying a new record that takes file size, Merkle
root, window, proof outputs, unlock hash and revision number from the `New*`
fields of the revision and the payout from `old`; it then goes on with the
remaining revisions from a contract set that holds exactly the new record under
that identifier, every other entry, and so the number of contracts, being
unchanged. -/
theorem applyFileContractRevisions_revision (env : Env) (tx : ConsensusDB) (pb : processedBlock)
    (t : Transaction) (before after : List FileContractRevision) (fcr : FileContractRevision)
    (tx1 : ConsensusDB) (pb1 : processedBlock) (old : FileContract)
    (hsplit : t.FileContractRevisions = before ++ fcr :: after)
    (hreach : forRange (applyFileContractRevisionsBody env) before tx pb = .ok tx1 pb1)
    (hold : tx1.FileContracts fcr.ParentID = some old) :
    applyFileContractRevisions env tx pb t
        = forRange (applyFileContractRevisionsBody env) after
            { tx1 with FileContracts :=
                Function.update tx1.FileContracts fcr.ParentID (some (revisedFileContract fcr old)) }
            { pb1 with FileContractDiffs := pb1.FileContractDiffs ++
                [{ Direction := .DiffRevert, ID := fcr.ParentID, FileContract := old },
                 { Direction := .DiffApply, ID := fcr.ParentID,
                   FileContract := revisedFileContract fcr old }] }
      ∧ revisedFileContract fcr old
        = { FileSize := fcr.NewFileSize, FileMerkleRoot := fcr.NewFileMerkleRoot,
            WindowStart := fcr.NewWindowStart, WindowEnd := fcr.NewWindowEnd,
            Payout := old.Payout, ValidProofOutputs := fcr.NewValidProofOutputs,
            MissedProofOutputs := fcr.NewMissedProofOutputs, UnlockHash := fcr.NewUnlockHash,
            RevisionNumber := fcr.NewRevisionNumber }
      ∧ Function.update tx1.FileContracts fcr.ParentID (some (revisedFileContract fcr old))
          fcr.ParentID = some (revisedFileContract fcr old)
      ∧ (∀ id, id ≠ fcr.ParentID →
          Function.update tx1.FileContracts fcr.ParentID (some (revisedFileContract fcr old)) id
            = tx1.FileContracts id)
      ∧ {id | (Function.update tx1.FileContracts fcr.ParentID
              (some (revisedFileContract fcr old)) id).isSome}
          = {id | (tx1.FileContracts id).isSome}
      ∧ Set.ncard {id | (Function.update tx1.FileContracts fcr.ParentID
              (some (revisedFileContract fcr old)) id).isSome}
          = Set.ncard {id | (tx1.FileContracts id).isSome} := by
  have hset : {id | (Function.update tx1.FileContracts fcr.ParentID
        (some (revisedFileContract fcr old)) id).isSome}
      = {id | (tx1.FileContracts id).isSome} := by
    ext id
    by_cases hid : id = fcr.ParentID
    · subst hid
      simp [hold]
    · simp [Function.update_noteq hid]
  refine ⟨?_, rfl, by simp, fun id hid => Function.update_noteq hid _ _, hset, by rw [hset]⟩
  rw [applyFileContractRevisions, hsplit, forRange_append, hreach, Outcome.andThen_ok,
    forRange_cons, applyFileContractRevisionsBody_present env fcr tx1 pb1 old hold,
    Outcome.andThen_ok]

/-- Witness for C5: the second of two revisions of the sample contract; it
replaces the record the first revision left. -/
theorem applyFileContractRevisions_revision_witness :
    sampleContractDB1.FileContracts sampleID1 = some sampleRevised1
      ∧ applyFileContractRevisions (sampleEnv true) sampleContractDB (processedBlock.new 7)
          sampleRevisions
        = .ok { sampleContractDB1 with
                  FileContracts :=
                    Function.update sampleContractDB1.FileContracts sampleID1 (some sampleRevised2) }
            { samplePB1 with
                  FileContractDiffs := samplePB1.FileContractDiffs ++
                    [{ Direction := .DiffRevert, ID := sampleID1, FileContract := sampleRevised1 },
                     { Direction := .DiffApply, ID := sampleID1, FileContract := sampleRevised2 }] } :=
  ⟨by decide,
    (applyFileContractRevisions_revision (sampleEnv true) sampleContractDB (processedBlock.new 7)
      sampleRevisions [sampleRevision sampleID1 1 2] [] (sampleRevision sampleID1 2 3)
      sampleContractDB1 samplePB1 sampleRevised1 rfl
      (by
        rw [forRange_cons, applyFileContractRevisionsBody_present (sampleEnv true)
          (sampleRevision sampleID1 1 2) sampleContractDB (processedBlock.new 7) sampleContract
          (by decide)]
        rfl)
      (by decide)).1⟩

/-! ## C6: storage proofs -/

theorem applyStorageProofsOutput_fresh (env : Env) (sp : StorageProof) (i : Nat)
    (vpo : TurtleDexcoinOutput) (tx : ConsensusDB) (pb : processedBlock)
    (bucket : Hash → Option TurtleDexcoinOutput)
    (hb : tx.DelayedTurtleDexcoinOutputs (pb.Height + env.MaturityDelay) = some bucket)
    (h : bucket (env.StorageProofOutputID sp.ParentID ProofValid i) = none) :
    applyStorageProofsOutput env sp i vpo tx pb
      = .ok { tx with
              DelayedTurtleDexcoinOutputs :=
                Function.update tx.DelayedTurtleDexcoinOutputs (pb.Height + env.MaturityDelay)
                  (some (Function.update bucket
                    (env.StorageProofOutputID sp.ParentID ProofValid i) (some vpo))) }
          { pb with
              DelayedTurtleDexcoinOutputDiffs := pb.DelayedTurtleDexcoinOutputDiffs ++
                [delayedOutputDiff (pb.Height + env.MaturityDelay)
                  (env.StorageProofOutputID sp.ParentID ProofValid i, vpo)] } := by
  simp [applyStorageProofsOutput, commitDelayedTurtleDexcoinOutputDiff, addDSCO, hb, h,
    Outcome.ofUpdate, delayedOutputDiff]

theorem forRangeFrom_applyStorageProofsOutput (env : Env) (sp : StorageProof)
    (l : List TurtleDexcoinOutput) :
    ∀ (i : Nat) (tx : ConsensusDB) (pb : processedBlock)
      (bucket : Hash → Option TurtleDexcoinOutput),
      tx.DelayedTurtleDexcoinOutputs (pb.Height + env.MaturityDelay) = some bucket →
      (∀ e ∈ entriesFrom (env.StorageProofOutputID sp.ParentID ProofValid) i l,
        bucket e.1 = none) →
      ((entriesFrom (env.StorageProofOutputID sp.ParentID ProofValid) i l).map Prod.fst).Nodup →
      forRangeFrom (applyStorageProofsOutput env sp) i l tx pb
        = .ok { tx with
                DelayedTurtleDexcoinOutputs :=
                  Function.update tx.DelayedTurtleDexcoinOutputs (pb.Height + env.MaturityDelay)
                    (some (withEntries bucket
                      (entriesFrom (env.StorageProofOutputID sp.ParentID ProofValid) i l))) }
            { pb with
                DelayedTurtleDexcoinOutputDiffs := pb.DelayedTurtleDexcoinOutputDiffs ++
                  (entriesFrom (env.StorageProofOutputID sp.ParentID ProofValid) i l).map
                    (delayedOutputDiff (pb.Height + env.MaturityDelay)) } := by
  induction l with
  | nil =>
    intro i tx pb bucket hb _ _
    simp [entriesFrom, withEntries, ← hb]
  | cons x rest ih =>
    intro i tx pb bucket hb hfresh hnodup
    simp only [entriesFrom, List.map_cons, List.nodup_cons] at hnodup
    have hhead : bucket (env.StorageProofOutputID sp.ParentID ProofValid i) = none :=
      hfresh (env.StorageProofOutputID sp.ParentID ProofValid i, x) (by simp [entriesFrom])
    rw [forRangeFrom_cons, applyStorageProofsOutput_fresh env sp i x tx pb bucket hb hhead,
      Outcome.andThen_ok,
      ih (i + 1) _ _ (Function.update bucket
        (env.StorageProofOutputID sp.ParentID ProofValid i) (some x))]
    · simp [entriesFrom, withEntries]
    · simp
    · intro e he
      have hne : e.1 ≠ env.StorageProofOutputID sp.ParentID ProofValid i := by
        intro heq
        exact hnodup.1 (heq ▸ List.mem_map_of_mem Prod.fst he)
      simpa [Function.update_noteq hne] using hfresh e (by simp [entriesFrom, he])
    · exact hnodup.2

theorem putDelayed_nil (m : types.BlockHeight → Option (Hash → Option TurtleDexcoinOutput))
    (h : types.BlockHeight) : putDelayed m h [] = m := by
  unfold putDelayed
  cases hm : m h with
  | none => rfl
  | some bucket => simp [withEntries, ← hm]

theorem applyStorageProofsBody_present (env : Env) (sp : StorageProof) (tx : ConsensusDB)
    (pb : processedBlock) (fc : FileContract)
    (hfc : tx.FileContracts sp.ParentID = some fc)
    (hroom : ∀ e ∈ storageProofEntries env sp fc, ∃ bucket,
      tx.DelayedTurtleDexcoinOutputs (pb.Height + env.MaturityDelay) = some bucket ∧
        bucket e.1 = none)
    (hdistinct : ((storageProofEntries env sp fc).map Prod.fst).Nodup) :
    applyStorageProofsBody env sp tx pb
      = .ok { tx with
              FileContracts := Function.update tx.FileContracts sp.ParentID none
              DelayedTurtleDexcoinOutputs :=
                putDelayed tx.DelayedTurtleDexcoinOutputs (pb.Height + env.MaturityDelay)
                  (storageProofEntries env sp fc) }
          { pb with
              DelayedTurtleDexcoinOutputDiffs := pb.DelayedTurtleDexcoinOutputDiffs ++
                (storageProofEntries env sp fc).map
                  (delayedOutputDiff (pb.Height + env.MaturityDelay))
              FileContractDiffs := pb.FileContractDiffs ++
                [{ Direction := .DiffRevert, ID := sp.ParentID, FileContract := fc }] } := by
  cases hes : storageProofEntries env sp fc with
  | nil =>
    have hnil : fc.ValidProofOutputs = [] := by
      cases hv : fc.ValidProofOutputs with
      | nil => rfl
      | cons x rest => simp [storageProofEntries, hv, entriesFrom] at hes
    simp [applyStorageProofsBody, getFileContract, hfc, hnil, applyStorageProofsRemove,
      commitFileContractDiff, removeFileContract, Outcome.ofUpdate, putDelayed_nil]
  | cons e rest =>
    obtain ⟨bucket, hb, _⟩ := hroom e (by simp [hes])
    have hfresh : ∀ e ∈ storageProofEntries env sp fc, bucket e.1 = none := by
      intro e1 he1
      obtain ⟨b1, hb1, hnone⟩ := hroom e1 he1
      rw [hb] at hb1
      cases hb1
      exact hnone
    have hloop := forRangeFrom_applyStorageProofsOutput env sp fc.ValidProofOutputs 0 tx pb
      bucket hb hfresh hdistinct
    rw [← hes]
    simp only [applyStorageProofsBody, getFileContract, hfc, Option.isSome_none, Bool.and_false,
      Bool.false_eq_true, if_false, hloop, Outcome.andThen_ok]
    simp [applyStorageProofsRemove, commitFileContractDiff, removeFileContract, hfc,
      Outcome.ofUpdate, putDelayed, hb, storageProofEntries]

/-- C6 (amended): when `applyStorageProofs` reaches a storage proof whose
`ParentID` names a stored contract `fc`, and the bucket of delayed outputs of
height `pb.Height + MaturityDelay` exists and holds none of the identifiers
`ParentID.StorageProofOutputID(ProofValid, i)`, which are pairwise distinct,
it appends for each index `i` of `fc.ValidProofOutputs`, in order, a delayed
output diff with direction `DiffApply`, that identifier, the output
`fc.ValidProofOutputs[i]` and maturity height `pb.Height + MaturityDelay`, and
then one contract diff with direction `DiffRevert` and `ID = ParentID` carrying
`fc`; a contract without valid proof outputs yields no delayed output diff (and
needs no bucket); it then goes on with the remaining proofs from a state in
which the contract is no longer in the contract set. -/
theorem applyStorageProofs_proof (env : Env) (tx : ConsensusDB) (pb : processedBlock)
    (t : Transaction) (before after : List StorageProof) (sp : StorageProof)
    (tx1 : ConsensusDB) (pb1 : processedBlock) (fc : FileContract)
    (hsplit : t.StorageProofs = before ++ sp :: after)
    (hreach : forRange (applyStorageProofsBody env) before tx pb = .ok tx1 pb1)
    (hfc : tx1.FileContracts sp.ParentID = some fc)
    (hroom : ∀ e ∈ storageProofEntries env sp fc, ∃ bucket,
      tx1.DelayedTurtleDexcoinOutputs (pb1.Height + env.MaturityDelay) = some bucket ∧
        bucket e.1 = none)
    (hdistinct : ((storageProofEntries env sp fc).map Prod.fst).Nodup) :
    applyStorageProofs env tx pb t
        = forRange (applyStorageProofsBody env) after
            { tx1 with
                FileContracts := Function.update tx1.FileContracts sp.ParentID none
                DelayedTurtleDexcoinOutputs :=
                  putDelayed tx1.DelayedTurtleDexcoinOutputs (pb1.Height + env.MaturityDelay)
                    (storageProofEntries env sp fc) }
            { pb1 with
                DelayedTurtleDexcoinOutputDiffs := pb1.DelayedTurtleDexcoinOutputDiffs ++
                  (storageProofEntries env sp fc).map
                    (delayedOutputDiff (pb1.Height + env.MaturityDelay))
                FileContractDiffs := pb1.FileContractDiffs ++
                  [{ Direction := .DiffRevert, ID := sp.ParentID, FileContract := fc }] }
      ∧ ((storageProofEntries env sp fc).map
            (delayedOutputDiff (pb1.Height + env.MaturityDelay))).length
          = fc.ValidProofOutputs.length
      ∧ (∀ i (h : i < fc.ValidProofOutputs.length),
          ((storageProofEntries env sp fc).map
              (delayedOutputDiff (pb1.Height + env.MaturityDelay)))[i]?
            = some { Direction := .DiffApply
                     ID := env.StorageProofOutputID sp.ParentID ProofValid i
                     TurtleDexcoinOutput := fc.ValidProofOutputs[i]
                     MaturityHeight := pb1.Height + env.MaturityDelay })
      ∧ (∀ i (h : i < fc.ValidProofOutputs.length), ∃ bucket,
          putDelayed tx1.DelayedTurtleDexcoinOutputs (pb1.Height + env.MaturityDelay)
              (storageProofEntries env sp fc) (pb1.Height + env.MaturityDelay) = some bucket ∧
            bucket (env.StorageProofOutputID sp.ParentID ProofValid i)
              = some fc.ValidProofOutputs[i])
      ∧ (fc.ValidProofOutputs = [] →
          (storageProofEntries env sp fc).map
            (delayedOutputDiff (pb1.Height + env.MaturityDelay)) = [])
      ∧ Function.update tx1.FileContracts sp.ParentID none sp.ParentID = none := by
  refine ⟨?_, ?_, ?_, ?_, ?_, by simp⟩
  · rw [applyStorageProofs, hsplit, forRange_append, hreach, Outcome.andThen_ok, forRange_cons,
      applyStorageProofsBody_present env sp tx1 pb1 fc hfc hroom hdistinct, Outcome.andThen_ok]
  · simp [storageProofEntries, length_entriesFrom]
  · intro i h
    simp [storageProofEntries, getElem?_entriesFrom, List.getElem?_eq_getElem h,
      delayedOutputDiff]
  · intro i h
    have hmem : (env.StorageProofOutputID sp.ParentID ProofValid i, fc.ValidProofOutputs[i])
        ∈ storageProofEntries env sp fc := by
      apply List.mem_iff_getElem?.mpr
      exact ⟨i, by simp [storageProofEntries, getElem?_entriesFrom, List.getElem?_eq_getElem h]⟩
    obtain ⟨bucket, hb, _⟩ := hroom _ hmem
    exact ⟨withEntries bucket (storageProofEntries env sp fc), by simp [putDelayed, hb],
      withEntries_of_mem _ _ _ hmem hdistinct⟩
  · intro hnil
    simp [storageProofEntries, hnil, entriesFrom]

set_option maxRecDepth 100000 in
/-- Witness for C6 (amended): a proof of the sample contract with two valid
proof outputs, in a block at height 7 with a maturity delay of 3. -/
theorem applyStorageProofs_proof_witness :
    sampleProofDB.FileContracts (sampleProof sampleID2).ParentID = some sampleProvenContract
      ∧ ((storageProofEntries (sampleEnv true) (sampleProof sampleID2)
          sampleProvenContract).map Prod.fst).Nodup
      ∧ applyStorageProofs (sampleEnv true) sampleProofDB (processedBlock.new 7) sampleProofs
        = .ok { sampleProofDB with
              FileContracts := Function.update sampleProofDB.FileContracts sampleID2 none
              DelayedTurtleDexcoinOutputs :=
                putDelayed sampleProofDB.DelayedTurtleDexcoinOutputs 10
                  (storageProofEntries (sampleEnv true) (sampleProof sampleID2)
                    sampleProvenContract) }
            { processedBlock.new 7 with
              DelayedTurtleDexcoinOutputDiffs :=
                [] ++ (storageProofEntries (sampleEnv true) (sampleProof sampleID2)
                  sampleProvenContract).map (delayedOutputDiff 10)
              FileContractDiffs :=
                [] ++ [{ Direction := .DiffRevert, ID := sampleID2,
                         FileContract := sampleProvenContract }] } :=
  ⟨by decide, by decide,
    (applyStorageProofs_proof (sampleEnv true) sampleProofDB (processedBlock.new 7) sampleProofs
      [] [] (sampleProof sampleID2) sampleProofDB (processedBlock.new 7) sampleProvenContract
      rfl rfl (by decide) (fun _ _ => ⟨fun _ => none, rfl, rfl⟩) (by decide)).1⟩

/-- C6 as stated fails: the sample contract is stored, but the database has no
bucket of delayed outputs for height `pb.Height + MaturityDelay`; the function
panics after appending the first delayed output diff, appends no contract diff
and leaves the contract in the contract set. -/
theorem applyStorageProofs_missing_bucket :
    sampleNoBucketDB.FileContracts (sampleProof sampleID2).ParentID = some sampleProvenContract
      ∧ (applyStorageProofs (sampleEnv true) sampleNoBucketDB (processedBlock.new 7)
          sampleProofs).isFatal = true
      ∧ (applyStorageProofs (sampleEnv true) sampleNoBucketDB (processedBlock.new 7)
          sampleProofs).pb.DelayedTurtleDexcoinOutputDiffs.length = 1
      ∧ (applyStorageProofs (sampleEnv true) sampleNoBucketDB (processedBlock.new 7)
          sampleProofs).pb.FileContractDiffs = []
      ∧ (applyStorageProofs (sampleEnv true) sampleNoBucketDB (processedBlock.new 7)
          sampleProofs).tx.FileContracts sampleID2 = some sampleProvenContract := by
  decide

/-! ## C7: fund inputs -/

theorem applyTurtleDexfundInputsBody_present (env : Env) (sfi : TurtleDexfundInput)
    (tx : ConsensusDB) (pb : processedBlock) (sfo : TurtleDexfundOutput)
    (bucket : Hash → Option TurtleDexcoinOutput)
    (hsfo : tx.TurtleDexfundOutputs sfi.ParentID = some sfo)
    (hb : tx.DelayedTurtleDexcoinOutputs (pb.Height + env.MaturityDelay) = some bucket)
    (hfresh : bucket (TurtleDexClaimOutputID env sfi.ParentID) = none) :
    applyTurtleDexfundInputsBody env sfi tx pb
      = .ok { tx with
              TurtleDexfundOutputs := Function.update tx.TurtleDexfundOutputs sfi.ParentID none
              DelayedTurtleDexcoinOutputs :=
                Function.update tx.DelayedTurtleDexcoinOutputs (pb.Height + env.MaturityDelay)
                  (some (Function.update bucket (TurtleDexClaimOutputID env sfi.ParentID)
                    (some { Value := (tx.TurtleDexfundPool - sfo.ClaimStart)
                              / env.TurtleDexfundCount * sfo.Value
                            UnlockHash := sfi.ClaimUnlockHash }))) }
          { pb with
              DelayedTurtleDexcoinOutputDiffs := pb.DelayedTurtleDexcoinOutputDiffs ++
                [{ Direction := .DiffApply
                   ID := TurtleDexClaimOutputID env sfi.ParentID
                   TurtleDexcoinOutput :=
                     { Value := (tx.TurtleDexfundPool - sfo.ClaimStart)
                         / env.TurtleDexfundCount * sfo.Value
                       UnlockHash := sfi.ClaimUnlockHash }
                   MaturityHeight := pb.Height + env.MaturityDelay }]
              TurtleDexfundOutputDiffs := pb.TurtleDexfundOutputDiffs ++
                [{ Direction := .DiffRevert, ID := sfi.ParentID, TurtleDexfundOutput := sfo }] } := by
  simp [applyTurtleDexfundInputsBody, applyTurtleDexfundInputsRemove, getTurtleDexfundOutput,
    hsfo, commitDelayedTurtleDexcoinOutputDiff, addDSCO, hb, hfresh, Outcome.ofUpdate,
    commitTurtleDexfundOutputDiff, removeTurtleDexfundOutput, claimPortion, getTurtleDexfundPool,
    Currency.Mul, Currency.Div, Currency.Sub]

/-- C7 (amended): when `applyTurtleDexfundInputs` reaches a fund input that
spends a stored fund output `sfo` while the fund pool is `P ≥ sfo.ClaimStart`,
and the bucket of delayed outputs of height `pb.Height + MaturityDelay` exists
and does not hold the identifier `ParentID.TurtleDexClaimOutputID()`, it
appends a delayed output diff with direction `DiffApply`, that identifier, the
`ClaimUnlockHash` of the input, maturity height `pb.Height + MaturityDelay` and
value `((P - sfo.ClaimStart) / TurtleDexfundCount) * sfo.Value`, and a fund
output diff with direction `DiffRevert` and `ID = ParentID` carrying `sfo`, and
goes on with the remaining inputs. -/
theorem applyTurtleDexfundInputs_input (env : Env) (tx : ConsensusDB) (pb : processedBlock)
    (t : Transaction) (before after : List TurtleDexfundInput) (sfi : TurtleDexfundInput)
    (tx1 : ConsensusDB) (pb1 : processedBlock) (sfo : TurtleDexfundOutput)
    (bucket : Hash → Option TurtleDexcoinOutput)
    (hsplit : t.TurtleDexfundInputs = before ++ sfi :: after)
    (hreach : forRange (applyTurtleDexfundInputsBody env) before tx pb = .ok tx1 pb1)
    (hsfo : tx1.TurtleDexfundOutputs sfi.ParentID = some sfo)
    (_hpool : sfo.ClaimStart ≤ getTurtleDexfundPool tx1)
    (hb : tx1.DelayedTurtleDexcoinOutputs (pb1.Height + env.MaturityDelay) = some bucket)
    (hfresh : bucket (TurtleDexClaimOutputID env sfi.ParentID) = none) :
    applyTurtleDexfundInputs env tx pb t
      = forRange (applyTurtleDexfundInputsBody env) after
          { tx1 with
              TurtleDexfundOutputs := Function.update tx1.TurtleDexfundOutputs sfi.ParentID none
              DelayedTurtleDexcoinOutputs :=
                Function.update tx1.DelayedTurtleDexcoinOutputs (pb1.Height + env.MaturityDelay)
                  (some (Function.update bucket (TurtleDexClaimOutputID env sfi.ParentID)
                    (some { Value := (getTurtleDexfundPool tx1 - sfo.ClaimStart)
                              / env.TurtleDexfundCount * sfo.Value
                            UnlockHash := sfi.ClaimUnlockHash }))) }
          { pb1 with
              DelayedTurtleDexcoinOutputDiffs := pb1.DelayedTurtleDexcoinOutputDiffs ++
                [{ Direction := .DiffApply
                   ID := TurtleDexClaimOutputID env sfi.ParentID
                   TurtleDexcoinOutput :=
                     { Value := (getTurtleDexfundPool tx1 - sfo.ClaimStart)
                         / env.TurtleDexfundCount * sfo.Value
                       UnlockHash := sfi.ClaimUnlockHash }
                   MaturityHeight := pb1.Height + env.MaturityDelay }]
              TurtleDexfundOutputDiffs := pb1.TurtleDexfundOutputDiffs ++
                [{ Direction := .DiffRevert, ID := sfi.ParentID, TurtleDexfundOutput := sfo }] } := by
  rw [applyTurtleDexfundInputs, hsplit, forRange_append, hreach, Outcome.andThen_ok,
    forRange_cons, applyTurtleDexfundInputsBody_present env sfi tx1 pb1 sfo bucket hsfo hb hfresh,
    Outcome.andThen_ok]
  rfl

set_option maxRecDepth 100000 in
/-- Witness for C7 (amended): 40 funds whose claim started at 20,500 are spent
while the pool is 60,500 and the fund count is 10,000; the claim is
`(40,000 / 10,000) * 40 = 160`. -/
theorem applyTurtleDexfundInputs_input_witness :
    (getTurtleDexfundPool sampleFundDB - sampleFundOutput.ClaimStart)
        / (sampleEnv true).TurtleDexfundCount * sampleFundOutput.Value = 160
      ∧ applyTurtleDexfundInputs (sampleEnv true) sampleFundDB (processedBlock.new 7)
          sampleFundSpend
        = .ok { sampleFundDB with
              TurtleDexfundOutputs := Function.update sampleFundDB.TurtleDexfundOutputs sampleID1 none
              DelayedTurtleDexcoinOutputs :=
                Function.update sampleFundDB.DelayedTurtleDexcoinOutputs 10
                  (some (Function.update (fun _ => none)
                    (TurtleDexClaimOutputID (sampleEnv true) sampleID1)
                    (some { Value := 160, UnlockHash := List.replicate 32 6 }))) }
            { processedBlock.new 7 with
              DelayedTurtleDexcoinOutputDiffs :=
                [{ Direction := .DiffApply
                   ID := TurtleDexClaimOutputID (sampleEnv true) sampleID1
                   TurtleDexcoinOutput := { Value := 160, UnlockHash := List.replicate 32 6 }
                   MaturityHeight := 10 }]
              TurtleDexfundOutputDiffs :=
                [{ Direction := .DiffRevert, ID := sampleID1,
                   TurtleDexfundOutput := sampleFundOutput }] } :=
  ⟨by decide,
    applyTurtleDexfundInputs_input (sampleEnv true) sampleFundDB (processedBlock.new 7)
      sampleFundSpend [] [] (sampleFundInput sampleID1) sampleFundDB (processedBlock.new 7)
      sampleFundOutput (fun _ => none) rfl rfl (by decide) (by decide) rfl rfl⟩

/-- C7 as stated fails: the sample fund output is stored and the pool exceeds
its claim start, but the database has no bucket of delayed outputs for height
`pb.Height + MaturityDelay`; the function panics after appending the delayed
output diff, appends no fund output diff and leaves the fund output in place. -/
theorem applyTurtleDexfundInputs_missing_bucket :
    sampleFundNoBucketDB.TurtleDexfundOutputs (sampleFundInput sampleID1).ParentID
        = some sampleFundOutput
      ∧ sampleFundOutput.ClaimStart ≤ getTurtleDexfundPool sampleFundNoBucketDB
      ∧ (applyTurtleDexfundInputs (sampleEnv true) sampleFundNoBucketDB (processedBlock.new 7)
          sampleFundSpend).isFatal = true
      ∧ (applyTurtleDexfundInputs (sampleEnv true) sampleFundNoBucketDB (processedBlock.new 7)
          sampleFundSpend).pb.DelayedTurtleDexcoinOutputDiffs.length = 1
      ∧ (applyTurtleDexfundInputs (sampleEnv true) sampleFundNoBucketDB (processedBlock.new 7)
          sampleFundSpend).pb.TurtleDexfundOutputDiffs = []
      ∧ (applyTurtleDexfundInputs (sampleEnv true) sampleFundNoBucketDB (processedBlock.new 7)
          sampleFundSpend).tx.TurtleDexfundOutputs sampleID1 = some sampleFundOutput := by
  decide

/-! ## C8: fund outputs -/

theorem applyTurtleDexfundOutputsBody_fresh (env : Env) (t : Transaction) (i : Nat)
    (sfo : TurtleDexfundOutput) (tx : ConsensusDB) (pb : processedBlock)
    (h : tx.TurtleDexfundOutputs (t.TurtleDexfundOutputID env i) = none) :
    applyTurtleDexfundOutputsBody env t i sfo tx pb
      = .ok { tx with
              TurtleDexfundOutputs :=
                Function.update tx.TurtleDexfundOutputs (t.TurtleDexfundOutputID env i)
                  (some (stampClaimStart tx.TurtleDexfundPool sfo)) }
          { pb with
              TurtleDexfundOutputDiffs := pb.TurtleDexfundOutputDiffs ++
                [fundOutputDiff (t.TurtleDexfundOutputID env i,
                  stampClaimStart tx.TurtleDexfundPool sfo)] } := by
  simp [applyTurtleDexfundOutputsBody, h, commitTurtleDexfundOutputDiff,
    addTurtleDexfundOutput, Outcome.ofUpdate, fundOutputDiff, stampClaimStart,
    getTurtleDexfundPool]

theorem forRangeFrom_applyTurtleDexfundOutputsBody (env : Env) (t : Transaction)
    (l : List TurtleDexfundOutput) :
    ∀ (i : Nat) (tx : ConsensusDB) (pb : processedBlock),
      (∀ e ∈ entriesFrom (t.TurtleDexfundOutputID env) i
          (l.map (stampClaimStart tx.TurtleDexfundPool)), tx.TurtleDexfundOutputs e.1 = none) →
      ((entriesFrom (t.TurtleDexfundOutputID env) i
          (l.map (stampClaimStart tx.TurtleDexfundPool))).map Prod.fst).Nodup →
      forRangeFrom (applyTurtleDexfundOutputsBody env t) i l tx pb
        = .ok { tx with
                TurtleDexfundOutputs :=
                  withEntries tx.TurtleDexfundOutputs
                    (entriesFrom (t.TurtleDexfundOutputID env) i
                      (l.map (stampClaimStart tx.TurtleDexfundPool))) }
            { pb with
                TurtleDexfundOutputDiffs := pb.TurtleDexfundOutputDiffs ++
                  (entriesFrom (t.TurtleDexfundOutputID env) i
                    (l.map (stampClaimStart tx.TurtleDexfundPool))).map fundOutputDiff } := by
  induction l with
  | nil =>
    intro i tx pb _ _
    simp [entriesFrom, withEntries]
  | cons x rest ih =>
    intro i tx pb hfresh hnodup
    simp only [List.map_cons, entriesFrom, List.nodup_cons] at hnodup
    have hhead : tx.TurtleDexfundOutputs (t.TurtleDexfundOutputID env i) = none :=
      hfresh (t.TurtleDexfundOutputID env i, stampClaimStart tx.TurtleDexfundPool x)
        (by simp [entriesFrom])
    rw [forRangeFrom_cons, applyTurtleDexfundOutputsBody_fresh env t i x tx pb hhead,
      Outcome.andThen_ok, ih]
    · simp [entriesFrom, withEntries]
    · intro e he
      have hne : e.1 ≠ t.TurtleDexfundOutputID env i := by
        intro heq
        exact hnodup.1 (heq ▸ List.mem_map_of_mem Prod.fst he)
      simpa [Function.update_noteq hne] using hfresh e (by simp [entriesFrom, he])
    · exact hnodup.2

/-- C8 (amended): for a transaction whose fund output identifiers
`t.TurtleDexfundOutputID(i)` are pairwise distinct and not yet in the fund
output set, `applyTurtleDexfundOutputs` runs to the end and appends, in index
order, one fund output diff per fund output `i`, with direction `DiffApply`,
the identifier `t.TurtleDexfundOutputID(i)` computed from `t` as given, and an
output equal to `t.TurtleDexfundOutputs[i]` except that `ClaimStart` is the fund
pool, whatever `ClaimStart` the transaction carried. -/
theorem applyTurtleDexfundOutputs_fresh (env : Env) (tx : ConsensusDB) (pb : processedBlock)
    (t : Transaction)
    (hfresh : ∀ e ∈ fundOutputEntries env (getTurtleDexfundPool tx) t,
      tx.TurtleDexfundOutputs e.1 = none)
    (hdistinct : ((fundOutputEntries env (getTurtleDexfundPool tx) t).map Prod.fst).Nodup) :
    applyTurtleDexfundOutputs env tx pb t
        = .ok { tx with
                TurtleDexfundOutputs :=
                  withEntries tx.TurtleDexfundOutputs
                    (fundOutputEntries env (getTurtleDexfundPool tx) t) }
            { pb with
                TurtleDexfundOutputDiffs := pb.TurtleDexfundOutputDiffs ++
                  (fundOutputEntries env (getTurtleDexfundPool tx) t).map fundOutputDiff }
      ∧ ((fundOutputEntries env (getTurtleDexfundPool tx) t).map fundOutputDiff).length
          = t.TurtleDexfundOutputs.length
      ∧ (∀ i (h : i < t.TurtleDexfundOutputs.length),
          ((fundOutputEntries env (getTurtleDexfundPool tx) t).map fundOutputDiff)[i]?
            = some { Direction := .DiffApply
                     ID := t.TurtleDexfundOutputID env i
                     TurtleDexfundOutput :=
                       { Value := t.TurtleDexfundOutputs[i].Value
                         UnlockHash := t.TurtleDexfundOutputs[i].UnlockHash
                         ClaimStart := getTurtleDexfundPool tx } }) := by
  refine ⟨forRangeFrom_applyTurtleDexfundOutputsBody env t _ 0 tx pb hfresh hdistinct, ?_, ?_⟩
  · simp [fundOutputEntries, length_entriesFrom]
  · intro i h
    simp [fundOutputEntries, getElem?_entriesFrom, List.getElem?_eq_getElem h, fundOutputDiff,
      stampClaimStart]

set_option maxRecDepth 100000 in
/-- Witness for C8 (amended): two fund outputs created while the pool is 101;
both diffs carry a claim start of 101, also the one whose output came with a
claim start of 77. -/
theorem applyTurtleDexfundOutputs_fresh_witness :
    ((fundOutputEntries (sampleEnv true) (getTurtleDexfundPool samplePool101DB)
        sampleFundCreate).map Prod.fst).Nodup
      ∧ ((fundOutputEntries (sampleEnv true) (getTurtleDexfundPool samplePool101DB)
          sampleFundCreate).map fundOutputDiff).map (fun d => d.TurtleDexfundOutput)
        = [{ Value := 1, UnlockHash := Hash.zero, ClaimStart := 101 },
           { Value := 2, UnlockHash := Hash.zero, ClaimStart := 101 }]
      ∧ applyTurtleDexfundOutputs (sampleEnv true) samplePool101DB (processedBlock.new 7)
          sampleFundCreate
        = .ok { samplePool101DB with
              TurtleDexfundOutputs :=
                withEntries samplePool101DB.TurtleDexfundOutputs
                  (fundOutputEntries (sampleEnv true) (getTurtleDexfundPool samplePool101DB)
                    sampleFundCreate) }
            { processedBlock.new 7 with
              TurtleDexfundOutputDiffs :=
                (processedBlock.new 7).TurtleDexfundOutputDiffs ++
                  (fundOutputEntries (sampleEnv true) (getTurtleDexfundPool samplePool101DB)
                    sampleFundCreate).map fundOutputDiff } :=
  ⟨by decide, by decide,
    (applyTurtleDexfundOutputs_fresh (sampleEnv true) samplePool101DB (processedBlock.new 7)
      sampleFundCreate (fun _ _ => rfl) (by decide)).1⟩

set_option maxRecDepth 100000 in
/-- C8 as stated fails: when the identifier of the first fund output of the
sample transaction is already in the fund output set, the function panics after
appending a single diff; the second fund output gets no diff. -/
theorem applyTurtleDexfundOutputs_existing_id :
    sampleFundCreate.TurtleDexfundOutputs.length = 2
      ∧ (applyTurtleDexfundOutputs (sampleEnv true) sampleTakenFundDB (processedBlock.new 7)
          sampleFundCreate).isFatal = true
      ∧ (applyTurtleDexfundOutputs (sampleEnv true) sampleTakenFundDB (processedBlock.new 7)
          sampleFundCreate).pb.TurtleDexfundOutputDiffs.length = 1
      ∧ (applyTurtleDexfundOutputs (sampleEnv true) sampleTakenFundDB (processedBlock.new 7)
          sampleFundCreate).tx.TurtleDexfundOutputs
            (sampleFundCreate.TurtleDexfundOutputID (sampleEnv true) 1) = none := by
  decide

/-! ## C9: missing parents -/

theorem forRange_fatal_at {α : Type} (body : α → ConsensusDB → processedBlock → Outcome)
    (before after : List α) (x : α) (tx tx1 : ConsensusDB) (pb pb1 : processedBlock)
    (e : Fatal) (hreach : forRange body before tx pb = .ok tx1 pb1)
    (hbody : body x tx1 pb1 = .fatal e tx1 pb1) :
    forRange body (before ++ x :: after) tx pb = .fatal e tx1 pb1 := by
  rw [forRange_append, hreach, Outcome.andThen_ok, forRange_cons, hbody, Outcome.andThen_fatal]

/-- C9 (amended): with `build.DEBUG` set, when `applyTurtleDexcoinInputs`,
`applyFileContractRevisions`, `applyStorageProofs` or `applyTurtleDexfundInputs`
reaches an item whose `ParentID` is absent from the coin outputs, the
contracts, the contracts or the fund outputs, it halts with the panic
`errNilItem` in the state it had reached, without appending a diff for the
item. -/
theorem apply_missing_parent_debug (env : Env) (hdebug : env.DEBUG = true) :
    (∀ (tx : ConsensusDB) (pb : processedBlock) (t : Transaction)
        (before after : List TurtleDexcoinInput) (sci : TurtleDexcoinInput)
        (tx1 : ConsensusDB) (pb1 : processedBlock),
        t.TurtleDexcoinInputs = before ++ sci :: after →
        forRange (applyTurtleDexcoinInputsBody env) before tx pb = .ok tx1 pb1 →
        tx1.TurtleDexcoinOutputs sci.ParentID = none →
        applyTurtleDexcoinInputs env tx pb t = .fatal .errNilItem tx1 pb1)
      ∧ (∀ (tx : ConsensusDB) (pb : processedBlock) (t : Transaction)
        (before after : List FileContractRevision) (fcr : FileContractRevision)
        (tx1 : ConsensusDB) (pb1 : processedBlock),
        t.FileContractRevisions = before ++ fcr :: after →
        forRange (applyFileContractRevisionsBody env) before tx pb = .ok tx1 pb1 →
        tx1.FileContracts fcr.ParentID = none →
        applyFileContractRevisions env tx pb t = .fatal .errNilItem tx1 pb1)
      ∧ (∀ (tx : ConsensusDB) (pb : processedBlock) (t : Transaction)
        (before after : List StorageProof) (sp : StorageProof)
        (tx1 : ConsensusDB) (pb1 : processedBlock),
        t.StorageProofs = before ++ sp :: after →
        forRange (applyStorageProofsBody env) before tx pb = .ok tx1 pb1 →
        tx1.FileContracts sp.ParentID = none →
        applyStorageProofs env tx pb t = .fatal .errNilItem tx1 pb1)
      ∧ (∀ (tx : ConsensusDB) (pb : processedBlock) (t : Transaction)
        (before after : List TurtleDexfundInput) (sfi : TurtleDexfundInput)
        (tx1 : ConsensusDB) (pb1 : processedBlock),
        t.TurtleDexfundInputs = before ++ sfi :: after →
        forRange (applyTurtleDexfundInputsBody env) before tx pb = .ok tx1 pb1 →
        tx1.TurtleDexfundOutputs sfi.ParentID = none →
        applyTurtleDexfundInputs env tx pb t = .fatal .errNilItem tx1 pb1) := by
  refine ⟨?_, ?_, ?_, ?_⟩
  · intro tx pb t before after sci tx1 pb1 hsplit hreach hnone
    rw [applyTurtleDexcoinInputs, hsplit]
    exact forRange_fatal_at _ before after sci tx tx1 pb pb1 _ hreach
      (by simp [applyTurtleDexcoinInputsBody, getTurtleDexcoinOutput, hnone, hdebug])
  · intro tx pb t before after fcr tx1 pb1 hsplit hreach hnone
    rw [applyFileContractRevisions, hsplit]
    exact forRange_fatal_at _ before after fcr tx tx1 pb pb1 _ hreach
      (by simp [applyFileContractRevisionsBody, getFileContract, hnone, hdebug])
  · intro tx pb t before after sp tx1 pb1 hsplit hreach hnone
    rw [applyStorageProofs, hsplit]
    exact forRange_fatal_at _ before after sp tx tx1 pb pb1 _ hreach
      (by simp [applyStorageProofsBody, getFileContract, hnone, hdebug])
  · intro tx pb t before after sfi tx1 pb1 hsplit hreach hnone
    rw [applyTurtleDexfundInputs, hsplit]
    exact forRange_fatal_at _ before after sfi tx tx1 pb pb1 _ hreach
      (by simp [applyTurtleDexfundInputsBody, getTurtleDexfundOutput, hnone, hdebug])

/-- Witness for C9 (amended): with `build.DEBUG` set, each of the four functions
panics with `errNilItem` on the empty database and leaves the processed block
without diffs. -/
theorem apply_missing_parent_debug_witness :
    applyTurtleDexcoinInputs (sampleEnv true) ConsensusDB.empty (processedBlock.new 7)
        sampleMissingInput = .fatal .errNilItem ConsensusDB.empty (processedBlock.new 7)
      ∧ applyFileContractRevisions (sampleEnv true) ConsensusDB.empty (processedBlock.new 7)
        sampleMissingRevision = .fatal .errNilItem ConsensusDB.empty (processedBlock.new 7)
      ∧ applyStorageProofs (sampleEnv true) ConsensusDB.empty (processedBlock.new 7)
        sampleMissingProof = .fatal .errNilItem ConsensusDB.empty (processedBlock.new 7)
      ∧ applyTurtleDexfundInputs (sampleEnv true) ConsensusDB.empty (processedBlock.new 7)
        sampleMissingFundInput = .fatal .errNilItem ConsensusDB.empty (processedBlock.new 7) :=
  ⟨(apply_missing_parent_debug (sampleEnv true) rfl).1 ConsensusDB.empty (processedBlock.new 7)
      sampleMissingInput [] [] (sampleInput sampleID1) ConsensusDB.empty (processedBlock.new 7)
      rfl rfl rfl,
    (apply_missing_parent_debug (sampleEnv true) rfl).2.1 ConsensusDB.empty (processedBlock.new 7)
      sampleMissingRevision [] [] (sampleRevision sampleID1 1 2) ConsensusDB.empty
      (processedBlock.new 7) rfl rfl rfl,
    (apply_missing_parent_debug (sampleEnv true) rfl).2.2.1 ConsensusDB.empty
      (processedBlock.new 7) sampleMissingProof [] [] (sampleProof sampleID1) ConsensusDB.empty
      (processedBlock.new 7) rfl rfl rfl,
    (apply_missing_parent_debug (sampleEnv true) rfl).2.2.2 ConsensusDB.empty
      (processedBlock.new 7) sampleMissingFundInput [] [] (sampleFundInput sampleID1)
      ConsensusDB.empty (processedBlock.new 7) rfl rfl rfl⟩

/-- C9 as stated fails: without `build.DEBUG` the check `build.DEBUG && err !=
nil` lets each of the four functions go on with the zero value of the missing
object, and a diff built from it is appended to the processed block. -/
theorem apply_missing_parent_release :
    (sampleEnv false).DEBUG = false
      ∧ ConsensusDB.empty.TurtleDexcoinOutputs sampleID1 = none
      ∧ ConsensusDB.empty.FileContracts sampleID1 = none
      ∧ ConsensusDB.empty.TurtleDexfundOutputs sampleID1 = none
      ∧ (applyTurtleDexcoinInputs (sampleEnv false) ConsensusDB.empty (processedBlock.new 7)
          sampleMissingInput).pb.TurtleDexcoinOutputDiffs.head?
        = some { Direction := .DiffRevert, ID := sampleID1,
                 TurtleDexcoinOutput := TurtleDexcoinOutput.zero }
      ∧ (applyFileContractRevisions (sampleEnv false) ConsensusDB.empty (processedBlock.new 7)
          sampleMissingRevision).pb.FileContractDiffs.head?
        = some { Direction := .DiffRevert, ID := sampleID1, FileContract := FileContract.zero }
      ∧ (applyStorageProofs (sampleEnv false) ConsensusDB.empty (processedBlock.new 7)
          sampleMissingProof).pb.FileContractDiffs.head?
        = some { Direction := .DiffRevert, ID := sampleID1, FileContract := FileContract.zero }
      ∧ (applyTurtleDexfundInputs (sampleEnv false) ConsensusDB.empty (processedBlock.new 7)
          sampleMissingFundInput).pb.DelayedTurtleDexcoinOutputDiffs.head?
        = some { Direction := .DiffApply
                 ID := TurtleDexClaimOutputID (sampleEnv false) sampleID1
                 TurtleDexcoinOutput := { Value := 0, UnlockHash := List.replicate 32 6 }
                 MaturityHeight := 10 } := by
  decide

/-! ## C10: arbitrary data without effect -/

theorem applyArbitraryDataBody_other (env : Env) (arb : Bytes) (tx : ConsensusDB)
    (pb : processedBlock) (h : ¬ SpecifierFoundation <+: arb) :
    applyArbitraryDataBody env arb tx pb = .ok tx pb := by
  have hfalse : List.isPrefixOf SpecifierFoundation arb = false := by
    cases hp : List.isPrefixOf SpecifierFoundation arb with
    | false => rfl
    | true => exact absurd (List.isPrefixOf_iff_prefix.mp hp) h
  simp [applyArbitraryDataBody, hfalse]

theorem not_prefix_of_short (arb : Bytes) (h : arb.length < SpecifierLen) :
    ¬ SpecifierFoundation <+: arb := by
  intro hp
  have hlen := hp.length_le
  have hspec : SpecifierFoundation.length = 16 := by decide
  rw [hspec] at hlen
  simp only [SpecifierLen] at h
  omega

/-- C10: `applyArbitraryData` leaves the database and the processed block
unchanged whenever `pb.Height < FoundationHardforkHeight`, and also, at any
height, whenever every `ArbitraryData` entry of the transaction is shorter than
the specifier or does not begin with the Foundation specifier (an empty
transaction included). -/
theorem applyArbitraryData_inert (env : Env) (tx : ConsensusDB) (pb : processedBlock)
    (t : Transaction)
    (h : pb.Height < env.FoundationHardforkHeight ∨
      ∀ arb ∈ t.ArbitraryData, arb.length < SpecifierLen ∨ ¬ SpecifierFoundation <+: arb) :
    applyArbitraryData env tx pb t = .ok tx pb := by
  unfold applyArbitraryData
  by_cases hh : pb.Height < env.FoundationHardforkHeight
  · simp [hh]
  · have hall : ∀ arb ∈ t.ArbitraryData, ¬ SpecifierFoundation <+: arb := by
      intro arb harb
      rcases h with h | h
      · exact absurd h hh
      · rcases h arb harb with hs | hn
        · exact not_prefix_of_short arb hs
        · exact hn
    rw [if_neg hh]
    generalize t.ArbitraryData = l at hall
    induction l with
    | nil => rfl
    | cons arb rest ih =>
      rw [forRange_cons, applyArbitraryDataBody_other env arb tx pb (hall arb (by simp)),
        Outcome.andThen_ok]
      exact ih (fun a ha => hall a (List.mem_cons_of_mem _ ha))

/-- Witness for C10: below the hardfork height a Foundation update is ignored,
and at the hardfork height the empty transaction and a transaction without the
Foundation specifier are ignored. -/
theorem applyArbitraryData_inert_witness :
    applyArbitraryData (sampleEnv true) sampleDB (processedBlock.new 49) sampleUpdateData
        = .ok sampleDB (processedBlock.new 49)
      ∧ applyArbitraryData (sampleEnv true) sampleDB (processedBlock.new 50) Transaction.zero
        = .ok sampleDB (processedBlock.new 50)
      ∧ applyArbitraryData (sampleEnv true) sampleDB (processedBlock.new 50) sampleInertData
        = .ok sampleDB (processedBlock.new 50) :=
  ⟨applyArbitraryData_inert (sampleEnv true) sampleDB (processedBlock.new 49) sampleUpdateData
      (Or.inl (by decide)),
    applyArbitraryData_inert (sampleEnv true) sampleDB (processedBlock.new 50) Transaction.zero
      (Or.inr (by decide)),
    applyArbitraryData_inert (sampleEnv true) sampleDB (processedBlock.new 50) sampleInertData
      (Or.inr (by decide))⟩

/-! ## C18: revision numbers -/

/-- C18 (amended): when `applyFileContractRevisions` reaches a revision whose
`ParentID` names a stored contract `old`, the record carried by the apply diff
has the revision number `NewRevisionNumber` of the revision, whatever the
revision number of `old`; it is strictly greater than the revision number of
the replaced record exactly when `NewRevisionNumber` is, which the function
does not check. -/
theorem applyFileContractRevisions_revisionNumber (env : Env) (tx : ConsensusDB)
    (pb : processedBlock) (t : Transaction) (before after : List FileContractRevision)
    (fcr : FileContractRevision) (tx1 : ConsensusDB) (pb1 : processedBlock) (old : FileContract)
    (hsplit : t.FileContractRevisions = before ++ fcr :: after)
    (hreach : forRange (applyFileContractRevisionsBody env) before tx pb = .ok tx1 pb1)
    (hold : tx1.FileContracts fcr.ParentID = some old) :
    applyFileContractRevisions env tx pb t
        = forRange (applyFileContractRevisionsBody env) after
            { tx1 with
                FileContracts :=
                  Function.update tx1.FileContracts fcr.ParentID
                    (some (revisedFileContract fcr old)) }
            { pb1 with
                FileContractDiffs := pb1.FileContractDiffs ++
                  [{ Direction := .DiffRevert, ID := fcr.ParentID, FileContract := old },
                   { Direction := .DiffApply, ID := fcr.ParentID,
                     FileContract := revisedFileContract fcr old }] }
      ∧ (revisedFileContract fcr old).RevisionNumber = fcr.NewRevisionNumber
      ∧ (old.RevisionNumber < (revisedFileContract fcr old).RevisionNumber
          ↔ old.RevisionNumber < fcr.NewRevisionNumber) := by
  refine ⟨?_, rfl, Iff.rfl⟩
  rw [applyFileContractRevisions, hsplit, forRange_append, hreach, Outcome.andThen_ok,
    forRange_cons, applyFileContractRevisionsBody_present env fcr tx1 pb1 old hold,
    Outcome.andThen_ok]

/-- Witness for C18 (amended): the second sample revision raises the revision
number from 2 to 3. -/
theorem applyFileContractRevisions_revisionNumber_witness :
    sampleRevised1.RevisionNumber = 2 ∧ sampleRevised2.RevisionNumber = 3
      ∧ (sampleRevised1.RevisionNumber < sampleRevised2.RevisionNumber
          ↔ sampleRevised1.RevisionNumber < (sampleRevision sampleID1 2 3).NewRevisionNumber) :=
  ⟨by decide, by decide,
    (applyFileContractRevisions_revisionNumber (sampleEnv true) sampleContractDB
      (processedBlock.new 7) sampleRevisions [sampleRevision sampleID1 1 2] []
      (sampleRevision sampleID1 2 3) sampleContractDB1 samplePB1 sampleRevised1 rfl
      (by
        rw [forRange_cons, applyFileContractRevisionsBody_present (sampleEnv true)
          (sampleRevision sampleID1 1 2) sampleContractDB (processedBlock.new 7) sampleContract
          (by decide)]
        rfl)
      (by decide)).2.2⟩

/-- C18 as stated fails: a revision with revision number 0 of the stored sample
contract, whose revision number is 1, is applied without a panic; the apply
diff and the contract set then carry the revision number 0. -/
theorem applyFileContractRevisions_stale_revision :
    sampleContractDB.FileContracts sampleID1 = some sampleContract
      ∧ sampleContract.RevisionNumber = 1
      ∧ (applyFileContractRevisions (sampleEnv true) sampleContractDB (processedBlock.new 7)
          sampleStaleRevision).isFatal = false
      ∧ (applyFileContractRevisions (sampleEnv true) sampleContractDB (processedBlock.new 7)
          sampleStaleRevision).pb.FileContractDiffs
        = [{ Direction := .DiffRevert, ID := sampleID1, FileContract := sampleContract },
           { Direction := .DiffApply, ID := sampleID1,
             FileContract := revisedFileContract (sampleRevision sampleID1 9 0) sampleContract }]
      ∧ (revisedFileContract (sampleRevision sampleID1 9 0) sampleContract).RevisionNumber = 0
      ∧ ((applyFileContractRevisions (sampleEnv true) sampleContractDB (processedBlock.new 7)
          sampleStaleRevision).tx.FileContracts sampleID1).map (fun fc => fc.RevisionNumber)
        = some 0 := by
  decide

/-! ## C20: identifiers do not depend on the signatures -/

theorem WriteUint64_length (u : Nat) : (WriteUint64 u).length = 8 := by
  simp [WriteUint64]

/-- C20: two transactions that differ only in `TransactionSignatures` have the
same non-signature encoding and therefore the same `ID()` and, for every index
`i`, the same `TurtleDexcoinOutputID(i)`, `FileContractID(i)` and
`TurtleDexfundOutputID(i)`; `ID()` is the hash of the non-signature encoding,
and each of the other three is the hash of its specifier, the non-signature
encoding and the eight bytes of the index. -/
theorem ids_ignore_signatures (env : Env) (t1 t2 : Transaction) (i : Nat)
    (h : { t1 with TransactionSignatures := t2.TransactionSignatures } = t2) :
    t1.marshalTurtleDexNoSignatures = t2.marshalTurtleDexNoSignatures
      ∧ t1.ID env = t2.ID env
      ∧ t1.TurtleDexcoinOutputID env i = t2.TurtleDexcoinOutputID env i
      ∧ t1.FileContractID env i = t2.FileContractID env i
      ∧ t1.TurtleDexfundOutputID env i = t2.TurtleDexfundOutputID env i
      ∧ t1.ID env = env.HashBytes t1.marshalTurtleDexNoSignatures
      ∧ t1.TurtleDexcoinOutputID env i
        = env.HashBytes (NewSpecifier "ttdc output" ++ t1.marshalTurtleDexNoSignatures
            ++ WriteUint64 i)
      ∧ t1.FileContractID env i
        = env.HashBytes (NewSpecifier "file contract" ++ t1.marshalTurtleDexNoSignatures
            ++ WriteUint64 i)
      ∧ t1.TurtleDexfundOutputID env i
        = env.HashBytes (NewSpecifier "siafund output" ++ t1.marshalTurtleDexNoSignatures
            ++ WriteUint64 i)
      ∧ (WriteUint64 i).length = 8 := by
  have hm : t1.marshalTurtleDexNoSignatures = t2.marshalTurtleDexNoSignatures := by
    rw [← h]
    rfl
  refine ⟨hm, ?_, ?_, ?_, ?_, rfl, rfl, rfl, rfl, WriteUint64_length i⟩
  · simp [Transaction.ID, hm]
  · simp [Transaction.TurtleDexcoinOutputID, hm]
  · simp [Transaction.FileContractID, hm]
  · simp [Transaction.TurtleDexfundOutputID, hm]

/-- Witness for C20: the sample contract creation with and without a
signature. -/
theorem ids_ignore_signatures_witness :
    sampleContracts.TransactionSignatures ≠ sampleSigned.TransactionSignatures
      ∧ sampleContracts.ID (sampleEnv true) = sampleSigned.ID (sampleEnv true)
      ∧ sampleContracts.FileContractID (sampleEnv true) 1
        = sampleSigned.FileContractID (sampleEnv true) 1 :=
  ⟨by decide,
    (ids_ignore_signatures (sampleEnv true) sampleContracts sampleSigned 1 rfl).2.1,
    (ids_ignore_signatures (sampleEnv true) sampleContracts sampleSigned 1 rfl).2.2.2.1⟩

/-! ## C14: the transfer of the subsidy outputs -/

theorem ConsensusDB.sameButCoins_refl (a : ConsensusDB) : a.sameButCoins a :=
  ⟨rfl, rfl, rfl, rfl, rfl, rfl, rfl, rfl⟩

theorem transferLoop_done (env : Env) (cur : types.BlockHeight) (np : UnlockHash) (fuel : Nat)
    (h : types.BlockHeight) (tx : ConsensusDB) (pb : processedBlock) (hge : ¬ h < cur) :
    transferFoundationOutputsLoop env cur np fuel h tx pb = .ok tx pb := by
  cases fuel with
  | zero => rfl
  | succ fuel => rw [transferFoundationOutputsLoop, if_neg hge]

theorem transferLoop_nopath_debug (env : Env) (cur : types.BlockHeight) (np : UnlockHash)
    (fuel : Nat) (h : types.BlockHeight) (tx : ConsensusDB) (pb : processedBlock)
    (hlt : h < cur) (hp : tx.BlockPath h = none) (hd : env.DEBUG = true) :
    transferFoundationOutputsLoop env cur np (fuel + 1) h tx pb = .fatal .errNilItem tx pb := by
  rw [transferFoundationOutputsLoop, if_pos hlt]
  simp [getPath, hp, hd]

theorem transferLoop_nopath_release (env : Env) (cur : types.BlockHeight) (np : UnlockHash)
    (fuel : Nat) (h : types.BlockHeight) (tx : ConsensusDB) (pb : processedBlock)
    (hlt : h < cur) (hp : tx.BlockPath h = none) (hd : env.DEBUG = false) :
    transferFoundationOutputsLoop env cur np (fuel + 1) h tx pb
      = transferFoundationOutputsLoop env cur np fuel (h + env.FoundationSubsidyFrequency)
          tx pb := by
  rw [transferFoundationOutputsLoop, if_pos hlt]
  simp [getPath, hp, hd]

theorem transferLoop_spent (env : Env) (cur : types.BlockHeight) (np : UnlockHash)
    (fuel : Nat) (h : types.BlockHeight) (tx : ConsensusDB) (pb : processedBlock)
    (blockID : BlockID)
    (hlt : h < cur) (hp : tx.BlockPath h = some blockID)
    (ho : tx.TurtleDexcoinOutputs (env.FoundationSubsidyID blockID) = none) :
    transferFoundationOutputsLoop env cur np (fuel + 1) h tx pb
      = transferFoundationOutputsLoop env cur np fuel (h + env.FoundationSubsidyFrequency)
          tx pb := by
  rw [transferFoundationOutputsLoop, if_pos hlt]
  simp [getPath, hp, getTurtleDexcoinOutput, ho]

theorem transferLoop_unspent (env : Env) (cur : types.BlockHeight) (np : UnlockHash)
    (fuel : Nat) (h : types.BlockHeight) (tx : ConsensusDB) (pb : processedBlock)
    (blockID : BlockID) (sco : TurtleDexcoinOutput)
    (hlt : h < cur) (hp : tx.BlockPath h = some blockID)
    (ho : tx.TurtleDexcoinOutputs (env.FoundationSubsidyID blockID) = some sco) :
    transferFoundationOutputsLoop env cur np (fuel + 1) h tx pb
      = transferFoundationOutputsLoop env cur np fuel (h + env.FoundationSubsidyFrequency)
          (readdressed tx (env.FoundationSubsidyID blockID) sco np) pb := by
  rw [transferFoundationOutputsLoop, if_pos hlt]
  simp [getPath, hp, getTurtleDexcoinOutput, ho, removeTurtleDexcoinOutput,
    addTurtleDexcoinOutput, Except.bind, readdressed]

theorem transferFoundationOutputsLoop_frame (env : Env) (cur : types.BlockHeight)
    (np : UnlockHash) :
    ∀ (fuel : Nat) (h : types.BlockHeight) (tx : ConsensusDB) (pb : processedBlock),
      (transferFoundationOutputsLoop env cur np fuel h tx pb).pb = pb
        ∧ (transferFoundationOutputsLoop env cur np fuel h tx pb).tx.sameButCoins tx := by
  intro fuel
  induction fuel with
  | zero =>
    intro h tx pb
    exact ⟨rfl, ConsensusDB.sameButCoins_refl tx⟩
  | succ fuel ih =>
    intro h tx pb
    by_cases hlt : h < cur
    · cases hp : tx.BlockPath h with
      | none =>
        cases hd : env.DEBUG with
        | true =>
          rw [transferLoop_nopath_debug env cur np fuel h tx pb hlt hp hd]
          exact ⟨rfl, ConsensusDB.sameButCoins_refl tx⟩
        | false =>
          rw [transferLoop_nopath_release env cur np fuel h tx pb hlt hp hd]
          exact ih _ tx pb
      | some blockID =>
        cases ho : tx.TurtleDexcoinOutputs (env.FoundationSubsidyID blockID) with
        | none =>
          rw [transferLoop_spent env cur np fuel h tx pb blockID hlt hp ho]
          exact ih _ tx pb
        | some sco =>
          rw [transferLoop_unspent env cur np fuel h tx pb blockID sco hlt hp ho]
          exact ih _ (readdressed tx (env.FoundationSubsidyID blockID) sco np) pb
    · rw [transferLoop_done env cur np _ h tx pb hlt]
      exact ⟨rfl, ConsensusDB.sameButCoins_refl tx⟩

theorem visitsSubsidy_step (env : Env) (path : types.BlockHeight → Option BlockID)
    (cur h : Nat) (id : TurtleDexcoinOutputID) :
    visitsSubsidy env path cur h id ↔
      (h < cur ∧ ∃ b, path h = some b ∧ env.FoundationSubsidyID b = id)
        ∨ visitsSubsidy env path cur (h + env.FoundationSubsidyFrequency) id := by
  constructor
  · rintro ⟨k, b, hlt, hp, hid⟩
    cases k with
    | zero =>
      left
      simp only [Nat.zero_mul, Nat.add_zero] at hlt hp
      exact ⟨hlt, b, hp, hid⟩
    | succ k =>
      right
      refine ⟨k, b, ?_, ?_, hid⟩
      · have : h + env.FoundationSubsidyFrequency + k * env.FoundationSubsidyFrequency
            = h + (k + 1) * env.FoundationSubsidyFrequency := by ring
        rw [this]; exact hlt
      · have : h + env.FoundationSubsidyFrequency + k * env.FoundationSubsidyFrequency
            = h + (k + 1) * env.FoundationSubsidyFrequency := by ring
        rw [this]; exact hp
  · rintro (⟨hlt, b, hp, hid⟩ | ⟨k, b, hlt, hp, hid⟩)
    · exact ⟨0, b, by simpa using hlt, by simpa using hp, hid⟩
    · refine ⟨k + 1, b, ?_, ?_, hid⟩
      · have : h + (k + 1) * env.FoundationSubsidyFrequency
            = h + env.FoundationSubsidyFrequency + k * env.FoundationSubsidyFrequency := by ring
        rw [this]; exact hlt
      · have : h + (k + 1) * env.FoundationSubsidyFrequency
            = h + env.FoundationSubsidyFrequency + k * env.FoundationSubsidyFrequency := by ring
        rw [this]; exact hp

theorem not_visitsSubsidy_of_ge (env : Env) (path : types.BlockHeight → Option BlockID)
    (cur h : Nat) (id : TurtleDexcoinOutputID) (hge : ¬ h < cur) :
    ¬ visitsSubsidy env path cur h id := by
  rintro ⟨k, b, hlt, _, _⟩
  have : h ≤ h + k * (env.FoundationSubsidyFrequency : Nat) := Nat.le_add_right _ _
  omega

theorem transferFoundationOutputsLoop_ok (env : Env) (cur : Nat)
    (np : UnlockHash) :
    ∀ (fuel : Nat) (h : Nat) (tx : ConsensusDB) (pb : processedBlock)
      (tx' : ConsensusDB) (pb' : processedBlock),
      cur - h ≤ fuel →
      transferFoundationOutputsLoop env cur np fuel h tx pb = .ok tx' pb' →
      ∀ id,
        (visitsSubsidy env tx.BlockPath cur h id →
          tx'.TurtleDexcoinOutputs id = (tx.TurtleDexcoinOutputs id).map (withUnlockHash np))
        ∧ (¬ visitsSubsidy env tx.BlockPath cur h id →
          tx'.TurtleDexcoinOutputs id = tx.TurtleDexcoinOutputs id) := by
  intro fuel
  induction fuel with
  | zero =>
    intro h tx pb tx' pb' hfuel hok id
    have hge : ¬ h < cur := by omega
    rw [transferLoop_done env cur np 0 h tx pb hge] at hok
    cases hok
    exact ⟨fun hv => absurd hv (not_visitsSubsidy_of_ge env _ cur h id hge), fun _ => rfl⟩
  | succ fuel ih =>
    intro h tx pb tx' pb' hfuel hok id
    have hF : 0 < (env.FoundationSubsidyFrequency : Nat) := env.FoundationSubsidyFrequency_pos
    by_cases hlt : h < cur
    · have hfuel' : cur - (h + env.FoundationSubsidyFrequency) ≤ fuel :=
        calc cur - (h + env.FoundationSubsidyFrequency)
            = cur - h - env.FoundationSubsidyFrequency := Nat.sub_add_eq _ _ _
          _ ≤ cur - h - 1 := Nat.sub_le_sub_left hF _
          _ ≤ fuel := Nat.sub_le_iff_le_add.mpr hfuel
      rw [visitsSubsidy_step env tx.BlockPath cur h id]
      cases hp : tx.BlockPath h with
      | none =>
        cases hd : env.DEBUG with
        | true =>
          rw [transferLoop_nopath_debug env cur np fuel h tx pb hlt hp hd] at hok
          cases hok
        | false =>
          rw [transferLoop_nopath_release env cur np fuel h tx pb hlt hp hd] at hok
          have := ih _ tx pb tx' pb' hfuel' hok id
          simpa using this
      | some blockID =>
        cases ho : tx.TurtleDexcoinOutputs (env.FoundationSubsidyID blockID) with
        | none =>
          rw [transferLoop_spent env cur np fuel h tx pb blockID hlt hp ho] at hok
          have := ih _ tx pb tx' pb' hfuel' hok id
          by_cases hv : visitsSubsidy env tx.BlockPath cur
              (h + env.FoundationSubsidyFrequency) id
          · simp only [hv, or_true, true_implies, not_true_eq_false, false_implies, and_true]
            exact this.1 hv
          · by_cases hid : env.FoundationSubsidyID blockID = id
            · subst hid
              simp [hlt, hv, ho, this.2 hv]
            · simp [hlt, hv, hid, this.2 hv]
        | some sco =>
          rw [transferLoop_unspent env cur np fuel h tx pb blockID sco hlt hp ho] at hok
          have := ih _ (readdressed tx (env.FoundationSubsidyID blockID) sco np) pb tx' pb'
            hfuel' hok id
          have hpath : (readdressed tx (env.FoundationSubsidyID blockID) sco np).BlockPath
              = tx.BlockPath := rfl
          rw [hpath] at this
          by_cases hid : env.FoundationSubsidyID blockID = id
          · subst hid
            have hval : tx'.TurtleDexcoinOutputs (env.FoundationSubsidyID blockID)
                = some (withUnlockHash np sco) := by
              by_cases hv : visitsSubsidy env tx.BlockPath cur
                  (h + env.FoundationSubsidyFrequency) (env.FoundationSubsidyID blockID)
              · rw [this.1 hv]
                simp [readdressed, withUnlockHash]
              · rw [this.2 hv]
                simp [readdressed, withUnlockHash]
            simp [hlt, ho, hval]
          · have hsame : (readdressed tx (env.FoundationSubsidyID blockID) sco
                np).TurtleDexcoinOutputs id = tx.TurtleDexcoinOutputs id := by
              simp [readdressed, Function.update_noteq (Ne.symm hid)]
            rw [hsame] at this
            simpa [hlt, hid] using this
    · rw [transferLoop_done env cur np _ h tx pb hlt] at hok
      cases hok
      exact ⟨fun hv => absurd hv (not_visitsSubsidy_of_ge env _ cur h id hlt), fun _ => rfl⟩

theorem transferFoundationOutputsLoop_total (env : Env) (cur : Nat) (np : UnlockHash) :
    ∀ (fuel : Nat) (h : Nat) (tx : ConsensusDB) (pb : processedBlock),
      (env.DEBUG = false ∨ ∀ k, h + k * env.FoundationSubsidyFrequency < cur →
        (tx.BlockPath (h + k * env.FoundationSubsidyFrequency)).isSome) →
      ∃ tx', transferFoundationOutputsLoop env cur np fuel h tx pb = .ok tx' pb := by
  intro fuel
  induction fuel with
  | zero =>
    intro h tx pb _
    exact ⟨tx, rfl⟩
  | succ fuel ih =>
    intro h tx pb hyp
    by_cases hlt : h < cur
    · have hshift : ∀ (tx1 : ConsensusDB), tx1.BlockPath = tx.BlockPath →
          (env.DEBUG = false ∨ ∀ k,
            h + env.FoundationSubsidyFrequency + k * env.FoundationSubsidyFrequency < cur →
            (tx1.BlockPath (h + env.FoundationSubsidyFrequency
              + k * env.FoundationSubsidyFrequency)).isSome) := by
        intro tx1 hpath
        rcases hyp with hd | hall
        · exact Or.inl hd
        · right
          intro k hk
          have heq : h + env.FoundationSubsidyFrequency + k * env.FoundationSubsidyFrequency
              = h + (k + 1) * env.FoundationSubsidyFrequency := by ring
          rw [hpath, heq]
          exact hall (k + 1) (heq ▸ hk)
      cases hp : tx.BlockPath h with
      | none =>
        cases hd : env.DEBUG with
        | true =>
          rcases hyp with hd' | hall
          · rw [hd] at hd'
            cases hd'
          · have := hall 0 (by simpa using hlt)
            simp [hp] at this
        | false =>
          rw [transferLoop_nopath_release env cur np fuel h tx pb hlt hp hd]
          exact ih _ tx pb (hshift tx rfl)
      | some blockID =>
        cases ho : tx.TurtleDexcoinOutputs (env.FoundationSubsidyID blockID) with
        | none =>
          rw [transferLoop_spent env cur np fuel h tx pb blockID hlt hp ho]
          exact ih _ tx pb (hshift tx rfl)
        | some sco =>
          rw [transferLoop_unspent env cur np fuel h tx pb blockID sco hlt hp ho]
          exact ih _ _ pb (hshift _ rfl)
    · exact ⟨tx, transferLoop_done env cur np _ h tx pb hlt⟩

/-- C14: `transferFoundationOutputs` returns whenever the path holds a block at
every subsidy height below `currentHeight` (or `DEBUG` is off), and after it
has returned, every subsidy output of such a height that was in the coin
outputs is stored under the same identifier with the same value and the unlock
hash `newPrimary`, the subsidy outputs that were absent are absent, every other
coin output is unchanged, and so are the rest of the database and `pb`. -/
theorem transferFoundationOutputs_spec (env : Env) (tx : ConsensusDB) (pb : processedBlock)
    (currentHeight : Nat) (newPrimary : UnlockHash) :
    ((env.DEBUG = false ∨ ∀ k,
        env.FoundationHardforkHeight + k * env.FoundationSubsidyFrequency < currentHeight →
        (tx.BlockPath (env.FoundationHardforkHeight
          + k * env.FoundationSubsidyFrequency)).isSome) →
      ∃ tx', transferFoundationOutputs env tx pb currentHeight newPrimary = .ok tx' pb)
    ∧ (∀ tx' pb', transferFoundationOutputs env tx pb currentHeight newPrimary = .ok tx' pb' →
        (∀ k b sco,
          env.FoundationHardforkHeight + k * env.FoundationSubsidyFrequency < currentHeight →
          tx.BlockPath (env.FoundationHardforkHeight + k * env.FoundationSubsidyFrequency)
            = some b →
          tx.TurtleDexcoinOutputs (env.FoundationSubsidyID b) = some sco →
          tx'.TurtleDexcoinOutputs (env.FoundationSubsidyID b)
            = some { Value := sco.Value, UnlockHash := newPrimary })
        ∧ (∀ k b,
          env.FoundationHardforkHeight + k * env.FoundationSubsidyFrequency < currentHeight →
          tx.BlockPath (env.FoundationHardforkHeight + k * env.FoundationSubsidyFrequency)
            = some b →
          tx.TurtleDexcoinOutputs (env.FoundationSubsidyID b) = none →
          tx'.TurtleDexcoinOutputs (env.FoundationSubsidyID b) = none)
        ∧ (∀ id,
          (∀ k b,
            env.FoundationHardforkHeight + k * env.FoundationSubsidyFrequency < currentHeight →
            tx.BlockPath (env.FoundationHardforkHeight + k * env.FoundationSubsidyFrequency)
              = some b →
            env.FoundationSubsidyID b ≠ id) →
          tx'.TurtleDexcoinOutputs id = tx.TurtleDexcoinOutputs id)
        ∧ tx'.sameButCoins tx ∧ pb' = pb) := by
  constructor
  · intro hyp
    exact transferFoundationOutputsLoop_total env currentHeight newPrimary currentHeight
      env.FoundationHardforkHeight tx pb hyp
  · intro tx' pb' hok
    have hpost := transferFoundationOutputsLoop_ok env currentHeight newPrimary currentHeight
      env.FoundationHardforkHeight tx pb tx' pb' (Nat.sub_le _ _) hok
    have hframe := transferFoundationOutputsLoop_frame env currentHeight newPrimary currentHeight
      env.FoundationHardforkHeight tx pb
    unfold transferFoundationOutputs at hok
    rw [hok] at hframe
    refine ⟨?_, ?_, ?_, hframe.2, hframe.1⟩
    · intro k b sco hlt hp ho
      rw [(hpost _).1 ⟨k, b, hlt, hp, rfl⟩, ho]
      rfl
    · intro k b hlt hp ho
      rw [(hpost _).1 ⟨k, b, hlt, hp, rfl⟩, ho]
      rfl
    · intro id hnot
      apply (hpost id).2
      rintro ⟨k, b, hlt, hp, hid⟩
      exact hnot k b hlt hp hid

theorem transferFoundationOutputs_spec_witness :
    ∃ tx', transferFoundationOutputs (sampleEnv true) sampleSubsidyDB (processedBlock.new 58) 58
        sampleID2 = .ok tx' (processedBlock.new 58)
      ∧ tx'.TurtleDexcoinOutputs ((sampleEnv true).FoundationSubsidyID sampleID1)
          = some { Value := 7, UnlockHash := sampleID2 }
      ∧ tx'.TurtleDexcoinOutputs ((sampleEnv true).FoundationSubsidyID sampleID2) = none
      ∧ tx'.TurtleDexcoinOutputs sampleID1 = some sampleOutput2 := by
  have hspec := transferFoundationOutputs_spec (sampleEnv true) sampleSubsidyDB
    (processedBlock.new 58) 58 sampleID2
  have hpath : ∀ k, 50 + k * 5 < 58 → k = 0 ∨ k = 1 := fun k hk => by omega
  obtain ⟨tx', hok⟩ := hspec.1 (Or.inr (fun k hk => by
    rcases hpath k hk with rfl | rfl <;> decide))
  obtain ⟨hpresent, habsent, hother, -, -⟩ := hspec.2 tx' _ hok
  refine ⟨tx', hok, ?_, ?_, ?_⟩
  · exact hpresent 0 sampleID1 sampleOutput1 (by decide) (by decide) (by decide)
  · exact habsent 1 sampleID2 (by decide) (by decide) (by decide)
  · rw [hother sampleID1 (fun k b hk hb => by
      rcases hpath k hk with rfl | rfl
      · have hb1 : b = sampleID1 := Option.some.inj (Eq.trans hb.symm (by decide))
        rw [hb1]
        decide
      · have hb2 : b = sampleID2 := Option.some.inj (Eq.trans hb.symm (by decide))
        rw [hb2]
        decide)]
    decide

/-! ## Properties kept by every statement of a loop -/

theorem Outcome.andThen_inv (P : ConsensusDB → processedBlock → Prop) (o : Outcome)
    (f : ConsensusDB → processedBlock → Outcome) (ho : P o.tx o.pb)
    (hf : ∀ tx pb, P tx pb → P (f tx pb).tx (f tx pb).pb) :
    P (o.andThen f).tx (o.andThen f).pb := by
  cases o with
  | ok tx pb => exact hf tx pb ho
  | fatal e tx pb => exact ho

theorem forRange_inv {α : Type} (P : ConsensusDB → processedBlock → Prop)
    (body : α → ConsensusDB → processedBlock → Outcome)
    (hbody : ∀ x tx pb, P tx pb → P (body x tx pb).tx (body x tx pb).pb) :
    ∀ (xs : List α) (tx : ConsensusDB) (pb : processedBlock), P tx pb →
      P (forRange body xs tx pb).tx (forRange body xs tx pb).pb := by
  intro xs
  induction xs with
  | nil => intro tx pb h; exact h
  | cons x rest ih =>
    intro tx pb h
    rw [forRange_cons]
    exact Outcome.andThen_inv P _ _ (hbody x tx pb h) ih

theorem forRangeFrom_inv {α : Type} (P : ConsensusDB → processedBlock → Prop)
    (body : Nat → α → ConsensusDB → processedBlock → Outcome)
    (hbody : ∀ i x tx pb, P tx pb → P (body i x tx pb).tx (body i x tx pb).pb) :
    ∀ (xs : List α) (i : Nat) (tx : ConsensusDB) (pb : processedBlock), P tx pb →
      P (forRangeFrom body i xs tx pb).tx (forRangeFrom body i xs tx pb).pb := by
  intro xs
  induction xs with
  | nil => intro i tx pb h; exact h
  | cons x rest ih =>
    intro i tx pb h
    rw [forRangeFrom_cons]
    exact Outcome.andThen_inv P _ _ (hbody i x tx pb h) (ih (i + 1))

theorem forRange_total {α : Type} (body : α → ConsensusDB → processedBlock → Outcome)
    (P : ConsensusDB → processedBlock → Prop)
    (hbody : ∀ x tx pb, P tx pb → ∃ tx1 pb1, body x tx pb = .ok tx1 pb1 ∧ P tx1 pb1) :
    ∀ (xs : List α) (tx : ConsensusDB) (pb : processedBlock), P tx pb →
      ∃ tx1 pb1, forRange body xs tx pb = .ok tx1 pb1 ∧ P tx1 pb1 := by
  intro xs
  induction xs with
  | nil => intro tx pb h; exact ⟨tx, pb, rfl, h⟩
  | cons x rest ih =>
    intro tx pb h
    obtain ⟨tx1, pb1, h1, hP⟩ := hbody x tx pb h
    rw [forRange_cons, h1, Outcome.andThen_ok]
    exact ih tx1 pb1 hP

/-! ## C12: a height whose archive entry exists -/

/-- What the loop body does with an entry that has the Foundation prefix. -/
theorem applyArbitraryDataBody_recognized (env : Env) (arb : Bytes) (tx : ConsensusDB)
    (pb : processedBlock) (h : SpecifierFoundation <+: arb) :
    applyArbitraryDataBody env arb tx pb
      = if env.DEBUG && (env.Unmarshal (arb.drop SpecifierLen)).2 then .fatal .errDecode tx pb
        else if (tx.PriorFoundationUnlockHashes pb.Height).isSome then .ok tx pb
        else transferFoundationOutputs env
          (setFoundationUnlockHashes (setPriorFoundationUnlockHashes tx pb.Height)
            (env.Unmarshal (arb.drop SpecifierLen)).1.NewPrimary
            (env.Unmarshal (arb.drop SpecifierLen)).1.NewFailsafe)
          pb pb.Height (env.Unmarshal (arb.drop SpecifierLen)).1.NewPrimary := by
  have hp : List.isPrefixOf SpecifierFoundation arb = true := List.isPrefixOf_iff_prefix.mpr h
  simp only [applyArbitraryDataBody, hp, if_true]

theorem applyArbitraryDataBody_archived (env : Env) (arb : Bytes) (tx : ConsensusDB)
    (pb : processedBlock) (h : (tx.PriorFoundationUnlockHashes pb.Height).isSome) :
    applyArbitraryDataBody env arb tx pb = .ok tx pb
      ∨ (env.DEBUG = true ∧ applyArbitraryDataBody env arb tx pb = .fatal .errDecode tx pb) := by
  by_cases hp : SpecifierFoundation <+: arb
  · rw [applyArbitraryDataBody_recognized env arb tx pb hp]
    by_cases hd : (env.DEBUG && (env.Unmarshal (arb.drop SpecifierLen)).2) = true
    · rw [if_pos hd]
      right
      simp only [Bool.and_eq_true] at hd
      exact ⟨hd.1, rfl⟩
    · rw [if_neg hd, if_pos h]
      exact Or.inl rfl
  · exact Or.inl (applyArbitraryDataBody_other env arb tx pb hp)

theorem forRange_applyArbitraryDataBody_archived (env : Env) (pb : processedBlock) :
    ∀ (arbs : List Bytes) (tx : ConsensusDB),
      (tx.PriorFoundationUnlockHashes pb.Height).isSome →
      forRange (applyArbitraryDataBody env) arbs tx pb = .ok tx pb
        ∨ (env.DEBUG = true
            ∧ forRange (applyArbitraryDataBody env) arbs tx pb = .fatal .errDecode tx pb) := by
  intro arbs
  induction arbs with
  | nil => intro tx _; exact Or.inl rfl
  | cons arb rest ih =>
    intro tx h
    rw [forRange_cons]
    rcases applyArbitraryDataBody_archived env arb tx pb h with h1 | ⟨hd, h1⟩
    · rw [h1, Outcome.andThen_ok]
      exact ih tx h
    · rw [h1, Outcome.andThen_fatal]
      exact Or.inr ⟨hd, rfl⟩

/-- The loop body never changes the processed block, and leaves everything but
the coin outputs, the current unlock hashes and the archive as it was. -/
theorem applyArbitraryDataBody_pb (env : Env) (arb : Bytes) (tx : ConsensusDB)
    (pb : processedBlock) : (applyArbitraryDataBody env arb tx pb).pb = pb := by
  by_cases hp : SpecifierFoundation <+: arb
  · rw [applyArbitraryDataBody_recognized env arb tx pb hp]
    split
    · rfl
    · split
      · rfl
      · exact (transferFoundationOutputsLoop_frame env _ _ _ _ _ pb).1
  · rw [applyArbitraryDataBody_other env arb tx pb hp]
    rfl

theorem forRange_applyArbitraryDataBody_pb (env : Env) (arbs : List Bytes) (tx : ConsensusDB)
    (pb : processedBlock) : (forRange (applyArbitraryDataBody env) arbs tx pb).pb = pb :=
  forRange_inv (fun _ pb1 => pb1 = pb) (applyArbitraryDataBody env)
    (fun arb tx1 pb1 h => by rw [h]; exact applyArbitraryDataBody_pb env arb tx1 pb)
    arbs tx pb rfl

theorem applyArbitraryData_pb (env : Env) (tx : ConsensusDB) (pb : processedBlock)
    (t : Transaction) : (applyArbitraryData env tx pb t).pb = pb := by
  unfold applyArbitraryData
  split
  · rfl
  · exact forRange_applyArbitraryDataBody_pb env _ tx pb

/-- C12: if the archive holds an entry for `pb.Height`, `applyArbitraryData`
leaves the database (the current Foundation unlock hashes, the archive entry
for `pb.Height` and every coin output included) and `pb` as they are, for every
transaction; it returns, unless `DEBUG` is set and an entry fails to decode, in
which case the panic is raised on the unchanged state. -/
theorem applyArbitraryData_archived (env : Env) (tx : ConsensusDB) (pb : processedBlock)
    (t : Transaction) (h : (tx.PriorFoundationUnlockHashes pb.Height).isSome) :
    ((applyArbitraryData env tx pb t).tx = tx ∧ (applyArbitraryData env tx pb t).pb = pb)
      ∧ (applyArbitraryData env tx pb t).tx.FoundationUnlockHashes = tx.FoundationUnlockHashes
      ∧ (applyArbitraryData env tx pb t).tx.PriorFoundationUnlockHashes pb.Height
          = tx.PriorFoundationUnlockHashes pb.Height
      ∧ (∀ id, (applyArbitraryData env tx pb t).tx.TurtleDexcoinOutputs id
          = tx.TurtleDexcoinOutputs id)
      ∧ (applyArbitraryData env tx pb t = .ok tx pb
          ∨ (env.DEBUG = true ∧ applyArbitraryData env tx pb t = .fatal .errDecode tx pb)) := by
  have hcases : applyArbitraryData env tx pb t = .ok tx pb
      ∨ (env.DEBUG = true ∧ applyArbitraryData env tx pb t = .fatal .errDecode tx pb) := by
    unfold applyArbitraryData
    split
    · exact Or.inl rfl
    · exact forRange_applyArbitraryDataBody_archived env pb t.ArbitraryData tx h
  have htx : (applyArbitraryData env tx pb t).tx = tx := by
    rcases hcases with h1 | ⟨_, h1⟩ <;> rw [h1] <;> rfl
  have hpb : (applyArbitraryData env tx pb t).pb = pb := applyArbitraryData_pb env tx pb t
  refine ⟨⟨htx, hpb⟩, ?_, ?_, ?_, hcases⟩
  · rw [htx]
  · rw [htx]
  · intro id
    rw [htx]

set_option maxRecDepth 100000 in
theorem applyArbitraryData_archived_witness :
    (applyArbitraryData (sampleEnv true)
        (setPriorFoundationUnlockHashes sampleSubsidyDB 58) (processedBlock.new 58)
        sampleUpdateData).tx.FoundationUnlockHashes = (Hash.zero, Hash.zero)
      ∧ applyArbitraryData (sampleEnv true)
        (setPriorFoundationUnlockHashes sampleSubsidyDB 58) (processedBlock.new 58)
        sampleUpdateData
        = .ok (setPriorFoundationUnlockHashes sampleSubsidyDB 58) (processedBlock.new 58) := by
  have h := applyArbitraryData_archived (sampleEnv true)
    (setPriorFoundationUnlockHashes sampleSubsidyDB 58) (processedBlock.new 58)
    sampleUpdateData (by decide)
  refine ⟨h.2.1, ?_⟩
  rcases h.2.2.2.2 with hok | ⟨_, hfatal⟩
  · exact hok
  · exact absurd (congrArg Outcome.isFatal hfatal) (by decide)

/-! ## C11: the first Foundation update of a block -/

theorem applyArbitraryDataBlock_eq (env : Env) (pb : processedBlock)
    (h : env.FoundationHardforkHeight ≤ pb.Height) :
    ∀ (ts : List Transaction) (tx : ConsensusDB),
      applyArbitraryDataBlock env ts tx pb
        = forRange (applyArbitraryDataBody env) (ts.map (fun t => t.ArbitraryData)).flatten
            tx pb := by
  intro ts
  induction ts with
  | nil => intro tx; rfl
  | cons t rest ih =>
    intro tx
    have hpb := forRange_applyArbitraryDataBody_pb env t.ArbitraryData tx pb
    have hnot : ¬ pb.Height < env.FoundationHardforkHeight := Nat.not_lt.mpr h
    simp only [applyArbitraryDataBlock, forRange_cons, List.map_cons, List.flatten_cons,
      forRange_append, applyArbitraryData, if_neg hnot]
    cases ho : forRange (applyArbitraryDataBody env) t.ArbitraryData tx pb with
    | ok tx1 pb1 =>
      rw [ho] at hpb
      have hpb1 : pb1 = pb := hpb
      rw [hpb1, Outcome.andThen_ok, Outcome.andThen_ok]
      exact ih tx1
    | fatal e tx1 pb1 => rfl

theorem forRange_applyArbitraryDataBody_other (env : Env) (pb : processedBlock) :
    ∀ (arbs : List Bytes) (tx : ConsensusDB), (∀ a ∈ arbs, ¬ SpecifierFoundation <+: a) →
      forRange (applyArbitraryDataBody env) arbs tx pb = .ok tx pb := by
  intro arbs
  induction arbs with
  | nil => intro tx _; rfl
  | cons a rest ih =>
    intro tx h
    rw [forRange_cons, applyArbitraryDataBody_other env a tx pb (h a (List.mem_cons_self _ _)),
      Outcome.andThen_ok]
    exact ih tx (fun b hb => h b (List.mem_cons_of_mem _ hb))

/-- The first update taken at a height: the archive receives the hashes that
were current, the update becomes current, and everything else but the coin
outputs stays. -/
theorem applyArbitraryDataBody_update (env : Env) (arb : Bytes) (tx : ConsensusDB)
    (pb : processedBlock) (u : FoundationUnlockHashUpdate)
    (hfound : SpecifierFoundation <+: arb)
    (hdecode : env.Unmarshal (arb.drop SpecifierLen) = (u, false))
    (harchive : tx.PriorFoundationUnlockHashes pb.Height = none) :
    applyArbitraryDataBody env arb tx pb
        = transferFoundationOutputs env
            (setFoundationUnlockHashes (setPriorFoundationUnlockHashes tx pb.Height)
              u.NewPrimary u.NewFailsafe) pb pb.Height u.NewPrimary
      ∧ (applyArbitraryDataBody env arb tx pb).tx.FoundationUnlockHashes
          = (u.NewPrimary, u.NewFailsafe)
      ∧ (applyArbitraryDataBody env arb tx pb).tx.PriorFoundationUnlockHashes
          = Function.update tx.PriorFoundationUnlockHashes pb.Height
              (some tx.FoundationUnlockHashes) := by
  have heq : applyArbitraryDataBody env arb tx pb
      = transferFoundationOutputs env
          (setFoundationUnlockHashes (setPriorFoundationUnlockHashes tx pb.Height)
            u.NewPrimary u.NewFailsafe) pb pb.Height u.NewPrimary := by
    rw [applyArbitraryDataBody_recognized env arb tx pb hfound, hdecode]
    simp [harchive]
  have hframe := (transferFoundationOutputsLoop_frame env pb.Height u.NewPrimary pb.Height
    env.FoundationHardforkHeight
    (setFoundationUnlockHashes (setPriorFoundationUnlockHashes tx pb.Height)
      u.NewPrimary u.NewFailsafe) pb).2
  refine ⟨heq, ?_, ?_⟩
  · rw [heq]
    exact hframe.2.2.2.2.2.2.1
  · rw [heq]
    exact hframe.2.2.2.2.2.2.2

theorem applyArbitraryDataBody_release (env : Env) (hd : env.DEBUG = false) (arb : Bytes)
    (tx : ConsensusDB) (pb : processedBlock) :
    ∃ tx1, applyArbitraryDataBody env arb tx pb = .ok tx1 pb := by
  by_cases hp : SpecifierFoundation <+: arb
  · rw [applyArbitraryDataBody_recognized env arb tx pb hp, hd]
    simp only [Bool.false_and, Bool.false_eq_true, if_false]
    split
    · exact ⟨tx, rfl⟩
    · exact transferFoundationOutputsLoop_total env _ _ _ _ _ pb (Or.inl hd)
  · exact ⟨tx, applyArbitraryDataBody_other env arb tx pb hp⟩

theorem forRange_applyArbitraryDataBody_release (env : Env) (hd : env.DEBUG = false)
    (arbs : List Bytes) (tx : ConsensusDB) (pb : processedBlock) :
    ∃ tx1, forRange (applyArbitraryDataBody env) arbs tx pb = .ok tx1 pb := by
  obtain ⟨tx1, pb1, h1, hpb⟩ := forRange_total (applyArbitraryDataBody env)
    (fun _ pb1 => pb1 = pb)
    (fun arb tx1 pb1 h => by
      obtain ⟨tx2, h2⟩ := applyArbitraryDataBody_release env hd arb tx1 pb1
      exact ⟨tx2, pb1, h2, h⟩)
    arbs tx pb rfl
  exact ⟨tx1, hpb ▸ h1⟩

/-- C11, amended: at a height from `FoundationHardforkHeight` on for which the
archive holds no entry, when the first entry with the Foundation specifier
prefix among the arbitrary data of the transactions of the block, taken in
order, decodes without error, then after `applyArbitraryData` has gone through
the transactions the current unlock hashes are `(NewPrimary, NewFailsafe)` of
that entry, whatever entries follow it, the archive entry of the height holds
the hashes that were current before, and `pb` is unchanged; without `DEBUG` the
run always returns. -/
theorem applyArbitraryData_first_update (env : Env) (tx : ConsensusDB) (pb : processedBlock)
    (ts : List Transaction) (before after : List Bytes) (arb : Bytes)
    (u : FoundationUnlockHashUpdate)
    (hheight : env.FoundationHardforkHeight ≤ pb.Height)
    (harchive : tx.PriorFoundationUnlockHashes pb.Height = none)
    (hsplit : (ts.map (fun t => t.ArbitraryData)).flatten = before ++ arb :: after)
    (hbefore : ∀ a ∈ before, ¬ SpecifierFoundation <+: a)
    (hfound : SpecifierFoundation <+: arb)
    (hdecode : env.Unmarshal (arb.drop SpecifierLen) = (u, false)) :
    (applyArbitraryDataBlock env ts tx pb).tx.FoundationUnlockHashes
        = (u.NewPrimary, u.NewFailsafe)
      ∧ (applyArbitraryDataBlock env ts tx pb).tx.PriorFoundationUnlockHashes pb.Height
          = some tx.FoundationUnlockHashes
      ∧ (applyArbitraryDataBlock env ts tx pb).pb = pb
      ∧ (env.DEBUG = false → ∃ tx1, applyArbitraryDataBlock env ts tx pb = .ok tx1 pb) := by
  rw [applyArbitraryDataBlock_eq env pb hheight ts tx]
  suffices hmain :
      (forRange (applyArbitraryDataBody env) (ts.map (fun t => t.ArbitraryData)).flatten
          tx pb).tx.FoundationUnlockHashes = (u.NewPrimary, u.NewFailsafe)
        ∧ (forRange (applyArbitraryDataBody env) (ts.map (fun t => t.ArbitraryData)).flatten
          tx pb).tx.PriorFoundationUnlockHashes pb.Height = some tx.FoundationUnlockHashes from
    ⟨hmain.1, hmain.2, forRange_applyArbitraryDataBody_pb env _ tx pb,
      fun hd => forRange_applyArbitraryDataBody_release env hd _ tx pb⟩
  rw [hsplit, forRange_append, forRange_applyArbitraryDataBody_other env pb before tx hbefore,
    Outcome.andThen_ok, forRange_cons]
  obtain ⟨-, hhashes, hprior⟩ :=
    applyArbitraryDataBody_update env arb tx pb u hfound hdecode harchive
  have hpb := applyArbitraryDataBody_pb env arb tx pb
  have hinv := Outcome.andThen_inv
    (fun tx1 pb1 => (tx1.FoundationUnlockHashes = (u.NewPrimary, u.NewFailsafe)
      ∧ tx1.PriorFoundationUnlockHashes pb.Height = some tx.FoundationUnlockHashes)
      ∧ pb1 = pb)
    (applyArbitraryDataBody env arb tx pb) (forRange (applyArbitraryDataBody env) after)
    ⟨⟨hhashes, by rw [hprior, Function.update_same]⟩, hpb⟩
    (fun tx1 pb1 h => by
      obtain ⟨⟨h1, h2⟩, h3⟩ := h
      rw [h3]
      have hsome : (tx1.PriorFoundationUnlockHashes pb.Height).isSome := by rw [h2]; rfl
      rcases forRange_applyArbitraryDataBody_archived env pb after tx1 hsome with hr | ⟨_, hr⟩
      · rw [hr]; exact ⟨⟨h1, h2⟩, rfl⟩
      · rw [hr]; exact ⟨⟨h1, h2⟩, rfl⟩)
  exact hinv.1

set_option maxRecDepth 100000 in
theorem applyArbitraryData_first_update_witness :
    (applyArbitraryDataBlock (sampleEnv true) [sampleInertData, sampleUpdateData, sampleSwapData]
        sampleSubsidyDB (processedBlock.new 58)).tx.FoundationUnlockHashes
      = (List.replicate 32 1, List.replicate 32 4) :=
  (applyArbitraryData_first_update (sampleEnv true) sampleSubsidyDB (processedBlock.new 58)
    [sampleInertData, sampleUpdateData, sampleSwapData]
    sampleInertData.ArbitraryData sampleSwapData.ArbitraryData
    (SpecifierFoundation ++ List.replicate 32 1 ++ List.replicate 32 4) sampleUpdate
    (by decide) (by decide) (by decide) (by decide)
    (List.isPrefixOf_iff_prefix.mp (by decide)) (by decide)).1

set_option maxRecDepth 100000 in
/-- C11 as stated fails: without `build.DEBUG` the first entry with the
Foundation prefix is applied even when it does not decode. Here the first
entry has no payload, the second is a complete update, and the hashes that
become current are the zero hashes left by the failed decoding, not those of
the complete update. -/
theorem applyArbitraryData_truncated_update :
    (sampleEnv false).FoundationHardforkHeight ≤ (processedBlock.new 50).Height
      ∧ ConsensusDB.empty.PriorFoundationUnlockHashes 50 = none
      ∧ sampleTruncatedUpdate.ArbitraryData
          = [SpecifierFoundation,
             SpecifierFoundation ++ List.replicate 32 1 ++ List.replicate 32 4]
      ∧ ((sampleEnv false).Unmarshal (SpecifierFoundation.drop SpecifierLen)).2 = true
      ∧ (sampleEnv false).Unmarshal
          ((SpecifierFoundation ++ List.replicate 32 1 ++ List.replicate 32 4).drop SpecifierLen)
          = (sampleUpdate, false)
      ∧ (applyArbitraryDataBlock (sampleEnv false) [sampleTruncatedUpdate] ConsensusDB.empty
          (processedBlock.new 50)).tx.FoundationUnlockHashes
          = (List.replicate 32 0, List.replicate 32 0)
      ∧ (applyArbitraryDataBlock (sampleEnv false) [sampleTruncatedUpdate] ConsensusDB.empty
          (processedBlock.new 50)).tx.FoundationUnlockHashes
          ≠ (sampleUpdate.NewPrimary, sampleUpdate.NewFailsafe) := by
  decide

/-! ## C13: the same update at another height -/

theorem applyArbitraryData_single (env : Env) (tx : ConsensusDB) (pb : processedBlock)
    (t : Transaction) (arb : Bytes) (ht : t.ArbitraryData = [arb])
    (hheight : env.FoundationHardforkHeight ≤ pb.Height) :
    applyArbitraryData env tx pb t = applyArbitraryDataBody env arb tx pb := by
  have hnot : ¬ pb.Height < env.FoundationHardforkHeight := Nat.not_lt.mpr hheight
  rw [applyArbitraryData, if_neg hnot, ht, forRange_cons]
  cases applyArbitraryDataBody env arb tx pb <;> rfl

/-- C13, amended: when an update `u` has been applied at the height `h1`, so
that the archive holds an entry for `h1` and the hashes of `u` are current,
applying the same update at another height `h2` from `FoundationHardforkHeight`
on, for which the archive holds no entry, keeps the current unlock hashes, the
archive entry of `h1` and `pb`, but it is not without effect: the archive
receives an entry for `h2`, holding the hashes of `u`, and the subsidy outputs
below `h2` are addressed to the primary hash again. (When the archive holds an
entry for `h2`, nothing changes.) -/
theorem applyArbitraryData_again (env : Env) (tx : ConsensusDB) (pb1 pb2 : processedBlock)
    (t : Transaction) (arb : Bytes) (u : FoundationUnlockHashUpdate)
    (ht : t.ArbitraryData = [arb])
    (hfound : SpecifierFoundation <+: arb)
    (hdecode : env.Unmarshal (arb.drop SpecifierLen) = (u, false))
    (hheight1 : env.FoundationHardforkHeight ≤ pb1.Height)
    (hheight2 : env.FoundationHardforkHeight ≤ pb2.Height)
    (hne : pb1.Height ≠ pb2.Height)
    (harchive1 : tx.PriorFoundationUnlockHashes pb1.Height = none)
    (harchive2 : tx.PriorFoundationUnlockHashes pb2.Height = none) :
    ((applyArbitraryData env tx pb1 t).tx.PriorFoundationUnlockHashes pb1.Height
          = some tx.FoundationUnlockHashes
        ∧ (applyArbitraryData env tx pb1 t).tx.PriorFoundationUnlockHashes pb2.Height = none
        ∧ (applyArbitraryData env tx pb1 t).tx.FoundationUnlockHashes
          = (u.NewPrimary, u.NewFailsafe))
      ∧ (applyArbitraryData env (applyArbitraryData env tx pb1 t).tx pb2
            t).tx.FoundationUnlockHashes
          = (applyArbitraryData env tx pb1 t).tx.FoundationUnlockHashes
      ∧ (applyArbitraryData env (applyArbitraryData env tx pb1 t).tx pb2
            t).tx.PriorFoundationUnlockHashes pb1.Height
          = (applyArbitraryData env tx pb1 t).tx.PriorFoundationUnlockHashes pb1.Height
      ∧ (applyArbitraryData env (applyArbitraryData env tx pb1 t).tx pb2
            t).tx.PriorFoundationUnlockHashes pb2.Height
          = some (u.NewPrimary, u.NewFailsafe)
      ∧ (applyArbitraryData env (applyArbitraryData env tx pb1 t).tx pb2 t).pb = pb2
      ∧ applyArbitraryData env (applyArbitraryData env tx pb1 t).tx pb2 t
          = transferFoundationOutputs env
              (setPriorFoundationUnlockHashes (applyArbitraryData env tx pb1 t).tx pb2.Height)
              pb2 pb2.Height u.NewPrimary := by
  obtain ⟨-, hhashes1, hprior1⟩ :=
    applyArbitraryDataBody_update env arb tx pb1 u hfound hdecode harchive1
  rw [← applyArbitraryData_single env tx pb1 t arb ht hheight1] at hhashes1 hprior1
  have hnone : (applyArbitraryData env tx pb1 t).tx.PriorFoundationUnlockHashes pb2.Height
      = none := by
    rw [hprior1, Function.update_noteq (Ne.symm hne), harchive2]
  obtain ⟨heq2, hhashes2, hprior2⟩ :=
    applyArbitraryDataBody_update env arb (applyArbitraryData env tx pb1 t).tx pb2 u hfound
      hdecode hnone
  rw [← applyArbitraryData_single env _ pb2 t arb ht hheight2] at heq2 hhashes2 hprior2
  refine ⟨⟨?_, hnone, hhashes1⟩, ?_, ?_, ?_, applyArbitraryData_pb env _ pb2 t, ?_⟩
  · rw [hprior1, Function.update_same]
  · rw [hhashes2, hhashes1]
  · rw [hprior2, Function.update_noteq hne]
  · rw [hprior2, Function.update_same, hhashes1]
  · rw [heq2]
    congr 1
    cases htx : (applyArbitraryData env tx pb1 t).tx
    rw [htx] at hhashes1
    simp only [setFoundationUnlockHashes, setPriorFoundationUnlockHashes] at hhashes1 ⊢
    rw [hhashes1]

set_option maxRecDepth 100000 in
theorem applyArbitraryData_again_witness :
    (applyArbitraryData (sampleEnv true)
        (applyArbitraryData (sampleEnv true) sampleSubsidyDB (processedBlock.new 50)
          sampleUpdateData).tx
        (processedBlock.new 58) sampleUpdateData).tx.PriorFoundationUnlockHashes 58
      = some (List.replicate 32 1, List.replicate 32 4) :=
  (applyArbitraryData_again (sampleEnv true) sampleSubsidyDB (processedBlock.new 50)
    (processedBlock.new 58) sampleUpdateData
    (SpecifierFoundation ++ List.replicate 32 1 ++ List.replicate 32 4) sampleUpdate rfl
    (List.isPrefixOf_iff_prefix.mp (by decide)) (by decide) (by decide) (by decide)
    (by decide) (by decide) (by decide)).2.2.2.1

set_option maxRecDepth 100000 in
/-- C13 as stated fails: the function looks for the archive entry of the
current height only. Here the update is applied at the height 50 and then again
at the height 58: the second call records an archive entry for 58 and moves the
unspent subsidy output of the block at height 50 to the primary hash. -/
theorem applyArbitraryData_second_height :
    ((applyArbitraryData (sampleEnv true) sampleSubsidyDB (processedBlock.new 50)
        sampleUpdateData).tx.PriorFoundationUnlockHashes 50).isSome
      ∧ (applyArbitraryData (sampleEnv true) sampleSubsidyDB (processedBlock.new 50)
          sampleUpdateData).tx.PriorFoundationUnlockHashes 58 = none
      ∧ (applyArbitraryData (sampleEnv true)
          (applyArbitraryData (sampleEnv true) sampleSubsidyDB (processedBlock.new 50)
            sampleUpdateData).tx
          (processedBlock.new 58) sampleUpdateData).tx.PriorFoundationUnlockHashes 58
          = some (List.replicate 32 1, List.replicate 32 4)
      ∧ (applyArbitraryData (sampleEnv true) sampleSubsidyDB (processedBlock.new 50)
          sampleUpdateData).tx.TurtleDexcoinOutputs
            ((sampleEnv true).FoundationSubsidyID sampleID1)
          = some { Value := 7, UnlockHash := List.replicate 32 9 }
      ∧ (applyArbitraryData (sampleEnv true)
          (applyArbitraryData (sampleEnv true) sampleSubsidyDB (processedBlock.new 50)
            sampleUpdateData).tx
          (processedBlock.new 58) sampleUpdateData).tx.TurtleDexcoinOutputs
            ((sampleEnv true).FoundationSubsidyID sampleID1)
          = some { Value := 7, UnlockHash := List.replicate 32 1 } := by
  decide

/-! ## Diffs and their commitment -/

theorem commitDiff_ok_iff (tx tx1 : ConsensusDB) (d : Diff) (dir : DiffDirection) :
    commitDiff tx d dir = .ok tx1 ↔ Diff.allowed dir tx d = true ∧ Diff.effect dir tx d = tx1 := by
  cases d with
  | coin c =>
    simp only [commitDiff, commitTurtleDexcoinOutputDiff, addTurtleDexcoinOutput,
      removeTurtleDexcoinOutput, Diff.allowed, Diff.effect]
    by_cases hdir : c.Direction = dir
    · cases h : tx.TurtleDexcoinOutputs c.ID <;> simp [hdir, h]
    · cases h : tx.TurtleDexcoinOutputs c.ID <;> simp [hdir, h]
  | contract c =>
    simp only [commitDiff, commitFileContractDiff, addFileContract,
      removeFileContract, Diff.allowed, Diff.effect]
    by_cases hdir : c.Direction = dir
    · cases h : tx.FileContracts c.ID <;> simp [hdir, h]
    · cases h : tx.FileContracts c.ID <;> simp [hdir, h]
  | fund c =>
    simp only [commitDiff, commitTurtleDexfundOutputDiff, addTurtleDexfundOutput,
      removeTurtleDexfundOutput, Diff.allowed, Diff.effect]
    by_cases hdir : c.Direction = dir
    · cases h : tx.TurtleDexfundOutputs c.ID <;> simp [hdir, h]
    · cases h : tx.TurtleDexfundOutputs c.ID <;> simp [hdir, h]
  | delayed c =>
    simp only [commitDiff, commitDelayedTurtleDexcoinOutputDiff, addDSCO, removeDSCO,
      Diff.allowed, Diff.effect]
    by_cases hdir : c.Direction = dir
    · cases hb : tx.DelayedTurtleDexcoinOutputs c.MaturityHeight with
      | none => simp [hdir]
      | some bucket => cases h : bucket c.ID <;> simp [hdir, h]
    · cases hb : tx.DelayedTurtleDexcoinOutputs c.MaturityHeight with
      | none => simp [hdir]
      | some bucket => cases h : bucket c.ID <;> simp [hdir, h]
  | pool p =>
    simp only [commitDiff, commitTurtleDexfundPoolDiff, getTurtleDexfundPool, Diff.allowed,
      Diff.effect]
    by_cases hlt : p.Adjusted < p.Previous
    · have hle : ¬ p.Previous ≤ p.Adjusted := Nat.not_le.mpr hlt
      simp [hlt, hle]
    · have hle : p.Previous ≤ p.Adjusted := Nat.not_lt.mp hlt
      by_cases hdir : dir = .DiffApply
      · by_cases hp : tx.TurtleDexfundPool = p.Previous <;> simp [hlt, hle, hdir, hp]
      · by_cases hp : tx.TurtleDexfundPool = p.Adjusted <;> simp [hlt, hle, hdir, hp]

theorem Diff.allowed_effect_of_ne (dir : DiffDirection) (tx : ConsensusDB) (d e : Diff)
    (h : d.category ≠ e.category) :
    Diff.allowed dir (Diff.effect dir tx e) d = Diff.allowed dir tx d := by
  cases d <;> cases e <;> first | rfl | exact absurd rfl h

theorem Diff.effect_comm (dir : DiffDirection) (tx : ConsensusDB) (d e : Diff)
    (h : d.category ≠ e.category) :
    Diff.effect dir (Diff.effect dir tx e) d = Diff.effect dir (Diff.effect dir tx d) e := by
  cases d <;> cases e <;> first | rfl | exact absurd rfl h

theorem commitDiffs_nil (dir : DiffDirection) (tx : ConsensusDB) :
    commitDiffs dir [] tx = .ok tx := rfl

theorem commitDiffs_cons_ok_iff (dir : DiffDirection) (d : Diff) (ds : List Diff)
    (tx tx2 : ConsensusDB) :
    commitDiffs dir (d :: ds) tx = .ok tx2
      ↔ Diff.allowed dir tx d = true ∧ commitDiffs dir ds (Diff.effect dir tx d) = .ok tx2 := by
  constructor
  · intro h
    cases h1 : commitDiff tx d dir with
    | error e =>
      simp only [commitDiffs, h1] at h
      cases h
    | ok tx1 =>
      obtain ⟨ha, he⟩ := (commitDiff_ok_iff tx tx1 d dir).mp h1
      simp only [commitDiffs, h1] at h
      rw [he]
      exact ⟨ha, h⟩
  · rintro ⟨ha, h⟩
    have h1 : commitDiff tx d dir = .ok (Diff.effect dir tx d) :=
      (commitDiff_ok_iff tx _ d dir).mpr ⟨ha, rfl⟩
    simp only [commitDiffs, h1]
    exact h

theorem commitDiffs_append_ok_iff (dir : DiffDirection) (xs ys : List Diff) :
    ∀ (tx tx2 : ConsensusDB),
      commitDiffs dir (xs ++ ys) tx = .ok tx2
        ↔ ∃ tx1, commitDiffs dir xs tx = .ok tx1 ∧ commitDiffs dir ys tx1 = .ok tx2 := by
  induction xs with
  | nil =>
    intro tx tx2
    constructor
    · intro h
      exact ⟨tx, rfl, h⟩
    · rintro ⟨tx1, h1, h2⟩
      cases h1
      exact h2
  | cons x rest ih =>
    intro tx tx2
    rw [List.cons_append, commitDiffs_cons_ok_iff]
    constructor
    · rintro ⟨ha, h⟩
      obtain ⟨tx1, h1, h2⟩ := (ih _ _).mp h
      exact ⟨tx1, (commitDiffs_cons_ok_iff dir x rest tx tx1).mpr ⟨ha, h1⟩, h2⟩
    · rintro ⟨tx1, h1, h2⟩
      obtain ⟨ha, h1'⟩ := (commitDiffs_cons_ok_iff dir x rest tx tx1).mp h1
      exact ⟨ha, (ih _ _).mpr ⟨tx1, h1', h2⟩⟩

/-- A diff that is committed before diffs of other categories can as well be
committed after them. -/
theorem commitDiffs_move (dir : DiffDirection) (d : Diff) :
    ∀ (before : List Diff) (tx tx2 : ConsensusDB),
      (∀ e ∈ before, d.category ≠ e.category) →
      Diff.allowed dir tx d = true →
      commitDiffs dir before (Diff.effect dir tx d) = .ok tx2 →
      ∃ tx1, commitDiffs dir before tx = .ok tx1 ∧ Diff.allowed dir tx1 d = true
        ∧ Diff.effect dir tx1 d = tx2 := by
  intro before
  induction before with
  | nil =>
    intro tx tx2 _ ha h
    cases h
    exact ⟨tx, rfl, ha, rfl⟩
  | cons e rest ih =>
    intro tx tx2 hcat ha h
    have hne : d.category ≠ e.category := hcat e (List.mem_cons_self _ _)
    obtain ⟨hae, h1⟩ := (commitDiffs_cons_ok_iff dir e rest _ tx2).mp h
    rw [Diff.allowed_effect_of_ne dir tx e d (Ne.symm hne)] at hae
    rw [Diff.effect_comm dir tx e d (Ne.symm hne)] at h1
    have had : Diff.allowed dir (Diff.effect dir tx e) d = true := by
      rw [Diff.allowed_effect_of_ne dir tx d e hne]
      exact ha
    obtain ⟨tx1, h2, h3, h4⟩ :=
      ih (Diff.effect dir tx e) tx2 (fun x hx => hcat x (List.mem_cons_of_mem _ hx)) had h1
    exact ⟨tx1, (commitDiffs_cons_ok_iff dir e rest tx tx1).mpr ⟨hae, h2⟩, h3, h4⟩

/-- Committing depends on the order of the diffs within every category only:
two lists with the same diffs of every category, in the same order, lead to the
same database. -/
theorem commitDiffs_of_same_categories (dir : DiffDirection) :
    ∀ (xs ys : List Diff) (tx tx2 : ConsensusDB),
      (∀ c : Nat, xs.filter (fun d => d.category = c) = ys.filter (fun d => d.category = c)) →
      commitDiffs dir xs tx = .ok tx2 → commitDiffs dir ys tx = .ok tx2 := by
  intro xs
  induction xs with
  | nil =>
    intro ys tx tx2 hsame h
    have hnil : ys = [] := by
      cases ys with
      | nil => rfl
      | cons y rest =>
        have := hsame y.category
        simp at this
    rw [hnil]
    exact h
  | cons d rest ih =>
    intro ys tx tx2 hsame h
    obtain ⟨ha, h1⟩ := (commitDiffs_cons_ok_iff dir d rest tx tx2).mp h
    have hd := hsame d.category
    rw [List.filter_cons_of_pos (by simp)] at hd
    obtain ⟨before, after, hys, hbefore, -, hafter⟩ := List.filter_eq_cons_iff.mp hd.symm
    have hrest : ∀ c : Nat,
        rest.filter (fun x => x.category = c)
          = (before ++ after).filter (fun x => x.category = c) := by
      intro c
      have hc := hsame c
      rw [hys] at hc
      simp only [List.filter_append, List.filter_cons] at hc ⊢
      by_cases hcd : d.category = c
      · subst hcd
        have hb : before.filter (fun x => decide (x.category = d.category)) = [] :=
          List.filter_eq_nil_iff.mpr (fun a ha => by simpa using hbefore a ha)
        rw [hb, List.nil_append]
        exact hafter.symm
      · simpa [hcd] using hc
    have h2 := ih (before ++ after) (Diff.effect dir tx d) tx2 hrest h1
    obtain ⟨tx1, hb1, hb2⟩ := (commitDiffs_append_ok_iff dir before after _ tx2).mp h2
    obtain ⟨tx0, hm1, hm2, hm3⟩ := commitDiffs_move dir d before tx tx1
      (fun e he hcat => by
        have := hbefore e he
        simp at this
        exact this hcat.symm) ha hb1
    rw [hys]
    refine (commitDiffs_append_ok_iff dir before (d :: after) tx tx2).mpr ⟨tx0, hm1, ?_⟩
    refine (commitDiffs_cons_ok_iff dir d after tx0 tx2).mpr ⟨hm2, ?_⟩
    rw [hm3]
    exact hb2

/-! ## Properties of the outcome of the stages -/

theorem Outcome.satisfies_andThen (P F : ConsensusDB → processedBlock → Prop) (o : Outcome)
    (f : ConsensusDB → processedBlock → Outcome) (ho : o.satisfies P F)
    (hf : ∀ tx pb, P tx pb → (f tx pb).satisfies P F) : (o.andThen f).satisfies P F := by
  cases o with
  | ok tx pb => exact hf tx pb ho
  | fatal e tx pb => exact ho

theorem Outcome.satisfies_andThen_of (P Q F : ConsensusDB → processedBlock → Prop) (o : Outcome)
    (f : ConsensusDB → processedBlock → Outcome) (ho : o.satisfies P F)
    (hf : ∀ tx pb, P tx pb → (f tx pb).satisfies Q F) : (o.andThen f).satisfies Q F := by
  cases o with
  | ok tx pb => exact hf tx pb ho
  | fatal e tx pb => exact ho

theorem Outcome.satisfies_mono (P F Q G : ConsensusDB → processedBlock → Prop) (o : Outcome)
    (ho : o.satisfies P F) (hP : ∀ tx pb, P tx pb → Q tx pb) (hF : ∀ tx pb, F tx pb → G tx pb) :
    o.satisfies Q G := by
  cases o with
  | ok tx pb => exact hP tx pb ho
  | fatal e tx pb => exact hF tx pb ho

theorem forRange_satisfies {α : Type} (P F : ConsensusDB → processedBlock → Prop)
    (body : α → ConsensusDB → processedBlock → Outcome)
    (hbody : ∀ x tx pb, P tx pb → (body x tx pb).satisfies P F) :
    ∀ (xs : List α) (tx : ConsensusDB) (pb : processedBlock), P tx pb →
      (forRange body xs tx pb).satisfies P F := by
  intro xs
  induction xs with
  | nil => intro tx pb h; exact h
  | cons x rest ih =>
    intro tx pb h
    rw [forRange_cons]
    exact Outcome.satisfies_andThen P F _ _ (hbody x tx pb h) ih

theorem forRangeFrom_satisfies {α : Type} (P F : ConsensusDB → processedBlock → Prop)
    (body : Nat → α → ConsensusDB → processedBlock → Outcome)
    (hbody : ∀ i x tx pb, P tx pb → (body i x tx pb).satisfies P F) :
    ∀ (xs : List α) (i : Nat) (tx : ConsensusDB) (pb : processedBlock), P tx pb →
      (forRangeFrom body i xs tx pb).satisfies P F := by
  intro xs
  induction xs with
  | nil => intro i tx pb h; exact h
  | cons x rest ih =>
    intro i tx pb h
    rw [forRangeFrom_cons]
    exact Outcome.satisfies_andThen P F _ _ (hbody i x tx pb h) (ih (i + 1))

theorem runInOrder_satisfies (P F : ConsensusDB → processedBlock → Prop) (env : Env)
    (t : Transaction) :
    ∀ (fs : List (Env → ConsensusDB → processedBlock → Transaction → Outcome)),
      (∀ f ∈ fs, ∀ tx pb, P tx pb → (f env tx pb t).satisfies P F) →
      ∀ (tx : ConsensusDB) (pb : processedBlock), P tx pb →
        (runInOrder env t fs tx pb).satisfies P F := by
  intro fs
  induction fs with
  | nil => intro _ tx pb h; exact h
  | cons f rest ih =>
    intro hfs tx pb h
    exact Outcome.satisfies_andThen P F _ _ (hfs f (List.mem_cons_self _ _) tx pb h)
      (ih (fun g hg => hfs g (List.mem_cons_of_mem _ hg)))

/-- What an emitted diff leaves of the database: the effect of the diff when
the committer accepts it, the database as it was when it panics; the processed
block has the diff in both cases. -/
theorem emit_eq (d : Diff) (tx : ConsensusDB) (pb : processedBlock) :
    (Diff.allowed .DiffApply tx d = true
        ∧ emit d tx pb = .ok (Diff.effect .DiffApply tx d) (pb.record d))
      ∨ (Diff.allowed .DiffApply tx d = false
        ∧ ∃ e, emit d tx pb = .fatal e tx (pb.record d)) := by
  cases h : commitDiff tx d .DiffApply with
  | ok tx1 =>
    obtain ⟨ha, he⟩ := (commitDiff_ok_iff tx tx1 d .DiffApply).mp h
    left
    refine ⟨ha, ?_⟩
    simp only [emit, h, Outcome.ofUpdate, he]
  | error e =>
    right
    constructor
    · cases ha : Diff.allowed .DiffApply tx d with
      | false => rfl
      | true =>
        have := (commitDiff_ok_iff tx _ d .DiffApply).mpr ⟨ha, rfl⟩
        rw [h] at this
        cases this
    · exact ⟨e, by simp only [emit, h, Outcome.ofUpdate]⟩

theorem emit_contracts (d : Diff) (tx : ConsensusDB) (pb : processedBlock)
    (h : d.category ≠ 1) : (emit d tx pb).tx.FileContracts = tx.FileContracts := by
  rcases emit_eq d tx pb with ⟨-, he⟩ | ⟨-, e, he⟩
  · rw [he]
    cases d <;> first | rfl | exact absurd rfl h
  · rw [he]
    rfl

theorem emit_fundOutputs (d : Diff) (tx : ConsensusDB) (pb : processedBlock)
    (h : d.category ≠ 2) : (emit d tx pb).tx.TurtleDexfundOutputs = tx.TurtleDexfundOutputs := by
  rcases emit_eq d tx pb with ⟨-, he⟩ | ⟨-, e, he⟩
  · rw [he]
    cases d <;> first | rfl | exact absurd rfl h
  · rw [he]
    rfl

theorem emit_height (d : Diff) (tx : ConsensusDB) (pb : processedBlock) :
    (emit d tx pb).pb.Height = pb.Height := by
  rcases emit_eq d tx pb with ⟨-, he⟩ | ⟨-, e, he⟩ <;> rw [he] <;> cases d <;> rfl

/-! ### The stages in terms of emitted diffs -/

theorem applyTurtleDexcoinInputs_satisfies (P F : ConsensusDB → processedBlock → Prop)
    (env : Env) (t : Transaction)
    (hPF : ∀ tx pb, P tx pb → F tx pb)
    (hemit : ∀ d tx pb, Diff.sound tx d → P tx pb → (emit d tx pb).satisfies P F)
    (tx : ConsensusDB) (pb : processedBlock) (h : P tx pb) :
    (applyTurtleDexcoinInputs env tx pb t).satisfies P F := by
  refine forRange_satisfies P F _ (fun sci tx pb h => ?_) _ tx pb h
  unfold applyTurtleDexcoinInputsBody
  dsimp only
  split
  · exact hPF tx pb h
  · exact hemit (.coin _) tx pb (fun _ => rfl) h

theorem applyTurtleDexcoinOutputs_satisfies (P F : ConsensusDB → processedBlock → Prop)
    (env : Env) (t : Transaction)
    (hemit : ∀ d tx pb, Diff.sound tx d → P tx pb → (emit d tx pb).satisfies P F)
    (tx : ConsensusDB) (pb : processedBlock) (h : P tx pb) :
    (applyTurtleDexcoinOutputs env tx pb t).satisfies P F := by
  refine forRangeFrom_satisfies P F _ (fun i sco tx pb h => ?_) _ 0 tx pb h
  exact hemit (.coin _) tx pb (fun hdir => by cases hdir) h

theorem applyFileContracts_satisfies (P F : ConsensusDB → processedBlock → Prop)
    (env : Env) (t : Transaction)
    (hemit : ∀ d tx pb, Diff.sound tx d → P tx pb → (emit d tx pb).satisfies P F)
    (tx : ConsensusDB) (pb : processedBlock) (h : P tx pb) :
    (applyFileContracts env tx pb t).satisfies P F := by
  refine forRangeFrom_satisfies P F _ (fun i fc tx pb h => ?_) _ 0 tx pb h
  refine Outcome.satisfies_andThen P F _ _
    (hemit (.contract _) tx pb (fun hdir => by cases hdir) h) (fun tx1 pb1 h1 => ?_)
  exact hemit (.pool _) tx1 pb1 ⟨rfl, Nat.le_add_right _ _⟩ h1

theorem applyFileContractRevisions_satisfies (P F : ConsensusDB → processedBlock → Prop)
    (env : Env) (t : Transaction)
    (hPF : ∀ tx pb, P tx pb → F tx pb)
    (hemit : ∀ d tx pb, Diff.sound tx d → P tx pb → (emit d tx pb).satisfies P F)
    (tx : ConsensusDB) (pb : processedBlock) (h : P tx pb) :
    (applyFileContractRevisions env tx pb t).satisfies P F := by
  refine forRange_satisfies P F _ (fun fcr tx pb h => ?_) _ tx pb h
  unfold applyFileContractRevisionsBody
  dsimp only
  split
  · exact hPF tx pb h
  · refine Outcome.satisfies_andThen P F _ _
      (hemit (.contract _) tx pb (fun _ => rfl) h) (fun tx1 pb1 h1 => ?_)
    exact hemit (.contract _) tx1 pb1 (fun hdir => by cases hdir) h1

theorem Outcome.satisfies_and_tx (P F : ConsensusDB → processedBlock → Prop)
    (Q : ConsensusDB → Prop) (o : Outcome) (ho : o.satisfies P F) (hQ : Q o.tx) :
    o.satisfies (fun tx pb => P tx pb ∧ Q tx) F := by
  cases o with
  | ok tx pb => exact ⟨ho, hQ⟩
  | fatal e tx pb => exact ho

theorem applyStorageProofs_satisfies (P F : ConsensusDB → processedBlock → Prop)
    (env : Env) (t : Transaction)
    (hPF : ∀ tx pb, P tx pb → F tx pb)
    (hemit : ∀ d tx pb, Diff.sound tx d → P tx pb → (emit d tx pb).satisfies P F)
    (tx : ConsensusDB) (pb : processedBlock) (h : P tx pb) :
    (applyStorageProofs env tx pb t).satisfies P F := by
  refine forRange_satisfies P F _ (fun sp tx pb h => ?_) _ tx pb h
  unfold applyStorageProofsBody
  dsimp only
  split
  · exact hPF tx pb h
  · have hloop := forRangeFrom_satisfies
      (fun tx1 pb1 => P tx1 pb1 ∧ tx1.FileContracts = tx.FileContracts) F
      (applyStorageProofsOutput env sp)
      (fun i vpo tx1 pb1 h1 =>
        Outcome.satisfies_and_tx P F (fun tx2 => tx2.FileContracts = tx.FileContracts) _
          (hemit (.delayed _) tx1 pb1 rfl h1.1)
          ((emit_contracts (.delayed _) tx1 pb1 (by simp [Diff.category])).trans h1.2))
      (getFileContract tx sp.ParentID).1.ValidProofOutputs 0 tx pb ⟨h, rfl⟩
    refine Outcome.satisfies_andThen_of _ P F _ _ hloop (fun tx1 pb1 h1 => ?_)
    refine hemit (.contract _) tx1 pb1 (fun _ => ?_) h1.1
    simp only [getFileContract, h1.2]

/-- The diffs of a fund input. -/
theorem applyTurtleDexfundInputs_satisfies (P F : ConsensusDB → processedBlock → Prop)
    (env : Env) (t : Transaction)
    (hPF : ∀ tx pb, P tx pb → F tx pb)
    (hemit : ∀ d tx pb, Diff.sound tx d → P tx pb → (emit d tx pb).satisfies P F)
    (tx : ConsensusDB) (pb : processedBlock) (h : P tx pb) :
    (applyTurtleDexfundInputs env tx pb t).satisfies P F := by
  refine forRange_satisfies P F _ (fun sfi tx pb h => ?_) _ tx pb h
  unfold applyTurtleDexfundInputsBody
  dsimp only
  split
  · exact hPF tx pb h
  · have hfirst := Outcome.satisfies_and_tx P F
      (fun tx2 => tx2.TurtleDexfundOutputs = tx.TurtleDexfundOutputs) _
      (hemit (.delayed
        { Direction := .DiffApply, ID := TurtleDexClaimOutputID env sfi.ParentID,
          TurtleDexcoinOutput :=
            { Value := claimPortion env tx (getTurtleDexfundOutput tx sfi.ParentID).1,
              UnlockHash := sfi.ClaimUnlockHash },
          MaturityHeight := pb.Height + env.MaturityDelay }) tx pb rfl h)
      (emit_fundOutputs (.delayed _) tx pb (by simp [Diff.category]))
    refine Outcome.satisfies_andThen_of _ P F _ _ hfirst (fun tx1 pb1 h1 => ?_)
    refine hemit (.fund _) tx1 pb1 (fun _ => ?_) h1.1
    simp only [getTurtleDexfundOutput, h1.2]

theorem applyTurtleDexfundOutputs_satisfies (P F : ConsensusDB → processedBlock → Prop)
    (env : Env) (t : Transaction)
    (hemit : ∀ d tx pb, Diff.sound tx d → P tx pb → (emit d tx pb).satisfies P F)
    (tx : ConsensusDB) (pb : processedBlock) (h : P tx pb) :
    (applyTurtleDexfundOutputs env tx pb t).satisfies P F := by
  refine forRangeFrom_satisfies P F _ (fun i sfo tx pb h => ?_) _ 0 tx pb h
  exact hemit (.fund _) tx pb (fun hdir => by cases hdir) h

/-- A property that every emitted diff keeps is kept by the stages that emit
diffs. -/
theorem diffStages_satisfies (P F : ConsensusDB → processedBlock → Prop)
    (env : Env) (t : Transaction)
    (hPF : ∀ tx pb, P tx pb → F tx pb)
    (hemit : ∀ d tx pb, Diff.sound tx d → P tx pb → (emit d tx pb).satisfies P F)
    (tx : ConsensusDB) (pb : processedBlock) (h : P tx pb) :
    (runInOrder env t diffStages tx pb).satisfies P F := by
  refine runInOrder_satisfies P F env t diffStages (fun f hf => ?_) tx pb h
  simp only [diffStages, List.mem_cons, List.mem_singleton, List.not_mem_nil, or_false] at hf
  rcases hf with rfl | rfl | rfl | rfl | rfl | rfl | rfl
  · exact applyTurtleDexcoinInputs_satisfies P F env t hPF hemit
  · exact applyTurtleDexcoinOutputs_satisfies P F env t hemit
  · exact applyFileContracts_satisfies P F env t hemit
  · exact applyFileContractRevisions_satisfies P F env t hPF hemit
  · exact applyStorageProofs_satisfies P F env t hPF hemit
  · exact applyTurtleDexfundInputs_satisfies P F env t hPF hemit
  · exact applyTurtleDexfundOutputs_satisfies P F env t hemit

theorem applyTransaction_eq_diffStages (env : Env) (tx : ConsensusDB) (pb : processedBlock)
    (t : Transaction) :
    applyTransaction env tx pb t
      = (runInOrder env t diffStages tx pb).andThen
          (fun tx1 pb1 => applyArbitraryData env tx1 pb1 t) := by
  simp [applyTransaction, runInOrder, diffStages, Outcome.andThen_assoc]

/-! ## C17: the fund pool diffs of a block -/

theorem poolChained_append (d : TurtleDexfundPoolDiff) :
    ∀ (ds : List TurtleDexfundPoolDiff) (p : Currency),
      poolChained p (ds ++ [d])
        ↔ poolChained p ds ∧ d.Previous = poolAfter p ds ∧ d.Previous ≤ d.Adjusted := by
  intro ds
  induction ds with
  | nil =>
    intro p
    simp [poolChained, poolAfter]
  | cons x rest ih =>
    intro p
    show (x.Previous = p ∧ x.Previous ≤ x.Adjusted ∧ poolChained x.Adjusted (rest ++ [d])) ↔ _
    rw [ih x.Adjusted]
    simp only [poolChained, poolAfter, and_assoc]

theorem poolAfter_append (d : TurtleDexfundPoolDiff) :
    ∀ (ds : List TurtleDexfundPoolDiff) (p : Currency), poolAfter p (ds ++ [d]) = d.Adjusted := by
  intro ds
  induction ds with
  | nil => intro p; rfl
  | cons x rest ih => intro p; exact ih x.Adjusted

theorem poolChained_le :
    ∀ (ds : List TurtleDexfundPoolDiff) (p : Currency), poolChained p ds → p ≤ poolAfter p ds := by
  intro ds
  induction ds with
  | nil => intro p _; exact Nat.le_refl p
  | cons x rest ih =>
    intro p h
    obtain ⟨h1, h2, h3⟩ := h
    exact Nat.le_trans (h1 ▸ h2) (ih x.Adjusted h3)

theorem poolChained_mem :
    ∀ (ds : List TurtleDexfundPoolDiff) (p : Currency), poolChained p ds →
      ∀ d ∈ ds, d.Previous ≤ d.Adjusted := by
  intro ds
  induction ds with
  | nil => intro p _ d hd; cases hd
  | cons x rest ih =>
    intro p h d hd
    obtain ⟨-, h2, h3⟩ := h
    rcases List.mem_cons.mp hd with rfl | hd
    · exact h2
    · exact ih x.Adjusted h3 d hd

theorem poolChained_next :
    ∀ (ds : List TurtleDexfundPoolDiff) (p : Currency), poolChained p ds →
      ∀ (i : Nat) (d e : TurtleDexfundPoolDiff), ds[i]? = some d → ds[i + 1]? = some e →
        e.Previous = d.Adjusted := by
  intro ds
  induction ds with
  | nil => intro p _ i d e hd; cases hd
  | cons x rest ih =>
    intro p h i d e hd he
    obtain ⟨-, -, h3⟩ := h
    cases i with
    | zero =>
      simp only [List.getElem?_cons_zero, Option.some.injEq] at hd
      subst hd
      cases rest with
      | nil => cases he
      | cons y rest1 =>
        simp only [List.getElem?_cons_succ, List.getElem?_cons_zero, Option.some.injEq] at he
        subst he
        exact h3.1
    | succ j =>
      simp only [List.getElem?_cons_succ] at hd he
      exact ih x.Adjusted h3 j d e hd he

theorem emit_poolTracked (tx0 : ConsensusDB) (pb0 : processedBlock) (d : Diff)
    (tx : ConsensusDB) (pb : processedBlock) (hsound : Diff.sound tx d)
    (h : poolTracked tx0 pb0 tx pb) :
    (emit d tx pb).satisfies (poolTracked tx0 pb0) (poolTracked tx0 pb0) := by
  obtain ⟨added, h1, h2, h3⟩ := h
  cases d with
  | pool p =>
    obtain ⟨hprev, hle⟩ := hsound
    have hallowed : Diff.allowed .DiffApply tx (.pool p) = true := by
      have hprev1 : tx.TurtleDexfundPool = p.Previous := hprev.symm
      simp [Diff.allowed, hle, hprev1]
    rcases emit_eq (.pool p) tx pb with ⟨-, he⟩ | ⟨hno, -⟩
    · rw [he]
      refine ⟨added ++ [p], ?_, ?_, ?_⟩
      · simp only [processedBlock.record, h1, List.append_assoc]
      · exact (poolChained_append p added _).mpr ⟨h2, by rw [hprev, ← h3]; rfl, hle⟩
      · rw [poolAfter_append]
        rfl
    · rw [hallowed] at hno
      cases hno
  | coin c =>
    rcases emit_eq (.coin c) tx pb with ⟨-, he⟩ | ⟨-, e, he⟩ <;> rw [he] <;>
      exact ⟨added, h1, h2, h3⟩
  | contract c =>
    rcases emit_eq (.contract c) tx pb with ⟨-, he⟩ | ⟨-, e, he⟩ <;> rw [he] <;>
      exact ⟨added, h1, h2, h3⟩
  | fund c =>
    rcases emit_eq (.fund c) tx pb with ⟨-, he⟩ | ⟨-, e, he⟩ <;> rw [he] <;>
      exact ⟨added, h1, h2, h3⟩
  | delayed c =>
    rcases emit_eq (.delayed c) tx pb with ⟨-, he⟩ | ⟨-, e, he⟩ <;> rw [he] <;>
      exact ⟨added, h1, h2, h3⟩

/-- The Foundation stage leaves the fund pool alone. -/
theorem applyArbitraryDataBody_pool (env : Env) (arb : Bytes) (tx : ConsensusDB)
    (pb : processedBlock) :
    (applyArbitraryDataBody env arb tx pb).tx.TurtleDexfundPool = tx.TurtleDexfundPool := by
  by_cases hp : SpecifierFoundation <+: arb
  · rw [applyArbitraryDataBody_recognized env arb tx pb hp]
    split
    · rfl
    · split
      · rfl
      · exact (transferFoundationOutputsLoop_frame env _ _ _ _ _ pb).2.2.2.2.1
  · rw [applyArbitraryDataBody_other env arb tx pb hp]
    rfl

theorem applyArbitraryData_pool (env : Env) (tx : ConsensusDB) (pb : processedBlock)
    (t : Transaction) :
    (applyArbitraryData env tx pb t).tx.TurtleDexfundPool = tx.TurtleDexfundPool := by
  unfold applyArbitraryData
  split
  · rfl
  · exact forRange_inv (fun tx1 _ => tx1.TurtleDexfundPool = tx.TurtleDexfundPool)
      (applyArbitraryDataBody env)
      (fun arb tx1 pb1 h => (applyArbitraryDataBody_pool env arb tx1 pb1).trans h)
      t.ArbitraryData tx pb rfl

theorem applyTransaction_poolTracked (env : Env) (tx0 : ConsensusDB) (pb0 : processedBlock)
    (t : Transaction) (tx : ConsensusDB) (pb : processedBlock)
    (h : poolTracked tx0 pb0 tx pb) :
    (applyTransaction env tx pb t).satisfies (poolTracked tx0 pb0) (poolTracked tx0 pb0) := by
  rw [applyTransaction_eq_diffStages]
  refine Outcome.satisfies_andThen _ _ _ _
    (diffStages_satisfies _ _ env t (fun _ _ h1 => h1) (emit_poolTracked tx0 pb0) tx pb h)
    (fun tx1 pb1 h1 => ?_)
  obtain ⟨added, h2, h3, h4⟩ := h1
  have hpb := applyArbitraryData_pb env tx1 pb1 t
  have hpool := applyArbitraryData_pool env tx1 pb1 t
  cases ho : applyArbitraryData env tx1 pb1 t with
  | ok tx2 pb2 =>
    rw [ho] at hpb hpool
    exact ⟨added, (congrArg _ hpb).trans h2, h3, hpool.trans h4⟩
  | fatal e tx2 pb2 =>
    rw [ho] at hpb hpool
    exact ⟨added, (congrArg _ hpb).trans h2, h3, hpool.trans h4⟩

theorem Outcome.satisfies_self (P : ConsensusDB → processedBlock → Prop) (o : Outcome)
    (h : o.satisfies P P) : P o.tx o.pb := by
  cases o <;> exact h

/-- C17: whatever the transactions of a block, and whether `applyTransaction`
comes to the end of them or panics, the fund pool diffs of `pb` afterwards are
those it had followed by the appended ones; the first appended diff has the
fund pool before the block as `Previous`, every later one has the `Adjusted` of
the diff before it as `Previous`, and every one has `Previous ≤ Adjusted`; the
fund pool afterwards is the `Adjusted` of the last appended diff (the pool
before the block when none was appended), hence not below the fund pool before
the block. -/
theorem applyTransactions_poolDiffs (env : Env) (ts : List Transaction) (tx : ConsensusDB)
    (pb : processedBlock) :
    ∃ added,
      (applyTransactions env ts tx pb).pb.TurtleDexfundPoolDiffs
          = pb.TurtleDexfundPoolDiffs ++ added
        ∧ (∀ d, added.head? = some d → d.Previous = tx.TurtleDexfundPool)
        ∧ (∀ (i : Nat) (d e : TurtleDexfundPoolDiff), added[i]? = some d →
            added[i + 1]? = some e → e.Previous = d.Adjusted)
        ∧ (∀ d ∈ added, d.Previous ≤ d.Adjusted)
        ∧ (applyTransactions env ts tx pb).tx.TurtleDexfundPool
            = ((added.getLast?).map (fun d => d.Adjusted)).getD tx.TurtleDexfundPool
        ∧ tx.TurtleDexfundPool ≤ (applyTransactions env ts tx pb).tx.TurtleDexfundPool := by
  have hrun := forRange_satisfies (poolTracked tx pb) (poolTracked tx pb)
    (fun t tx1 pb1 => applyTransaction env tx1 pb1 t)
    (fun t tx1 pb1 h => applyTransaction_poolTracked env tx pb t tx1 pb1 h)
    ts tx pb ⟨[], by simp, trivial, rfl⟩
  obtain ⟨added, h1, h2, h3⟩ := Outcome.satisfies_self _ _ hrun
  refine ⟨added, h1, ?_, poolChained_next added _ h2, poolChained_mem added _ h2, ?_, ?_⟩
  · intro d hd
    cases added with
    | nil => cases hd
    | cons x rest =>
      simp only [List.head?_cons, Option.some.injEq] at hd
      subst hd
      exact h2.1
  · have hlast : ∀ (ds : List TurtleDexfundPoolDiff) (p : Currency),
        poolAfter p ds = ((ds.getLast?).map (fun d => d.Adjusted)).getD p := by
      intro ds
      induction ds using List.reverseRecOn with
      | nil => intro p; rfl
      | append_singleton rest d _ =>
        intro p
        rw [poolAfter_append]
        simp
    exact h3.trans (hlast added _)
  · exact h3 ▸ poolChained_le added _ h2

/-! ## Diffs as the record of what a transaction did -/

theorem update_update_none_of_none {K V : Type} [DecidableEq K] (m : K → Option V) (k : K)
    (v : V) (h : m k = none) :
    Function.update (Function.update m k (some v)) k none = m := by
  rw [Function.update_idem]
  exact Function.update_eq_self_iff.mpr h.symm

theorem update_update_some_of_some {K V : Type} [DecidableEq K] (m : K → Option V) (k : K)
    (v : V) (h : m k = some v) :
    Function.update (Function.update m k none) k (some v) = m := by
  rw [Function.update_idem]
  exact Function.update_eq_self_iff.mpr h.symm

/-- Reverting a diff right after it was applied leads back. -/
theorem Diff.revert_effect (tx : ConsensusDB) (d : Diff) (hsound : Diff.sound tx d)
    (ha : Diff.allowed .DiffApply tx d = true) :
    Diff.allowed .DiffRevert (Diff.effect .DiffApply tx d) d = true
      ∧ Diff.effect .DiffRevert (Diff.effect .DiffApply tx d) d = tx := by
  cases d with
  | coin c =>
    cases tx
    cases hdir : c.Direction with
    | DiffApply =>
      simp only [Diff.allowed, Diff.effect, hdir, if_true, Option.isNone_iff_eq_none] at ha ⊢
      simp [update_update_none_of_none _ _ _ ha]
    | DiffRevert =>
      simp only [Diff.allowed, Diff.effect, hdir] at ha ⊢
      simp only [reduceCtorEq, if_false, Option.isSome_iff_exists] at ha
      obtain ⟨v, hv⟩ := ha
      have hc : c.TurtleDexcoinOutput = v := by
        have := hsound hdir
        simp only [getTurtleDexcoinOutput, hv] at this
        exact this
      simp [update_update_some_of_some _ _ _ (hc ▸ hv)]
  | contract c =>
    cases tx
    cases hdir : c.Direction with
    | DiffApply =>
      simp only [Diff.allowed, Diff.effect, hdir, if_true, Option.isNone_iff_eq_none] at ha ⊢
      simp [update_update_none_of_none _ _ _ ha]
    | DiffRevert =>
      simp only [Diff.allowed, Diff.effect, hdir] at ha ⊢
      simp only [reduceCtorEq, if_false, Option.isSome_iff_exists] at ha
      obtain ⟨v, hv⟩ := ha
      have hc : c.FileContract = v := by
        have := hsound hdir
        simp only [getFileContract, hv] at this
        exact this
      simp [update_update_some_of_some _ _ _ (hc ▸ hv)]
  | fund c =>
    cases tx
    cases hdir : c.Direction with
    | DiffApply =>
      simp only [Diff.allowed, Diff.effect, hdir, if_true, Option.isNone_iff_eq_none] at ha ⊢
      simp [update_update_none_of_none _ _ _ ha]
    | DiffRevert =>
      simp only [Diff.allowed, Diff.effect, hdir] at ha ⊢
      simp only [reduceCtorEq, if_false, Option.isSome_iff_exists] at ha
      obtain ⟨v, hv⟩ := ha
      have hc : c.TurtleDexfundOutput = v := by
        have := hsound hdir
        simp only [getTurtleDexfundOutput, hv] at this
        exact this
      simp [update_update_some_of_some _ _ _ (hc ▸ hv)]
  | delayed c =>
    cases tx with
    | mk coins contracts funds delayed pool height path hashes prior =>
      have hdir : c.Direction = .DiffApply := hsound
      simp only [Diff.allowed, Diff.effect, hdir] at ha ⊢
      cases hb : delayed c.MaturityHeight with
      | none => simp [hb] at ha
      | some bucket =>
        simp only [hb, if_true, Option.isNone_iff_eq_none] at ha
        simp only [Function.update_same, Option.map_some', reduceCtorEq, if_false, if_true,
          Option.isSome_some, Function.update_idem, update_update_none_of_none _ _ _ ha,
          true_and]
        congr 1
        exact Function.update_eq_self_iff.mpr hb.symm
  | pool p =>
    cases tx
    obtain ⟨hprev, hle⟩ := hsound
    simp only [getTurtleDexfundPool] at hprev
    subst hprev
    simp [Diff.allowed, Diff.effect, hle]

theorem processedBlock.recordAll_append (pb : processedBlock) (ds : List Diff) (d : Diff) :
    pb.recordAll (ds ++ [d]) = (pb.recordAll ds).record d := by
  simp [processedBlock.recordAll, List.foldl_append]

theorem emit_traced (tx0 : ConsensusDB) (pb0 : processedBlock) (d : Diff)
    (tx : ConsensusDB) (pb : processedBlock) (hsound : Diff.sound tx d)
    (h : traced tx0 pb0 tx pb) :
    (emit d tx pb).satisfies (traced tx0 pb0) (fun _ _ => True) := by
  obtain ⟨ds, h1, h2, h3⟩ := h
  rcases emit_eq d tx pb with ⟨ha, he⟩ | ⟨-, e, he⟩
  · rw [he]
    obtain ⟨hr1, hr2⟩ := Diff.revert_effect tx d hsound ha
    refine ⟨ds ++ [d], ?_, ?_, ?_⟩
    · rw [processedBlock.recordAll_append, h1]
    · exact (commitDiffs_append_ok_iff .DiffApply ds [d] tx0 _).mpr
        ⟨tx, h2, (commitDiffs_cons_ok_iff .DiffApply d [] tx _).mpr ⟨ha, rfl⟩⟩
    · rw [List.reverse_append, List.reverse_singleton, List.singleton_append]
      refine (commitDiffs_cons_ok_iff .DiffRevert d ds.reverse _ tx0).mpr ⟨hr1, ?_⟩
      rw [hr2]
      exact h3
  · rw [he]
    trivial

theorem traced_refl (tx : ConsensusDB) (pb : processedBlock) : traced tx pb tx pb :=
  ⟨[], rfl, rfl, rfl⟩

/-- Committing diffs leaves the height, the path, the Foundation unlock hashes
and their archive alone. -/
theorem commitDiffs_frame (dir : DiffDirection) :
    ∀ (ds : List Diff) (tx tx1 : ConsensusDB), commitDiffs dir ds tx = .ok tx1 →
      tx1.BlockHeight = tx.BlockHeight ∧ tx1.BlockPath = tx.BlockPath
        ∧ tx1.FoundationUnlockHashes = tx.FoundationUnlockHashes
        ∧ tx1.PriorFoundationUnlockHashes = tx.PriorFoundationUnlockHashes := by
  intro ds
  induction ds with
  | nil =>
    intro tx tx1 h
    cases h
    exact ⟨rfl, rfl, rfl, rfl⟩
  | cons d rest ih =>
    intro tx tx1 h
    obtain ⟨-, h1⟩ := (commitDiffs_cons_ok_iff dir d rest tx tx1).mp h
    have h2 := ih _ _ h1
    cases d <;> exact h2

theorem processedBlock.recordAll_height (pb : processedBlock) :
    ∀ ds : List Diff, (pb.recordAll ds).Height = pb.Height := by
  intro ds
  induction ds using List.reverseRecOn with
  | nil => rfl
  | append_singleton rest d ih =>
    rw [processedBlock.recordAll_append]
    cases d <;> exact ih

theorem processedBlock.recordAll_lists (pb : processedBlock) :
    ∀ ds : List Diff,
      (pb.recordAll ds).TurtleDexcoinOutputDiffs
          = pb.TurtleDexcoinOutputDiffs ++ ds.filterMap Diff.asCoin
        ∧ (pb.recordAll ds).FileContractDiffs
          = pb.FileContractDiffs ++ ds.filterMap Diff.asContract
        ∧ (pb.recordAll ds).TurtleDexfundOutputDiffs
          = pb.TurtleDexfundOutputDiffs ++ ds.filterMap Diff.asFund
        ∧ (pb.recordAll ds).DelayedTurtleDexcoinOutputDiffs
          = pb.DelayedTurtleDexcoinOutputDiffs ++ ds.filterMap Diff.asDelayed
        ∧ (pb.recordAll ds).TurtleDexfundPoolDiffs
          = pb.TurtleDexfundPoolDiffs ++ ds.filterMap Diff.asPool := by
  intro ds
  induction ds using List.reverseRecOn with
  | nil => simp [processedBlock.recordAll]
  | append_singleton rest d ih =>
    obtain ⟨h1, h2, h3, h4, h5⟩ := ih
    rw [processedBlock.recordAll_append]
    cases d <;>
      simp [processedBlock.record, h1, h2, h3, h4, h5, Diff.asCoin, Diff.asContract,
        Diff.asFund, Diff.asDelayed, Diff.asPool]

theorem Diff.category_lt (d : Diff) : d.category < 5 := by
  cases d <;> simp [Diff.category]

theorem filter_category_of_filterMap (ds : List Diff) :
    (ds.filterMap Diff.asCoin).map Diff.coin = ds.filter (fun d => d.category = 0)
      ∧ (ds.filterMap Diff.asContract).map Diff.contract = ds.filter (fun d => d.category = 1)
      ∧ (ds.filterMap Diff.asFund).map Diff.fund = ds.filter (fun d => d.category = 2)
      ∧ (ds.filterMap Diff.asDelayed).map Diff.delayed = ds.filter (fun d => d.category = 3)
      ∧ (ds.filterMap Diff.asPool).map Diff.pool = ds.filter (fun d => d.category = 4) := by
  induction ds with
  | nil => simp
  | cons d rest ih =>
    obtain ⟨h1, h2, h3, h4, h5⟩ := ih
    cases d <;>
      simp [List.filterMap_cons, List.filter_cons, Diff.asCoin, Diff.asContract, Diff.asFund,
        Diff.asDelayed, Diff.asPool, Diff.category, h1, h2, h3, h4, h5]

theorem filter_category_category (ds : List Diff) (c k : Nat) :
    (ds.filter (fun d => d.category = k)).filter (fun d => d.category = c)
      = if k = c then ds.filter (fun d => d.category = c) else [] := by
  split
  · next h =>
    subst h
    rw [List.filter_filter]
    simp
  · next h =>
    rw [List.filter_eq_nil_iff]
    intro a ha
    have hk := (List.mem_filter.mp ha).2
    simp only [decide_eq_true_eq] at hk ⊢
    rw [hk]
    exact h

/-- The diffs that a processed block received, taken category by category, are
the recorded diffs of every category in their order. -/
theorem since_recordAll_diffs (pb : processedBlock) (ds : List Diff) (c : Nat) :
    ((pb.recordAll ds).since pb).diffs.filter (fun d => d.category = c)
      = ds.filter (fun d => d.category = c) := by
  obtain ⟨h1, h2, h3, h4, h5⟩ := processedBlock.recordAll_lists pb ds
  obtain ⟨f1, f2, f3, f4, f5⟩ := filter_category_of_filterMap ds
  simp only [processedBlock.diffs, processedBlock.since, h1, h2, h3, h4, h5,
    List.drop_left, f1, f2, f3, f4, f5, List.filter_append, filter_category_category]
  have hlt : ∀ d ∈ ds, d.category < 5 := fun d _ => Diff.category_lt d
  obtain h | h | h | h | h | h : c = 0 ∨ c = 1 ∨ c = 2 ∨ c = 3 ∨ c = 4 ∨ 5 ≤ c := by omega
  · subst h; simp
  · subst h; simp
  · subst h; simp
  · subst h; simp
  · subst h; simp
  · have h0 : ¬ 0 = c := by omega
    have h1 : ¬ 1 = c := by omega
    have h2 : ¬ 2 = c := by omega
    have h3 : ¬ 3 = c := by omega
    have h4 : ¬ 4 = c := by omega
    simp only [h0, h1, h2, h3, h4, if_false, List.append_nil]
    symm
    rw [List.filter_eq_nil_iff]
    intro a _
    have := Diff.category_lt a
    simp only [decide_eq_true_eq]
    omega

/-- From a trace to `commitNodeDiffs`: the diffs received, committed in category
order, lead from the first state to the last, and reverted in the opposite
order, lead back. -/
theorem commitNodeDiffs_of_traced (tx : ConsensusDB) (pb : processedBlock) (tx1 : ConsensusDB)
    (pb1 : processedBlock) (h : traced tx pb tx1 pb1) :
    commitNodeDiffs tx (pb1.since pb) .DiffApply = .ok tx1
      ∧ commitNodeDiffs tx1 (pb1.since pb) .DiffRevert = .ok tx := by
  obtain ⟨ds, h1, h2, h3⟩ := h
  subst h1
  constructor
  · simp only [commitNodeDiffs, if_true]
    exact commitDiffs_of_same_categories .DiffApply ds _ tx tx1
      (fun c => (since_recordAll_diffs pb ds c).symm) h2
  · simp only [commitNodeDiffs, reduceCtorEq, if_false]
    refine commitDiffs_of_same_categories .DiffRevert ds.reverse _ tx1 tx (fun c => ?_) h3
    rw [List.filter_reverse, List.filter_reverse, since_recordAll_diffs pb ds c]

theorem Outcome.eq_ok_of_not_fatal (o : Outcome) (h : o.isFatal = false) :
    o = .ok o.tx o.pb := by
  cases o with
  | ok tx pb => rfl
  | fatal e tx pb => cases h

/-! ## C15: what the diffs of a transaction record -/

theorem applyArbitraryData_of_inert (env : Env) (tx : ConsensusDB) (pb : processedBlock)
    (t : Transaction) (h : foundationInert env tx pb t.ArbitraryData) :
    applyArbitraryData env tx pb t = .ok tx pb
      ∨ ∃ e, applyArbitraryData env tx pb t = .fatal e tx pb := by
  unfold applyArbitraryData
  split
  · exact Or.inl rfl
  · next hheight =>
    rcases h with h | h | h
    · exact absurd h hheight
    · rcases forRange_applyArbitraryDataBody_archived env pb t.ArbitraryData tx h with
        h1 | ⟨-, h1⟩
      · exact Or.inl h1
      · exact Or.inr ⟨_, h1⟩
    · exact Or.inl (forRange_applyArbitraryDataBody_other env pb t.ArbitraryData tx h)

/-- The Foundation stage leaves the contracts, the fund outputs, the delayed
outputs and the fund pool alone. -/
theorem applyArbitraryData_ledger (env : Env) (tx : ConsensusDB) (pb : processedBlock)
    (t : Transaction) :
    (applyArbitraryData env tx pb t).tx.FileContracts = tx.FileContracts
      ∧ (applyArbitraryData env tx pb t).tx.TurtleDexfundOutputs = tx.TurtleDexfundOutputs
      ∧ (applyArbitraryData env tx pb t).tx.DelayedTurtleDexcoinOutputs
          = tx.DelayedTurtleDexcoinOutputs
      ∧ (applyArbitraryData env tx pb t).tx.TurtleDexfundPool = tx.TurtleDexfundPool := by
  unfold applyArbitraryData
  split
  · exact ⟨rfl, rfl, rfl, rfl⟩
  · refine forRange_inv
      (fun tx1 _ => tx1.FileContracts = tx.FileContracts
        ∧ tx1.TurtleDexfundOutputs = tx.TurtleDexfundOutputs
        ∧ tx1.DelayedTurtleDexcoinOutputs = tx.DelayedTurtleDexcoinOutputs
        ∧ tx1.TurtleDexfundPool = tx.TurtleDexfundPool)
      (applyArbitraryDataBody env) (fun arb tx1 pb1 h => ?_) t.ArbitraryData tx pb
      ⟨rfl, rfl, rfl, rfl⟩
    have hbody : (applyArbitraryDataBody env arb tx1 pb1).tx.FileContracts = tx1.FileContracts
        ∧ (applyArbitraryDataBody env arb tx1 pb1).tx.TurtleDexfundOutputs
            = tx1.TurtleDexfundOutputs
        ∧ (applyArbitraryDataBody env arb tx1 pb1).tx.DelayedTurtleDexcoinOutputs
            = tx1.DelayedTurtleDexcoinOutputs
        ∧ (applyArbitraryDataBody env arb tx1 pb1).tx.TurtleDexfundPool
            = tx1.TurtleDexfundPool := by
      by_cases hp : SpecifierFoundation <+: arb
      · rw [applyArbitraryDataBody_recognized env arb tx1 pb1 hp]
        split
        · exact ⟨rfl, rfl, rfl, rfl⟩
        · split
          · exact ⟨rfl, rfl, rfl, rfl⟩
          · have hf := (transferFoundationOutputsLoop_frame env pb1.Height
              (env.Unmarshal (arb.drop SpecifierLen)).1.NewPrimary pb1.Height
              env.FoundationHardforkHeight
              (setFoundationUnlockHashes (setPriorFoundationUnlockHashes tx1 pb1.Height)
                (env.Unmarshal (arb.drop SpecifierLen)).1.NewPrimary
                (env.Unmarshal (arb.drop SpecifierLen)).1.NewFailsafe) pb1).2
            exact ⟨hf.1, hf.2.1, hf.2.2.1, hf.2.2.2.1⟩
      · rw [applyArbitraryDataBody_other env arb tx1 pb1 hp]
        exact ⟨rfl, rfl, rfl, rfl⟩
    exact ⟨hbody.1.trans h.1, hbody.2.1.trans h.2.1, hbody.2.2.1.trans h.2.2.1,
      hbody.2.2.2.trans h.2.2.2⟩

theorem traced_frame (tx : ConsensusDB) (pb : processedBlock) (tx1 : ConsensusDB)
    (pb1 : processedBlock) (h : traced tx pb tx1 pb1) :
    pb1.Height = pb.Height
      ∧ tx1.PriorFoundationUnlockHashes = tx.PriorFoundationUnlockHashes := by
  obtain ⟨ds, h1, h2, -⟩ := h
  exact ⟨h1 ▸ processedBlock.recordAll_height pb ds, (commitDiffs_frame _ ds tx tx1 h2).2.2.2⟩

theorem foundationInert_of_traced (env : Env) (tx : ConsensusDB) (pb : processedBlock)
    (tx1 : ConsensusDB) (pb1 : processedBlock) (arbs : List Bytes)
    (h : traced tx pb tx1 pb1) (hinert : foundationInert env tx pb arbs) :
    foundationInert env tx1 pb1 arbs := by
  obtain ⟨hh, hp⟩ := traced_frame tx pb tx1 pb1 h
  unfold foundationInert
  rw [hh, hp]
  exact hinert

/-- A run of `applyTransaction` that comes to its end consists of a trace of
emitted diffs followed by the Foundation stage. -/
theorem applyTransaction_ok_split (env : Env) (tx : ConsensusDB) (pb : processedBlock)
    (t : Transaction) (tx1 : ConsensusDB) (pb1 : processedBlock)
    (hrun : applyTransaction env tx pb t = .ok tx1 pb1) :
    ∃ tx7, traced tx pb tx7 pb1 ∧ applyArbitraryData env tx7 pb1 t = .ok tx1 pb1 := by
  rw [applyTransaction_eq_diffStages] at hrun
  have hstages := diffStages_satisfies (traced tx pb) (fun _ _ => True) env t
    (fun _ _ _ => trivial) (emit_traced tx pb) tx pb (traced_refl tx pb)
  cases ho : runInOrder env t diffStages tx pb with
  | fatal e tx7 pb7 =>
    rw [ho, Outcome.andThen_fatal] at hrun
    cases hrun
  | ok tx7 pb7 =>
    rw [ho] at hstages
    rw [ho, Outcome.andThen_ok] at hrun
    have hpb := applyArbitraryData_pb env tx7 pb7 t
    rw [hrun] at hpb
    have hpb1 : pb1 = pb7 := hpb
    subst hpb1
    exact ⟨tx7, hstages, hrun⟩

theorem since_lists_of_traced (tx : ConsensusDB) (pb : processedBlock) (tx1 : ConsensusDB)
    (pb1 : processedBlock) (h : traced tx pb tx1 pb1) :
    pb1.TurtleDexcoinOutputDiffs
        = pb.TurtleDexcoinOutputDiffs ++ (pb1.since pb).TurtleDexcoinOutputDiffs
      ∧ pb1.FileContractDiffs = pb.FileContractDiffs ++ (pb1.since pb).FileContractDiffs
      ∧ pb1.TurtleDexfundOutputDiffs
          = pb.TurtleDexfundOutputDiffs ++ (pb1.since pb).TurtleDexfundOutputDiffs
      ∧ pb1.DelayedTurtleDexcoinOutputDiffs
          = pb.DelayedTurtleDexcoinOutputDiffs ++ (pb1.since pb).DelayedTurtleDexcoinOutputDiffs
      ∧ pb1.TurtleDexfundPoolDiffs
          = pb.TurtleDexfundPoolDiffs ++ (pb1.since pb).TurtleDexfundPoolDiffs := by
  obtain ⟨ds, h1, -, -⟩ := h
  obtain ⟨l1, l2, l3, l4, l5⟩ := processedBlock.recordAll_lists pb ds
  subst h1
  simp only [processedBlock.since, l1, l2, l3, l4, l5, List.drop_left, and_self]

/-- C15, amended: when `applyTransaction` comes to its end, the diffs that the
call appended to `pb`, committed in the apply direction, lead from the state
before the call to the state `tx7` that the Foundation stage `applyArbitraryData`
starts from; the contracts, the fund outputs, the delayed outputs and the fund
pool after the call are those of `tx7`, so they change through recorded diffs
only; and when no Foundation update can take effect, the state after the call
is `tx7` altogether. (A Foundation update that takes effect changes coin
outputs, the current unlock hashes and the archive without a diff.) -/
theorem applyTransaction_diffs (env : Env) (tx : ConsensusDB) (pb : processedBlock)
    (t : Transaction) (tx1 : ConsensusDB) (pb1 : processedBlock)
    (hrun : applyTransaction env tx pb t = .ok tx1 pb1) :
    ∃ tx7, commitNodeDiffs tx (pb1.since pb) .DiffApply = .ok tx7
      ∧ applyArbitraryData env tx7 pb1 t = .ok tx1 pb1
      ∧ (tx1.FileContracts = tx7.FileContracts
        ∧ tx1.TurtleDexfundOutputs = tx7.TurtleDexfundOutputs
        ∧ tx1.DelayedTurtleDexcoinOutputs = tx7.DelayedTurtleDexcoinOutputs
        ∧ tx1.TurtleDexfundPool = tx7.TurtleDexfundPool)
      ∧ (foundationInert env tx pb t.ArbitraryData → tx1 = tx7)
      ∧ (pb1.TurtleDexcoinOutputDiffs
          = pb.TurtleDexcoinOutputDiffs ++ (pb1.since pb).TurtleDexcoinOutputDiffs
        ∧ pb1.FileContractDiffs = pb.FileContractDiffs ++ (pb1.since pb).FileContractDiffs
        ∧ pb1.TurtleDexfundOutputDiffs
          = pb.TurtleDexfundOutputDiffs ++ (pb1.since pb).TurtleDexfundOutputDiffs
        ∧ pb1.DelayedTurtleDexcoinOutputDiffs
          = pb.DelayedTurtleDexcoinOutputDiffs
            ++ (pb1.since pb).DelayedTurtleDexcoinOutputDiffs
        ∧ pb1.TurtleDexfundPoolDiffs
          = pb.TurtleDexfundPoolDiffs ++ (pb1.since pb).TurtleDexfundPoolDiffs) := by
  obtain ⟨tx7, htraced, hdata⟩ := applyTransaction_ok_split env tx pb t tx1 pb1 hrun
  refine ⟨tx7, (commitNodeDiffs_of_traced tx pb tx7 pb1 htraced).1, hdata, ?_, ?_,
    since_lists_of_traced tx pb tx7 pb1 htraced⟩
  · have hl := applyArbitraryData_ledger env tx7 pb1 t
    rw [hdata] at hl
    exact hl
  · intro hinert
    rcases applyArbitraryData_of_inert env tx7 pb1 t
      (foundationInert_of_traced env tx pb tx7 pb1 _ htraced hinert) with h | ⟨e, h⟩
    · rw [h] at hdata
      cases hdata
      rfl
    · rw [h] at hdata
      cases hdata

set_option maxRecDepth 100000 in
theorem applyTransaction_diffs_witness :
    ∃ tx7,
      commitNodeDiffs sampleLedgerDB
          ((applyTransaction (sampleEnv true) sampleLedgerDB (processedBlock.new 7)
            sampleMixed).pb.since (processedBlock.new 7)) .DiffApply = .ok tx7
        ∧ (applyTransaction (sampleEnv true) sampleLedgerDB (processedBlock.new 7)
            sampleMixed).tx = tx7 := by
  obtain ⟨tx7, h1, -, -, h4, -⟩ :=
    applyTransaction_diffs (sampleEnv true) sampleLedgerDB (processedBlock.new 7) sampleMixed
      _ _ (Outcome.eq_ok_of_not_fatal _ (by decide))
  exact ⟨tx7, h1, h4 (Or.inl (by decide))⟩

set_option maxRecDepth 100000 in
/-- C15 as stated fails: a Foundation update that takes effect changes the
ledger without a diff. Here the transaction carries an update at the height 58:
`applyTransaction` comes to its end, the processed block has no diff at all,
and the unspent subsidy output of the block at height 50 has the new primary
hash as unlock hash. -/
theorem applyTransaction_unrecorded_transfer :
    (applyTransaction (sampleEnv true) sampleSubsidyDB (processedBlock.new 58)
        sampleUpdateData).isFatal = false
      ∧ (applyTransaction (sampleEnv true) sampleSubsidyDB (processedBlock.new 58)
          sampleUpdateData).pb = processedBlock.new 58
      ∧ ((processedBlock.new 58).since (processedBlock.new 58)).diffs = []
      ∧ sampleSubsidyDB.TurtleDexcoinOutputs ((sampleEnv true).FoundationSubsidyID sampleID1)
          = some { Value := 7, UnlockHash := List.replicate 32 9 }
      ∧ (applyTransaction (sampleEnv true) sampleSubsidyDB (processedBlock.new 58)
          sampleUpdateData).tx.TurtleDexcoinOutputs
            ((sampleEnv true).FoundationSubsidyID sampleID1)
          = some { Value := 7, UnlockHash := List.replicate 32 1 } := by
  decide

/-! ## C16: reverting the diffs of a block -/

theorem forRange_satisfies_of_mem {α : Type} (P F : ConsensusDB → processedBlock → Prop)
    (body : α → ConsensusDB → processedBlock → Outcome) :
    ∀ (xs : List α), (∀ x ∈ xs, ∀ tx pb, P tx pb → (body x tx pb).satisfies P F) →
      ∀ (tx : ConsensusDB) (pb : processedBlock), P tx pb →
        (forRange body xs tx pb).satisfies P F := by
  intro xs
  induction xs with
  | nil => intro _ tx pb h; exact h
  | cons x rest ih =>
    intro hbody tx pb h
    rw [forRange_cons]
    exact Outcome.satisfies_andThen P F _ _ (hbody x (List.mem_cons_self _ _) tx pb h)
      (ih (fun y hy => hbody y (List.mem_cons_of_mem _ hy)))

theorem applyTransaction_traced (env : Env) (tx0 : ConsensusDB) (pb0 : processedBlock)
    (t : Transaction) (hinert : foundationInert env tx0 pb0 t.ArbitraryData)
    (tx : ConsensusDB) (pb : processedBlock) (h : traced tx0 pb0 tx pb) :
    (applyTransaction env tx pb t).satisfies (traced tx0 pb0) (fun _ _ => True) := by
  rw [applyTransaction_eq_diffStages]
  refine Outcome.satisfies_andThen _ _ _ _
    (diffStages_satisfies (traced tx0 pb0) (fun _ _ => True) env t
      (fun _ _ _ => trivial) (emit_traced tx0 pb0) tx pb h)
    (fun tx7 pb7 h7 => ?_)
  rcases applyArbitraryData_of_inert env tx7 pb7 t
    (foundationInert_of_traced env tx0 pb0 tx7 pb7 _ h7 hinert) with h1 | ⟨e, h1⟩
  · rw [h1]
    exact h7
  · rw [h1]
    trivial

/-- C16, amended: when `applyTransaction` has come to the end of the
transactions of a block in which no Foundation update can take effect, then
committing the diffs that the block received leads from the state before the
block to the state after it, and reverting them, every diff inverted, in
reverse category and index order, from the state after the block leads back to
the state before the block: the coin outputs, the fund outputs, the contracts,
the delayed outputs, the fund pool and all the rest are as they were. -/
theorem applyTransactions_revert (env : Env) (ts : List Transaction) (tx : ConsensusDB)
    (pb : processedBlock) (tx1 : ConsensusDB) (pb1 : processedBlock)
    (hrun : applyTransactions env ts tx pb = .ok tx1 pb1)
    (hinert : ∀ t ∈ ts, foundationInert env tx pb t.ArbitraryData) :
    commitNodeDiffs tx (pb1.since pb) .DiffApply = .ok tx1
      ∧ commitNodeDiffs tx1 (pb1.since pb) .DiffRevert = .ok tx := by
  have h := forRange_satisfies_of_mem (traced tx pb) (fun _ _ => True)
    (fun t tx2 pb2 => applyTransaction env tx2 pb2 t) ts
    (fun t ht tx2 pb2 h2 => applyTransaction_traced env tx pb t (hinert t ht) tx2 pb2 h2)
    tx pb (traced_refl tx pb)
  unfold applyTransactions at hrun
  rw [hrun] at h
  exact commitNodeDiffs_of_traced tx pb tx1 pb1 h

set_option maxRecDepth 100000 in
theorem applyTransactions_revert_witness :
    commitNodeDiffs
        (applyTransactions (sampleEnv true) [sampleMixed, sampleContracts] sampleLedgerDB
          (processedBlock.new 7)).tx
        ((applyTransactions (sampleEnv true) [sampleMixed, sampleContracts] sampleLedgerDB
          (processedBlock.new 7)).pb.since (processedBlock.new 7)) .DiffRevert
      = .ok sampleLedgerDB :=
  (applyTransactions_revert (sampleEnv true) [sampleMixed, sampleContracts] sampleLedgerDB
    (processedBlock.new 7) _ _ (Outcome.eq_ok_of_not_fatal _ (by decide))
    (fun _ _ => Or.inl (by decide))).2

set_option maxRecDepth 100000 in
/-- C16 as stated fails: a Foundation update changes coin outputs without a
diff, so reverting the diffs of the block does not undo it. Here the only
transaction of the block at height 58 carries an update: the block has no diff,
and after reverting its diffs the subsidy output of the block at height 50
still has the new primary hash as unlock hash, not the hash it had before the
block. -/
theorem applyTransactions_revert_after_update :
    (applyTransactions (sampleEnv true) [sampleUpdateData] sampleSubsidyDB
        (processedBlock.new 58)).isFatal = false
      ∧ sampleSubsidyDB.TurtleDexcoinOutputs ((sampleEnv true).FoundationSubsidyID sampleID1)
          = some { Value := 7, UnlockHash := List.replicate 32 9 }
      ∧ ((commitNodeDiffs
            (applyTransactions (sampleEnv true) [sampleUpdateData] sampleSubsidyDB
              (processedBlock.new 58)).tx
            ((applyTransactions (sampleEnv true) [sampleUpdateData] sampleSubsidyDB
              (processedBlock.new 58)).pb.since (processedBlock.new 58))
            .DiffRevert).toOption.map
          (fun tx => tx.TurtleDexcoinOutputs ((sampleEnv true).FoundationSubsidyID sampleID1)))
          = some (some { Value := 7, UnlockHash := List.replicate 32 1 }) := by
  decide

/-! ## C19: the number of diffs of a transaction -/

theorem processedBlock.count_record (pb : processedBlock) (d : Diff) (c : Nat) :
    (pb.record d).count c = pb.count c + d.unit c := by
  cases d <;> rcases c with _ | _ | _ | _ | _ | c <;>
    simp [processedBlock.record, processedBlock.count, Diff.unit, Diff.category]

theorem Outcome.andThen_eq_ok (o : Outcome) (f : ConsensusDB → processedBlock → Outcome)
    (tx1 : ConsensusDB) (pb1 : processedBlock) (h : o.andThen f = .ok tx1 pb1) :
    ∃ tx2 pb2, o = .ok tx2 pb2 ∧ f tx2 pb2 = .ok tx1 pb1 := by
  cases o with
  | ok tx2 pb2 => exact ⟨tx2, pb2, rfl, h⟩
  | fatal e tx2 pb2 => cases h

theorem emit_eq_ok (d : Diff) (tx : ConsensusDB) (pb : processedBlock) (tx1 : ConsensusDB)
    (pb1 : processedBlock) (h : emit d tx pb = .ok tx1 pb1) :
    Diff.allowed .DiffApply tx d = true ∧ tx1 = Diff.effect .DiffApply tx d
      ∧ pb1 = pb.record d := by
  rcases emit_eq d tx pb with ⟨ha, he⟩ | ⟨-, e, he⟩
  · rw [he] at h
    cases h
    exact ⟨ha, rfl, rfl⟩
  · rw [he] at h
    cases h

theorem forRange_count {α : Type} (J : ConsensusDB → Prop)
    (body : α → ConsensusDB → processedBlock → Outcome) (k : α → Nat → Nat)
    (hbody : ∀ x tx pb tx1 pb1, J tx → body x tx pb = .ok tx1 pb1 →
      J tx1 ∧ ∀ c, pb1.count c = pb.count c + k x c) :
    ∀ (xs : List α) (tx : ConsensusDB) (pb : processedBlock) (tx1 : ConsensusDB)
      (pb1 : processedBlock), J tx → forRange body xs tx pb = .ok tx1 pb1 →
      J tx1 ∧ ∀ c, pb1.count c = pb.count c + (xs.map (fun x => k x c)).sum := by
  intro xs
  induction xs with
  | nil =>
    intro tx pb tx1 pb1 hJ h
    cases h
    exact ⟨hJ, fun c => by simp⟩
  | cons x rest ih =>
    intro tx pb tx1 pb1 hJ h
    rw [forRange_cons] at h
    obtain ⟨tx2, pb2, h1, h2⟩ := Outcome.andThen_eq_ok _ _ _ _ h
    obtain ⟨hJ2, hc2⟩ := hbody x tx pb tx2 pb2 hJ h1
    obtain ⟨hJ1, hc1⟩ := ih tx2 pb2 tx1 pb1 hJ2 h2
    refine ⟨hJ1, fun c => ?_⟩
    rw [hc1 c, hc2 c, List.map_cons, List.sum_cons, Nat.add_assoc]

theorem forRangeFrom_count {α : Type} (J : ConsensusDB → Prop)
    (body : Nat → α → ConsensusDB → processedBlock → Outcome) (k : α → Nat → Nat)
    (hbody : ∀ i x tx pb tx1 pb1, J tx → body i x tx pb = .ok tx1 pb1 →
      J tx1 ∧ ∀ c, pb1.count c = pb.count c + k x c) :
    ∀ (xs : List α) (i : Nat) (tx : ConsensusDB) (pb : processedBlock) (tx1 : ConsensusDB)
      (pb1 : processedBlock), J tx → forRangeFrom body i xs tx pb = .ok tx1 pb1 →
      J tx1 ∧ ∀ c, pb1.count c = pb.count c + (xs.map (fun x => k x c)).sum := by
  intro xs
  induction xs with
  | nil =>
    intro i tx pb tx1 pb1 hJ h
    cases h
    exact ⟨hJ, fun c => by simp⟩
  | cons x rest ih =>
    intro i tx pb tx1 pb1 hJ h
    rw [forRangeFrom_cons] at h
    obtain ⟨tx2, pb2, h1, h2⟩ := Outcome.andThen_eq_ok _ _ _ _ h
    obtain ⟨hJ2, hc2⟩ := hbody i x tx pb tx2 pb2 hJ h1
    obtain ⟨hJ1, hc1⟩ := ih (i + 1) tx2 pb2 tx1 pb1 hJ2 h2
    refine ⟨hJ1, fun c => ?_⟩
    rw [hc1 c, hc2 c, List.map_cons, List.sum_cons, Nat.add_assoc]

theorem emit_count (d : Diff) (tx : ConsensusDB) (pb : processedBlock) (tx1 : ConsensusDB)
    (pb1 : processedBlock) (h : emit d tx pb = .ok tx1 pb1) (c : Nat) :
    pb1.count c = pb.count c + d.unit c := by
  obtain ⟨-, -, hpb⟩ := emit_eq_ok d tx pb tx1 pb1 h
  rw [hpb, processedBlock.count_record]

theorem applyTurtleDexcoinInputs_count (env : Env) (t : Transaction) (tx : ConsensusDB)
    (pb : processedBlock) (tx1 : ConsensusDB) (pb1 : processedBlock)
    (h : applyTurtleDexcoinInputs env tx pb t = .ok tx1 pb1) (c : Nat) :
    pb1.count c = pb.count c + if c = 0 then t.TurtleDexcoinInputs.length else 0 := by
  have hloop := (forRange_count (fun _ => True) (applyTurtleDexcoinInputsBody env)
    (fun _ c => if c = 0 then 1 else 0)
    (fun sci tx pb tx1 pb1 _ hb => by
      refine ⟨trivial, fun c => ?_⟩
      unfold applyTurtleDexcoinInputsBody at hb
      dsimp only at hb
      split at hb
      · cases hb
      · rw [emit_count (.coin _) tx pb tx1 pb1 hb c]
        simp [Diff.unit, Diff.category, eq_comm])
    t.TurtleDexcoinInputs tx pb tx1 pb1 trivial h).2 c
  rw [hloop]
  split <;> simp

theorem applyTurtleDexcoinOutputs_count (env : Env) (t : Transaction) (tx : ConsensusDB)
    (pb : processedBlock) (tx1 : ConsensusDB) (pb1 : processedBlock)
    (h : applyTurtleDexcoinOutputs env tx pb t = .ok tx1 pb1) (c : Nat) :
    pb1.count c = pb.count c + if c = 0 then t.TurtleDexcoinOutputs.length else 0 := by
  have hloop := (forRangeFrom_count (fun _ => True) (applyTurtleDexcoinOutputsBody env t)
    (fun _ c => if c = 0 then 1 else 0)
    (fun i sco tx pb tx1 pb1 _ hb => by
      refine ⟨trivial, fun c => ?_⟩
      rw [emit_count (.coin _) tx pb tx1 pb1 hb c]
      simp [Diff.unit, Diff.category, eq_comm])
    t.TurtleDexcoinOutputs 0 tx pb tx1 pb1 trivial h).2 c
  rw [hloop]
  split <;> simp

theorem applyFileContracts_count (env : Env) (t : Transaction) (tx : ConsensusDB)
    (pb : processedBlock) (tx1 : ConsensusDB) (pb1 : processedBlock)
    (h : applyFileContracts env tx pb t = .ok tx1 pb1) (c : Nat) :
    pb1.count c
      = pb.count c + if c = 1 ∨ c = 4 then t.FileContracts.length else 0 := by
  have hloop := (forRangeFrom_count (fun _ => True) (applyFileContractsBody env t)
    (fun _ c => if c = 1 ∨ c = 4 then 1 else 0)
    (fun i fc tx pb tx1 pb1 _ hb => by
      refine ⟨trivial, fun c => ?_⟩
      obtain ⟨tx2, pb2, h1, h2⟩ := Outcome.andThen_eq_ok _ _ _ _ hb
      rw [emit_count (.pool _) tx2 pb2 tx1 pb1 h2 c, emit_count (.contract _) tx pb tx2 pb2 h1 c]
      simp only [Diff.unit, Diff.category]
      by_cases h1 : c = 1
      · subst h1; simp
      · by_cases h4 : c = 4
        · subst h4; simp
        · simp [h1, h4, eq_comm])
    t.FileContracts 0 tx pb tx1 pb1 trivial h).2 c
  rw [hloop]
  split <;> simp

theorem applyFileContractRevisions_count (env : Env) (t : Transaction) (tx : ConsensusDB)
    (pb : processedBlock) (tx1 : ConsensusDB) (pb1 : processedBlock)
    (h : applyFileContractRevisions env tx pb t = .ok tx1 pb1) (c : Nat) :
    pb1.count c
      = pb.count c + if c = 1 then 2 * t.FileContractRevisions.length else 0 := by
  have hloop := (forRange_count (fun _ => True) (applyFileContractRevisionsBody env)
    (fun _ c => if c = 1 then 2 else 0)
    (fun fcr tx pb tx1 pb1 _ hb => by
      refine ⟨trivial, fun c => ?_⟩
      unfold applyFileContractRevisionsBody at hb
      dsimp only at hb
      split at hb
      · cases hb
      · obtain ⟨tx2, pb2, h1, h2⟩ := Outcome.andThen_eq_ok _ _ _ _ hb
        rw [emit_count (.contract _) tx2 pb2 tx1 pb1 h2 c,
          emit_count (.contract _) tx pb tx2 pb2 h1 c]
        simp only [Diff.unit, Diff.category]
        by_cases h1 : c = 1
        · subst h1; simp
        · simp [h1, eq_comm])
    t.FileContractRevisions tx pb tx1 pb1 trivial h).2 c
  rw [hloop]
  split <;> simp [Nat.mul_comm]

/-- The diffs of a storage proof whose stage comes to its end: the contract it
proves is stored when the proof is reached, as it was stored when the stage
began. -/
theorem applyStorageProofsBody_count (env : Env) (tx0 : ConsensusDB) (sp : StorageProof)
    (tx : ConsensusDB) (pb : processedBlock) (tx1 : ConsensusDB) (pb1 : processedBlock)
    (hJ : contractsWithin tx0 tx) (hb : applyStorageProofsBody env sp tx pb = .ok tx1 pb1) :
    contractsWithin tx0 tx1
      ∧ (tx0.FileContracts sp.ParentID).isSome = true
      ∧ ∀ c, pb1.count c = pb.count c
          + ((if c = 1 then 1 else 0)
            + if c = 3 then (getFileContract tx0 sp.ParentID).1.ValidProofOutputs.length
              else 0) := by
  unfold applyStorageProofsBody at hb
  dsimp only at hb
  split at hb
  · cases hb
  · obtain ⟨tx2, pb2, h1, h2⟩ := Outcome.andThen_eq_ok _ _ _ _ hb
    obtain ⟨hfc, hcount⟩ := forRangeFrom_count (fun tx3 => tx3.FileContracts = tx.FileContracts)
      (applyStorageProofsOutput env sp) (fun _ c => if c = 3 then 1 else 0)
      (fun i vpo tx3 pb3 tx4 pb4 h3 he => by
        obtain ⟨-, htx, -⟩ := emit_eq_ok (.delayed _) tx3 pb3 tx4 pb4 he
        refine ⟨?_, fun c => ?_⟩
        · rw [htx]
          exact h3
        · rw [emit_count (.delayed _) tx3 pb3 tx4 pb4 he c]
          simp [Diff.unit, Diff.category, eq_comm])
      (getFileContract tx sp.ParentID).1.ValidProofOutputs 0 tx pb tx2 pb2 rfl h1
    obtain ⟨hallowed, htx1, -⟩ := emit_eq_ok (.contract _) tx2 pb2 tx1 pb1 h2
    have hsome : (tx.FileContracts sp.ParentID).isSome = true := by
      simpa [Diff.allowed, hfc] using hallowed
    obtain ⟨fc, hfc1⟩ := Option.isSome_iff_exists.mp hsome
    have hfc0 : tx0.FileContracts sp.ParentID = some fc := by
      rcases hJ sp.ParentID with hn | hs
      · rw [hn] at hfc1
        cases hfc1
      · rw [← hs, hfc1]
    have hsame : (getFileContract tx0 sp.ParentID).1 = (getFileContract tx sp.ParentID).1 := by
      simp only [getFileContract, hfc0, hfc1]
    refine ⟨fun id => ?_, by rw [hfc0]; rfl, fun c => ?_⟩
    · have hid : tx1.FileContracts id
          = Function.update tx.FileContracts sp.ParentID none id := by
        rw [htx1, ← hfc]
        rfl
      rw [hid]
      by_cases hid1 : id = sp.ParentID
      · left
        rw [hid1, Function.update_same]
      · rw [Function.update_noteq hid1]
        exact hJ id
    · rw [emit_count (.contract _) tx2 pb2 tx1 pb1 h2 c, hcount c, hsame]
      simp only [Diff.unit, Diff.category]
      by_cases h1 : c = 1
      · subst h1; simp
      · by_cases h3 : c = 3
        · subst h3; simp
        · simp [h1, h3, eq_comm]

theorem forRange_ok_all {α : Type} (J : ConsensusDB → Prop)
    (body : α → ConsensusDB → processedBlock → Outcome) (Q : α → Prop)
    (hbody : ∀ x tx pb tx1 pb1, J tx → body x tx pb = .ok tx1 pb1 → J tx1 ∧ Q x) :
    ∀ (xs : List α) (tx : ConsensusDB) (pb : processedBlock) (tx1 : ConsensusDB)
      (pb1 : processedBlock), J tx → forRange body xs tx pb = .ok tx1 pb1 →
      ∀ x ∈ xs, Q x := by
  intro xs
  induction xs with
  | nil =>
    intro tx pb tx1 pb1 _ _ x hx
    cases hx
  | cons y rest ih =>
    intro tx pb tx1 pb1 hJ h x hx
    rw [forRange_cons] at h
    obtain ⟨tx2, pb2, h1, h2⟩ := Outcome.andThen_eq_ok _ _ _ _ h
    obtain ⟨hJ2, hQ⟩ := hbody y tx pb tx2 pb2 hJ h1
    rcases List.mem_cons.mp hx with rfl | hx
    · exact hQ
    · exact ih tx2 pb2 tx1 pb1 hJ2 h2 x hx

theorem applyStorageProofs_present (env : Env) (t : Transaction) (tx : ConsensusDB)
    (pb : processedBlock) (tx1 : ConsensusDB) (pb1 : processedBlock)
    (h : applyStorageProofs env tx pb t = .ok tx1 pb1) :
    ∀ sp ∈ t.StorageProofs, (tx.FileContracts sp.ParentID).isSome = true :=
  forRange_ok_all (contractsWithin tx) (applyStorageProofsBody env)
    (fun sp => (tx.FileContracts sp.ParentID).isSome = true)
    (fun sp tx2 pb2 tx3 pb3 hJ hb =>
      ⟨(applyStorageProofsBody_count env tx sp tx2 pb2 tx3 pb3 hJ hb).1,
        (applyStorageProofsBody_count env tx sp tx2 pb2 tx3 pb3 hJ hb).2.1⟩)
    t.StorageProofs tx pb tx1 pb1 (fun _ => Or.inr rfl) h

theorem applyStorageProofs_count (env : Env) (t : Transaction) (tx : ConsensusDB)
    (pb : processedBlock) (tx1 : ConsensusDB) (pb1 : processedBlock)
    (h : applyStorageProofs env tx pb t = .ok tx1 pb1) (c : Nat) :
    pb1.count c
      = pb.count c
        + ((if c = 1 then t.StorageProofs.length else 0)
          + if c = 3 then
              (t.StorageProofs.map
                (fun sp => (getFileContract tx sp.ParentID).1.ValidProofOutputs.length)).sum
            else 0) := by
  have hloop := (forRange_count (contractsWithin tx) (applyStorageProofsBody env)
    (fun sp c => (if c = 1 then 1 else 0)
      + if c = 3 then (getFileContract tx sp.ParentID).1.ValidProofOutputs.length else 0)
    (fun sp tx2 pb2 tx3 pb3 hJ hb =>
      ⟨(applyStorageProofsBody_count env tx sp tx2 pb2 tx3 pb3 hJ hb).1,
        (applyStorageProofsBody_count env tx sp tx2 pb2 tx3 pb3 hJ hb).2.2⟩)
    t.StorageProofs tx pb tx1 pb1 (fun _ => Or.inr rfl) h).2 c
  rw [hloop]
  by_cases h1 : c = 1
  · subst h1; simp
  · by_cases h3 : c = 3
    · subst h3; simp
    · simp [h1, h3]

theorem applyTurtleDexfundInputs_count (env : Env) (t : Transaction) (tx : ConsensusDB)
    (pb : processedBlock) (tx1 : ConsensusDB) (pb1 : processedBlock)
    (h : applyTurtleDexfundInputs env tx pb t = .ok tx1 pb1) (c : Nat) :
    pb1.count c
      = pb.count c + if c = 2 ∨ c = 3 then t.TurtleDexfundInputs.length else 0 := by
  have hloop := (forRange_count (fun _ => True) (applyTurtleDexfundInputsBody env)
    (fun _ c => if c = 2 ∨ c = 3 then 1 else 0)
    (fun sfi tx pb tx1 pb1 _ hb => by
      refine ⟨trivial, fun c => ?_⟩
      unfold applyTurtleDexfundInputsBody at hb
      dsimp only at hb
      split at hb
      · cases hb
      · obtain ⟨tx2, pb2, h1, h2⟩ := Outcome.andThen_eq_ok _ _ _ _ hb
        rw [emit_count (.fund _) tx2 pb2 tx1 pb1 h2 c,
          emit_count (.delayed _) tx pb tx2 pb2 h1 c]
        simp only [Diff.unit, Diff.category]
        by_cases h2 : c = 2
        · subst h2; simp
        · by_cases h3 : c = 3
          · subst h3; simp
          · simp [h2, h3, eq_comm])
    t.TurtleDexfundInputs tx pb tx1 pb1 trivial h).2 c
  rw [hloop]
  split <;> simp

theorem applyTurtleDexfundOutputs_count (env : Env) (t : Transaction) (tx : ConsensusDB)
    (pb : processedBlock) (tx1 : ConsensusDB) (pb1 : processedBlock)
    (h : applyTurtleDexfundOutputs env tx pb t = .ok tx1 pb1) (c : Nat) :
    pb1.count c = pb.count c + if c = 2 then t.TurtleDexfundOutputs.length else 0 := by
  have hloop := (forRangeFrom_count (fun _ => True) (applyTurtleDexfundOutputsBody env t)
    (fun _ c => if c = 2 then 1 else 0)
    (fun i sfo tx pb tx1 pb1 _ hb => by
      refine ⟨trivial, fun c => ?_⟩
      rw [emit_count (.fund _) tx pb tx1 pb1 hb c]
      simp [Diff.unit, Diff.category, eq_comm])
    t.TurtleDexfundOutputs 0 tx pb tx1 pb1 trivial h).2 c
  rw [hloop]
  split <;> simp

/-- C19, amended: whenever `applyTransaction` comes to its end, it has appended
exactly |coin inputs| + |coin outputs| coin output diffs, |contracts| +
2·|revisions| + |storage proofs| contract diffs, |contracts| fund pool diffs,
|fund inputs| + |fund outputs| fund output diffs and, every proven contract
being stored when the storage proofs are reached (in the state `tx4` that the
first four stages leave), the sum over the storage proofs of the number of
valid proof outputs of the proven contract plus |fund inputs| delayed output
diffs; and the diffs that `pb` had are a prefix of every list. -/
theorem applyTransaction_diff_counts (env : Env) (tx : ConsensusDB) (pb : processedBlock)
    (t : Transaction) (tx1 : ConsensusDB) (pb1 : processedBlock)
    (hrun : applyTransaction env tx pb t = .ok tx1 pb1) :
    ∃ tx4 pb4,
      runInOrder env t
          [applyTurtleDexcoinInputs, applyTurtleDexcoinOutputs, applyFileContracts,
            applyFileContractRevisions] tx pb = .ok tx4 pb4
        ∧ (∀ sp ∈ t.StorageProofs, (tx4.FileContracts sp.ParentID).isSome = true)
        ∧ pb1.TurtleDexcoinOutputDiffs.length
            = pb.TurtleDexcoinOutputDiffs.length
              + (t.TurtleDexcoinInputs.length + t.TurtleDexcoinOutputs.length)
        ∧ pb1.FileContractDiffs.length
            = pb.FileContractDiffs.length
              + (t.FileContracts.length + 2 * t.FileContractRevisions.length
                  + t.StorageProofs.length)
        ∧ pb1.TurtleDexfundPoolDiffs.length
            = pb.TurtleDexfundPoolDiffs.length + t.FileContracts.length
        ∧ pb1.TurtleDexfundOutputDiffs.length
            = pb.TurtleDexfundOutputDiffs.length
              + (t.TurtleDexfundInputs.length + t.TurtleDexfundOutputs.length)
        ∧ pb1.DelayedTurtleDexcoinOutputDiffs.length
            = pb.DelayedTurtleDexcoinOutputDiffs.length
              + ((t.StorageProofs.map
                    (fun sp =>
                      (getFileContract tx4 sp.ParentID).1.ValidProofOutputs.length)).sum
                  + t.TurtleDexfundInputs.length)
        ∧ (pb.TurtleDexcoinOutputDiffs <+: pb1.TurtleDexcoinOutputDiffs
          ∧ pb.FileContractDiffs <+: pb1.FileContractDiffs
          ∧ pb.TurtleDexfundOutputDiffs <+: pb1.TurtleDexfundOutputDiffs
          ∧ pb.DelayedTurtleDexcoinOutputDiffs <+: pb1.DelayedTurtleDexcoinOutputDiffs
          ∧ pb.TurtleDexfundPoolDiffs <+: pb1.TurtleDexfundPoolDiffs) := by
  obtain ⟨tx7, htraced, -⟩ := applyTransaction_ok_split env tx pb t tx1 pb1 hrun
  obtain ⟨l1, l2, l3, l4, l5⟩ := since_lists_of_traced tx pb tx7 pb1 htraced
  unfold applyTransaction at hrun
  obtain ⟨txa, pba, ha, hrun⟩ := Outcome.andThen_eq_ok _ _ _ _ hrun
  obtain ⟨txb, pbb, hb, hrun⟩ := Outcome.andThen_eq_ok _ _ _ _ hrun
  obtain ⟨txc, pbc, hc, hrun⟩ := Outcome.andThen_eq_ok _ _ _ _ hrun
  obtain ⟨txd, pbd, hd, hrun⟩ := Outcome.andThen_eq_ok _ _ _ _ hrun
  obtain ⟨txe, pbe, he, hrun⟩ := Outcome.andThen_eq_ok _ _ _ _ hrun
  obtain ⟨txf, pbf, hf, hrun⟩ := Outcome.andThen_eq_ok _ _ _ _ hrun
  obtain ⟨txg, pbg, hg, hrun⟩ := Outcome.andThen_eq_ok _ _ _ _ hrun
  have hpb := applyArbitraryData_pb env txg pbg t
  rw [hrun] at hpb
  have hpb1 : pb1 = pbg := hpb
  subst hpb1
  have ca := applyTurtleDexcoinInputs_count env t tx pb txa pba ha
  have cb := applyTurtleDexcoinOutputs_count env t txa pba txb pbb hb
  have cc := applyFileContracts_count env t txb pbb txc pbc hc
  have cd := applyFileContractRevisions_count env t txc pbc txd pbd hd
  have ce := applyStorageProofs_count env t txd pbd txe pbe he
  have cf := applyTurtleDexfundInputs_count env t txe pbe txf pbf hf
  have cg := applyTurtleDexfundOutputs_count env t txf pbf txg pb1 hg
  refine ⟨txd, pbd, ?_, applyStorageProofs_present env t txd pbd txe pbe he, ?_, ?_, ?_, ?_, ?_,
    ⟨_, l1.symm⟩, ⟨_, l2.symm⟩, ⟨_, l3.symm⟩, ⟨_, l4.symm⟩, ⟨_, l5.symm⟩⟩
  · simp only [runInOrder, ha, hb, hc, hd, Outcome.andThen_ok]
  · have h := (cg 0).trans (congrArg (· + _) ((cf 0).trans (congrArg (· + _) ((ce 0).trans
      (congrArg (· + _) ((cd 0).trans (congrArg (· + _) ((cc 0).trans
        (congrArg (· + _) ((cb 0).trans (congrArg (· + _) (ca 0))))))))))))
    simp only [processedBlock.count] at h
    simp at h
    omega
  · have h := (cg 1).trans (congrArg (· + _) ((cf 1).trans (congrArg (· + _) ((ce 1).trans
      (congrArg (· + _) ((cd 1).trans (congrArg (· + _) ((cc 1).trans
        (congrArg (· + _) ((cb 1).trans (congrArg (· + _) (ca 1))))))))))))
    simp only [processedBlock.count] at h
    simp at h
    omega
  · have h := (cg 4).trans (congrArg (· + _) ((cf 4).trans (congrArg (· + _) ((ce 4).trans
      (congrArg (· + _) ((cd 4).trans (congrArg (· + _) ((cc 4).trans
        (congrArg (· + _) ((cb 4).trans (congrArg (· + _) (ca 4))))))))))))
    simp only [processedBlock.count] at h
    simp at h
    omega
  · have h := (cg 2).trans (congrArg (· + _) ((cf 2).trans (congrArg (· + _) ((ce 2).trans
      (congrArg (· + _) ((cd 2).trans (congrArg (· + _) ((cc 2).trans
        (congrArg (· + _) ((cb 2).trans (congrArg (· + _) (ca 2))))))))))))
    simp only [processedBlock.count] at h
    simp at h
    omega
  · have h := (cg 3).trans (congrArg (· + _) ((cf 3).trans (congrArg (· + _) ((ce 3).trans
      (congrArg (· + _) ((cd 3).trans (congrArg (· + _) ((cc 3).trans
        (congrArg (· + _) ((cb 3).trans (congrArg (· + _) (ca 3))))))))))))
    simp only [processedBlock.count] at h
    simp at h
    omega

set_option maxRecDepth 100000 in
theorem applyTransaction_diff_counts_witness :
    ∃ tx4 pb4,
      runInOrder (sampleEnv true) sampleMixed
          [applyTurtleDexcoinInputs, applyTurtleDexcoinOutputs, applyFileContracts,
            applyFileContractRevisions] sampleLedgerDB (processedBlock.new 7) = .ok tx4 pb4
        ∧ (applyTransaction (sampleEnv true) sampleLedgerDB (processedBlock.new 7)
            sampleMixed).pb.FileContractDiffs.length = 0 + (1 + 2 * 1 + 1)
        ∧ (applyTransaction (sampleEnv true) sampleLedgerDB (processedBlock.new 7)
            sampleMixed).pb.DelayedTurtleDexcoinOutputDiffs.length
            = 0 + ((sampleMixed.StorageProofs.map
                      (fun sp =>
                        (getFileContract tx4 sp.ParentID).1.ValidProofOutputs.length)).sum
                    + 1) := by
  obtain ⟨tx4, pb4, h1, -, -, h3, -, -, h6, -⟩ :=
    applyTransaction_diff_counts (sampleEnv true) sampleLedgerDB (processedBlock.new 7)
      sampleMixed _ _ (Outcome.eq_ok_of_not_fatal _ (by decide))
  exact ⟨tx4, pb4, h1, h3, h6⟩

set_option maxRecDepth 100000 in
/-- C19 as stated fails: that the referenced objects exist does not make
`applyTransaction` come to its end. Here a transaction names a stored coin
output in two inputs: with `build.DEBUG` the second input panics and one coin
output diff is appended, not two. And a transaction that references nothing
creates two coin outputs, the first under an identifier already taken: the
panic leaves one diff, not two. -/
theorem applyTransaction_counts_after_panic :
    sampleDB.TurtleDexcoinOutputs sampleID1 = some sampleOutput1
      ∧ sampleSpendTwice.TurtleDexcoinInputs.map (fun sci => sci.ParentID)
          = [sampleID1, sampleID1]
      ∧ sampleSpendTwice.TurtleDexcoinOutputs.length = 0
      ∧ (applyTransaction (sampleEnv true) sampleDB (processedBlock.new 7)
          sampleSpendTwice).isFatal = true
      ∧ (applyTransaction (sampleEnv true) sampleDB (processedBlock.new 7)
          sampleSpendTwice).pb.TurtleDexcoinOutputDiffs.length = 1
      ∧ sampleCreateBoth.TurtleDexcoinInputs.length = 0
      ∧ sampleCreateBoth.FileContractRevisions.length = 0
      ∧ sampleCreateBoth.StorageProofs.length = 0
      ∧ sampleCreateBoth.TurtleDexfundInputs.length = 0
      ∧ sampleCreateBoth.TurtleDexcoinOutputs.length = 2
      ∧ (applyTransaction (sampleEnv true) sampleTakenDB (processedBlock.new 7)
          sampleCreateBoth).isFatal = true
      ∧ (applyTransaction (sampleEnv true) sampleTakenDB (processedBlock.new 7)
          sampleCreateBoth).pb.TurtleDexcoinOutputDiffs.length = 1 := by
  decide

/-! ## C35: the claims do not exceed the pool -/

theorem claimPortion_eq (env : Env) (tx : ConsensusDB) (sfo : TurtleDexfundOutput) :
    claimPortion env tx sfo
      = (getTurtleDexfundPool tx - sfo.ClaimStart) / env.TurtleDexfundCount * sfo.Value := rfl

/-- C35: for a fund pool `P`, a claim start `C ≤ P` and fund outputs of that
claim start whose values sum to at most `TurtleDexfundCount`, the claim values
`((P - C) / TurtleDexfundCount) * v` that `applyTurtleDexfundInputs` computes
sum to at most `P - C`, and each of them is at most the exact rational share
`(P - C) * v / TurtleDexfundCount`. -/
theorem claimPortion_sum_le (env : Env) (tx : ConsensusDB) (outputs : List TurtleDexfundOutput)
    (C : Currency) (_hC : C ≤ getTurtleDexfundPool tx)
    (hstart : ∀ sfo ∈ outputs, sfo.ClaimStart = C)
    (hsum : (outputs.map (fun sfo => sfo.Value)).sum ≤ env.TurtleDexfundCount) :
    (outputs.map (claimPortion env tx)).sum ≤ getTurtleDexfundPool tx - C
      ∧ ∀ sfo ∈ outputs,
          ((claimPortion env tx sfo : Nat) : ℚ)
            ≤ ((getTurtleDexfundPool tx - C : Nat) : ℚ) * (sfo.Value : Nat)
                / (env.TurtleDexfundCount : Nat) := by
  have hpos := env.TurtleDexfundCount_pos
  constructor
  · have hmap : outputs.map (claimPortion env tx)
        = outputs.map (fun sfo =>
            (getTurtleDexfundPool tx - C) / env.TurtleDexfundCount * sfo.Value) := by
      apply List.map_congr_left
      intro sfo hsfo
      rw [claimPortion_eq, hstart sfo hsfo]
    rw [hmap, List.sum_map_mul_left]
    calc (getTurtleDexfundPool tx - C) / env.TurtleDexfundCount
            * (outputs.map (fun sfo => sfo.Value)).sum
        ≤ (getTurtleDexfundPool tx - C) / env.TurtleDexfundCount * env.TurtleDexfundCount :=
          Nat.mul_le_mul_left _ hsum
      _ ≤ getTurtleDexfundPool tx - C := Nat.div_mul_le_self _ _
  · intro sfo hsfo
    rw [claimPortion_eq, hstart sfo hsfo]
    have hq : (0 : ℚ) < ((env.TurtleDexfundCount : Nat) : ℚ) := by exact_mod_cast hpos
    rw [le_div_iff₀ hq]
    have h : (getTurtleDexfundPool tx - C) / env.TurtleDexfundCount * sfo.Value
        * env.TurtleDexfundCount ≤ (getTurtleDexfundPool tx - C) * sfo.Value := by
      calc (getTurtleDexfundPool tx - C) / env.TurtleDexfundCount * sfo.Value
              * env.TurtleDexfundCount
          = (getTurtleDexfundPool tx - C) / env.TurtleDexfundCount * env.TurtleDexfundCount
              * sfo.Value := by ring
        _ ≤ (getTurtleDexfundPool tx - C) * sfo.Value :=
            Nat.mul_le_mul_right _ (Nat.div_mul_le_self _ _)
    exact_mod_cast h

/-- C35, witness: three fund outputs of claim start 300 under a pool of
123456. -/
theorem claimPortion_sum_le_witness :
    (300 ≤ getTurtleDexfundPool sampleClaimDB
      ∧ (∀ sfo ∈ sampleClaims, sfo.ClaimStart = 300)
      ∧ (sampleClaims.map (fun sfo => sfo.Value)).sum ≤ (sampleEnv true).TurtleDexfundCount)
    ∧ (sampleClaims.map (claimPortion (sampleEnv true) sampleClaimDB)).sum
        ≤ getTurtleDexfundPool sampleClaimDB - 300 :=
  ⟨⟨by decide, by decide, by decide⟩,
    (claimPortion_sum_le (sampleEnv true) sampleClaimDB sampleClaims 300 (by decide)
      (by decide) (by decide)).1⟩

/-! ## C37: an entry that does not decode -/

/-- C37, amended: at a height from `FoundationHardforkHeight` on, when
`applyArbitraryData` reaches an entry that begins with the Foundation specifier
and whose remainder does not decode, and `build.DEBUG` is set or the archive
already holds an entry for the height, then the entry changes nothing: with
`build.DEBUG` the run halts with a fatal error in the state it had reached, and
otherwise the entry is ignored, the run going on with the entries after it from
that same state. -/
theorem applyArbitraryData_undecodable (env : Env) (tx : ConsensusDB) (pb : processedBlock)
    (t : Transaction) (before after : List Bytes) (arb : Bytes) (tx1 : ConsensusDB)
    (pb1 : processedBlock)
    (hheight : env.FoundationHardforkHeight ≤ pb.Height)
    (hsplit : t.ArbitraryData = before ++ arb :: after)
    (hreach : forRange (applyArbitraryDataBody env) before tx pb = .ok tx1 pb1)
    (hfound : SpecifierFoundation <+: arb)
    (hdecode : (env.Unmarshal (arb.drop SpecifierLen)).2 = true)
    (hguard : env.DEBUG = true ∨ (tx1.PriorFoundationUnlockHashes pb1.Height).isSome = true) :
    (env.DEBUG = true → applyArbitraryData env tx pb t = .fatal .errDecode tx1 pb1)
      ∧ (env.DEBUG = false →
          applyArbitraryData env tx pb t
            = forRange (applyArbitraryDataBody env) after tx1 pb1) := by
  have hnot : ¬ pb.Height < env.FoundationHardforkHeight := Nat.not_lt.mpr hheight
  have hpre : List.isPrefixOf SpecifierFoundation arb = true :=
    List.isPrefixOf_iff_prefix.mpr hfound
  constructor
  · intro hd
    have hbody : applyArbitraryDataBody env arb tx1 pb1 = .fatal .errDecode tx1 pb1 := by
      unfold applyArbitraryDataBody
      rw [if_pos hpre]
      simp only [hd, hdecode, Bool.and_self, if_true]
    rw [applyArbitraryData, if_neg hnot, hsplit]
    exact forRange_fatal_at _ before after arb tx tx1 pb pb1 _ hreach hbody
  · intro hd
    have harch : (tx1.PriorFoundationUnlockHashes pb1.Height).isSome = true := by
      rcases hguard with h | h
      · rw [hd] at h; cases h
      · exact h
    have hbody : applyArbitraryDataBody env arb tx1 pb1 = .ok tx1 pb1 := by
      unfold applyArbitraryDataBody
      rw [if_pos hpre]
      simp only [hd, Bool.false_and, Bool.false_eq_true, if_false, harch, if_true]
    rw [applyArbitraryData, if_neg hnot, hsplit, forRange_append, hreach, Outcome.andThen_ok,
      forRange_cons, hbody, Outcome.andThen_ok]

/-- C37, witness: the entry without payload as the only entry, with
`build.DEBUG`. -/
theorem applyArbitraryData_undecodable_witness :
    ((sampleEnv true).FoundationHardforkHeight ≤ (processedBlock.new 50).Height
      ∧ ((sampleEnv true).Unmarshal (SpecifierFoundation.drop SpecifierLen)).2 = true)
    ∧ (applyArbitraryData (sampleEnv true) sampleFoundationDB (processedBlock.new 50)
        sampleNoPayload).isFatal = true
    ∧ (applyArbitraryData (sampleEnv true) sampleFoundationDB (processedBlock.new 50)
        sampleNoPayload).tx.FoundationUnlockHashes
        = (List.replicate 32 9, List.replicate 32 8) :=
  have h := (applyArbitraryData_undecodable (sampleEnv true) sampleFoundationDB
    (processedBlock.new 50) sampleNoPayload [] [] SpecifierFoundation sampleFoundationDB
    (processedBlock.new 50) (by decide) rfl rfl (List.prefix_refl _) (by decide)
    (Or.inl rfl)).1 rfl
  ⟨⟨by decide, by decide⟩, by rw [h]; rfl, by rw [h]; rfl⟩

/-- C37 as stated fails: without `build.DEBUG`, and with no archive entry for
the height, the entry without payload is neither refused nor ignored: the run
returns, the current Foundation unlock hashes have become the zero hashes that
the failed decoding left, and the archive has an entry for the height. -/
theorem applyArbitraryData_undecodable_applied :
    (sampleEnv false).FoundationHardforkHeight ≤ (processedBlock.new 50).Height
      ∧ ((sampleEnv false).Unmarshal (SpecifierFoundation.drop SpecifierLen)).2 = true
      ∧ sampleFoundationDB.FoundationUnlockHashes
          = (List.replicate 32 9, List.replicate 32 8)
      ∧ sampleFoundationDB.PriorFoundationUnlockHashes 50 = none
      ∧ (applyArbitraryData (sampleEnv false) sampleFoundationDB (processedBlock.new 50)
          sampleNoPayload).isFatal = false
      ∧ (applyArbitraryData (sampleEnv false) sampleFoundationDB (processedBlock.new 50)
          sampleNoPayload).tx.FoundationUnlockHashes
          = (List.replicate 32 0, List.replicate 32 0)
      ∧ (applyArbitraryData (sampleEnv false) sampleFoundationDB (processedBlock.new 50)
          sampleNoPayload).tx.PriorFoundationUnlockHashes 50
          = some (List.replicate 32 9, List.replicate 32 8) := by
  decide

end consensus

/-! ## Strings -/

theorem strings.Split_ne_nil (s : Bytes) (sep : Nat) : strings.Split s sep ≠ [] := by
  induction s with
  | nil => simp [strings.Split]
  | cons c rest ih =>
    unfold strings.Split
    split
    · simp
    · split <;> simp

theorem strings.Split_nil (sep : Nat) : strings.Split [] sep = [[]] := rfl

theorem strings.Split_cons_sep (rest : Bytes) (sep : Nat) :
    strings.Split (sep :: rest) sep = [] :: strings.Split rest sep := by
  rw [strings.Split, if_pos rfl]

theorem strings.Split_cons_ne (c : Nat) (rest : Bytes) (sep : Nat) (h : c ≠ sep) :
    ∃ e es, strings.Split rest sep = e :: es
      ∧ strings.Split (c :: rest) sep = (c :: e) :: es := by
  cases hs : strings.Split rest sep with
  | nil => exact absurd hs (strings.Split_ne_nil rest sep)
  | cons e es =>
    refine ⟨e, es, rfl, ?_⟩
    rw [strings.Split, if_neg h, hs]

theorem strings.Split_append_sep (sep : Nat) (rest : Bytes) :
    ∀ a : Bytes, sep ∉ a →
      strings.Split (a ++ sep :: rest) sep = a :: strings.Split rest sep := by
  intro a
  induction a with
  | nil => intro _; exact strings.Split_cons_sep rest sep
  | cons c a ih =>
    intro h
    have hc : c ≠ sep := fun hc => h (hc ▸ List.mem_cons_self _ _)
    have ha : sep ∉ a := fun ha => h (List.mem_cons_of_mem _ ha)
    obtain ⟨e, es, h1, h2⟩ := strings.Split_cons_ne c (a ++ sep :: rest) sep hc
    rw [List.cons_append, h2]
    rw [ih ha] at h1
    cases h1
    rfl

theorem strings.Split_of_not_mem (sep : Nat) :
    ∀ s : Bytes, sep ∉ s → strings.Split s sep = [s] := by
  intro s
  induction s with
  | nil => intro _; rfl
  | cons c s ih =>
    intro h
    have hc : c ≠ sep := fun hc => h (hc ▸ List.mem_cons_self _ _)
    obtain ⟨e, es, h1, h2⟩ := strings.Split_cons_ne c s sep hc
    rw [ih (fun hs => h (List.mem_cons_of_mem _ hs))] at h1
    cases h1
    exact h2

theorem strings.not_mem_of_mem_Split (sep : Nat) :
    ∀ (s : Bytes) (e : Bytes), e ∈ strings.Split s sep → sep ∉ e := by
  intro s
  induction s with
  | nil =>
    intro e he
    simp only [strings.Split_nil, List.mem_singleton] at he
    rw [he]
    exact List.not_mem_nil _
  | cons c s ih =>
    intro e he
    by_cases hc : c = sep
    · rw [hc, strings.Split_cons_sep] at he
      rcases List.mem_cons.mp he with rfl | he
      · exact List.not_mem_nil _
      · exact ih e he
    · obtain ⟨e1, es, h1, h2⟩ := strings.Split_cons_ne c s sep hc
      rw [h2] at he
      rcases List.mem_cons.mp he with rfl | he
      · intro hmem
        rcases List.mem_cons.mp hmem with h | h
        · exact hc h.symm
        · exact ih e1 (h1 ▸ List.mem_cons_self _ _) h
      · exact ih e (h1 ▸ List.mem_cons_of_mem _ he)

theorem strings.Split_append_singleton (sep : Nat) :
    ∀ s : Bytes, strings.Split (s ++ [sep]) sep = strings.Split s sep ++ [[]] := by
  intro s
  induction s with
  | nil => simp [strings.Split]
  | cons c s ih =>
    by_cases hc : c = sep
    · rw [hc, List.cons_append, strings.Split_cons_sep, strings.Split_cons_sep, ih,
        List.cons_append]
    · obtain ⟨e, es, h1, h2⟩ := strings.Split_cons_ne c s sep hc
      obtain ⟨e2, es2, h3, h4⟩ := strings.Split_cons_ne c (s ++ [sep]) sep hc
      rw [List.cons_append, h4, h2]
      rw [ih, h1, List.cons_append] at h3
      cases h3
      rfl

/-! ## Hexadecimal text -/

theorem hex.fromHexChar_hextable :
    ∀ n, n < 16 → hex.fromHexChar (hex.hextable.getD n 0) = some n := by
  decide

theorem hex.hextable_ne :
    ∀ n, n < 16 → hex.hextable.getD n 0 ≠ 58 ∧ hex.hextable.getD n 0 ≠ 0
      ∧ hex.hextable.getD n 0 ≠ 122 ∧ fmt.spaceLen [hex.hextable.getD n 0] = 0
      ∧ hex.hextable.getD n 0 ≠ 10 := by
  decide

theorem hex.length_EncodeToString (b : Bytes) : (hex.EncodeToString b).length = 2 * b.length := by
  induction b with
  | nil => rfl
  | cons v rest ih =>
    simp only [hex.EncodeToString, List.flatMap_cons, List.length_append, List.length_cons,
      List.length_nil] at ih ⊢
    omega

theorem hex.EncodeToString_cons (v : Nat) (rest : Bytes) :
    hex.EncodeToString (v :: rest)
      = hex.hextable.getD (v / 16) 0 :: hex.hextable.getD (v % 16) 0
          :: hex.EncodeToString rest := by
  simp [hex.EncodeToString]

theorem hex.EncodeToString_append (a b : Bytes) :
    hex.EncodeToString (a ++ b) = hex.EncodeToString a ++ hex.EncodeToString b := by
  simp [hex.EncodeToString]

theorem hex.mem_EncodeToString (b : Bytes) (hb : ∀ v ∈ b, v < 256) :
    ∀ c ∈ hex.EncodeToString b, ∃ n, n < 16 ∧ c = hex.hextable.getD n 0 := by
  induction b with
  | nil =>
    intro c hc
    simp [hex.EncodeToString] at hc
  | cons v rest ih =>
    intro c hc
    have hv : v < 256 := hb v (List.mem_cons_self _ _)
    rw [hex.EncodeToString_cons] at hc
    rcases List.mem_cons.mp hc with h | hc
    · exact ⟨v / 16, by omega, h⟩
    rcases List.mem_cons.mp hc with h | hc
    · exact ⟨v % 16, by omega, h⟩
    · exact ih (fun x hx => hb x (List.mem_cons_of_mem _ hx)) c hc

theorem hex.DecodeString_EncodeToString (b : Bytes) (hb : ∀ v ∈ b, v < 256) :
    hex.DecodeString (hex.EncodeToString b) = .ok b := by
  induction b with
  | nil => rfl
  | cons v rest ih =>
    have hv : v < 256 := hb v (List.mem_cons_self _ _)
    rw [hex.EncodeToString_cons, hex.DecodeString,
      hex.fromHexChar_hextable (v / 16) (by omega), hex.fromHexChar_hextable (v % 16) (by omega)]
    simp only []
    rw [ih (fun x hx => hb x (List.mem_cons_of_mem _ hx))]
    simp only []
    congr 2
    omega

theorem fmt.spaceLen_hextable (n : Nat) (hn : n < 16) (rest : Bytes) :
    fmt.spaceLen (hex.hextable.getD n 0 :: rest) = 0 := by
  interval_cases n <;> rfl

theorem fmt.SkipSpace_hextable (n : Nat) (hn : n < 16) (rest : Bytes) (fuel : Nat) :
    fmt.SkipSpace fuel (hex.hextable.getD n 0 :: rest) = .ok (hex.hextable.getD n 0 :: rest) := by
  cases fuel with
  | zero => rfl
  | succ fuel =>
    have h10 : hex.hextable.getD n 0 ≠ 10 := (hex.hextable_ne n hn).2.2.2.2
    have hs := fmt.spaceLen_hextable n hn rest
    generalize hex.hextable.getD n 0 = c at h10 hs
    unfold fmt.SkipSpace
    split
    · rename_i heq; cases heq
    · rename_i heq; cases heq; exact absurd rfl h10
    · rename_i c1 rest1 _ heq
      cases heq
      rw [if_pos hs]

theorem fmt.hexBytes_append (b : Bytes) (hb : ∀ v ∈ b, v < 256) (tail : Bytes)
    (htail : fmt.hexBytes tail = .ok []) :
    fmt.hexBytes (hex.EncodeToString b ++ tail) = .ok b := by
  induction b with
  | nil => exact htail
  | cons v rest ih =>
    have hv : v < 256 := hb v (List.mem_cons_self _ _)
    rw [hex.EncodeToString_cons, List.cons_append, List.cons_append, fmt.hexBytes]
    simp only [hex.fromHexChar_hextable (v / 16) (by omega),
      hex.fromHexChar_hextable (v % 16) (by omega),
      ih (fun x hx => hb x (List.mem_cons_of_mem _ hx))]
    congr 2
    omega

theorem fmt.SscanfHex_append (v : Nat) (b : Bytes) (hv : v < 256) (hb : ∀ x ∈ b, x < 256)
    (tail : Bytes) (htail : fmt.hexBytes tail = .ok []) :
    fmt.SscanfHex (hex.EncodeToString (v :: b) ++ tail) = .ok (v :: b) := by
  have hall : ∀ x ∈ v :: b, x < 256 := by
    intro x hx
    rcases List.mem_cons.mp hx with h | h
    · rw [h]; exact hv
    · exact hb x h
  have hbytes := fmt.hexBytes_append (v :: b) hall tail htail
  unfold fmt.SscanfHex
  rw [hex.EncodeToString_cons, List.cons_append] at hbytes ⊢
  rw [fmt.SkipSpace_hextable (v / 16) (by omega)]
  simp only [hbytes]

theorem utf8.ValidString_cons (b0 : Nat) (rest : Bytes) :
    utf8.ValidString (b0 :: rest)
      = (if b0 < 0x80 then utf8.ValidString rest
    else if utf8.between 0xC2 0xDF b0 then
      match rest with
      | b1 :: rest1 => utf8.between 0x80 0xBF b1 && utf8.ValidString rest1
      | _ => false
    else if utf8.between 0xE0 0xEF b0 then
      match rest with
      | b1 :: b2 :: rest2 =>
        utf8.between (if b0 = 0xE0 then 0xA0 else 0x80) (if b0 = 0xED then 0x9F else 0xBF) b1
          && utf8.between 0x80 0xBF b2 && utf8.ValidString rest2
      | _ => false
    else if utf8.between 0xF0 0xF4 b0 then
      match rest with
      | b1 :: b2 :: b3 :: rest3 =>
        utf8.between (if b0 = 0xF0 then 0x90 else 0x80) (if b0 = 0xF4 then 0x8F else 0xBF) b1
          && utf8.between 0x80 0xBF b2 && utf8.between 0x80 0xBF b3 && utf8.ValidString rest3
      | _ => false
    else false) := by
  rcases rest with _ | ⟨b1, _ | ⟨b2, _ | ⟨b3, rest3⟩⟩⟩ <;> rfl

theorem utf8.between_ascii (lo hi c : Nat) (hc : c < 0x80) (hlo : 0x80 ≤ lo) :
    utf8.between lo hi c = false := by
  have h : ¬ lo ≤ c := by omega
  unfold utf8.between
  rw [decide_eq_false h]
  rfl

theorem utf8.ValidString_append_ascii (c : Nat) (hc : c < 0x80) (b : Bytes) :
    ∀ (n : Nat) (a : Bytes), a.length ≤ n →
      utf8.ValidString (a ++ c :: b) = (utf8.ValidString a && utf8.ValidString b) := by
  have hcv : utf8.ValidString (c :: b) = utf8.ValidString b := by
    rw [utf8.ValidString_cons, if_pos hc]
  have h80 : ∀ hi, utf8.between 0x80 hi c = false :=
    fun hi => utf8.between_ascii _ hi c hc (by omega)
  have hlo : ∀ (p : Prop) [Decidable p] (hi : Nat),
      utf8.between (if p then 0xA0 else 0x80) hi c = false := by
    intro p _ hi
    exact utf8.between_ascii _ hi c hc (by split <;> omega)
  have hlo2 : ∀ (p : Prop) [Decidable p] (hi : Nat),
      utf8.between (if p then 0x90 else 0x80) hi c = false := by
    intro p _ hi
    exact utf8.between_ascii _ hi c hc (by split <;> omega)
  intro n
  induction n with
  | zero =>
    intro a ha
    have : a = [] := List.length_eq_zero.mp (Nat.le_zero.mp ha)
    subst this
    rw [List.nil_append, hcv]; rfl
  | succ n ih =>
    intro a ha
    match a, ha with
    | [], _ => rw [List.nil_append, hcv]; rfl
    | b0 :: rest, ha =>
      have hr : rest.length ≤ n := by simpa using ha
      rw [List.cons_append, utf8.ValidString_cons, utf8.ValidString_cons b0 rest]
      by_cases h1 : b0 < 0x80
      · rw [if_pos h1, if_pos h1]
        exact ih rest hr
      rw [if_neg h1, if_neg h1]
      by_cases h2 : utf8.between 0xC2 0xDF b0 = true
      · rw [if_pos h2, if_pos h2]
        match rest, hr with
        | [], _ => simp [h80]
        | b1 :: rest1, hr =>
          simp only [List.cons_append]
          rw [ih rest1 (by simp at hr; omega), Bool.and_assoc]
      rw [if_neg h2, if_neg h2]
      by_cases h3 : utf8.between 0xE0 0xEF b0 = true
      · rw [if_pos h3, if_pos h3]
        match rest, hr with
        | [], _ => rcases b with _ | ⟨x1, _ | ⟨x2, b3⟩⟩ <;> simp [h80, hlo, hlo2]
        | [b1], _ => simp [h80]
        | b1 :: b2 :: rest2, hr =>
          simp only [List.cons_append]
          rw [ih rest2 (by simp at hr; omega)]
          simp only [Bool.and_assoc]
      rw [if_neg h3, if_neg h3]
      by_cases h4 : utf8.between 0xF0 0xF4 b0 = true
      · rw [if_pos h4, if_pos h4]
        match rest, hr with
        | [], _ => rcases b with _ | ⟨x1, _ | ⟨x2, b3⟩⟩ <;> simp [h80, hlo, hlo2]
        | [b1], _ => rcases b with _ | ⟨x1, _ | ⟨x2, b3⟩⟩ <;> simp [h80, hlo, hlo2]
        | [b1, b2], _ => simp [h80]
        | b1 :: b2 :: b3 :: rest3, hr =>
          simp only [List.cons_append]
          rw [ih rest3 (by simp at hr; omega)]
          simp only [Bool.and_assoc]
      rw [if_neg h4, if_neg h4]
      simp

theorem utf8.ValidString_append_slash (a b : Bytes) :
    utf8.ValidString (a ++ 47 :: b) = (utf8.ValidString a && utf8.ValidString b) :=
  utf8.ValidString_append_ascii 47 (by decide) b a.length a (Nat.le_refl _)

theorem strings.Split_append_cons (sep : Nat) (b : Bytes) :
    ∀ a : Bytes, strings.Split (a ++ sep :: b) sep = strings.Split a sep ++ strings.Split b sep := by
  intro a
  induction a with
  | nil => rw [List.nil_append, strings.Split_cons_sep, strings.Split_nil]; rfl
  | cons c a ih =>
    by_cases hc : c = sep
    · rw [hc, List.cons_append, strings.Split_cons_sep, strings.Split_cons_sep, ih,
        List.cons_append]
    · obtain ⟨e, es, h1, h2⟩ := strings.Split_cons_ne c a sep hc
      obtain ⟨e2, es2, h3, h4⟩ := strings.Split_cons_ne c (a ++ sep :: b) sep hc
      rw [List.cons_append, h4, h2]
      rw [ih, h1, List.cons_append] at h3
      cases h3
      rfl

theorem strings.Join_Split (p : Bytes) : strings.Join (strings.Split p 47) [47] = p := by
  induction p with
  | nil => rfl
  | cons c p ih =>
    by_cases hc : c = 47
    · rw [hc, strings.Split_cons_sep]
      cases hs : strings.Split p 47 with
      | nil => exact absurd hs (strings.Split_ne_nil p 47)
      | cons e es =>
        rw [hs] at ih
        rw [strings.Join, ih]
        rfl
    · obtain ⟨e, es, h1, h2⟩ := strings.Split_cons_ne c p 47 hc
      rw [h2]
      rw [h1] at ih
      cases es with
      | nil =>
        rw [strings.Join] at ih ⊢
        rw [ih]
      | cons e2 es2 =>
        rw [strings.Join] at ih ⊢
        rw [← ih]
        simp

theorem strings.exists_last_sep (sep : Nat) :
    ∀ p : Bytes, sep ∈ p → ∃ a b : Bytes, p = a ++ sep :: b ∧ sep ∉ b := by
  intro p
  induction p with
  | nil => intro h; exact absurd h (List.not_mem_nil _)
  | cons c p ih =>
    intro h
    by_cases hp : sep ∈ p
    · obtain ⟨a, b, hab, hb⟩ := ih hp
      exact ⟨c :: a, b, by rw [hab]; rfl, hb⟩
    · rcases List.mem_cons.mp h with h1 | h1
      · exact ⟨[], p, by rw [h1]; rfl, hp⟩
      · exact absurd h1 hp

namespace types

/-! ## Eight byte numbers -/

theorem WriteUint64_eq (u : Nat) :
    WriteUint64 u
      = [u % 2 ^ 64 % 256, u % 2 ^ 64 / 256 % 256, u % 2 ^ 64 / 256 ^ 2 % 256,
          u % 2 ^ 64 / 256 ^ 3 % 256, u % 2 ^ 64 / 256 ^ 4 % 256, u % 2 ^ 64 / 256 ^ 5 % 256,
          u % 2 ^ 64 / 256 ^ 6 % 256, u % 2 ^ 64 / 256 ^ 7 % 256] := by
  simp [WriteUint64, List.range, List.range.loop]

theorem DecUint64_WriteUint64 (u : Nat) : DecUint64 (WriteUint64 u) = u % 2 ^ 64 := by
  rw [WriteUint64_eq]
  have h : u % 2 ^ 64 < 2 ^ 64 := Nat.mod_lt _ (by norm_num)
  generalize u % 2 ^ 64 = v at h
  simp only [DecUint64, List.getD_cons_zero, List.getD_cons_succ]
  norm_num at h ⊢
  omega

theorem WriteUint64_injective (i j : Nat) (hi : i < 2 ^ 64) (hj : j < 2 ^ 64)
    (h : WriteUint64 i = WriteUint64 j) : i = j := by
  have := congrArg DecUint64 h
  rwa [DecUint64_WriteUint64, DecUint64_WriteUint64, Nat.mod_eq_of_lt hi,
    Nat.mod_eq_of_lt hj] at this

/-! ## C22: the sum of the coin outputs -/

theorem foldl_add_map {α : Type} (f : α → Nat) (xs : List α) (init : Nat) :
    xs.foldl (fun sum x => Currency.Add sum (f x)) init = init + (xs.map f).sum := by
  induction xs generalizing init with
  | nil => simp
  | cons x rest ih =>
    rw [List.foldl_cons, ih, List.map_cons, List.sum_cons]
    exact Nat.add_assoc _ _ _

/-- C22: `TurtleDexcoinOutputSum` is the sum of the values of the coin outputs
plus the payouts of the file contracts plus the miner fees; hence two
transactions with the same coin outputs, file contracts and miner fees have the
same sum, whatever their other fields. -/
theorem Transaction.TurtleDexcoinOutputSum_spec (t : Transaction) :
    t.TurtleDexcoinOutputSum
        = (t.TurtleDexcoinOutputs.map (fun sco => sco.Value)).sum
          + (t.FileContracts.map (fun fc => fc.Payout)).sum + t.MinerFees.sum
      ∧ ∀ (inputs : List TurtleDexcoinInput) (revisions : List FileContractRevision)
          (proofs : List StorageProof) (fundInputs : List TurtleDexfundInput)
          (fundOutputs : List TurtleDexfundOutput) (data : List Bytes)
          (signatures : List TransactionSignature),
          Transaction.TurtleDexcoinOutputSum
              { TurtleDexcoinInputs := inputs
                TurtleDexcoinOutputs := t.TurtleDexcoinOutputs
                FileContracts := t.FileContracts
                FileContractRevisions := revisions
                StorageProofs := proofs
                TurtleDexfundInputs := fundInputs
                TurtleDexfundOutputs := fundOutputs
                MinerFees := t.MinerFees
                ArbitraryData := data
                TransactionSignatures := signatures }
            = t.TurtleDexcoinOutputSum := by
  have h : ∀ t : Transaction, t.TurtleDexcoinOutputSum
      = (t.TurtleDexcoinOutputs.map (fun sco => sco.Value)).sum
        + (t.FileContracts.map (fun fc => fc.Payout)).sum + t.MinerFees.sum := by
    intro t
    have hfee := foldl_add_map (fun fee : Currency => fee) t.MinerFees
    simp only [List.map_id'] at hfee
    simp only [Transaction.TurtleDexcoinOutputSum,
      foldl_add_map (fun sco : TurtleDexcoinOutput => sco.Value),
      foldl_add_map (fun fc : FileContract => fc.Payout), hfee, Nat.zero_add]
  refine ⟨h t, fun _ _ _ _ _ _ _ => ?_⟩
  rw [h, h t]

/-! ## C21: identifiers do not collide -/

theorem packBytes_injective : ∀ a b : Bytes, packBytes a = packBytes b → a = b := by
  intro a
  induction a with
  | nil =>
    intro b h
    cases b with
    | nil => rfl
    | cons y rest => simp [packBytes] at h
  | cons x rest ih =>
    intro b h
    cases b with
    | nil => simp [packBytes] at h
    | cons y rest2 =>
      simp only [packBytes, Nat.add_right_cancel_iff, Nat.pair_eq_pair] at h
      rw [h.1, ih rest2 h.2]

theorem Transaction.marshalTurtleDexNoSignatures_length (t : Transaction) :
    72 ≤ t.marshalTurtleDexNoSignatures.length := by
  simp only [Transaction.marshalTurtleDexNoSignatures, WriteInt, List.length_append,
    consensus.WriteUint64_length]
  omega

theorem append_index_ne (s1 s2 m1 m2 w1 w2 : Bytes) (hlen : s1.length = s2.length)
    (hne : s1 ≠ s2) : s1 ++ m1 ++ w1 ≠ s2 ++ m2 ++ w2 := by
  intro h
  rw [List.append_assoc, List.append_assoc] at h
  exact hne (List.append_inj h hlen).1

/-- C21: when the hash function has no collision among the byte strings hashed
for a transaction (and its values have 32 bytes, as the type `crypto.Hash`
says), then for all indices `i`, `j` (of type `uint64`) the coin output
identifiers, the file contract identifiers and the fund output identifiers of
different indices differ, and the transaction identifier, the coin output, file
contract and fund output identifiers and the claim output identifiers of the
fund outputs are pairwise different. -/
theorem Transaction.ids_distinct (env : Env) (t : Transaction) (i j : Nat)
    (hi : i < 2 ^ 64) (hj : j < 2 ^ 64)
    (hinj : ∀ a b, t.hashed env a → t.hashed env b → env.HashBytes a = env.HashBytes b → a = b)
    (hlen : ∀ b, (env.HashBytes b).length = 32) :
    ((t.TurtleDexcoinOutputID env i = t.TurtleDexcoinOutputID env j → i = j)
        ∧ (t.FileContractID env i = t.FileContractID env j → i = j)
        ∧ (t.TurtleDexfundOutputID env i = t.TurtleDexfundOutputID env j → i = j))
      ∧ (t.ID env ≠ t.TurtleDexcoinOutputID env i
        ∧ t.ID env ≠ t.FileContractID env i
        ∧ t.ID env ≠ t.TurtleDexfundOutputID env i
        ∧ t.ID env ≠ TurtleDexClaimOutputID env (t.TurtleDexfundOutputID env i))
      ∧ (t.TurtleDexcoinOutputID env i ≠ t.FileContractID env j
        ∧ t.TurtleDexcoinOutputID env i ≠ t.TurtleDexfundOutputID env j
        ∧ t.TurtleDexcoinOutputID env i
            ≠ TurtleDexClaimOutputID env (t.TurtleDexfundOutputID env j))
      ∧ (t.FileContractID env i ≠ t.TurtleDexfundOutputID env j
        ∧ t.FileContractID env i ≠ TurtleDexClaimOutputID env (t.TurtleDexfundOutputID env j))
      ∧ t.TurtleDexfundOutputID env i
          ≠ TurtleDexClaimOutputID env (t.TurtleDexfundOutputID env j) := by
  have hm := t.marshalTurtleDexNoSignatures_length
  have h8 : ∀ k, (WriteUint64 k).length = 8 := consensus.WriteUint64_length
  have hA : t.hashed env t.marshalTurtleDexNoSignatures := Or.inl rfl
  have hB : ∀ k, k < 2 ^ 64 → t.hashed env
      (SpecifierTurtleDexcoinOutput ++ t.marshalTurtleDexNoSignatures ++ WriteUint64 k) :=
    fun k hk => Or.inr (Or.inl ⟨k, hk, rfl⟩)
  have hC : ∀ k, k < 2 ^ 64 → t.hashed env
      (SpecifierFileContract ++ t.marshalTurtleDexNoSignatures ++ WriteUint64 k) :=
    fun k hk => Or.inr (Or.inr (Or.inl ⟨k, hk, rfl⟩))
  have hD : ∀ k, k < 2 ^ 64 → t.hashed env
      (SpecifierTurtleDexfundOutput ++ t.marshalTurtleDexNoSignatures ++ WriteUint64 k) :=
    fun k hk => Or.inr (Or.inr (Or.inr (Or.inl ⟨k, hk, rfl⟩)))
  have hE : ∀ k, k < 2 ^ 64 → t.hashed env (t.TurtleDexfundOutputID env k) :=
    fun k hk => Or.inr (Or.inr (Or.inr (Or.inr ⟨k, hk, rfl⟩)))
  have hElen : ∀ k, (t.TurtleDexfundOutputID env k).length = 32 := fun k => hlen _
  have hs1 : SpecifierTurtleDexcoinOutput.length = 16 := by decide
  have hs2 : SpecifierFileContract.length = 16 := by decide
  have hs3 : SpecifierTurtleDexfundOutput.length = 16 := by decide
  have hindex : ∀ (s : Bytes) (a b : Nat), a < 2 ^ 64 → b < 2 ^ 64 →
      s ++ t.marshalTurtleDexNoSignatures ++ WriteUint64 a
        = s ++ t.marshalTurtleDexNoSignatures ++ WriteUint64 b → a = b :=
    fun s a b ha hb h => WriteUint64_injective a b ha hb (List.append_cancel_left h)
  have hshort : ∀ (s : Bytes) (k : Nat) (b : Bytes), b.length = 32 →
      b ≠ s ++ t.marshalTurtleDexNoSignatures ++ WriteUint64 k := by
    intro s k b hb h
    have := congrArg List.length h
    simp only [List.length_append, h8, hb] at this
    omega
  have hlong : ∀ (s : Bytes) (k : Nat), s.length = 16 →
      t.marshalTurtleDexNoSignatures ≠ s ++ t.marshalTurtleDexNoSignatures ++ WriteUint64 k := by
    intro s k hs h
    have := congrArg List.length h
    simp only [List.length_append, h8, hs] at this
    omega
  refine ⟨⟨?_, ?_, ?_⟩, ⟨?_, ?_, ?_, ?_⟩, ⟨?_, ?_, ?_⟩, ⟨?_, ?_⟩, ?_⟩
  · exact fun h => hindex _ i j hi hj (hinj _ _ (hB i hi) (hB j hj) h)
  · exact fun h => hindex _ i j hi hj (hinj _ _ (hC i hi) (hC j hj) h)
  · exact fun h => hindex _ i j hi hj (hinj _ _ (hD i hi) (hD j hj) h)
  · exact fun h => hlong _ i hs1 (hinj _ _ hA (hB i hi) h)
  · exact fun h => hlong _ i hs2 (hinj _ _ hA (hC i hi) h)
  · exact fun h => hlong _ i hs3 (hinj _ _ hA (hD i hi) h)
  · intro h
    have := congrArg List.length (hinj _ _ hA (hE i hi) h)
    rw [hElen] at this
    omega
  · exact fun h => append_index_ne _ _ _ _ _ _ (hs1.trans hs2.symm) (by decide)
      (hinj _ _ (hB i hi) (hC j hj) h)
  · exact fun h => append_index_ne _ _ _ _ _ _ (hs1.trans hs3.symm) (by decide)
      (hinj _ _ (hB i hi) (hD j hj) h)
  · exact fun h => hshort _ i _ (hElen j) (hinj _ _ (hB i hi) (hE j hj) h).symm
  · exact fun h => append_index_ne _ _ _ _ _ _ (hs2.trans hs3.symm) (by decide)
      (hinj _ _ (hC i hi) (hD j hj) h)
  · exact fun h => hshort _ i _ (hElen j) (hinj _ _ (hC i hi) (hE j hj) h).symm
  · exact fun h => hshort _ i _ (hElen j) (hinj _ _ (hD i hi) (hE j hj) h).symm

theorem Transaction.ids_distinct_witness :
    (Transaction.TurtleDexcoinOutputID sampleHashEnv consensus.sampleMixed 0
        = Transaction.TurtleDexcoinOutputID sampleHashEnv consensus.sampleMixed 1 → 0 = 1)
      ∧ Transaction.FileContractID sampleHashEnv consensus.sampleMixed 0
        ≠ TurtleDexClaimOutputID sampleHashEnv
            (Transaction.TurtleDexfundOutputID sampleHashEnv consensus.sampleMixed 1) :=
  have h := Transaction.ids_distinct sampleHashEnv consensus.sampleMixed 0 1 (by norm_num)
    (by norm_num)
    (fun a b _ _ hab => packBytes_injective a b (List.cons.inj hab).1)
    (fun b => by simp [sampleHashEnv])
  ⟨h.1.1, h.2.2.2.1.2⟩

/-! ## The encoding of a currency -/

theorem Currency.words_eq_digits (fuel : Nat) :
    ∀ n, n ≤ fuel → Currency.words fuel n = Nat.digits (2 ^ 64) n := by
  induction fuel with
  | zero =>
    intro n hn
    have h0 : n = 0 := Nat.le_zero.mp hn
    subst h0
    rw [Nat.digits_zero]
    rfl
  | succ fuel ih =>
    intro n hn
    unfold Currency.words
    by_cases h0 : n = 0
    · rw [if_pos h0, h0, Nat.digits_zero]
    · rw [if_neg h0, Nat.digits_def' (by norm_num) (Nat.pos_of_ne_zero h0)]
      congr 1
      apply ih
      have hlt : n / 2 ^ 64 < n := Nat.div_lt_self (Nat.pos_of_ne_zero h0) (by norm_num)
      omega

theorem Currency.Bits_eq_digits (c : Currency) : Currency.Bits c = Nat.digits (2 ^ 64) c :=
  Currency.words_eq_digits c c (Nat.le_refl c)

theorem getD_digits (b : Nat) (hb : 1 < b) :
    ∀ (i n : Nat), (Nat.digits b n).getD i 0 = n / b ^ i % b := by
  intro i
  induction i with
  | zero =>
    intro n
    by_cases h0 : n = 0
    · rw [h0, Nat.digits_zero]; simp
    · rw [Nat.digits_def' hb (Nat.pos_of_ne_zero h0)]; simp
  | succ i ih =>
    intro n
    by_cases h0 : n = 0
    · rw [h0, Nat.digits_zero]; simp
    · rw [Nat.digits_def' hb (Nat.pos_of_ne_zero h0), List.getD_cons_succ, ih, pow_succ,
        Nat.div_div_eq_div_mul, Nat.mul_comm]

theorem Currency.shifted_Bits (c : Currency) (i : Nat) :
    Currency.shifted (Currency.Bits c) i = c / 2 ^ (8 * i) % 2 ^ (8 * (8 - i % 8)) := by
  unfold Currency.shifted
  rw [Currency.Bits_eq_digits, getD_digits _ (by norm_num), Nat.shiftRight_eq_div_pow]
  have hr : i % 8 < 8 := Nat.mod_lt _ (by norm_num)
  have h64 : (2 : Nat) ^ 64 = 2 ^ (i % 8 * 8) * 2 ^ (8 * (8 - i % 8)) := by
    rw [← pow_add]
    congr 1
    omega
  rw [h64, Nat.mod_mul_right_div_self, ← h64, ← pow_mul, Nat.div_div_eq_div_mul, ← pow_add]
  congr 3
  omega

theorem Currency.shifted_Bits_mod (c : Currency) (i : Nat) :
    Currency.shifted (Currency.Bits c) i % 256 = c / 256 ^ i % 256 := by
  rw [Currency.shifted_Bits]
  have hr : i % 8 < 8 := Nat.mod_lt _ (by norm_num)
  have hd : 256 ∣ 2 ^ (8 * (8 - i % 8)) := by
    have h : 8 * (8 - i % 8) = 8 + (8 * (8 - i % 8) - 8) := by omega
    rw [h, pow_add]
    exact Dvd.intro _ rfl
  rw [Nat.mod_mod_of_dvd _ hd, pow_mul]
  rfl

theorem Currency.shifted_eq_zero (c : Currency) (i : Nat)
    (h : (Nat.digits 256 c).length ≤ i) : Currency.shifted (Currency.Bits c) i = 0 := by
  rw [Currency.shifted_Bits]
  have hlt : c < 256 ^ (Nat.digits 256 c).length := Nat.lt_base_pow_length_digits (by norm_num)
  have hle : 256 ^ (Nat.digits 256 c).length ≤ 256 ^ i := Nat.pow_le_pow_right (by norm_num) h
  have h256 : (2 : Nat) ^ (8 * i) = 256 ^ i := by rw [pow_mul]; rfl
  rw [h256, Nat.div_eq_of_lt (lt_of_lt_of_le hlt hle)]
  rfl

theorem Currency.shifted_top (c : Currency) (i : Nat)
    (h : (Nat.digits 256 c).length = i + 1) : Currency.shifted (Currency.Bits c) i ≠ 0 := by
  rw [Currency.shifted_Bits]
  have hc : c ≠ 0 := by
    intro hc
    rw [hc, Nat.digits_zero] at h
    cases h
  have hlt : c < 256 ^ (i + 1) := h ▸ Nat.lt_base_pow_length_digits (by norm_num)
  have hle : 256 ^ (i + 1) ≤ 256 * c := h ▸ Nat.base_pow_length_digits_le 256 c (by norm_num) hc
  have h256 : (2 : Nat) ^ (8 * i) = 256 ^ i := by rw [pow_mul]; rfl
  have hpos : 0 < 256 ^ i := Nat.pow_pos (by norm_num)
  rw [pow_succ, Nat.mul_comm] at hle
  have hge : 256 ^ i ≤ c := Nat.le_of_mul_le_mul_left hle (by norm_num)
  have hd1 : 1 ≤ c / 256 ^ i := (Nat.one_le_div_iff hpos).mpr hge
  have hd2 : c / 256 ^ i < 256 := by
    rw [Nat.div_lt_iff_lt_mul hpos, Nat.mul_comm, ← pow_succ]
    exact hlt
  have hr : i % 8 < 8 := Nat.mod_lt _ (by norm_num)
  have hbig : 256 ≤ 2 ^ (8 * (8 - i % 8)) := by
    have h8 : (256 : Nat) = 2 ^ 8 := rfl
    rw [h8]
    exact Nat.pow_le_pow_right (by norm_num) (by omega)
  rw [h256, Nat.mod_eq_of_lt (lt_of_lt_of_le hd2 hbig)]
  exact Nat.ne_of_gt hd1

theorem Currency.seek_Bits (c : Currency) :
    ∀ k, (Nat.digits 256 c).length ≤ k →
      Currency.seek (Currency.Bits c) k = (Nat.digits 256 c).length := by
  intro k
  induction k with
  | zero =>
    intro h
    rw [Nat.le_zero.mp h]
    rfl
  | succ k ih =>
    intro h
    unfold Currency.seek
    by_cases hk : (Nat.digits 256 c).length = k + 1
    · rw [if_pos (Currency.shifted_top c k hk), hk]
    · have hle : (Nat.digits 256 c).length ≤ k := by omega
      rw [if_neg (not_not.mpr (Currency.shifted_eq_zero c k hle))]
      exact ih hle

theorem Currency.length_Bits (c : Currency) :
    (Nat.digits 256 c).length ≤ (Currency.Bits c).length * 8 := by
  rw [Currency.Bits_eq_digits]
  have h1 : c < (2 ^ 64) ^ (Nat.digits (2 ^ 64) c).length :=
    Nat.lt_base_pow_length_digits (by norm_num)
  have h2 : ((2 : Nat) ^ 64) ^ (Nat.digits (2 ^ 64) c).length
      = 256 ^ ((Nat.digits (2 ^ 64) c).length * 8) := by
    have h8 : (256 : Nat) = 2 ^ 8 := rfl
    rw [h8, ← pow_mul, ← pow_mul]
    congr 1
    omega
  rw [h2] at h1
  by_cases hc : c = 0
  · rw [hc, Nat.digits_zero]
    exact Nat.zero_le _
  · by_contra hlt
    have hlt1 : (Nat.digits (2 ^ 64) c).length * 8 + 1 ≤ (Nat.digits 256 c).length := by omega
    have h3 : 256 ^ (Nat.digits 256 c).length ≤ 256 * c :=
      Nat.base_pow_length_digits_le 256 c (by norm_num) hc
    have h4 : 256 ^ ((Nat.digits (2 ^ 64) c).length * 8 + 1) ≤ 256 * c :=
      le_trans (Nat.pow_le_pow_right (by norm_num) hlt1) h3
    rw [pow_succ, Nat.mul_comm] at h4
    have h5 := Nat.le_of_mul_le_mul_left h4 (by norm_num)
    exact absurd h1 (not_lt.mpr h5)

theorem digits_eq_map (c : Nat) :
    Nat.digits 256 c
      = (List.range (Nat.digits 256 c).length).map (fun i => c / 256 ^ i % 256) := by
  apply List.ext_getElem
  · simp
  · intro n h1 h2
    rw [← List.getD_eq_getElem _ 0 h1, getD_digits 256 (by norm_num)]
    simp

/-- The bytes of a currency: the length of its magnitude, then the magnitude in
big-endian order. -/
theorem Currency.MarshalTurtleDex_eq (c : Currency) :
    Currency.MarshalTurtleDex c
      = WriteInt (Nat.digits 256 c).length ++ (Nat.digits 256 c).reverse := by
  unfold Currency.MarshalTurtleDex
  simp only []
  rw [Currency.seek_Bits c _ (Currency.length_Bits c), List.map_reverse]
  congr 2
  rw [digits_eq_map c, List.length_map, List.length_range]
  apply List.map_congr_left
  intro i _
  exact Currency.shifted_Bits_mod c i

theorem Currency.sizeBytes_seek (bits : List Nat) (k : Nat) :
    ∀ j, j ≤ 8 →
      ((Currency.sizeBytes (bits.getD k 0) j (8 * k + j)).2 = true →
        (Currency.sizeBytes (bits.getD k 0) j (8 * k + j)).1 = Currency.seek bits (8 * k + j))
      ∧ ((Currency.sizeBytes (bits.getD k 0) j (8 * k + j)).2 = false →
        (Currency.sizeBytes (bits.getD k 0) j (8 * k + j)).1 = 8 * k
          ∧ Currency.seek bits (8 * k + j) = Currency.seek bits (8 * k)) := by
  intro j
  induction j with
  | zero =>
    intro _
    simp [Currency.sizeBytes]
  | succ j ih =>
    intro hj
    have hs : Currency.shifted bits (8 * k + j) = bits.getD k 0 >>> (j * 8) := by
      unfold Currency.shifted
      have h1 : (8 * k + j) / 8 = k := by omega
      have h2 : (8 * k + j) % 8 = j := by omega
      rw [h1, h2]
    have hseek : Currency.seek bits (8 * k + (j + 1))
        = if bits.getD k 0 >>> (j * 8) ≠ 0 then 8 * k + j + 1
          else Currency.seek bits (8 * k + j) := by
      rw [← hs]
      rfl
    unfold Currency.sizeBytes
    rw [hseek]
    by_cases hw : bits.getD k 0 >>> (j * 8) ≠ 0
    · rw [if_pos hw, if_pos hw]
      simp
      rfl
    · rw [if_neg hw, if_neg hw]
      exact ih (by omega)

theorem Currency.sizeWords_seek (bits : List Nat) :
    ∀ k, Currency.sizeWords bits k (k * 8) = Currency.seek bits (k * 8) := by
  intro k
  induction k with
  | zero => rfl
  | succ k ih =>
    have h8 : (k + 1) * 8 = 8 * k + 8 := by omega
    have hk : k * 8 = 8 * k := by omega
    obtain ⟨h1, h2⟩ := Currency.sizeBytes_seek bits k 8 (Nat.le_refl 8)
    unfold Currency.sizeWords
    rw [h8]
    cases hres : Currency.sizeBytes (bits.getD k 0) 8 (8 * k + 8) with
    | mk size1 broke =>
      rw [hres] at h1 h2
      cases broke with
      | true => exact h1 rfl
      | false =>
        obtain ⟨h3, h4⟩ := h2 rfl
        simp only [] at h3 ⊢
        rw [h4, h3, ← hk]
        exact ih

/-- C25: `MarshalTurtleDexSize()` is the number of bytes that `MarshalTurtleDex`
writes for the currency, which is 8 plus the number of bytes of the magnitude
without leading zero bytes: the number of base 256 digits, none for zero. -/
theorem Currency.MarshalTurtleDexSize_length (c : Currency) :
    Currency.MarshalTurtleDexSize c = (Currency.MarshalTurtleDex c).length
      ∧ Currency.MarshalTurtleDexSize c = 8 + (Nat.digits 256 c).length
      ∧ Currency.MarshalTurtleDexSize 0 = 8
      ∧ (c ≠ 0 → 256 ^ ((Nat.digits 256 c).length - 1) ≤ c ∧ c < 256 ^ (Nat.digits 256 c).length) := by
  have hsize : Currency.MarshalTurtleDexSize c = 8 + (Nat.digits 256 c).length := by
    unfold Currency.MarshalTurtleDexSize
    simp only []
    rw [Currency.sizeWords_seek, Currency.seek_Bits c _ (Currency.length_Bits c)]
  refine ⟨?_, hsize, by decide, fun hc => ⟨?_, Nat.lt_base_pow_length_digits (by norm_num)⟩⟩
  · rw [hsize, Currency.MarshalTurtleDex_eq, List.length_append, List.length_reverse]
    congr 1
  · have hle := Nat.base_pow_length_digits_le 256 c (by norm_num) hc
    have hpos : 0 < (Nat.digits 256 c).length :=
      List.length_pos.mpr (Nat.digits_ne_nil_iff_ne_zero.mpr hc)
    have hl : (Nat.digits 256 c).length = ((Nat.digits 256 c).length - 1) + 1 := by omega
    rw [hl, pow_succ, Nat.mul_comm] at hle
    exact Nat.le_of_mul_le_mul_left hle (by norm_num)

/-! ## C26: the size of an encoded transaction -/

theorem foldl_size {α : Type} (f : α → Nat) (g : Nat → α → Nat)
    (hg : ∀ size x, g size x = size + f x) (xs : List α) (init : Nat) :
    xs.foldl g init = init + (xs.map f).sum := by
  induction xs generalizing init with
  | nil => simp
  | cons x rest ih =>
    rw [List.foldl_cons, ih, hg, List.map_cons, List.sum_cons]
    exact Nat.add_assoc _ _ _

theorem length_flatten_map {α : Type} (f : α → Bytes) (xs : List α) :
    (xs.map f).flatten.length = (xs.map (fun x => (f x).length)).sum := by
  induction xs with
  | nil => rfl
  | cons x rest ih => simp [ih]

theorem sum_map_congr {α : Type} (f g : α → Nat) (xs : List α) (h : ∀ x ∈ xs, f x = g x) :
    (xs.map f).sum = (xs.map g).sum := by
  rw [List.map_congr_left h]

theorem length_WriteUint64 (u : Nat) : (WriteUint64 u).length = 8 := by
  simp [WriteUint64]

theorem length_WriteInt (u : Nat) : (WriteInt u).length = 8 := length_WriteUint64 u

theorem size_of_currency (c : Currency) :
    Currency.MarshalTurtleDexSize c = (Currency.MarshalTurtleDex c).length := by
  unfold Currency.MarshalTurtleDexSize
  simp only []
  rw [Currency.sizeWords_seek, Currency.seek_Bits c _ (Currency.length_Bits c),
    Currency.MarshalTurtleDex_eq, List.length_append, List.length_reverse, length_WriteInt]

theorem sizeOfOutputs_eq (size : Nat) (outputs : List TurtleDexcoinOutput) :
    sizeOfOutputs size outputs
      = size + (outputs.map TurtleDexcoinOutput.MarshalTurtleDex).flatten.length := by
  unfold sizeOfOutputs
  rw [foldl_size (fun sco => (TurtleDexcoinOutput.MarshalTurtleDex sco).length) _ _,
    length_flatten_map]
  intro size sco
  simp only [TurtleDexcoinOutput.MarshalTurtleDex, List.length_append,
    size_of_currency, Nat.add_assoc]

theorem size_of_coveredFields (cf : CoveredFields) :
    cf.MarshalTurtleDexSize = cf.MarshalTurtleDex.length := by
  have h : ∀ f : List Nat, (f.map WriteUint64).flatten.length = f.length * 8 := by
    intro f
    rw [length_flatten_map]
    induction f with
    | nil => rfl
    | cons x rest ih =>
      rw [List.map_cons, List.sum_cons, ih, length_WriteUint64, List.length_cons]
      omega
  simp only [CoveredFields.MarshalTurtleDexSize, CoveredFields.MarshalTurtleDex, WriteBool,
    List.map_cons, List.map_nil, List.flatten_cons, List.flatten_nil, List.length_append,
    List.length_cons, List.length_nil, length_WriteInt, h]
  omega

theorem size_of_unlockConditions (uc : UnlockConditions) :
    uc.MarshalTurtleDexSize = uc.MarshalTurtleDex.length := by
  unfold UnlockConditions.MarshalTurtleDexSize UnlockConditions.MarshalTurtleDex
  simp only []
  rw [foldl_size (fun spk => (TurtleDexPublicKey.MarshalTurtleDex spk).length) _ _]
  · simp only [List.length_append, length_WriteInt, length_WriteUint64, length_flatten_map,
      Nat.zero_add]
  · intro size spk
    simp only [TurtleDexPublicKey.MarshalTurtleDex, WritePrefixedBytes, List.length_append,
      length_WriteInt]
    omega

theorem size_of_fileContract (fc : FileContract) :
    fc.MarshalTurtleDexSize = fc.MarshalTurtleDex.length := by
  unfold FileContract.MarshalTurtleDexSize FileContract.MarshalTurtleDex
  simp only [sizeOfOutputs_eq, List.length_append, length_WriteInt, length_WriteUint64,
    size_of_currency, Nat.zero_add]
  try omega

theorem size_of_revision (fcr : FileContractRevision) :
    fcr.MarshalTurtleDexSize = fcr.MarshalTurtleDex.length := by
  unfold FileContractRevision.MarshalTurtleDexSize FileContractRevision.MarshalTurtleDex
  simp only [sizeOfOutputs_eq, List.length_append, length_WriteInt, length_WriteUint64,
    size_of_unlockConditions, Nat.zero_add]
  try omega

theorem length_flatten_hashes (hashes : List Hash) (h : ∀ x ∈ hashes, x.length = HashSize) :
    hashes.flatten.length = hashes.length * HashSize := by
  induction hashes with
  | nil => simp
  | cons x rest ih =>
    rw [List.flatten_cons, List.length_append, h x (List.mem_cons_self _ _),
      ih (fun y hy => h y (List.mem_cons_of_mem _ hy)), List.length_cons]
    ring

/-- C26: `t.MarshalTurtleDexSize()` is the number of bytes that
`t.MarshalTurtleDex` writes, for every transaction whose storage proofs have
hash sets of hashes, that is of arrays of `crypto.HashSize` bytes as the Go type
requires; the file contracts, revisions with their unlock conditions, fund
inputs, arbitrary data and signatures with covered fields are all counted. -/
theorem Transaction.MarshalTurtleDexSize_spec (t : Transaction)
    (hashes : ∀ sp ∈ t.StorageProofs, ∀ h ∈ sp.HashSet, h.length = HashSize) :
    t.MarshalTurtleDexSize = t.MarshalTurtleDex.length := by
  have h1 := foldl_size (fun sci => (TurtleDexcoinInput.MarshalTurtleDex sci).length)
    (fun size (sci : TurtleDexcoinInput) =>
      size + sci.ParentID.length + sci.UnlockConditions.MarshalTurtleDexSize)
    (fun size sci => by
      simp only [TurtleDexcoinInput.MarshalTurtleDex, List.length_append,
        size_of_unlockConditions, Nat.add_assoc])
  have h3 := foldl_size (fun fc => (FileContract.MarshalTurtleDex fc).length)
    (fun size (fc : FileContract) => size + fc.MarshalTurtleDexSize)
    (fun size fc => by simp only [size_of_fileContract])
  have h4 := foldl_size (fun fcr => (FileContractRevision.MarshalTurtleDex fcr).length)
    (fun size (fcr : FileContractRevision) => size + fcr.MarshalTurtleDexSize)
    (fun size fcr => by simp only [size_of_revision])
  have h5 := foldl_size
    (fun sp : StorageProof => sp.ParentID.length + sp.Segment.length
      + (8 + sp.HashSet.length * HashSize))
    (fun size (sp : StorageProof) => size + sp.ParentID.length + sp.Segment.length
      + (8 + sp.HashSet.length * HashSize))
    (fun size sp => by simp only [Nat.add_assoc])
  have h5b : (t.StorageProofs.map (fun sp : StorageProof => sp.ParentID.length
      + sp.Segment.length + (8 + sp.HashSet.length * HashSize))).sum
      = (t.StorageProofs.map (fun sp => (StorageProof.MarshalTurtleDex sp).length)).sum := by
    apply sum_map_congr
    intro sp hsp
    simp only [StorageProof.MarshalTurtleDex, List.length_append, length_WriteInt,
      length_flatten_hashes sp.HashSet (hashes sp hsp), Nat.add_assoc]
  have h6 := foldl_size (fun sfi => (TurtleDexfundInput.MarshalTurtleDex sfi).length)
    (fun size (sfi : TurtleDexfundInput) => size + sfi.ParentID.length
      + sfi.ClaimUnlockHash.length + sfi.UnlockConditions.MarshalTurtleDexSize)
    (fun size sfi => by
      simp only [TurtleDexfundInput.MarshalTurtleDex, List.length_append,
        size_of_unlockConditions]
      omega)
  have h7 := foldl_size (fun sfo => (TurtleDexfundOutput.MarshalTurtleDex sfo).length)
    (fun size (sfo : TurtleDexfundOutput) => size + Currency.MarshalTurtleDexSize sfo.Value
      + sfo.UnlockHash.length + Currency.MarshalTurtleDexSize sfo.ClaimStart)
    (fun size sfo => by
      simp only [TurtleDexfundOutput.MarshalTurtleDex, List.length_append,
        size_of_currency, Nat.add_assoc])
  have h8 := foldl_size (fun fee => (Currency.MarshalTurtleDex fee).length)
    (fun size (fee : Currency) => size + Currency.MarshalTurtleDexSize fee)
    (fun size fee => by simp only [size_of_currency])
  have h9 := foldl_size (fun data => (WritePrefixedBytes data).length)
    (fun size (data : Bytes) => size + (8 + data.length))
    (fun size data => by
      simp only [WritePrefixedBytes, List.length_append, length_WriteInt])
  have h10 := foldl_size (fun ts => (TransactionSignature.MarshalTurtleDex ts).length)
    (fun size (ts : TransactionSignature) => size + ts.ParentID.length + 8 + 8
      + ts.CoveredFields.MarshalTurtleDexSize + (8 + ts.Signature.length))
    (fun size ts => by
      simp only [TransactionSignature.MarshalTurtleDex, WritePrefixedBytes,
        List.length_append, length_WriteInt, length_WriteUint64,
        size_of_coveredFields, Nat.add_assoc])
  unfold Transaction.MarshalTurtleDexSize Transaction.MarshalTurtleDex
    Transaction.marshalTurtleDexNoSignatures
  simp only [h1, h3, h4, h5, h5b, h6, h7, h8, h9, h10, sizeOfOutputs_eq, List.length_append,
    length_WriteInt, length_flatten_map, Nat.zero_add]

/-! ## Decoding what was encoded -/

theorem Decodes.of_eq {α : Type} {maxAlloc : Nat} {m : StateM Decoder α} {enc enc1 : Bytes}
    {v v1 : α} (h : Decodes maxAlloc m enc v) (he : enc = enc1) (hv : v = v1) :
    Decodes maxAlloc m enc1 v1 := by
  subst he
  subst hv
  exact h

theorem Decodes.pure {α : Type} (maxAlloc : Nat) (v : α) :
    Decodes maxAlloc (Pure.pure v) [] v := by
  intro d rest _ _ hr _
  show (v, d) = _
  cases d
  simp_all

theorem Decodes.bind {α β : Type} {maxAlloc : Nat} {m : StateM Decoder α}
    {f : α → StateM Decoder β} {e1 e2 : Bytes} {a : α} {b : β}
    (h1 : Decodes maxAlloc m e1 a) (h2 : Decodes maxAlloc (f a) e2 b) :
    Decodes maxAlloc (m >>= f) (e1 ++ e2) b := by
  intro d rest herr hmax hr hn
  rw [List.length_append] at hn
  have hm := h1 d (e2 ++ rest) herr hmax (by rw [hr, List.append_assoc]) (by omega)
  show (match m d with | (x, s) => f x s) = _
  rw [hm]
  have hf := h2 { d with r := e2 ++ rest, n := d.n + e1.length } rest herr hmax rfl
    (by show d.n + e1.length + e2.length ≤ maxAlloc; omega)
  show f a _ = _
  rw [hf]
  simp [Nat.add_assoc]

theorem Decodes.map {α β : Type} {maxAlloc : Nat} {m : StateM Decoder α} {e : Bytes} {a : α}
    (g : α → β) (h : Decodes maxAlloc m e a) :
    Decodes maxAlloc (m >>= fun x => Pure.pure (g x)) e (g a) :=
  (Decodes.bind h (Decodes.pure maxAlloc (g a))).of_eq (List.append_nil e) rfl

theorem Decodes.ReadFull (maxAlloc : Nat) (p v : Bytes) (h : p.length = v.length) :
    Decodes maxAlloc (Decoder.ReadFull p) v v := by
  intro d rest herr hmax hr hn
  have hlen : ¬ d.r.length < p.length := by
    rw [hr, List.length_append, h]
    omega
  have hlim : ¬ d.n + p.length > d.maxAlloc := by
    rw [hmax, h]
    omega
  unfold Decoder.ReadFull
  rw [if_neg (not_not.mpr herr), if_neg hlen, if_neg hlim, h, hr, List.take_left,
    List.drop_left, herr]

theorem Decodes.NextUint64 (maxAlloc u : Nat) (hu : u < 2 ^ 64) :
    Decodes maxAlloc Decoder.NextUint64 (WriteUint64 u) u := by
  intro d rest herr hmax hr hn
  have h := Decodes.ReadFull maxAlloc (List.replicate 8 0) (WriteUint64 u)
    (by rw [length_WriteUint64, List.length_replicate]) d rest herr hmax hr hn
  unfold Decoder.NextUint64
  rw [h]
  simp only [herr, ne_eq, not_true_eq_false, if_false]
  rw [DecUint64_WriteUint64, Nat.mod_eq_of_lt hu]

theorem Decodes.NextPrefix (maxAlloc elemSize k : Nat) (hk : k ≤ 2 ^ 31 - 1)
    (hsize : elemSize < 2 ^ 32) (hlim : k * elemSize ≤ maxAlloc) :
    Decodes maxAlloc (Decoder.NextPrefix elemSize) (WriteInt k) k := by
  intro d rest herr hmax hr hn
  have h := Decodes.NextUint64 maxAlloc k (by omega) d rest herr hmax hr hn
  have hmod : k * elemSize % 2 ^ 64 = k * elemSize := by
    apply Nat.mod_eq_of_lt
    calc k * elemSize ≤ (2 ^ 31 - 1) * elemSize := Nat.mul_le_mul_right _ hk
      _ < 2 ^ 31 * 2 ^ 32 := by
        apply Nat.mul_lt_mul_of_lt_of_le (by norm_num) (Nat.le_of_lt hsize) (by norm_num)
      _ < 2 ^ 64 := by norm_num
  have hcond : ¬ (k > 2 ^ 31 - 1 ∨ k * elemSize % 2 ^ 64 > d.maxAlloc) := by
    rw [hmod, hmax]
    omega
  unfold Decoder.NextPrefix
  rw [h]
  simp only [herr, ne_eq, not_true_eq_false, if_false]
  rw [if_neg hcond]
  rfl

theorem Decodes.ReadPrefixedBytes (maxAlloc : Nat) (b : Bytes) (hb : b.length ≤ 2 ^ 31 - 1) :
    Decodes maxAlloc Decoder.ReadPrefixedBytes (WritePrefixedBytes b) b := by
  intro d rest herr hmax hr hn
  have hlen : (WritePrefixedBytes b).length = 8 + b.length := by
    rw [WritePrefixedBytes, List.length_append, length_WriteInt]
  rw [hlen] at hn
  have h1 := Decodes.NextPrefix maxAlloc 1 b.length hb (by norm_num) (by omega) d (b ++ rest)
    herr hmax (by rw [hr, WritePrefixedBytes, List.append_assoc])
    (by rw [length_WriteInt]; omega)
  have h2 := Decodes.ReadFull maxAlloc (List.replicate b.length 0) b
    (List.length_replicate _ _)
    { d with r := b ++ rest, n := d.n + (WriteInt b.length).length } rest herr hmax rfl
    (by show d.n + (WriteInt b.length).length + b.length ≤ maxAlloc
        rw [length_WriteInt]; omega)
  unfold Decoder.ReadPrefixedBytes
  rw [h1]
  simp only []
  rw [h2]
  simp only [herr, ne_eq, not_true_eq_false, if_false, hlen, length_WriteInt, Nat.add_assoc]

theorem SetBytes_digits (c : Nat) : SetBytes (Nat.digits 256 c).reverse = c := by
  unfold SetBytes
  rw [List.foldl_reverse]
  conv_rhs => rw [← Nat.ofDigits_digits 256 c]
  rw [Nat.ofDigits_eq_foldr]
  congr 1
  funext x y
  simp only [Nat.cast_id]
  ring

theorem Decodes.Currency (maxAlloc : Nat) (c receiver : Currency)
    (hc : (Currency.MarshalTurtleDex c).length - 8 ≤ 2 ^ 31 - 1) :
    Decodes maxAlloc (Currency.UnmarshalTurtleDex receiver) (Currency.MarshalTurtleDex c) c := by
  have hlen : (Nat.digits 256 c).reverse.length ≤ 2 ^ 31 - 1 := by
    rw [Currency.MarshalTurtleDex_eq, List.length_append, length_WriteInt] at hc
    omega
  have h := Decodes.map SetBytes
    (Decodes.ReadPrefixedBytes maxAlloc (Nat.digits 256 c).reverse hlen)
  refine Decodes.of_eq h ?_ (SetBytes_digits c)
  rw [Currency.MarshalTurtleDex_eq, WritePrefixedBytes, List.length_reverse]

theorem ReadPrefixedBytes_of_err (d : Decoder) (h : (Decoder.NextPrefix 1 d).2.err ≠ none) :
    (Decoder.ReadPrefixedBytes d).1 = [] ∧ (Decoder.ReadPrefixedBytes d).2.err ≠ none := by
  unfold Decoder.ReadPrefixedBytes
  generalize Decoder.NextPrefix 1 d = res at h
  obtain ⟨n, d1⟩ := res
  have hr : Decoder.ReadFull (List.replicate n 0) d1 = (List.replicate n 0, d1) := by
    unfold Decoder.ReadFull
    rw [if_pos h]
  simp only [hr]
  rw [if_pos h]
  exact ⟨rfl, h⟩

theorem ReadPrefixedBytes_of_large (maxAlloc k : Nat) (tail : Bytes)
    (hk : 2 ^ 31 - 1 < k) (hk64 : k < 2 ^ 64) :
    (Decoder.ReadPrefixedBytes (NewDecoder (WriteInt k ++ tail) maxAlloc)).1 = []
      ∧ (Decoder.ReadPrefixedBytes (NewDecoder (WriteInt k ++ tail) maxAlloc)).2.err
          ≠ none := by
  apply ReadPrefixedBytes_of_err
  by_cases h8 : 8 ≤ maxAlloc
  · have h := Decodes.NextUint64 maxAlloc k hk64 (NewDecoder (WriteInt k ++ tail) maxAlloc)
      tail rfl rfl rfl (by rw [length_WriteUint64]; exact h8)
    have hcond : k > 2 ^ 31 - 1 ∨ k * 1 % 2 ^ 64 > maxAlloc := Or.inl hk
    unfold Decoder.NextPrefix
    rw [h]
    simp only [NewDecoder, ne_eq, not_true_eq_false, if_false, length_WriteUint64]
    rw [if_pos hcond]
    simp
  · have hlen : ¬ (WriteInt k ++ tail).length < (List.replicate 8 0).length := by
      rw [List.length_append, length_WriteInt, List.length_replicate]
      omega
    have hr : Decoder.ReadFull (List.replicate 8 0) (NewDecoder (WriteInt k ++ tail) maxAlloc)
        = ((WriteInt k ++ tail).take 8,
            { r := (WriteInt k ++ tail).drop 8, n := 8, maxAlloc := maxAlloc,
              err := some DecodeError.ErrAllocLimitExceeded }) := by
      unfold Decoder.ReadFull
      simp only [NewDecoder, ne_eq, not_true_eq_false, if_false]
      rw [if_neg hlen, List.length_replicate, if_pos (by omega)]
    unfold Decoder.NextPrefix Decoder.NextUint64
    rw [hr]
    simp

theorem digits_pow (k : Nat) : Nat.digits 256 (256 ^ k) = List.replicate k 0 ++ [1] := by
  have h := Nat.digits_base_pow_mul (b := 256) (k := k) (m := 1) (by norm_num) (by norm_num)
  rw [Nat.mul_one] at h
  rw [h, Nat.digits_of_lt 256 1 (by norm_num) (by norm_num)]

theorem Currency.UnmarshalTurtleDex_eq (receiver : Currency) (d : Decoder) :
    Currency.UnmarshalTurtleDex receiver d
      = (SetBytes (Decoder.ReadPrefixedBytes d).1, (Decoder.ReadPrefixedBytes d).2) := rfl

theorem Currency.UnmarshalTurtleDex_pow (maxAlloc k : Nat) (hk : 2 ^ 31 - 1 < k + 1)
    (hk64 : k + 1 < 2 ^ 64) :
    (Currency.UnmarshalTurtleDex 0
        (NewDecoder (Currency.MarshalTurtleDex (256 ^ k)) maxAlloc)).1 = 0
      ∧ (Currency.UnmarshalTurtleDex 0
        (NewDecoder (Currency.MarshalTurtleDex (256 ^ k)) maxAlloc)).2.err ≠ none := by
  have henc : Currency.MarshalTurtleDex (256 ^ k)
      = WriteInt (k + 1) ++ (Nat.digits 256 (256 ^ k)).reverse := by
    rw [Currency.MarshalTurtleDex_eq]
    congr 2
    rw [digits_pow, List.length_append, List.length_replicate]
    rfl
  obtain ⟨h1, h2⟩ := ReadPrefixedBytes_of_large maxAlloc (k + 1)
    (Nat.digits 256 (256 ^ k)).reverse hk hk64
  rw [henc, Currency.UnmarshalTurtleDex_eq]
  constructor
  · show SetBytes _ = 0
    rw [h1]
    rfl
  · exact h2

/-- C23: `Currency.MarshalTurtleDex` writes the length `n` of the magnitude of the
currency as a prefix of eight bytes and then the `n` bytes of the magnitude in
big-endian order, the first of them not zero, and none for zero; currencies
with the same bytes are equal. When `n` is at most `1<<31 - 1` and the `8 + n`
bytes are within the allocation limit of the decoder, `UnmarshalTurtleDex` on
those bytes returns the currency and no error, whatever the receiver held. -/
theorem Currency.UnmarshalTurtleDex_within_limit (maxAlloc : Nat) (c receiver : Currency)
    (hn : (Currency.MarshalTurtleDex c).length - 8 ≤ 2 ^ 31 - 1)
    (hlim : (Currency.MarshalTurtleDex c).length ≤ maxAlloc) :
    Currency.MarshalTurtleDex c
        = WriteInt (Nat.digits 256 c).length ++ (Nat.digits 256 c).reverse
      ∧ (Nat.digits 256 c).reverse.head? ≠ some 0
      ∧ Currency.MarshalTurtleDex 0 = WriteInt 0
      ∧ (∀ c1 : Currency, Currency.MarshalTurtleDex c1 = Currency.MarshalTurtleDex c → c1 = c)
      ∧ Currency.UnmarshalTurtleDex receiver (NewDecoder (Currency.MarshalTurtleDex c) maxAlloc)
          = (c, { r := [], n := (Currency.MarshalTurtleDex c).length, maxAlloc := maxAlloc,
                  err := none }) := by
  refine ⟨Currency.MarshalTurtleDex_eq c, ?_, by decide, ?_, ?_⟩
  · rw [List.head?_reverse]
    intro h
    have hne : Nat.digits 256 c ≠ [] := by
      intro hnil
      rw [hnil] at h
      cases h
    have hlast := Nat.getLast_digit_ne_zero 256 (Nat.digits_ne_nil_iff_ne_zero.mp hne)
    rw [List.getLast?_eq_getLast _ hne] at h
    exact hlast (Option.some.inj h)
  · intro c1 h
    rw [Currency.MarshalTurtleDex_eq, Currency.MarshalTurtleDex_eq] at h
    have h2 := (List.append_inj h (by rw [length_WriteInt, length_WriteInt])).2
    exact Nat.digits_inj_iff.mp (List.reverse_injective h2)
  · have h := Decodes.Currency maxAlloc c receiver hn
      (NewDecoder (Currency.MarshalTurtleDex c) maxAlloc) [] rfl rfl
      (List.append_nil _).symm (by show 0 + _ ≤ maxAlloc; omega)
    rw [h]
    simp [NewDecoder]

/-- C23, witness: the currency 1000 under an allocation limit of sixteen bytes. -/
theorem Currency.UnmarshalTurtleDex_within_limit_witness :
    ((Currency.MarshalTurtleDex 1000).length - 8 ≤ 2 ^ 31 - 1
      ∧ (Currency.MarshalTurtleDex 1000).length ≤ 16)
    ∧ Currency.MarshalTurtleDex 1000 = [2, 0, 0, 0, 0, 0, 0, 0, 3, 232]
    ∧ Currency.UnmarshalTurtleDex 7 (NewDecoder (Currency.MarshalTurtleDex 1000) 16)
        = (1000, { r := [], n := (Currency.MarshalTurtleDex 1000).length, maxAlloc := 16,
                   err := none }) :=
  ⟨⟨by decide, by decide⟩, by decide,
    (Currency.UnmarshalTurtleDex_within_limit 16 1000 7 (by decide) (by decide)).2.2.2.2⟩

/-- C23, counterexample: the currency `256^(2^31 - 1)`, whose magnitude has
`1<<31` bytes, is not decoded from its bytes, even by a decoder with the largest
allocation limit that an `int` holds: `UnmarshalTurtleDex` leaves zero in the
receiver and returns an error. -/
theorem Currency.UnmarshalTurtleDex_large :
    (Currency.UnmarshalTurtleDex 0
        (NewDecoder (Currency.MarshalTurtleDex (256 ^ (2 ^ 31 - 1))) (2 ^ 63 - 1))).1 = 0
      ∧ (Currency.UnmarshalTurtleDex 0
        (NewDecoder (Currency.MarshalTurtleDex (256 ^ (2 ^ 31 - 1))) (2 ^ 63 - 1))).2.err.isSome
          = true :=
  have h := Currency.UnmarshalTurtleDex_pow (2 ^ 63 - 1) (2 ^ 31 - 1) (by norm_num)
    (by norm_num)
  ⟨h.1, Option.ne_none_iff_isSome.mp h.2⟩

/-! ## Decoding the fields of a transaction -/

theorem Decodes.each {α : Type} (maxAlloc : Nat) (f : α → StateM Decoder α) (zero : α)
    (enc : α → Bytes) (vs : List α) (h : ∀ v ∈ vs, Decodes maxAlloc (f zero) (enc v) v) :
    Decodes maxAlloc (Decoder.each f (List.replicate vs.length zero)) (vs.map enc).flatten
      vs := by
  induction vs with
  | nil => exact Decodes.pure maxAlloc []
  | cons v rest ih =>
    exact Decodes.bind (h v (List.mem_cons_self _ _))
      (Decodes.map (fun ys => v :: ys) (ih (fun x hx => h x (List.mem_cons_of_mem _ hx))))

theorem Decodes.slice {α β : Type} (maxAlloc elemSize : Nat) (f : α → StateM Decoder α)
    (zero : α) (enc : α → Bytes) (vs : List α) (k : List α → StateM Decoder β) (e : Bytes)
    (b : β) (hsize : elemSize < 2 ^ 32) (hfits : fits maxAlloc elemSize vs.length)
    (h : ∀ v ∈ vs, Decodes maxAlloc (f zero) (enc v) v) (hk : Decodes maxAlloc (k vs) e b) :
    Decodes maxAlloc
      (Decoder.NextPrefix elemSize >>= fun n =>
        Decoder.each f (List.replicate n zero) >>= k)
      (WriteInt vs.length ++ ((vs.map enc).flatten ++ e)) b :=
  Decodes.bind (Decodes.NextPrefix maxAlloc elemSize vs.length hfits.1 hsize hfits.2)
    (Decodes.bind (Decodes.each maxAlloc f zero enc vs h) hk)

theorem decodes_TurtleDexPublicKey (maxAlloc : Nat) (spk : TurtleDexPublicKey)
    (hw : spk.wellTyped) (hl : spk.withinLimit) :
    Decodes maxAlloc (TurtleDexPublicKey.UnmarshalTurtleDex TurtleDexPublicKey.zero)
      spk.MarshalTurtleDex spk :=
  Decodes.bind
    (Decodes.ReadFull maxAlloc _ spk.Algorithm (by
      rw [TurtleDexPublicKey.zero, List.length_replicate]; exact hw.symm))
    (Decodes.map (fun key => ({ Algorithm := spk.Algorithm, Key := key } : TurtleDexPublicKey))
      (Decodes.ReadPrefixedBytes maxAlloc spk.Key hl))

theorem decodes_UnlockConditions (S : Sizeof) (hS : S.bounded) (maxAlloc : Nat)
    (uc receiver : UnlockConditions) (hw : uc.wellTyped) (hl : uc.withinLimit S maxAlloc) :
    Decodes maxAlloc (UnlockConditions.UnmarshalTurtleDex S receiver)
      uc.MarshalTurtleDex uc := by
  refine Decodes.of_eq
    (Decodes.bind (Decodes.NextUint64 maxAlloc uc.Timelock hw.1)
      (Decodes.slice maxAlloc S.TurtleDexPublicKey TurtleDexPublicKey.UnmarshalTurtleDex
        TurtleDexPublicKey.zero TurtleDexPublicKey.MarshalTurtleDex uc.PublicKeys _ _ _
        hS.2.2.2.2.2.2.2.2.2.2.1 hl.1
        (fun spk hspk => decodes_TurtleDexPublicKey maxAlloc spk (hw.2.1 spk hspk)
          (hl.2 spk hspk))
        (Decodes.map
          (fun required => ({ Timelock := uc.Timelock, PublicKeys := uc.PublicKeys,
                              SignaturesRequired := required } : UnlockConditions))
          (Decodes.NextUint64 maxAlloc uc.SignaturesRequired hw.2.2)))) ?_ rfl
  simp only [UnlockConditions.MarshalTurtleDex, List.append_assoc]

theorem length_zero : Hash.zero.length = HashSize := by
  rw [Hash.zero, List.length_replicate]
  rfl

theorem decodes_hash (maxAlloc : Nat) (h : Hash) (hw : isHash h) :
    Decodes maxAlloc (Decoder.ReadFull Hash.zero) h h :=
  Decodes.ReadFull maxAlloc _ h (by rw [length_zero]; exact hw.symm)

theorem decodes_TurtleDexcoinInput (S : Sizeof) (hS : S.bounded) (maxAlloc : Nat)
    (sci : TurtleDexcoinInput) (hw : sci.wellTyped)
    (hl : sci.UnlockConditions.withinLimit S maxAlloc) :
    Decodes maxAlloc (TurtleDexcoinInput.UnmarshalTurtleDex S TurtleDexcoinInput.zero)
      sci.MarshalTurtleDex sci :=
  Decodes.bind (decodes_hash maxAlloc sci.ParentID hw.1)
    (Decodes.map
      (fun conditions => ({ ParentID := sci.ParentID, UnlockConditions := conditions } :
        TurtleDexcoinInput))
      (decodes_UnlockConditions S hS maxAlloc sci.UnlockConditions _ hw.2 hl))

theorem decodes_TurtleDexcoinOutput (maxAlloc : Nat) (sco : TurtleDexcoinOutput)
    (hw : sco.wellTyped) (hl : Currency.withinLimit sco.Value) :
    Decodes maxAlloc (TurtleDexcoinOutput.UnmarshalTurtleDex TurtleDexcoinOutput.zero)
      sco.MarshalTurtleDex sco :=
  Decodes.bind (Decodes.Currency maxAlloc sco.Value _ hl)
    (Decodes.map
      (fun unlockHash => ({ Value := sco.Value, UnlockHash := unlockHash } :
        TurtleDexcoinOutput))
      (decodes_hash maxAlloc sco.UnlockHash hw))

theorem decodes_TurtleDexfundInput (S : Sizeof) (hS : S.bounded) (maxAlloc : Nat)
    (sfi : TurtleDexfundInput) (hw : sfi.wellTyped)
    (hl : sfi.UnlockConditions.withinLimit S maxAlloc) :
    Decodes maxAlloc (TurtleDexfundInput.UnmarshalTurtleDex S TurtleDexfundInput.zero)
      sfi.MarshalTurtleDex sfi := by
  refine Decodes.of_eq
    (Decodes.bind (decodes_hash maxAlloc sfi.ParentID hw.1)
      (Decodes.bind (decodes_UnlockConditions S hS maxAlloc sfi.UnlockConditions _ hw.2.1 hl)
        (Decodes.map
          (fun claim => ({ ParentID := sfi.ParentID, UnlockConditions := sfi.UnlockConditions,
                           ClaimUnlockHash := claim } : TurtleDexfundInput))
          (decodes_hash maxAlloc sfi.ClaimUnlockHash hw.2.2)))) ?_ rfl
  simp only [TurtleDexfundInput.MarshalTurtleDex, List.append_assoc]

theorem decodes_TurtleDexfundOutput (maxAlloc : Nat) (sfo : TurtleDexfundOutput)
    (hw : sfo.wellTyped) (hl : sfo.withinLimit) :
    Decodes maxAlloc (TurtleDexfundOutput.UnmarshalTurtleDex TurtleDexfundOutput.zero)
      sfo.MarshalTurtleDex sfo := by
  refine Decodes.of_eq
    (Decodes.bind (Decodes.Currency maxAlloc sfo.Value _ hl.1)
      (Decodes.bind (decodes_hash maxAlloc sfo.UnlockHash hw)
        (Decodes.map
          (fun claimStart => ({ Value := sfo.Value, UnlockHash := sfo.UnlockHash,
                                ClaimStart := claimStart } : TurtleDexfundOutput))
          (Decodes.Currency maxAlloc sfo.ClaimStart _ hl.2)))) ?_ rfl
  simp only [TurtleDexfundOutput.MarshalTurtleDex, List.append_assoc]

theorem decodes_outputs (S : Sizeof) (hS : S.bounded) (maxAlloc : Nat) {β : Type}
    (outputs : List TurtleDexcoinOutput) (k : List TurtleDexcoinOutput → StateM Decoder β)
    (e : Bytes) (b : β) (hw : ∀ sco ∈ outputs, sco.wellTyped)
    (hfits : fits maxAlloc S.TurtleDexcoinOutput outputs.length)
    (hl : ∀ sco ∈ outputs, Currency.withinLimit sco.Value)
    (hk : Decodes maxAlloc (k outputs) e b) :
    Decodes maxAlloc
      (Decoder.NextPrefix S.TurtleDexcoinOutput >>= fun n =>
        Decoder.each TurtleDexcoinOutput.UnmarshalTurtleDex
          (List.replicate n TurtleDexcoinOutput.zero) >>= k)
      (WriteInt outputs.length
        ++ ((outputs.map TurtleDexcoinOutput.MarshalTurtleDex).flatten ++ e)) b :=
  Decodes.slice maxAlloc S.TurtleDexcoinOutput TurtleDexcoinOutput.UnmarshalTurtleDex
    TurtleDexcoinOutput.zero TurtleDexcoinOutput.MarshalTurtleDex outputs k e b hS.2.1 hfits
    (fun sco hsco => decodes_TurtleDexcoinOutput maxAlloc sco (hw sco hsco) (hl sco hsco)) hk

theorem decodes_FileContract (S : Sizeof) (hS : S.bounded) (maxAlloc : Nat)
    (fc : FileContract) (hw : fc.wellTyped) (hl : fc.withinLimit S maxAlloc) :
    Decodes maxAlloc (FileContract.UnmarshalTurtleDex S FileContract.zero)
      fc.MarshalTurtleDex fc := by
  obtain ⟨w1, w2, w3, w4, w5, w6, w7, w8⟩ := hw
  obtain ⟨l1, l2, l3, l4, l5⟩ := hl
  refine Decodes.of_eq
    (Decodes.bind (Decodes.NextUint64 maxAlloc fc.FileSize w1)
      (Decodes.bind (decodes_hash maxAlloc fc.FileMerkleRoot w2)
        (Decodes.bind (Decodes.NextUint64 maxAlloc fc.WindowStart w3)
          (Decodes.bind (Decodes.NextUint64 maxAlloc fc.WindowEnd w4)
            (Decodes.bind (Decodes.Currency maxAlloc fc.Payout _ l1)
              (decodes_outputs S hS maxAlloc fc.ValidProofOutputs _ _ _ w5 l2 l3
                (decodes_outputs S hS maxAlloc fc.MissedProofOutputs _ _ _ w6 l4 l5
                  (Decodes.bind (decodes_hash maxAlloc fc.UnlockHash w7)
                    (Decodes.map
                      (fun revisionNumber =>
                        ({ FileSize := fc.FileSize, FileMerkleRoot := fc.FileMerkleRoot,
                           WindowStart := fc.WindowStart, WindowEnd := fc.WindowEnd,
                           Payout := fc.Payout, ValidProofOutputs := fc.ValidProofOutputs,
                           MissedProofOutputs := fc.MissedProofOutputs,
                           UnlockHash := fc.UnlockHash,
                           RevisionNumber := revisionNumber } : FileContract))
                      (Decodes.NextUint64 maxAlloc fc.RevisionNumber w8)))))))))) ?_ rfl
  simp only [FileContract.MarshalTurtleDex, List.append_assoc]

theorem decodes_FileContractRevision (S : Sizeof) (hS : S.bounded) (maxAlloc : Nat)
    (fcr : FileContractRevision) (hw : fcr.wellTyped) (hl : fcr.withinLimit S maxAlloc) :
    Decodes maxAlloc (FileContractRevision.UnmarshalTurtleDex S FileContractRevision.zero)
      fcr.MarshalTurtleDex fcr := by
  obtain ⟨w1, w2, w3, w4, w5, w6, w7, w8, w9, w10⟩ := hw
  obtain ⟨l1, l2, l3, l4, l5⟩ := hl
  refine Decodes.of_eq
    (Decodes.bind (decodes_hash maxAlloc fcr.ParentID w1)
      (Decodes.bind (decodes_UnlockConditions S hS maxAlloc fcr.UnlockConditions _ w2 l1)
        (Decodes.bind (Decodes.NextUint64 maxAlloc fcr.NewRevisionNumber w3)
          (Decodes.bind (Decodes.NextUint64 maxAlloc fcr.NewFileSize w4)
            (Decodes.bind (decodes_hash maxAlloc fcr.NewFileMerkleRoot w5)
              (Decodes.bind (Decodes.NextUint64 maxAlloc fcr.NewWindowStart w6)
                (Decodes.bind (Decodes.NextUint64 maxAlloc fcr.NewWindowEnd w7)
                  (decodes_outputs S hS maxAlloc fcr.NewValidProofOutputs _ _ _ w8 l2 l3
                    (decodes_outputs S hS maxAlloc fcr.NewMissedProofOutputs _ _ _ w9 l4 l5
                      (Decodes.map
                        (fun unlockHash =>
                          ({ ParentID := fcr.ParentID,
                             UnlockConditions := fcr.UnlockConditions,
                             NewRevisionNumber := fcr.NewRevisionNumber,
                             NewFileSize := fcr.NewFileSize,
                             NewFileMerkleRoot := fcr.NewFileMerkleRoot,
                             NewWindowStart := fcr.NewWindowStart,
                             NewWindowEnd := fcr.NewWindowEnd,
                             NewValidProofOutputs := fcr.NewValidProofOutputs,
                             NewMissedProofOutputs := fcr.NewMissedProofOutputs,
                             NewUnlockHash := unlockHash } : FileContractRevision))
                        (decodes_hash maxAlloc fcr.NewUnlockHash w10))))))))))) ?_ rfl
  simp only [FileContractRevision.MarshalTurtleDex, List.append_assoc]

theorem decodes_StorageProof (S : Sizeof) (hS : S.bounded) (maxAlloc : Nat)
    (sp : StorageProof) (hw : sp.wellTyped) (hl : fits maxAlloc S.Hash sp.HashSet.length) :
    Decodes maxAlloc (StorageProof.UnmarshalTurtleDex S StorageProof.zero)
      sp.MarshalTurtleDex sp := by
  obtain ⟨w1, w2, w3⟩ := hw
  have hflat : sp.HashSet.flatten = (sp.HashSet.map id).flatten := by rw [List.map_id]
  refine Decodes.of_eq
    (Decodes.bind (decodes_hash maxAlloc sp.ParentID w1)
      (Decodes.bind
        (Decodes.ReadFull maxAlloc _ sp.Segment (by
          rw [StorageProof.zero, List.length_replicate]; exact w2.symm))
        (Decodes.slice maxAlloc S.Hash Decoder.ReadFull Hash.zero id sp.HashSet _ [] _
          hS.2.2.2.2.2.2.2.2.2.2.2.1 hl
          (fun h hh => decodes_hash maxAlloc h (w3 h hh))
          (Decodes.pure maxAlloc
            ({ ParentID := sp.ParentID, Segment := sp.Segment, HashSet := sp.HashSet } :
              StorageProof))))) ?_ rfl
  simp only [StorageProof.MarshalTurtleDex, List.append_assoc, List.append_nil, hflat]

theorem decodes_field (S : Sizeof) (hS : S.bounded) (maxAlloc : Nat) (f receiver : List Nat)
    (hw : ∀ u ∈ f, isUint64 u) (hl : fits maxAlloc S.Uint64 f.length) :
    Decodes maxAlloc (CoveredFields.field S receiver)
      (WriteInt f.length ++ (f.map WriteUint64).flatten) f := by
  refine Decodes.of_eq
    (Decodes.slice maxAlloc S.Uint64 (fun _ => Decoder.NextUint64) 0 WriteUint64 f _ [] _
      hS.2.2.2.2.2.2.2.2.2.2.2.2 hl (fun u hu => Decodes.NextUint64 maxAlloc u (hw u hu))
      (Decodes.pure maxAlloc f)) ?_ rfl
  rw [List.append_nil]

theorem decodes_CoveredFields (S : Sizeof) (hS : S.bounded) (maxAlloc : Nat)
    (cf : CoveredFields) (hw : cf.wellTyped) (hl : cf.withinLimit S maxAlloc) :
    Decodes maxAlloc (CoveredFields.UnmarshalTurtleDex S CoveredFields.zero)
      cf.MarshalTurtleDex cf := by
  have hfields := Decodes.each maxAlloc (CoveredFields.field S) []
    (fun f => WriteInt f.length ++ (f.map WriteUint64).flatten) cf.fields
    (fun f hf => decodes_field S hS maxAlloc f [] (hw f hf) (hl f hf))
  refine Decodes.of_eq
    (Decodes.bind
      (Decodes.ReadFull maxAlloc (List.replicate 1 0) (WriteBool cf.WholeTransaction) (by
        rw [List.length_replicate]; rfl))
      (Decodes.map
        (fun fields : List (List Nat) =>
          ({ WholeTransaction := decide ((WriteBool cf.WholeTransaction).getD 0 0 = 1),
             TurtleDexcoinInputs := fields.getD 0 [], TurtleDexcoinOutputs := fields.getD 1 [],
             FileContracts := fields.getD 2 [], FileContractRevisions := fields.getD 3 [],
             StorageProofs := fields.getD 4 [], TurtleDexfundInputs := fields.getD 5 [],
             TurtleDexfundOutputs := fields.getD 6 [], MinerFees := fields.getD 7 [],
             ArbitraryData := fields.getD 8 [], TransactionSignatures := fields.getD 9 [] } :
            CoveredFields))
        hfields)) rfl ?_
  cases cf with
  | mk whole f1 f2 f3 f4 f5 f6 f7 f8 f9 f10 =>
    cases whole <;> rfl

theorem decodes_TransactionSignature (S : Sizeof) (hS : S.bounded) (maxAlloc : Nat)
    (ts : TransactionSignature) (hw : ts.wellTyped) (hl : ts.withinLimit S maxAlloc) :
    Decodes maxAlloc (TransactionSignature.UnmarshalTurtleDex S TransactionSignature.zero)
      ts.MarshalTurtleDex ts := by
  obtain ⟨w1, w2, w3, w4⟩ := hw
  refine Decodes.of_eq
    (Decodes.bind (decodes_hash maxAlloc ts.ParentID w1)
      (Decodes.bind (Decodes.NextUint64 maxAlloc ts.PublicKeyIndex w2)
        (Decodes.bind (Decodes.NextUint64 maxAlloc ts.Timelock w3)
          (Decodes.bind (decodes_CoveredFields S hS maxAlloc ts.CoveredFields w4 hl.1)
            (Decodes.map
              (fun signature =>
                ({ ParentID := ts.ParentID, PublicKeyIndex := ts.PublicKeyIndex,
                   Timelock := ts.Timelock, CoveredFields := ts.CoveredFields,
                   Signature := signature } : TransactionSignature))
              (Decodes.ReadPrefixedBytes maxAlloc ts.Signature hl.2)))))) ?_ rfl
  simp only [TransactionSignature.MarshalTurtleDex, List.append_assoc]

theorem decodes_Transaction (S : Sizeof) (hS : S.bounded) (maxAlloc : Nat)
    (t receiver : Transaction) (hw : t.wellTyped) (hl : t.withinLimit S maxAlloc) :
    Decodes maxAlloc (Transaction.UnmarshalTurtleDex S receiver) t.MarshalTurtleDex t := by
  obtain ⟨w1, w2, w3, w4, w5, w6, w7, w8⟩ := hw
  obtain ⟨l1, l2, l3, l4, l5, l6, l7, l8, l9, l10, -⟩ := hl
  obtain ⟨s1, s2, s3, s4, s5, s6, s7, s8, s9, s10, s11, s12, s13⟩ := hS
  have hS : S.bounded := ⟨s1, s2, s3, s4, s5, s6, s7, s8, s9, s10, s11, s12, s13⟩
  refine Decodes.of_eq
    (Decodes.slice maxAlloc S.TurtleDexcoinInput (TurtleDexcoinInput.UnmarshalTurtleDex S)
      TurtleDexcoinInput.zero TurtleDexcoinInput.MarshalTurtleDex t.TurtleDexcoinInputs _ _ _
      s1 l1.1
      (fun x hx => decodes_TurtleDexcoinInput S hS maxAlloc x (w1 x hx) (l1.2 x hx))
    (decodes_outputs S hS maxAlloc t.TurtleDexcoinOutputs _ _ _ w2 l2.1 l2.2
    (Decodes.slice maxAlloc S.FileContract (FileContract.UnmarshalTurtleDex S)
      FileContract.zero FileContract.MarshalTurtleDex t.FileContracts _ _ _ s3 l3.1
      (fun x hx => decodes_FileContract S hS maxAlloc x (w3 x hx) (l3.2 x hx))
    (Decodes.slice maxAlloc S.FileContractRevision (FileContractRevision.UnmarshalTurtleDex S)
      FileContractRevision.zero FileContractRevision.MarshalTurtleDex
      t.FileContractRevisions _ _ _ s4 l4.1
      (fun x hx => decodes_FileContractRevision S hS maxAlloc x (w4 x hx) (l4.2 x hx))
    (Decodes.slice maxAlloc S.StorageProof (StorageProof.UnmarshalTurtleDex S)
      StorageProof.zero StorageProof.MarshalTurtleDex t.StorageProofs _ _ _ s5 l5.1
      (fun x hx => decodes_StorageProof S hS maxAlloc x (w5 x hx) (l5.2 x hx))
    (Decodes.slice maxAlloc S.TurtleDexfundInput (TurtleDexfundInput.UnmarshalTurtleDex S)
      TurtleDexfundInput.zero TurtleDexfundInput.MarshalTurtleDex t.TurtleDexfundInputs _ _ _
      s6 l6.1
      (fun x hx => decodes_TurtleDexfundInput S hS maxAlloc x (w6 x hx) (l6.2 x hx))
    (Decodes.slice maxAlloc S.TurtleDexfundOutput TurtleDexfundOutput.UnmarshalTurtleDex
      TurtleDexfundOutput.zero TurtleDexfundOutput.MarshalTurtleDex t.TurtleDexfundOutputs
      _ _ _ s7 l7.1
      (fun x hx => decodes_TurtleDexfundOutput maxAlloc x (w7 x hx) (l7.2 x hx))
    (Decodes.slice maxAlloc S.Currency Currency.UnmarshalTurtleDex 0
      Currency.MarshalTurtleDex t.MinerFees _ _ _ s8 l8.1
      (fun x hx => Decodes.Currency maxAlloc x 0 (l8.2 x hx))
    (Decodes.slice maxAlloc S.ByteSlice (fun _ => Decoder.ReadPrefixedBytes) []
      WritePrefixedBytes t.ArbitraryData _ _ _ s9 l9.1
      (fun x hx => Decodes.ReadPrefixedBytes maxAlloc x (l9.2 x hx))
    (Decodes.slice maxAlloc S.TransactionSignature (TransactionSignature.UnmarshalTurtleDex S)
      TransactionSignature.zero TransactionSignature.MarshalTurtleDex
      t.TransactionSignatures _ [] _ s10 l10.1
      (fun x hx => decodes_TransactionSignature S hS maxAlloc x (w8 x hx) (l10.2 x hx))
      (Decodes.pure maxAlloc
        ({ TurtleDexcoinInputs := t.TurtleDexcoinInputs,
           TurtleDexcoinOutputs := t.TurtleDexcoinOutputs,
           FileContracts := t.FileContracts,
           FileContractRevisions := t.FileContractRevisions,
           StorageProofs := t.StorageProofs,
           TurtleDexfundInputs := t.TurtleDexfundInputs,
           TurtleDexfundOutputs := t.TurtleDexfundOutputs,
           MinerFees := t.MinerFees,
           ArbitraryData := t.ArbitraryData,
           TransactionSignatures := t.TransactionSignatures } : Transaction)))))))))))) ?_ rfl
  simp only [Transaction.MarshalTurtleDex, Transaction.marshalTurtleDexNoSignatures,
    List.append_assoc, List.append_nil]

/-! ## C24, C26: a transaction and its bytes -/

/-- C24: for every transaction `t`, a value of the Go type, whose slices stay
within the allocation limit of the decoder, `UnmarshalTurtleDex` on a decoder
that reads the bytes written by `MarshalTurtleDex(t)`, followed by any input
`rest`, succeeds: the decoder has no error, it has consumed exactly those bytes,
leaving `rest`, and the receiver equals `t` in every field, whatever it held
before; slices are lists, so that nil and empty slices are the same. -/
theorem Transaction.UnmarshalTurtleDex_MarshalTurtleDex (S : Sizeof) (maxAlloc : Nat)
    (t receiver : Transaction) (rest : Bytes) (hS : S.bounded) (hw : t.wellTyped)
    (hl : t.withinLimit S maxAlloc) :
    Transaction.UnmarshalTurtleDex S receiver (NewDecoder (t.MarshalTurtleDex ++ rest) maxAlloc)
      = (t, { r := rest, n := t.MarshalTurtleDex.length, maxAlloc := maxAlloc,
              err := none }) := by
  have h := decodes_Transaction S hS maxAlloc t receiver hw hl
    (NewDecoder (t.MarshalTurtleDex ++ rest) maxAlloc) rest rfl rfl rfl
    (by show 0 + _ ≤ maxAlloc
        rw [Nat.zero_add]
        exact hl.2.2.2.2.2.2.2.2.2.2)
  rw [h]
  simp [NewDecoder]

set_option maxRecDepth 100000 in
/-- C24, witness: the sample transaction with every kind of field, on a 64-bit
platform and under an allocation limit of 2000 bytes. -/
theorem Transaction.UnmarshalTurtleDex_MarshalTurtleDex_witness :
    (Sizeof.amd64.bounded ∧ sampleFull.wellTyped ∧ sampleFull.withinLimit Sizeof.amd64 2000)
    ∧ Transaction.UnmarshalTurtleDex Sizeof.amd64 Transaction.zero
        (NewDecoder (sampleFull.MarshalTurtleDex ++ [1, 2, 3]) 2000)
      = (sampleFull, { r := [1, 2, 3], n := sampleFull.MarshalTurtleDex.length,
                       maxAlloc := 2000, err := none }) :=
  ⟨⟨by decide, by decide, by decide⟩,
    Transaction.UnmarshalTurtleDex_MarshalTurtleDex Sizeof.amd64 2000 sampleFull
      Transaction.zero [1, 2, 3] (by decide) (by decide) (by decide)⟩

/-- C26, witness: the sample transaction with every kind of field. -/
theorem Transaction.MarshalTurtleDexSize_spec_witness :
    (∀ sp ∈ sampleFull.StorageProofs, ∀ h ∈ sp.HashSet, h.length = HashSize)
    ∧ sampleFull.MarshalTurtleDexSize = sampleFull.MarshalTurtleDex.length :=
  ⟨by decide, Transaction.MarshalTurtleDexSize_spec sampleFull (by decide)⟩

/-! ## C28: public keys as text -/

theorem TrimRightZero_append (s : Bytes) :
    bytes.TrimRightZero s
        ++ List.replicate (s.length - (bytes.TrimRightZero s).length) 0 = s := by
  unfold bytes.TrimRightZero
  have h := List.takeWhile_append_dropWhile (fun c => decide (c = 0)) s.reverse
  have ht : s.reverse.takeWhile (fun c => decide (c = 0))
      = List.replicate (s.reverse.takeWhile (fun c => decide (c = 0))).length 0 := by
    apply List.eq_replicate_of_mem
    intro b hb
    have := List.mem_takeWhile_imp hb
    simpa using this
  have hlen := congrArg List.length h
  rw [List.length_append, List.length_reverse] at hlen
  have hs : s = (s.reverse.dropWhile (fun c => decide (c = 0))).reverse
      ++ (s.reverse.takeWhile (fun c => decide (c = 0))).reverse := by
    rw [← List.reverse_append, h, List.reverse_reverse]
  rw [List.length_reverse]
  conv_rhs => rw [hs]
  congr 1
  rw [ht, List.reverse_replicate]
  congr 1
  omega

theorem TrimRightZero_subset (s : Bytes) : ∀ c ∈ bytes.TrimRightZero s, c ∈ s := by
  intro c hc
  unfold bytes.TrimRightZero at hc
  rw [List.mem_reverse] at hc
  exact List.mem_reverse.mp ((List.dropWhile_sublist _).subset hc)

theorem not_mem_EncodeToString (b : Bytes) (hb : ∀ v ∈ b, v < 256) :
    58 ∉ hex.EncodeToString b := by
  intro h
  obtain ⟨n, hn, hc⟩ := hex.mem_EncodeToString b hb 58 h
  exact (hex.hextable_ne n hn).1 hc.symm

theorem LoadString_of_parts (spk receiver : TurtleDexPublicKey) (name : Bytes)
    (hkey : ∀ v ∈ spk.Key, v < 256) (hname : 58 ∉ name)
    (hlen : name.length ≤ receiver.Algorithm.length)
    (halg : copy receiver.Algorithm name = spk.Algorithm) :
    TurtleDexPublicKey.LoadString receiver (name ++ [58] ++ hex.EncodeToString spk.Key)
      = (spk, none) := by
  have hsplit : strings.Split (name ++ [58] ++ hex.EncodeToString spk.Key) 58
      = [name, hex.EncodeToString spk.Key] := by
    rw [List.append_assoc, List.singleton_append, strings.Split_append_sep 58 _ name hname,
      strings.Split_of_not_mem 58 _ (not_mem_EncodeToString spk.Key hkey)]
  unfold TurtleDexPublicKey.LoadString
  simp only [hsplit, List.length_cons, List.length_nil, ne_eq, not_true_eq_false, if_false,
    List.getD_cons_succ, List.getD_cons_zero, hex.DecodeString_EncodeToString spk.Key hkey]
  rw [if_neg (by omega), halg]

/-- Where `String` and `LoadString` are inverse to each other: for every public
key `spk`, a value of the Go type, whose algorithm has no colon and whose key
has 32 bytes if the algorithm is `SignatureEd25519`,
`spk.String()` returns a text, and `LoadString` of that text on a zero-valued
key succeeds and leaves a key with the algorithm and the key bytes of `spk`. -/
theorem TurtleDexPublicKey.LoadString_String (spk : TurtleDexPublicKey)
    (halg : spk.Algorithm.length = SpecifierLen) (hkey : ∀ v ∈ spk.Key, v < 256)
    (hcolon : 58 ∉ spk.Algorithm)
    (hed : spk.Algorithm = SignatureEd25519 → spk.Key.length = 32) :
    ∃ s, spk.String = some s
      ∧ TurtleDexPublicKey.LoadString TurtleDexPublicKey.zero s = (spk, none) := by
  by_cases h : spk.Algorithm = SignatureEd25519
  · have hlen := hed h
    have hname : (58 : Nat) ∉ "ed25519".toList.map Char.toNat := by decide
    have hload := LoadString_of_parts spk TurtleDexPublicKey.zero
      ("ed25519".toList.map Char.toNat) hkey hname (by decide) (by rw [h]; decide)
    refine ⟨"ed25519".toList.map Char.toNat ++ [58] ++ hex.EncodeToString spk.Key, ?_, hload⟩
    have hbuf : copy ((List.replicate 72 0).take 8) ("ed25519:".toList.map Char.toNat)
        ++ (List.replicate 72 0).drop 8
        = ("ed25519".toList.map Char.toNat ++ [58]) ++ List.replicate 64 0 := by decide
    unfold TurtleDexPublicKey.String
    rw [if_pos h]
    simp only [hbuf]
    have hdrop : (("ed25519".toList.map Char.toNat ++ [58]) ++ List.replicate 64 0).drop 8
        = List.replicate 64 0 := by decide
    have htake : (("ed25519".toList.map Char.toNat ++ [58]) ++ List.replicate 64 0).take 8
        = "ed25519".toList.map Char.toNat ++ [58] := by decide
    rw [hdrop, htake]
    unfold hex.Encode
    rw [if_neg (by rw [List.length_replicate, hlen]; decide), hlen]
    simp
  · refine ⟨Specifier.String spk.Algorithm ++ [58] ++ hex.EncodeToString spk.Key, ?_, ?_⟩
    · unfold TurtleDexPublicKey.String
      rw [if_neg h]
    · have hsub := TrimRightZero_subset spk.Algorithm
      have happ := TrimRightZero_append spk.Algorithm
      have hle : (bytes.TrimRightZero spk.Algorithm).length ≤ spk.Algorithm.length := by
        have := congrArg List.length happ
        rw [List.length_append] at this
        omega
      apply LoadString_of_parts spk TurtleDexPublicKey.zero (Specifier.String spk.Algorithm)
        hkey (fun hmem => hcolon (hsub 58 hmem))
      · show (bytes.TrimRightZero spk.Algorithm).length ≤ (List.replicate SpecifierLen 0).length
        rw [List.length_replicate, ← halg]
        exact hle
      · show copy (List.replicate SpecifierLen 0) (bytes.TrimRightZero spk.Algorithm)
          = spk.Algorithm
        unfold copy
        rw [List.length_replicate, List.drop_replicate, ← halg, List.take_of_length_le hle]
        exact happ

/-- The round trip for a key of another algorithm and an Ed25519 key of 32
bytes. -/
theorem TurtleDexPublicKey.LoadString_String_witness :
    (sampleKey.Algorithm.length = SpecifierLen ∧ (∀ v ∈ sampleKey.Key, v < 256)
      ∧ 58 ∉ sampleKey.Algorithm
      ∧ (sampleKey.Algorithm = SignatureEd25519 → sampleKey.Key.length = 32))
    ∧ (∃ s, sampleKey.String = some s
        ∧ TurtleDexPublicKey.LoadString TurtleDexPublicKey.zero s = (sampleKey, none))
    ∧ (∃ s, sampleEd25519Key.String = some s
        ∧ TurtleDexPublicKey.LoadString TurtleDexPublicKey.zero s = (sampleEd25519Key, none)) :=
  ⟨⟨by decide, by decide, by decide, by decide⟩,
    TurtleDexPublicKey.LoadString_String sampleKey (by decide) (by decide) (by decide)
      (by decide),
    TurtleDexPublicKey.LoadString_String sampleEd25519Key (by decide) (by decide) (by decide)
      (by decide)⟩

/-- C28, evaluated: `LoadString` does not invert `String()` at these keys. For
the Ed25519 key without key bytes the fast path of `String()` returns the name
followed by 64 zero bytes, which `LoadString` rejects as invalid hexadecimal
text; for a key whose algorithm has a colon `LoadString` finds three parts and
reports a missing specifier; for an Ed25519 key of 33 bytes `String()`
panics. -/
theorem TurtleDexPublicKey.String_not_loaded :
    (TurtleDexPublicKey.String { Algorithm := SignatureEd25519, Key := [] }
        = some ("ed25519:".toList.map Char.toNat ++ List.replicate 64 0)
      ∧ TurtleDexPublicKey.LoadString TurtleDexPublicKey.zero
          ("ed25519:".toList.map Char.toNat ++ List.replicate 64 0)
        = (TurtleDexPublicKey.zero, some (.invalidHex (.InvalidByteError 0))))
    ∧ (TurtleDexPublicKey.String { Algorithm := NewSpecifier "a:b", Key := [1] }
        = some ("a:b:01".toList.map Char.toNat)
      ∧ TurtleDexPublicKey.LoadString TurtleDexPublicKey.zero ("a:b:01".toList.map Char.toNat)
        = (TurtleDexPublicKey.zero, some .missingSpecifier))
    ∧ TurtleDexPublicKey.String { Algorithm := SignatureEd25519, Key := List.replicate 33 1 }
        = none := by
  decide

/-! ## C27: unlock hashes as text -/

theorem UnlockHash.LoadString_of_String (env : Env) (uh receiver : UnlockHash)
    (huh : uh.length = HashSize) (hreceiver : receiver.length = HashSize)
    (hbytes : ∀ v ∈ uh, v < 256) (hlen : UnlockHashChecksumSize ≤ (env.HashBytes uh).length)
    (hhash : ∀ v ∈ env.HashBytes uh, v < 256) :
    UnlockHash.LoadString env receiver (UnlockHash.String env uh) = (uh, none) := by
  have hl1 : (hex.EncodeToString uh).length = HashSize * 2 := by
    rw [hex.length_EncodeToString, huh, Nat.mul_comm]
  have hcs : ((env.HashBytes uh).take UnlockHashChecksumSize).length
      = UnlockHashChecksumSize := by
    rw [List.length_take]
    omega
  have hl2 : (hex.EncodeToString ((env.HashBytes uh).take UnlockHashChecksumSize)).length
      = UnlockHashChecksumSize * 2 := by
    rw [hex.length_EncodeToString, hcs, Nat.mul_comm]
  have hscan : ∀ b : Bytes, b ≠ [] → (∀ v ∈ b, v < 256) →
      fmt.SscanfHex (hex.EncodeToString b) = .ok b := by
    intro b hb hlt
    cases b with
    | nil => exact absurd rfl hb
    | cons v rest =>
      have h := fmt.SscanfHex_append v rest (hlt v (List.mem_cons_self _ _))
        (fun x hx => hlt x (List.mem_cons_of_mem _ hx)) [] rfl
      rwa [List.append_nil] at h
  have hne1 : uh ≠ [] := by
    intro h
    rw [h] at huh
    cases huh
  have hne2 : (env.HashBytes uh).take UnlockHashChecksumSize ≠ [] := by
    intro h
    rw [h] at hcs
    cases hcs
  unfold UnlockHash.LoadString UnlockHash.String
  simp only []
  rw [if_neg (by rw [List.length_append, hl1, hl2]; exact not_not.mpr rfl),
    List.take_left' hl1, List.drop_left' hl1, hscan uh hne1 hbytes,
    hscan _ hne2 (fun v hv => hhash v (List.mem_of_mem_take hv))]
  simp only [ne_eq, not_true_eq_false, if_false]
  unfold copy
  rw [List.take_of_length_le (by omega), List.drop_eq_nil_of_le (by omega), List.append_nil]

/-- C27: `UnlockHash.LoadString` accepts a text that is no `String()` of an
unlock hash: the hexadecimal digits of one byte `v`, then 62 letters `z`, then
the checksum of the one byte. It returns no error and copies the one byte into
the receiver, whose other bytes it leaves. The text has the length 76 and
differs from every `uh.String()`, also when the case of the letters is
ignored. -/
theorem UnlockHash.LoadString_not_hex (env : Env) (receiver : UnlockHash) (v : Nat)
    (hv : v < 256) (hlen : UnlockHashChecksumSize ≤ (env.HashBytes [v]).length)
    (hhash : ∀ b ∈ env.HashBytes [v], b < 256) :
    (hex.EncodeToString [v] ++ List.replicate 62 122
        ++ hex.EncodeToString ((env.HashBytes [v]).take UnlockHashChecksumSize)).length = 76
      ∧ UnlockHash.LoadString env receiver
          (hex.EncodeToString [v] ++ List.replicate 62 122
            ++ hex.EncodeToString ((env.HashBytes [v]).take UnlockHashChecksumSize))
        = (copy receiver [v], none)
      ∧ ∀ uh : UnlockHash, (∀ b ∈ uh, b < 256) → (∀ b ∈ env.HashBytes uh, b < 256) →
          (hex.EncodeToString [v] ++ List.replicate 62 122
            ++ hex.EncodeToString
                ((env.HashBytes [v]).take UnlockHashChecksumSize)).map toLower
            ≠ (UnlockHash.String env uh).map toLower := by
  have hcs : ((env.HashBytes [v]).take UnlockHashChecksumSize).length
      = UnlockHashChecksumSize := by
    rw [List.length_take]
    omega
  have hl1 : (hex.EncodeToString [v] ++ List.replicate 62 122).length = HashSize * 2 := by
    rw [List.length_append, hex.length_EncodeToString, List.length_replicate]
    rfl
  have hl2 : (hex.EncodeToString ((env.HashBytes [v]).take UnlockHashChecksumSize)).length
      = UnlockHashChecksumSize * 2 := by
    rw [hex.length_EncodeToString, hcs, Nat.mul_comm]
  have hne2 : (env.HashBytes [v]).take UnlockHashChecksumSize ≠ [] := by
    intro h
    rw [h] at hcs
    cases hcs
  have hscan1 : fmt.SscanfHex (hex.EncodeToString [v] ++ List.replicate 62 122) = .ok [v] :=
    fmt.SscanfHex_append v [] hv (fun x hx => by cases hx) (List.replicate 62 122) rfl
  have hscan2 : fmt.SscanfHex
      (hex.EncodeToString ((env.HashBytes [v]).take UnlockHashChecksumSize))
      = .ok ((env.HashBytes [v]).take UnlockHashChecksumSize) := by
    cases hc : (env.HashBytes [v]).take UnlockHashChecksumSize with
    | nil => exact absurd hc hne2
    | cons x rest =>
      have hlt : ∀ y ∈ x :: rest, y < 256 := by
        intro y hy
        rw [← hc] at hy
        exact hhash y (List.mem_of_mem_take hy)
      have h := fmt.SscanfHex_append x rest (hlt x (List.mem_cons_self _ _))
        (fun y hy => hlt y (List.mem_cons_of_mem _ hy)) [] rfl
      rwa [List.append_nil] at h
  refine ⟨?_, ?_, ?_⟩
  · rw [List.length_append, hl1, hl2]
    rfl
  · unfold UnlockHash.LoadString
    rw [if_neg (by rw [List.length_append, hl1, hl2]; exact not_not.mpr rfl),
      List.take_left' hl1, List.drop_left' hl1, hscan1, hscan2]
    simp only [ne_eq, not_true_eq_false, if_false]
  · intro uh hb hh heq
    have hz : (122 : Nat) ∈ (hex.EncodeToString [v] ++ List.replicate 62 122
        ++ hex.EncodeToString
            ((env.HashBytes [v]).take UnlockHashChecksumSize)).map toLower := by
      apply List.mem_map.mpr
      refine ⟨122, ?_, by decide⟩
      apply List.mem_append_left
      apply List.mem_append_right
      decide
    rw [heq] at hz
    obtain ⟨c, hc, hcz⟩ := List.mem_map.mp hz
    have hall : ∀ x ∈ UnlockHash.String env uh, ∃ n, n < 16 ∧ x = hex.hextable.getD n 0 := by
      intro x hx
      unfold UnlockHash.String at hx
      rcases List.mem_append.mp hx with h | h
      · exact hex.mem_EncodeToString uh hb x h
      · exact hex.mem_EncodeToString _ (fun y hy => hh y (List.mem_of_mem_take hy)) x h
    obtain ⟨n, hn, hcn⟩ := hall c hc
    have hno : ∀ n, n < 16 → toLower (hex.hextable.getD n 0) ≠ 122 := by decide
    exact hno n hn (hcn ▸ hcz)

/-- C27, witness: the byte `0xab` under the sample hash of 32 bytes. -/
theorem UnlockHash.LoadString_not_hex_witness :
    ((171 : Nat) < 256
      ∧ UnlockHashChecksumSize ≤ (sampleByteEnv.HashBytes [171]).length
      ∧ ∀ b ∈ sampleByteEnv.HashBytes [171], b < 256)
    ∧ UnlockHash.LoadString sampleByteEnv Hash.zero
        ("ab".toList.map Char.toNat ++ List.replicate 62 122
          ++ "ac0707070707".toList.map Char.toNat)
      = (171 :: List.replicate 31 0, none) :=
  ⟨⟨by decide, by decide, by decide⟩,
    (UnlockHash.LoadString_not_hex sampleByteEnv Hash.zero 171 (by decide) (by decide)
      (by decide)).2.1⟩

end types

namespace modules

/-! ## C29: valid paths -/

theorem validateElems_of_prev (prev : Bytes) (elems : List Bytes) (hprev : prev ≠ [])
    (hslash : prev ≠ slash) (hno : ∀ e ∈ elems, 47 ∉ e) :
    validateElems prev elems = none ↔ ∀ e ∈ elems, goodElement e := by
  induction elems generalizing prev with
  | nil => simp [validateElems]
  | cons e rest ih =>
    have hes : e ≠ slash := fun h => hno e (List.mem_cons_self _ _) (by rw [h]; decide)
    have hrest : ∀ x ∈ rest, 47 ∉ x := fun x hx => hno x (List.mem_cons_of_mem _ hx)
    unfold validateElems
    by_cases hd : e = dot ∨ e = dotdot
    · rw [if_pos hd]
      simp only [reduceCtorEq, false_iff, not_forall]
      refine ⟨e, List.mem_cons_self _ _, fun hg => ?_⟩
      rcases hd with h | h
      · exact hg.2.1 h
      · exact hg.2.2 h
    · rw [if_neg hd]
      by_cases he : e = []
      · rw [if_pos ⟨hprev, he⟩]
        simp only [reduceCtorEq, false_iff, not_forall]
        exact ⟨e, List.mem_cons_self _ _, fun hg => hg.1 he⟩
      · rw [if_neg (fun h => he h.2), if_neg (fun h => h.elim hslash hes), ih e he hes hrest]
        simp only [List.mem_cons, forall_eq_or_imp]
        constructor
        · intro h
          exact ⟨⟨he, fun h1 => hd (Or.inl h1), fun h1 => hd (Or.inr h1)⟩, h⟩
        · exact fun h => h.2

theorem validateElems_Split (path : Bytes) (c : Nat) (rest : Bytes) (hpath : path = c :: rest)
    (hc : c ≠ 47) :
    validateElems [] (strings.Split path 47) = none
      ↔ ∀ e ∈ strings.Split path 47, goodElement e := by
  have hno := strings.not_mem_of_mem_Split 47 path
  obtain ⟨e, es, -, h2⟩ := strings.Split_cons_ne c rest 47 hc
  rw [hpath] at hno ⊢
  rw [h2] at hno ⊢
  have hes : c :: e ≠ slash := fun h => hno _ (List.mem_cons_self _ _) (by rw [h]; decide)
  have hne : c :: e ≠ [] := List.cons_ne_nil _ _
  unfold validateElems
  by_cases hd : c :: e = dot ∨ c :: e = dotdot
  · rw [if_pos hd]
    simp only [reduceCtorEq, false_iff, not_forall]
    refine ⟨c :: e, List.mem_cons_self _ _, fun hg => ?_⟩
    rcases hd with h | h
    · exact hg.2.1 h
    · exact hg.2.2 h
  · rw [if_neg hd, if_neg (fun h => h.1 rfl), if_neg (fun h => h.elim (by decide) hes),
      validateElems_of_prev (c :: e) es hne hes
        (fun x hx => hno x (List.mem_cons_of_mem _ hx))]
    simp only [List.mem_cons, forall_eq_or_imp]
    constructor
    · intro h
      exact ⟨⟨hne, fun h1 => hd (Or.inl h1), fun h1 => hd (Or.inr h1)⟩, h⟩
    · exact fun h => h.2

theorem HasPrefix_iff (s pre : Bytes) :
    strings.HasPrefix s pre = true ↔ ∃ r, s = pre ++ r := by
  unfold strings.HasPrefix
  rw [List.isPrefixOf_iff_prefix]
  constructor
  · rintro ⟨r, hr⟩
    exact ⟨r, hr.symm⟩
  · rintro ⟨r, hr⟩
    exact ⟨r, hr.symm⟩

theorem validatePath_none_iff (path : Bytes) (isRoot : Bool) :
    validatePath path isRoot = none
      ↔ (path = [] ∧ isRoot = true)
        ∨ (path ≠ [] ∧ utf8.ValidString path = true
            ∧ ∀ e ∈ strings.Split path 47, goodElement e) := by
  cases path with
  | nil =>
    cases isRoot
    · have h : validatePath [] false = some .ErrEmptyPath := by decide
      rw [h]
      simp
    · have h : validatePath [] true = none := by decide
      rw [h]
      simp
  | cons c rest =>
    have hbad : ∀ x, x ∈ strings.Split (c :: rest) 47 → ¬ goodElement x →
        ∀ err : PathError, ((some err : Option PathError) = none
          ↔ (c :: rest = [] ∧ isRoot = true)
            ∨ (c :: rest ≠ [] ∧ utf8.ValidString (c :: rest) = true
                ∧ ∀ e ∈ strings.Split (c :: rest) 47, goodElement e)) := by
      intro x hx hg err
      simp only [reduceCtorEq, false_and, ne_eq, not_false_eq_true, true_and, false_or,
        false_iff, not_and]
      exact fun _ hall => hg (hall x hx)
    unfold validatePath
    rw [if_neg (fun h => List.cons_ne_nil _ _ h.1)]
    by_cases h1 : c :: rest = dotdot
    · rw [if_pos h1]
      refine hbad dotdot ?_ (fun h => h.2.2 rfl) _
      · rw [h1]; decide
    rw [if_neg h1]
    by_cases h2 : c :: rest = dot
    · rw [if_pos h2]
      refine hbad dot ?_ (fun h => h.2.1 rfl) _
      · rw [h2]; decide
    rw [if_neg h2]
    by_cases h3 : strings.HasPrefix (c :: rest) slash = true
    · rw [if_pos h3]
      obtain ⟨r, hr⟩ := (HasPrefix_iff _ _).mp h3
      refine hbad [] ?_ (fun h => h.1 rfl) _
      · rw [hr]
        show [] ∈ strings.Split (47 :: r) 47
        rw [strings.Split_cons_sep]
        exact List.mem_cons_self _ _
    rw [if_neg h3]
    by_cases h4 : strings.HasPrefix (c :: rest) (dotdot ++ slash) = true
    · rw [if_pos h4]
      obtain ⟨r, hr⟩ := (HasPrefix_iff _ _).mp h4
      refine hbad dotdot ?_ (fun h => h.2.2 rfl) _
      · rw [hr]
        show dotdot ∈ strings.Split (dotdot ++ 47 :: r) 47
        rw [strings.Split_append_sep 47 r dotdot (by decide)]
        exact List.mem_cons_self _ _
    rw [if_neg h4]
    by_cases h5 : strings.HasPrefix (c :: rest) (dot ++ slash) = true
    · rw [if_pos h5]
      obtain ⟨r, hr⟩ := (HasPrefix_iff _ _).mp h5
      refine hbad dot ?_ (fun h => h.2.1 rfl) _
      · rw [hr]
        show dot ∈ strings.Split (dot ++ 47 :: r) 47
        rw [strings.Split_append_sep 47 r dot (by decide)]
        exact List.mem_cons_self _ _
    rw [if_neg h5]
    have hc : c ≠ 47 := by
      intro hc
      exact h3 ((HasPrefix_iff _ _).mpr ⟨rest, by rw [hc]; rfl⟩)
    have hsplit := validateElems_Split (c :: rest) c rest rfl hc
    cases hv : validateElems [] (strings.Split (c :: rest) 47) with
    | some err =>
      have hnot : ¬ ∀ e ∈ strings.Split (c :: rest) 47, goodElement e := fun hall => by
        rw [hsplit.mpr hall] at hv
        cases hv
      simp only [reduceCtorEq, false_and, ne_eq, not_false_eq_true, true_and, false_or,
        false_iff, not_and]
      exact fun _ hall => hnot hall
    | none =>
      have hall := hsplit.mp hv
      by_cases hu : utf8.ValidString (c :: rest) = true
      · rw [if_pos hu]
        simp only [true_iff]
        exact Or.inr ⟨List.cons_ne_nil _ _, hu, hall⟩
      · rw [if_neg hu]
        simp only [reduceCtorEq, false_and, false_or, false_iff, not_and]
        exact fun _ h => absurd h hu

theorem HasSuffix_iff (s suf : Bytes) :
    strings.HasSuffix s suf = true ↔ ∃ r, s = r ++ suf := by
  unfold strings.HasSuffix
  rw [List.isSuffixOf_iff_suffix]
  constructor
  · rintro ⟨r, hr⟩
    exact ⟨r, hr.symm⟩
  · rintro ⟨r, hr⟩
    exact ⟨r, hr.symm⟩

theorem mem_Split_tail_of_append (sep : Nat) (b x : Bytes) (hx : x ∈ strings.Split b sep) :
    ∀ a : Bytes, x ∈ (strings.Split (a ++ sep :: b) sep).tail := by
  intro a
  induction a with
  | nil =>
    rw [List.nil_append, strings.Split_cons_sep]
    exact hx
  | cons c a ih =>
    by_cases hc : c = sep
    · rw [hc, List.cons_append, strings.Split_cons_sep]
      exact List.mem_of_mem_tail ih
    · obtain ⟨e, es, h1, h2⟩ := strings.Split_cons_ne c (a ++ sep :: b) sep hc
      rw [List.cons_append, h2]
      rw [h1] at ih
      exact ih

theorem no_slash_of_elements (p : Bytes) (h : ∀ e ∈ strings.Split p 47, e ≠ []) :
    strings.HasPrefix p slash = false ∧ strings.HasSuffix p slash = false
      ∧ ∀ a b : Bytes, p ≠ a ++ slash ++ slash ++ b := by
  refine ⟨?_, ?_, ?_⟩
  · rw [Bool.eq_false_iff]
    intro hp
    obtain ⟨r, hr⟩ := (HasPrefix_iff _ _).mp hp
    refine h [] ?_ rfl
    rw [hr]
    show [] ∈ strings.Split (47 :: r) 47
    rw [strings.Split_cons_sep]
    exact List.mem_cons_self _ _
  · rw [Bool.eq_false_iff]
    intro hp
    obtain ⟨r, hr⟩ := (HasSuffix_iff _ _).mp hp
    refine h [] ?_ rfl
    rw [hr]
    show [] ∈ strings.Split (r ++ [47]) 47
    rw [strings.Split_append_singleton]
    simp
  · intro a b hp
    refine h [] ?_ rfl
    have hmem : [] ∈ strings.Split (47 :: b) 47 := by
      rw [strings.Split_cons_sep]
      exact List.mem_cons_self _ _
    have ht := mem_Split_tail_of_append 47 (47 :: b) [] hmem a
    rw [hp]
    have he : a ++ slash ++ slash ++ b = a ++ 47 :: 47 :: b := by simp [slash]
    rw [he]
    exact List.mem_of_mem_tail ht

theorem Validate_eq_none_iff (p : Bytes) (isRoot : Bool) :
    TurtleDexPath.Validate { Path := p } isRoot = none ↔ validatePath p isRoot = none := by
  unfold TurtleDexPath.Validate
  cases validatePath p isRoot <;> simp

theorem ValidatePathString_eq_none_iff (p : Bytes) (isRoot : Bool) :
    ValidatePathString p isRoot = none ↔ validatePath p isRoot = none := by
  unfold ValidatePathString
  cases validatePath p isRoot <;> simp

theorem TrimPrefix_slash (s : Bytes) : strings.TrimPrefix s slash = withoutLeadingSlash s := by
  unfold strings.TrimPrefix
  by_cases h : strings.HasPrefix s slash = true
  · rw [if_pos h]
    obtain ⟨r, hr⟩ := (HasPrefix_iff _ _).mp h
    rw [hr]
    rfl
  · rw [if_neg h]
    cases s with
    | nil => rfl
    | cons c r =>
      have hc : c ≠ 47 := fun hc => h ((HasPrefix_iff _ _).mpr ⟨r, by rw [hc]; rfl⟩)
      unfold withoutLeadingSlash
      split
      · rename_i heq
        cases heq
        exact absurd rfl hc
      · rfl

theorem TrimSuffix_slash (s : Bytes) : strings.TrimSuffix s slash = withoutTrailingSlash s := by
  unfold strings.TrimSuffix withoutTrailingSlash
  have hiff : strings.HasSuffix s slash = true ↔ s.getLast? = some 47 := by
    rw [HasSuffix_iff]
    constructor
    · rintro ⟨r, hr⟩
      rw [hr]
      simp [slash]
    · intro hl
      obtain ⟨r, hr⟩ := List.getLast?_eq_some_iff.mp hl
      exact ⟨r, hr⟩
  by_cases h : strings.HasSuffix s slash = true
  · rw [if_pos h, if_pos (hiff.mp h), List.dropLast_eq_take]
    rfl
  · rw [if_neg h, if_neg (fun hl => h (hiff.mpr hl))]

theorem clean_eq (s : Bytes) :
    clean 47 s = withoutTrailingSlash (withoutLeadingSlash s) := by
  unfold clean filepath.ToSlash
  rw [if_pos rfl, TrimPrefix_slash, TrimSuffix_slash]

/-! ## C29, C30: valid paths -/

/-- C29: `ValidatePathString(p, isRoot)` and `TurtleDexPath{p}.Validate(isRoot)`
return nil exactly when `p` is empty and `isRoot` is set, or `p` is not empty,
is valid UTF-8, and every element of `p` split on the slash is not empty and is
neither `.` nor `..`; a path with such elements has no leading, no trailing and
no doubled slash. -/
theorem ValidatePathString_nil_iff (p : Bytes) (isRoot : Bool) :
    ((ValidatePathString p isRoot = none
        ↔ (p = [] ∧ isRoot = true)
          ∨ (p ≠ [] ∧ utf8.ValidString p = true
              ∧ ∀ e ∈ strings.Split p 47, e ≠ [] ∧ e ≠ dot ∧ e ≠ dotdot))
      ∧ (TurtleDexPath.Validate { Path := p } isRoot = none
        ↔ (p = [] ∧ isRoot = true)
          ∨ (p ≠ [] ∧ utf8.ValidString p = true
              ∧ ∀ e ∈ strings.Split p 47, e ≠ [] ∧ e ≠ dot ∧ e ≠ dotdot)))
    ∧ ((∀ e ∈ strings.Split p 47, e ≠ [] ∧ e ≠ dot ∧ e ≠ dotdot) →
        strings.HasPrefix p slash = false ∧ strings.HasSuffix p slash = false
          ∧ (∀ a b : Bytes, p ≠ a ++ slash ++ slash ++ b)
          ∧ strings.HasPrefix p (dot ++ slash) = false
          ∧ strings.HasPrefix p (dotdot ++ slash) = false) := by
  refine ⟨⟨?_, ?_⟩, fun h => ?_⟩
  · rw [ValidatePathString_eq_none_iff]
    exact validatePath_none_iff p isRoot
  · rw [Validate_eq_none_iff]
    exact validatePath_none_iff p isRoot
  · obtain ⟨h1, h2, h3⟩ := no_slash_of_elements p (fun e he => (h e he).1)
    refine ⟨h1, h2, h3, ?_, ?_⟩
    · rw [Bool.eq_false_iff]
      intro hp
      obtain ⟨r, hr⟩ := (HasPrefix_iff _ _).mp hp
      refine (h dot ?_).2.1 rfl
      rw [hr]
      show dot ∈ strings.Split (dot ++ 47 :: r) 47
      rw [strings.Split_append_sep 47 r dot (by decide)]
      exact List.mem_cons_self _ _
    · rw [Bool.eq_false_iff]
      intro hp
      obtain ⟨r, hr⟩ := (HasPrefix_iff _ _).mp hp
      refine (h dotdot ?_).2.2 rfl
      rw [hr]
      show dotdot ∈ strings.Split (dotdot ++ 47 :: r) 47
      rw [strings.Split_append_sep 47 r dotdot (by decide)]
      exact List.mem_cons_self _ _

/-- C30: on a system whose separator is the slash, `NewTurtleDexPath(s)` and
`LoadString(s)` return the same path and error; the path is `s` with one leading
and one trailing slash removed and the error is that of `Validate(false)` on it,
so they succeed exactly when the trimmed string passes `Validate(false)`; a path
returned without error passes `Validate(false)` and neither begins nor ends with
a slash. -/
theorem NewTurtleDexPath_spec (s : Bytes) (sp : TurtleDexPath) :
    (NewTurtleDexPath 47 s).1.Path = withoutTrailingSlash (withoutLeadingSlash s)
    ∧ sp.LoadString 47 s = NewTurtleDexPath 47 s
    ∧ ((NewTurtleDexPath 47 s).2 = none
        ↔ TurtleDexPath.Validate
            { Path := withoutTrailingSlash (withoutLeadingSlash s) } false = none)
    ∧ ((NewTurtleDexPath 47 s).2 = none →
        (NewTurtleDexPath 47 s).1.Validate false = none
        ∧ strings.HasPrefix (NewTurtleDexPath 47 s).1.Path slash = false
        ∧ strings.HasSuffix (NewTurtleDexPath 47 s).1.Path slash = false) := by
  have hnew : NewTurtleDexPath 47 s
      = ({ Path := withoutTrailingSlash (withoutLeadingSlash s) },
          TurtleDexPath.Validate
            { Path := withoutTrailingSlash (withoutLeadingSlash s) } false) := by
    unfold NewTurtleDexPath newTurtleDexPath
    rw [clean_eq]
  have hload : sp.LoadString 47 s = NewTurtleDexPath 47 s := by
    unfold TurtleDexPath.LoadString NewTurtleDexPath newTurtleDexPath
    rfl
  rw [hnew]
  refine ⟨rfl, ?_, Iff.rfl, fun h => ⟨h, ?_⟩⟩
  · rw [hload, hnew]
  · have hv := (validatePath_none_iff _ false).mp ((Validate_eq_none_iff _ false).mp h)
    rcases hv with ⟨_, hfalse⟩ | ⟨_, _, hall⟩
    · cases hfalse
    · obtain ⟨h1, h2, _⟩ := no_slash_of_elements _ (fun e he => (hall e he).1)
      exact ⟨h1, h2⟩

/-! ## The separator -/

theorem ToSlash_append (sep : Nat) (a b : Bytes) :
    filepath.ToSlash sep (a ++ b) = filepath.ToSlash sep a ++ filepath.ToSlash sep b := by
  unfold filepath.ToSlash
  split <;> simp

theorem ToSlash_length (sep : Nat) (a : Bytes) :
    (filepath.ToSlash sep a).length = a.length := by
  unfold filepath.ToSlash
  split <;> simp

theorem ToSlash_slash (sep : Nat) : filepath.ToSlash sep slash = slash := by
  unfold filepath.ToSlash slash
  split <;> simp

theorem ToSlash_nil (sep : Nat) : filepath.ToSlash sep [] = [] := by
  unfold filepath.ToSlash
  split <;> simp

theorem ToSlash_idem (sep : Nat) (s : Bytes) :
    filepath.ToSlash sep (filepath.ToSlash sep s) = filepath.ToSlash sep s := by
  unfold filepath.ToSlash
  split
  · rfl
  · rename_i h
    rw [List.map_map]
    apply List.map_congr_left
    intro c _
    simp only [Function.comp]
    by_cases hc : c = sep
    · rw [if_pos hc, if_neg (fun h47 : (47 : Nat) = sep => h h47.symm)]
    · rw [if_neg hc, if_neg hc]

theorem ToSlash_fix_parts (sep : Nat) (a b : Bytes)
    (h : filepath.ToSlash sep (a ++ b) = a ++ b) :
    filepath.ToSlash sep a = a ∧ filepath.ToSlash sep b = b := by
  rw [ToSlash_append] at h
  exact List.append_inj h (ToSlash_length sep a)

theorem ToSlash_fix_append (sep : Nat) (a b : Bytes) (ha : filepath.ToSlash sep a = a)
    (hb : filepath.ToSlash sep b = b) : filepath.ToSlash sep (a ++ b) = a ++ b := by
  rw [ToSlash_append, ha, hb]

theorem ToSlash_fix_drop (sep : Nat) (t : Bytes) (n : Nat) (h : filepath.ToSlash sep t = t) :
    filepath.ToSlash sep (t.drop n) = t.drop n := by
  have ht : t = t.take n ++ t.drop n := (List.take_append_drop n t).symm
  rw [ht] at h
  exact (ToSlash_fix_parts sep _ _ h).2

theorem ToSlash_fix_take (sep : Nat) (t : Bytes) (n : Nat) (h : filepath.ToSlash sep t = t) :
    filepath.ToSlash sep (t.take n) = t.take n := by
  have ht : t = t.take n ++ t.drop n := (List.take_append_drop n t).symm
  rw [ht] at h
  exact (ToSlash_fix_parts sep _ _ h).1

theorem ToSlash_fix_TrimPrefix (sep : Nat) (t pre : Bytes) (h : filepath.ToSlash sep t = t) :
    filepath.ToSlash sep (strings.TrimPrefix t pre) = strings.TrimPrefix t pre := by
  unfold strings.TrimPrefix
  split
  · exact ToSlash_fix_drop sep _ _ h
  · exact h

theorem ToSlash_fix_TrimSuffix (sep : Nat) (t suf : Bytes) (h : filepath.ToSlash sep t = t) :
    filepath.ToSlash sep (strings.TrimSuffix t suf) = strings.TrimSuffix t suf := by
  unfold strings.TrimSuffix
  split
  · exact ToSlash_fix_take sep _ _ h
  · exact h

theorem ToSlash_clean (sep : Nat) (s : Bytes) :
    filepath.ToSlash sep (clean sep s) = clean sep s := by
  unfold clean
  exact ToSlash_fix_TrimSuffix sep _ _ (ToSlash_fix_TrimPrefix sep _ _ (ToSlash_idem sep s))

theorem clean_of_fix (sep : Nat) (x : Bytes) (h : filepath.ToSlash sep x = x) :
    clean sep x = clean 47 x := by
  have h47 : filepath.ToSlash 47 x = x := by
    unfold filepath.ToSlash
    rw [if_pos rfl]
  unfold clean
  rw [h, h47]

theorem clean_nil (sep : Nat) : clean sep [] = [] := by
  rw [clean_of_fix sep [] (ToSlash_nil sep)]
  rfl

/-! ## Valid paths put together -/

theorem validatePath_false_iff (p : Bytes) :
    validatePath p false = none
      ↔ p ≠ [] ∧ utf8.ValidString p = true ∧ ∀ e ∈ strings.Split p 47, goodElement e := by
  rw [validatePath_none_iff]
  simp

theorem validatePath_true_iff (p : Bytes) :
    validatePath p true = none ↔ p = [] ∨ validatePath p false = none := by
  rw [validatePath_none_iff, validatePath_false_iff]
  simp

theorem ne_nil_of_good (p : Bytes) (h : ∀ e ∈ strings.Split p 47, goodElement e) : p ≠ [] := by
  intro hp
  rw [hp, strings.Split_nil] at h
  exact (h [] (List.mem_singleton.mpr rfl)).1 rfl

theorem validatePath_join_iff (a b : Bytes) :
    validatePath (a ++ slash ++ b) false = none
      ↔ validatePath a false = none ∧ validatePath b false = none := by
  have he : a ++ slash ++ b = a ++ 47 :: b := by simp [slash]
  rw [he, validatePath_false_iff, validatePath_false_iff, validatePath_false_iff,
    utf8.ValidString_append_slash, strings.Split_append_cons]
  constructor
  · rintro ⟨_, hu, hg⟩
    rw [Bool.and_eq_true] at hu
    have hga : ∀ e ∈ strings.Split a 47, goodElement e :=
      fun e he => hg e (List.mem_append_left _ he)
    have hgb : ∀ e ∈ strings.Split b 47, goodElement e :=
      fun e he => hg e (List.mem_append_right _ he)
    exact ⟨⟨ne_nil_of_good a hga, hu.1, hga⟩, ⟨ne_nil_of_good b hgb, hu.2, hgb⟩⟩
  · rintro ⟨⟨_, hua, hga⟩, ⟨_, hub, hgb⟩⟩
    refine ⟨by simp, by rw [hua, hub]; rfl, fun e he => ?_⟩
    rcases List.mem_append.mp he with h | h
    · exact hga e h
    · exact hgb e h

theorem no_slash_of_valid (p : Bytes) (h : validatePath p false = none) :
    strings.HasPrefix p slash = false ∧ strings.HasSuffix p slash = false := by
  obtain ⟨_, _, hg⟩ := (validatePath_false_iff p).mp h
  obtain ⟨h1, h2, _⟩ := no_slash_of_elements p (fun e he => (hg e he).1)
  exact ⟨h1, h2⟩

theorem withoutTrailingSlash_of_valid (p : Bytes) (h : validatePath p false = none) :
    withoutTrailingSlash p = p := by
  rw [← TrimSuffix_slash]
  unfold strings.TrimSuffix
  rw [(no_slash_of_valid p h).2]
  rfl

theorem withoutLeadingSlash_of_valid (p : Bytes) (h : validatePath p false = none) :
    withoutLeadingSlash p = p := by
  rw [← TrimPrefix_slash]
  unfold strings.TrimPrefix
  rw [(no_slash_of_valid p h).1]
  rfl

theorem clean_of_valid (p : Bytes) (h : validatePath p false = none) : clean 47 p = p := by
  rw [clean_eq, withoutLeadingSlash_of_valid p h, withoutTrailingSlash_of_valid p h]

theorem withoutLeadingSlash_append (p x : Bytes) (h : validatePath p false = none) :
    withoutLeadingSlash (p ++ x) = p ++ x := by
  have hp := withoutLeadingSlash_of_valid p h
  have hne := ((validatePath_false_iff p).mp h).1
  cases p with
  | nil => exact absurd rfl hne
  | cons c rest =>
    unfold withoutLeadingSlash at hp ⊢
    split at hp
    · rename_i heq
      cases heq
      exact absurd (congrArg List.length hp) (by simp)
    · rename_i hno
      split
      · rename_i r heq
        rw [List.cons_append] at heq
        cases heq
        exact absurd rfl (hno rest)
      · rfl

theorem withoutTrailingSlash_append (a x : Bytes) (hx : x ≠ []) :
    withoutTrailingSlash (a ++ x) = a ++ withoutTrailingSlash x := by
  unfold withoutTrailingSlash
  rw [List.getLast?_append_of_ne_nil _ hx, List.dropLast_append_of_ne_nil _ hx]
  split <;> rfl

theorem clean_join (p x : Bytes) (hp : validatePath p false = none) (hx : x ≠ []) :
    clean 47 (p ++ slash ++ x) = p ++ slash ++ withoutTrailingSlash x := by
  rw [clean_eq, List.append_assoc, withoutLeadingSlash_append p _ hp,
    ← List.append_assoc, withoutTrailingSlash_append _ x hx]

theorem clean_root_join (x : Bytes) :
    clean 47 ([] ++ slash ++ x) = withoutTrailingSlash x := by
  rw [clean_eq]
  rfl

theorem Validate_true_iff (sp : TurtleDexPath) :
    sp.Validate true = none ↔ sp.Path = [] ∨ validatePath sp.Path false = none := by
  cases sp with
  | mk p => rw [Validate_eq_none_iff, validatePath_true_iff]

theorem Validate_false_iff (sp : TurtleDexPath) :
    sp.Validate false = none ↔ validatePath sp.Path false = none := by
  cases sp with
  | mk p => rw [Validate_eq_none_iff]

theorem Join_eq (sep : Nat) (sp : TurtleDexPath) (s : Bytes)
    (hsp : sp.Validate true = none) (hslash : filepath.ToSlash sep sp.Path = sp.Path)
    (hc : clean sep s ≠ []) :
    sp.Join sep s
      = ({ Path := joined sp.Path (withoutTrailingSlash (clean sep s)) },
          TurtleDexPath.Validate
            { Path := joined sp.Path (withoutTrailingSlash (clean sep s)) } false) := by
  have hs : s ≠ [] := fun h => hc (by rw [h, clean_nil])
  have hfix : filepath.ToSlash sep (sp.Path ++ slash ++ clean sep s)
      = sp.Path ++ slash ++ clean sep s :=
    ToSlash_fix_append sep _ _ (ToSlash_fix_append sep _ _ hslash (ToSlash_slash sep))
      (ToSlash_clean sep s)
  have hclean : clean sep (sp.Path ++ slash ++ clean sep s)
      = joined sp.Path (withoutTrailingSlash (clean sep s)) := by
    rw [clean_of_fix sep _ hfix]
    unfold joined
    rcases (Validate_true_iff sp).mp hsp with h | h
    · rw [if_pos h, h, clean_root_join]
    · rw [if_neg ((validatePath_false_iff _).mp h).1, clean_join _ _ h hc]
  unfold TurtleDexPath.Join
  rw [if_neg (fun h => h.elim hs hc)]
  unfold newTurtleDexPath
  simp only [hclean]

theorem Validate_joined (p x : Bytes) (hp : p = [] ∨ validatePath p false = none) :
    TurtleDexPath.Validate { Path := joined p x } false = none
      ↔ validatePath x false = none := by
  rw [Validate_eq_none_iff]
  unfold joined
  rcases hp with h | h
  · rw [if_pos h]
  · rw [if_neg ((validatePath_false_iff _).mp h).1, validatePath_join_iff]
    exact ⟨fun h2 => h2.2, fun h2 => ⟨h, h2⟩⟩

theorem Join_nil_iff (sep : Nat) (sp : TurtleDexPath) (s : Bytes)
    (hsp : sp.Validate true = none) (hslash : filepath.ToSlash sep sp.Path = sp.Path) :
    (sp.Join sep s).2 = none
      ↔ validatePath (withoutTrailingSlash (clean sep s)) false = none := by
  by_cases hc : clean sep s = []
  · have hj : sp.Join sep s = ({ Path := [] }, some .joinEmpty) := by
      unfold TurtleDexPath.Join
      rw [if_pos (Or.inr hc)]
    rw [hj, hc]
    have hv : validatePath (withoutTrailingSlash []) false = some .ErrEmptyPath := by decide
    rw [hv]
    simp
  · rw [Join_eq sep sp s hsp hslash hc]
    exact Validate_joined _ _ ((Validate_true_iff sp).mp hsp)

theorem Join_valid (sep : Nat) (sp : TurtleDexPath) (r : Bytes)
    (hsp : sp.Validate true = none) (hslash : filepath.ToSlash sep sp.Path = sp.Path)
    (hr : validatePath r false = none) (hrs : filepath.ToSlash sep r = r) :
    sp.Join sep r = ({ Path := joined sp.Path r }, none) := by
  have hc : clean sep r = r := by rw [clean_of_fix sep r hrs, clean_of_valid r hr]
  have hne : clean sep r ≠ [] := by
    rw [hc]
    exact ((validatePath_false_iff r).mp hr).1
  rw [Join_eq sep sp r hsp hslash hne, hc, withoutTrailingSlash_of_valid r hr,
    (Validate_joined _ _ ((Validate_true_iff sp).mp hsp)).mpr hr]

theorem Join_slash (sep : Nat) (sp : TurtleDexPath) (r : Bytes)
    (hr : validatePath r false = none) (hrs : filepath.ToSlash sep r = r) :
    sp.Join sep (slash ++ r) = sp.Join sep r := by
  have hc : clean sep r = r := by rw [clean_of_fix sep r hrs, clean_of_valid r hr]
  have hfix : filepath.ToSlash sep (slash ++ r) = slash ++ r :=
    ToSlash_fix_append sep _ _ (ToSlash_slash sep) hrs
  have hc2 : clean sep (slash ++ r) = r := by
    rw [clean_of_fix sep _ hfix]
    have h := clean_root_join r
    rw [List.nil_append] at h
    rw [h, withoutTrailingSlash_of_valid r hr]
  have hne : r ≠ [] := ((validatePath_false_iff r).mp hr).1
  unfold TurtleDexPath.Join
  rw [hc, hc2, if_neg (fun h => h.elim (by simp [slash]) hne),
    if_neg (fun h => h.elim hne hne)]

theorem NewTurtleDexPath_eq (sep : Nat) (s : Bytes) :
    NewTurtleDexPath sep s
      = ({ Path := clean sep s }, TurtleDexPath.Validate { Path := clean sep s } false) := rfl

theorem Join_of_nil (sep : Nat) (sp : TurtleDexPath) (s : Bytes)
    (h : (sp.Join sep s).2 = none) : clean sep s ≠ [] := by
  intro hc
  unfold TurtleDexPath.Join at h
  rw [if_pos (Or.inr hc)] at h
  cases h

/-- C31, amended: for every valid non-root path `sp` whose string holds no
separator of the system other than the slash, and every string `s`:
when `NewTurtleDexPath(s)` returns no error, `sp.Join(s)` returns no error and the
path `sp.Path + "/" +` the path of `NewTurtleDexPath(s)`; when `s` cleaned does
not end with a slash, `sp.Join(s)` returns an error if and only if
`NewTurtleDexPath(s)` does; in general `sp.Join(s)` returns no error exactly when
`s` cleaned and without one more trailing slash passes `Validate(false)`, and
the joined path is `sp.Path + "/" +` that string. -/
theorem Join_spec (separator : Nat) (sp : TurtleDexPath) (s : Bytes)
    (hsp : sp.Validate false = none)
    (hslash : filepath.ToSlash separator sp.Path = sp.Path) :
    ((NewTurtleDexPath separator s).2 = none →
        sp.Join separator s
          = ({ Path := sp.Path ++ slash ++ (NewTurtleDexPath separator s).1.Path }, none))
    ∧ (strings.HasSuffix (clean separator s) slash = false →
        ((sp.Join separator s).2 ≠ none ↔ (NewTurtleDexPath separator s).2 ≠ none))
    ∧ ((sp.Join separator s).2 = none
        ↔ TurtleDexPath.Validate
            { Path := withoutTrailingSlash (clean separator s) } false = none)
    ∧ ((sp.Join separator s).2 = none →
        (sp.Join separator s).1.Path
          = sp.Path ++ slash ++ withoutTrailingSlash (clean separator s)) := by
  have hv : validatePath sp.Path false = none := (Validate_false_iff sp).mp hsp
  have hne : sp.Path ≠ [] := ((validatePath_false_iff _).mp hv).1
  have ht : sp.Validate true = none := (Validate_true_iff sp).mpr (Or.inr hv)
  have hiff := Join_nil_iff separator sp s ht hslash
  have hpath : (sp.Join separator s).2 = none →
      (sp.Join separator s).1.Path
        = sp.Path ++ slash ++ withoutTrailingSlash (clean separator s) := by
    intro h
    rw [Join_eq separator sp s ht hslash (Join_of_nil separator sp s h)]
    show joined sp.Path _ = _
    unfold joined
    rw [if_neg hne]
  refine ⟨?_, ?_, ?_, hpath⟩
  · intro hnew
    rw [NewTurtleDexPath_eq] at hnew ⊢
    have hc : validatePath (clean separator s) false = none :=
      (Validate_eq_none_iff _ false).mp hnew
    have hw := withoutTrailingSlash_of_valid _ hc
    have hj : (sp.Join separator s).2 = none := hiff.mpr (by rw [hw]; exact hc)
    have hp := hpath hj
    rw [hw] at hp
    exact Prod.ext (by rw [← hp]) hj
  · intro hsuf
    have hw : withoutTrailingSlash (clean separator s) = clean separator s := by
      rw [← TrimSuffix_slash]
      unfold strings.TrimSuffix
      rw [hsuf]
      rfl
    rw [hw] at hiff
    rw [NewTurtleDexPath_eq]
    exact not_congr (hiff.trans (Validate_eq_none_iff _ false).symm)
  · exact hiff.trans (Validate_eq_none_iff _ false).symm

/-- C31, amended, at the path `test` and the string `a/b/` on a system whose
separator is the backslash. -/
theorem Join_spec_witness :
    ((NewTurtleDexPath 92 [97, 47, 98, 47]).2 = none →
        sampleTest.Join 92 [97, 47, 98, 47]
          = ({ Path := sampleTest.Path ++ slash
                ++ (NewTurtleDexPath 92 [97, 47, 98, 47]).1.Path }, none))
    ∧ (strings.HasSuffix (clean 92 [97, 47, 98, 47]) slash = false →
        ((sampleTest.Join 92 [97, 47, 98, 47]).2 ≠ none
          ↔ (NewTurtleDexPath 92 [97, 47, 98, 47]).2 ≠ none))
    ∧ ((sampleTest.Join 92 [97, 47, 98, 47]).2 = none
        ↔ TurtleDexPath.Validate
            { Path := withoutTrailingSlash (clean 92 [97, 47, 98, 47]) } false = none)
    ∧ ((sampleTest.Join 92 [97, 47, 98, 47]).2 = none →
        (sampleTest.Join 92 [97, 47, 98, 47]).1.Path
          = sampleTest.Path ++ slash ++ withoutTrailingSlash (clean 92 [97, 47, 98, 47])) :=
  Join_spec 92 sampleTest [97, 47, 98, 47] (by decide) (by decide)

/-- C31, the claim as stated fails: the path `test` is valid and not the root;
with the string `a//` and the slash as the separator `Join` returns the path
`test/a` and no error although `NewTurtleDexPath` returns an error; and where
the separator is the backslash, the valid path of the one element `a\b` joined
with `c` is `a/b/c`, which is not its own string followed by `/c`. -/
theorem Join_not_iff_NewTurtleDexPath :
    sampleTest.Validate false = none
    ∧ sampleTest.Join 47 [97, 47, 47] = ({ Path := [116, 101, 115, 116, 47, 97] }, none)
    ∧ (NewTurtleDexPath 47 [97, 47, 47]).2
        = some (.extend .ErrEmptyPath .ErrInvalidTurtleDexPath)
    ∧ sampleBackslash.Validate false = none
    ∧ NewTurtleDexPath 92 [99] = ({ Path := [99] }, none)
    ∧ sampleBackslash.Join 92 [99] = ({ Path := [97, 47, 98, 47, 99] }, none)
    ∧ decide (sampleBackslash.Path ++ slash ++ [99] = [97, 47, 98, 47, 99]) = false := by
  decide

/-- C32, amended: for valid paths `oldBase` and `newBase` (either may be the
root) and a valid relative path `r`, none of them holding a separator of the
system other than the slash: `oldBase.Rebase(oldBase, newBase)` is `newBase`
without an error; `oldBase.Join(r)` returns no error, and the path it returns
rebased from `oldBase` to `newBase` is what `newBase.Join(r)` returns, which is
no error and the path `r` if `newBase` is the root and
`newBase.Path + "/" + r` otherwise. -/
theorem Rebase_spec (separator : Nat) (oldBase newBase : TurtleDexPath) (r : Bytes)
    (hold : oldBase.Validate true = none) (hnew : newBase.Validate true = none)
    (hr : TurtleDexPath.Validate { Path := r } false = none)
    (hos : filepath.ToSlash separator oldBase.Path = oldBase.Path)
    (hns : filepath.ToSlash separator newBase.Path = newBase.Path)
    (hrs : filepath.ToSlash separator r = r) :
    oldBase.Rebase separator oldBase newBase = (newBase, none)
    ∧ (oldBase.Join separator r).2 = none
    ∧ (oldBase.Join separator r).1.Rebase separator oldBase newBase
        = newBase.Join separator r
    ∧ newBase.Join separator r
        = ({ Path := if newBase.Path = [] then r else newBase.Path ++ slash ++ r }, none) := by
  have hrv : validatePath r false = none := (Validate_eq_none_iff r false).mp hr
  have hrne : r ≠ [] := ((validatePath_false_iff r).mp hrv).1
  have hjo := Join_valid separator oldBase r hold hos hrv hrs
  have hjn := Join_valid separator newBase r hnew hns hrv hrs
  have hself : ∀ p : Bytes, strings.HasPrefix p p = true :=
    fun p => (HasPrefix_iff p p).mpr ⟨[], by simp⟩
  refine ⟨?_, ?_, ?_, hjn⟩
  · unfold TurtleDexPath.Rebase strings.TrimPrefix
    rw [hself, if_neg (by decide), if_pos rfl, List.drop_length, if_pos rfl]
  · rw [hjo]
  · rw [hjo]
    unfold TurtleDexPath.Rebase strings.TrimPrefix
    show (if strings.HasPrefix (joined oldBase.Path r) oldBase.Path = false then _ else _) = _
    by_cases hroot : oldBase.Path = []
    · have hj : joined oldBase.Path r = r := by unfold joined; rw [if_pos hroot]
      rw [hj, hroot]
      have hp : strings.HasPrefix r [] = true := (HasPrefix_iff r []).mpr ⟨r, rfl⟩
      rw [hp, if_neg (by decide), if_pos rfl]
      simp only [List.length_nil, List.drop_zero]
      rw [if_neg hrne]
    · have hj : joined oldBase.Path r = oldBase.Path ++ slash ++ r := by
        unfold joined; rw [if_neg hroot]
      rw [hj]
      have hp : strings.HasPrefix (oldBase.Path ++ slash ++ r) oldBase.Path = true :=
        (HasPrefix_iff _ _).mpr ⟨slash ++ r, by simp⟩
      rw [hp, if_neg (by decide), if_pos rfl]
      have hd : List.drop oldBase.Path.length (oldBase.Path ++ slash ++ r) = slash ++ r := by
        rw [List.append_assoc, List.drop_left]
      rw [hd, if_neg (by simp [slash])]
      exact Join_slash separator newBase r hrv hrs

/-- C32 at the example of the comment of `Rebase`: rebasing `a/b/myfile`, which
is `a/b` joined with `myfile`, from `a/b` to `a` gives `a/myfile`. -/
theorem Rebase_spec_witness :
    sampleAB.Join 47 sampleMyfile = (sampleABMyfile, none)
    ∧ sampleABMyfile.Rebase 47 sampleAB sampleA
        = ({ Path := [97, 47, 109, 121, 102, 105, 108, 101] }, none) := by
  have h := Rebase_spec 47 sampleAB sampleA sampleMyfile (by decide) (by decide) (by decide)
    (by decide) (by decide) (by decide)
  have hj : sampleAB.Join 47 sampleMyfile = (sampleABMyfile, none) := by decide
  rw [hj] at h
  refine ⟨hj, ?_⟩
  rw [h.2.2.1, h.2.2.2]
  decide

/-- C32, the claim as stated fails where the separator is the backslash: the
path of the one element `a\b` is valid, joined with `c` it gives the path
`a/b/c`, and rebasing that path from `a\b` to `x` returns an error. -/
theorem Rebase_backslash :
    sampleBackslash.Validate true = none
    ∧ sampleX.Validate true = none
    ∧ TurtleDexPath.Validate { Path := [99] } false = none
    ∧ sampleBackslash.Join 92 [99] = ({ Path := [97, 47, 98, 47, 99] }, none)
    ∧ TurtleDexPath.Rebase { Path := [97, 47, 98, 47, 99] } 92 sampleBackslash sampleX
        = ({ Path := [] }, some (.notBase [97, 92, 98] [97, 47, 98, 47, 99])) := by
  decide

/-- C33, amended: for every valid non-root path `sp` whose string holds no
separator of the system other than the slash: `Dir()` returns no error;
`Name()` is the last element of `sp.Path` split on the slash; if `sp` has one
element `Dir()` is the root path, otherwise `sp.Path` is the path of `Dir()`, a
slash and `Name()`, which has no slash in it; and `Dir().Join(Name())` returns
`sp` and no error. -/
theorem Dir_Name_spec (separator : Nat) (sp : TurtleDexPath)
    (hsp : sp.Validate false = none)
    (hslash : filepath.ToSlash separator sp.Path = sp.Path) :
    (sp.Dir separator).2 = none
    ∧ (∃ init : List Bytes, strings.Split sp.Path 47 = init ++ [sp.Name])
    ∧ ((strings.Split sp.Path 47).length = 1 → (sp.Dir separator).1 = RootTurtleDexPath)
    ∧ ((strings.Split sp.Path 47).length ≠ 1 →
        sp.Path = (sp.Dir separator).1.Path ++ slash ++ sp.Name ∧ 47 ∉ sp.Name)
    ∧ (sp.Dir separator).1.Join separator sp.Name = (sp, none) := by
  cases sp with
  | mk P =>
  have hv : validatePath P false = none := (Validate_eq_none_iff P false).mp hsp
  have hdot : ∀ x : Bytes, validatePath x false = none → x ≠ dot := by
    intro x hx hd
    rw [hd] at hx
    exact absurd hx (by decide)
  simp only at hslash
  by_cases h47 : 47 ∈ P
  · obtain ⟨a, b, hab, hb⟩ := strings.exists_last_sep 47 P h47
    have hab2 : P = a ++ slash ++ b := by rw [hab]; simp [slash]
    rw [hab2] at hv hslash
    obtain ⟨hva, hvb⟩ := (validatePath_join_iff a b).mp hv
    have hfa : filepath.ToSlash separator a = a :=
      (ToSlash_fix_parts separator a slash
        (ToSlash_fix_parts separator (a ++ slash) b hslash).1).1
    have hfb : filepath.ToSlash separator b = b :=
      (ToSlash_fix_parts separator (a ++ slash) b hslash).2
    have hsplit : strings.Split P 47 = strings.Split a 47 ++ [b] := by
      rw [hab, strings.Split_append_cons, strings.Split_of_not_mem 47 b hb]
    have hlen : 1 ≤ (strings.Split a 47).length :=
      List.length_pos.mpr (strings.Split_ne_nil a 47)
    have hane : a ≠ [] := ((validatePath_false_iff a).mp hva).1
    have hname : TurtleDexPath.Name { Path := P } = b := by
      unfold TurtleDexPath.Name
      simp only [hsplit, List.length_append, List.length_singleton, Nat.add_sub_cancel]
      rw [List.getD_append_right _ _ _ _ (Nat.le_refl _), Nat.sub_self]
      simp only [List.getD_cons_zero]
      rw [if_neg (hdot b hvb)]
    have hdir : TurtleDexPath.Dir { Path := P } separator = ({ Path := a }, none) := by
      unfold TurtleDexPath.Dir
      simp only [hsplit, List.length_append, List.length_singleton, Nat.add_sub_cancel]
      rw [if_neg (by omega), List.take_left]
      have hj : strings.Join (strings.Split a 47) slash = a := strings.Join_Split a
      rw [hj, if_neg (fun h => h.elim hane (hdot a hva))]
      unfold newTurtleDexPath
      simp only [clean_of_fix separator a hfa, clean_of_valid a hva]
      rw [(Validate_eq_none_iff a false).mpr hva]
    rw [hdir, hname]
    refine ⟨rfl, ⟨strings.Split a 47, hsplit⟩, ?_, fun _ => ⟨hab2, hb⟩, ?_⟩
    · intro h1
      rw [hsplit, List.length_append, List.length_singleton] at h1
      omega
    · rw [Join_valid separator { Path := a } b
        ((Validate_true_iff _).mpr (Or.inr hva)) hfa hvb hfb]
      unfold joined
      simp only
      rw [if_neg hane, hab2]
  · have hsplit : strings.Split P 47 = [P] := strings.Split_of_not_mem 47 P h47
    have hname : TurtleDexPath.Name { Path := P } = P := by
      unfold TurtleDexPath.Name
      simp only [hsplit, List.length_singleton, Nat.sub_self, List.getD_cons_zero]
      rw [if_neg (hdot P hv)]
    have hdir : TurtleDexPath.Dir { Path := P } separator = (RootTurtleDexPath, none) := by
      unfold TurtleDexPath.Dir
      simp only [hsplit, List.length_singleton]
      rw [if_pos (Nat.le_refl 1)]
    rw [hdir, hname]
    refine ⟨rfl, ⟨[], by rw [hsplit]; rfl⟩, fun _ => rfl, ?_, ?_⟩
    · intro h1
      rw [hsplit] at h1
      exact absurd rfl h1
    · rw [Join_valid separator RootTurtleDexPath P (by decide) (ToSlash_nil separator) hv hslash]
      rfl

/-- C33, amended, at the path `a/b/myfile` on a system whose separator is the
backslash. -/
theorem Dir_Name_spec_witness :
    (sampleABMyfile.Dir 92).2 = none
    ∧ (∃ init : List Bytes, strings.Split sampleABMyfile.Path 47 = init ++ [sampleABMyfile.Name])
    ∧ ((strings.Split sampleABMyfile.Path 47).length = 1 →
        (sampleABMyfile.Dir 92).1 = RootTurtleDexPath)
    ∧ ((strings.Split sampleABMyfile.Path 47).length ≠ 1 →
        sampleABMyfile.Path = (sampleABMyfile.Dir 92).1.Path ++ slash ++ sampleABMyfile.Name
          ∧ 47 ∉ sampleABMyfile.Name)
    ∧ (sampleABMyfile.Dir 92).1.Join 92 sampleABMyfile.Name = (sampleABMyfile, none) :=
  Dir_Name_spec 92 sampleABMyfile (by decide) (by decide)

/-- C33, the claim as stated fails where the separator is the backslash: the
path with the elements `a\b` and `c` is valid and not the root, `Dir()` returns
the path `a/b`, which is not the string of the path up to its last slash, and
`Dir().Join(Name())` returns the path `a/b/c`, which is not the path. -/
theorem Dir_backslash :
    sampleBackslashC.Validate false = none
    ∧ strings.Split sampleBackslashC.Path 47 = [[97, 92, 98], [99]]
    ∧ sampleBackslashC.Dir 92 = ({ Path := [97, 47, 98] }, none)
    ∧ sampleBackslashC.Name = [99]
    ∧ (sampleBackslashC.Dir 92).1.Join 92 sampleBackslashC.Name
        = ({ Path := [97, 47, 98, 47, 99] }, none)
    ∧ decide ((sampleBackslashC.Dir 92).1.Join 92 sampleBackslashC.Name
        = (sampleBackslashC, none)) = false := by
  decide

/-- C39, evaluated: the paths `a/bc/file`, `a/b` and `x` are valid and `a/b` is
not the root; the elements `a`, `b` of `a/b` are not a prefix of the elements
`a`, `bc`, `file` of `a/bc/file`; still `Rebase` from `a/b` to `x` returns no
error and the path `x/c/file`, because it compares the strings and not the
elements. -/
theorem Rebase_not_base :
    sampleABCFile.Validate false = none
    ∧ sampleAB.Validate false = none
    ∧ sampleX.Validate false = none
    ∧ strings.Split sampleAB.Path 47 = [[97], [98]]
    ∧ strings.Split sampleABCFile.Path 47 = [[97], [98, 99], [102, 105, 108, 101]]
    ∧ (strings.Split sampleAB.Path 47).isPrefixOf (strings.Split sampleABCFile.Path 47) = false
    ∧ sampleABCFile.Rebase 47 sampleAB sampleX
        = ({ Path := [120, 47, 99, 47, 102, 105, 108, 101] }, none) := by
  decide

end modules

namespace typesutil

open types

theorem consume_usable (tg : TransactionGraph) (xs : List Int) :
    ∀ (inputs : List TurtleDexcoinInput) (totalIn : Currency) (rest : List Int),
      (∀ x ∈ xs, tg.usable x) →
      AddTransaction.consume tg (xs ++ rest) inputs totalIn
        = AddTransaction.consume tg rest
            (inputs ++ xs.map (fun x => (tg.ttdcInputs.getD x.toNat ttdcInput.zero).input))
            (totalIn + (xs.map tg.valueOf).sum) := by
  induction xs with
  | nil => intro inputs totalIn rest _; simp
  | cons x xs ih =>
    intro inputs totalIn rest h
    obtain ⟨h0, h1, h2⟩ := h x (List.mem_cons_self _ _)
    have hxs : ∀ y ∈ xs, tg.usable y := fun y hy => h y (List.mem_cons_of_mem _ hy)
    simp only [List.cons_append, AddTransaction.consume]
    rw [if_neg (by omega), if_neg (by omega)]
    simp only [h2, Bool.false_eq_true, if_false, List.append_eq]
    rw [ih _ _ _ hxs]
    simp [TransactionGraph.valueOf, Currency.Add, Nat.add_assoc]

theorem totalOut_eq (st : SimpleTransaction) :
    AddTransaction.totalOut st = st.TurtleDexcoinOutputs.sum + st.MinerFees.sum := by
  have h : ∀ (l : List Currency) (a : Currency), l.foldl Currency.Add a = a + l.sum := by
    intro l
    induction l with
    | nil => intro a; simp
    | cons x l ih => intro a; simp [ih, Currency.Add, Nat.add_assoc]
  simp [AddTransaction.totalOut, h]

theorem AddTransaction_error_unchanged (env : Env) (anyone : UnlockHash) (tg tg1 : TransactionGraph)
    (st : SimpleTransaction) (r : List Int) (err : GraphError)
    (h : tg.AddTransaction env anyone st = some (tg1, r, some err)) : tg1 = tg ∧ r = [] := by
  unfold TransactionGraph.AddTransaction at h
  split at h
  · simp at h
  · simp at h; exact ⟨h.1.symm, h.2.1⟩
  · simp only at h
    split at h
    · simp at h; exact ⟨h.1.symm, h.2.1⟩
    · simp at h

/-- What the two methods return for every graph: `AddTurtleDexcoinSource` returns
`ErrTurtleDexcoinSourceAlreadyAdded` exactly when the output ID was already added
as a source, and otherwise the new index, the previous number of inputs, with no
error. `AddTransaction` goes through the input indexes in order: at the first
index that is not both in range and unused it returns
`ErrNoSuchTurtleDexcoinInput` if the index is at least the number of known
inputs, panics if the index is negative, and returns
`ErrTurtleDexcoinInputAlreadyUsed` if the indexed input is used; when every
index passes and the summed input values differ from the summed outputs plus
fees it returns `ErrTurtleDexcoinInputsOutputsMismatch`. Whenever either method
returns an error, the graph is the graph before the call. -/
theorem TransactionGraph.errors_atomic (env : Env) (anyone : UnlockHash)
    (tg : TransactionGraph) :
    (∀ (scoid : TurtleDexcoinOutputID) (value : Currency),
        ((tg.AddTurtleDexcoinSource scoid value).2.2 = some .ErrTurtleDexcoinSourceAlreadyAdded
            ↔ scoid ∈ tg.usedTurtleDexcoinInputSources)
        ∧ (scoid ∉ tg.usedTurtleDexcoinInputSources →
            (tg.AddTurtleDexcoinSource scoid value).2 = ((tg.ttdcInputs.length : Int), none))
        ∧ ((tg.AddTurtleDexcoinSource scoid value).2.2 ≠ none →
            (tg.AddTurtleDexcoinSource scoid value).1 = tg))
    ∧ (∀ (st : SimpleTransaction) (before after : List Int) (sci : Int),
        st.TurtleDexcoinInputs = before ++ sci :: after → (∀ x ∈ before, tg.usable x) →
        ((tg.ttdcInputs.length : Int) ≤ sci →
            tg.AddTransaction env anyone st = some (tg, [], some .ErrNoSuchTurtleDexcoinInput))
        ∧ (sci < 0 → tg.AddTransaction env anyone st = none)
        ∧ (0 ≤ sci → sci < (tg.ttdcInputs.length : Int) →
            (tg.ttdcInputs.getD sci.toNat ttdcInput.zero).used = true →
            tg.AddTransaction env anyone st
              = some (tg, [], some .ErrTurtleDexcoinInputAlreadyUsed)))
    ∧ (∀ (st : SimpleTransaction), (∀ x ∈ st.TurtleDexcoinInputs, tg.usable x) →
        (st.TurtleDexcoinInputs.map tg.valueOf).sum
          ≠ st.TurtleDexcoinOutputs.sum + st.MinerFees.sum →
        tg.AddTransaction env anyone st
          = some (tg, [], some (.ErrTurtleDexcoinInputsOutputsMismatch
              (st.TurtleDexcoinInputs.map tg.valueOf).sum
              (st.TurtleDexcoinOutputs.sum + st.MinerFees.sum))))
    ∧ (∀ (st : SimpleTransaction) (tg1 : TransactionGraph) (r : List Int) (err : GraphError),
        tg.AddTransaction env anyone st = some (tg1, r, some err) → tg1 = tg) := by
  refine ⟨?_, ?_, ?_, ?_⟩
  · intro scoid value
    unfold TransactionGraph.AddTurtleDexcoinSource
    by_cases h : scoid ∈ tg.usedTurtleDexcoinInputSources
    · simp [h]
    · simp [h]
  · intro st before after sci hsplit hbefore
    have hc := consume_usable tg before [] 0 (sci :: after) hbefore
    refine ⟨?_, ?_, ?_⟩
    · intro hge
      unfold TransactionGraph.AddTransaction
      rw [hsplit, hc]
      simp only [AddTransaction.consume]
      rw [if_pos hge]
    · intro hneg
      unfold TransactionGraph.AddTransaction
      rw [hsplit, hc]
      simp only [AddTransaction.consume]
      rw [if_neg (by omega), if_pos hneg]
    · intro h0 h1 hused
      unfold TransactionGraph.AddTransaction
      rw [hsplit, hc]
      simp only [AddTransaction.consume]
      rw [if_neg (by omega), if_neg (by omega)]
      simp only [hused, if_true]
  · intro st hall hne
    have hc := consume_usable tg st.TurtleDexcoinInputs [] 0 [] hall
    simp only [List.append_nil, Nat.zero_add, List.nil_append] at hc
    unfold TransactionGraph.AddTransaction
    rw [hc]
    simp only [AddTransaction.consume]
    rw [totalOut_eq, if_pos hne]
  · intro st tg1 r err h
    exact (AddTransaction_error_unchanged env anyone tg tg1 st r err h).1

set_option maxRecDepth 100000 in
/-- The checks of `AddTransaction` run in the order of the indexes: in the
sample graph the input 0 is used and there are two inputs; with the indexes 0
and 5 the call returns `ErrTurtleDexcoinInputAlreadyUsed`, with the indexes 5
and 0 it returns `ErrNoSuchTurtleDexcoinInput`, and the graph is unchanged. -/
theorem AddTransaction_first_error :
    sampleGraph.ttdcInputs.length = 2
      ∧ (sampleGraph.ttdcInputs.getD 0 ttdcInput.zero).used = true
      ∧ sampleGraph.AddTransaction (consensus.sampleEnv true) Hash.zero
            { TurtleDexcoinInputs := [0, 5], TurtleDexcoinOutputs := [], MinerFees := [] }
          = some (sampleGraph, [], some .ErrTurtleDexcoinInputAlreadyUsed)
      ∧ sampleGraph.AddTransaction (consensus.sampleEnv true) Hash.zero
            { TurtleDexcoinInputs := [5, 0], TurtleDexcoinOutputs := [], MinerFees := [] }
          = some (sampleGraph, [], some .ErrNoSuchTurtleDexcoinInput) := by
  decide

/-- C34, evaluated: an input index below zero that `AddTransaction` reaches,
the indexes before it passing both checks, makes the call panic: the test
`sci >= len(tg.ttdcInputs)` lets the index through and the index expression
`tg.ttdcInputs[sci]` is out of range, so no error is returned for an index
that references no input. -/
theorem AddTransaction_negative_index (env : Env) (anyone : UnlockHash)
    (tg : TransactionGraph) (st : SimpleTransaction) (before after : List Int) (sci : Int)
    (hsplit : st.TurtleDexcoinInputs = before ++ sci :: after)
    (hbefore : ∀ x ∈ before, tg.usable x) (hneg : sci < 0) :
    tg.AddTransaction env anyone st = none := by
  have hc := consume_usable tg before [] 0 (sci :: after) hbefore
  unfold TransactionGraph.AddTransaction
  rw [hsplit, hc]
  simp only [AddTransaction.consume]
  rw [if_neg (by omega), if_pos hneg]

/-- C34, evaluated at the index -1, which is what `AddTurtleDexcoinSource`
returns together with its error: adding the source of `sampleSourceGraph` a
second time returns -1 and `ErrTurtleDexcoinSourceAlreadyAdded`, and
`AddTransaction` with the input index -1 panics. -/
theorem AddTransaction_negative_index_witness :
    (sampleSourceGraph.AddTurtleDexcoinSource sampleSource 1).2
        = (-1, some .ErrTurtleDexcoinSourceAlreadyAdded)
      ∧ sampleSourceGraph.AddTransaction (consensus.sampleEnv true) Hash.zero
          { TurtleDexcoinInputs := [-1], TurtleDexcoinOutputs := [], MinerFees := [] }
        = none :=
  ⟨by decide,
    AddTransaction_negative_index (consensus.sampleEnv true) Hash.zero sampleSourceGraph
      { TurtleDexcoinInputs := [-1], TurtleDexcoinOutputs := [], MinerFees := [] }
      [] [] (-1) rfl (fun _ h => absurd h (List.not_mem_nil _)) (by decide)⟩

set_option maxRecDepth 100000 in
/-- C38, evaluated: from the new graph, after the source `sampleSource` of value
1 is added, the transaction with the input indexes 0 and 0 and one output of
value 2 is accepted without an error, and the one transaction of the graph
then has two inputs with the parent `sampleSource`: the parents of the inputs
of `Transactions()` are not pairwise distinct. -/
theorem AddTransaction_same_input_twice :
    ∃ tg : TransactionGraph,
      sampleSourceGraph.AddTransaction (consensus.sampleEnv true) Hash.zero
          { TurtleDexcoinInputs := [0, 0], TurtleDexcoinOutputs := [2], MinerFees := [] }
        = some (tg, [1], none)
      ∧ (tg.Transactions.flatMap (fun t => t.TurtleDexcoinInputs.map (fun i => i.ParentID)))
          = [sampleSource, sampleSource]
      ∧ ¬ (tg.Transactions.flatMap
            (fun t => t.TurtleDexcoinInputs.map (fun i => i.ParentID))).Nodup := by
  refine ⟨_, rfl, ?_, ?_⟩ <;> decide

end typesutil

namespace wallet

open types

/-! ## C36: the claim of the wallet and the claim of consensus -/

/-- C36: for a fund pool `P` and a fund output with `ClaimStart = C ≤ P` and
`Value = v`, `ConfirmedBalance` adds `((P - C) * v) / TurtleDexfundCount` to the
claim balance; that is never less than the claim
`((P - C) / TurtleDexfundCount) * v` that consensus pays when the output is
spent, and the two are equal when `P - C` is a multiple of
`TurtleDexfundCount`. -/
theorem ConfirmedBalance.claim_ge_consensus (env : Env) (tx : consensus.ConsensusDB)
    (sfo : TurtleDexfundOutput) (balances : Currency × Currency)
    (hC : sfo.ClaimStart ≤ consensus.getTurtleDexfundPool tx) :
    (ConfirmedBalance.fundOutput env (consensus.getTurtleDexfundPool tx) balances sfo).2
        = balances.2
          + (consensus.getTurtleDexfundPool tx - sfo.ClaimStart) * sfo.Value
              / env.TurtleDexfundCount
      ∧ consensus.claimPortion env tx sfo
          ≤ (consensus.getTurtleDexfundPool tx - sfo.ClaimStart) * sfo.Value
              / env.TurtleDexfundCount
      ∧ (env.TurtleDexfundCount ∣ consensus.getTurtleDexfundPool tx - sfo.ClaimStart →
          consensus.claimPortion env tx sfo
            = (consensus.getTurtleDexfundPool tx - sfo.ClaimStart) * sfo.Value
                / env.TurtleDexfundCount) := by
  have hpos := env.TurtleDexfundCount_pos
  refine ⟨?_, ?_, ?_⟩
  · unfold ConfirmedBalance.fundOutput
    simp only []
    rw [if_neg (Nat.not_lt.mpr hC)]
    rfl
  · rw [consensus.claimPortion_eq, Nat.le_div_iff_mul_le hpos]
    calc (consensus.getTurtleDexfundPool tx - sfo.ClaimStart) / env.TurtleDexfundCount
            * sfo.Value * env.TurtleDexfundCount
        = (consensus.getTurtleDexfundPool tx - sfo.ClaimStart) / env.TurtleDexfundCount
            * env.TurtleDexfundCount * sfo.Value := by ring
      _ ≤ (consensus.getTurtleDexfundPool tx - sfo.ClaimStart) * sfo.Value :=
          Nat.mul_le_mul_right _ (Nat.div_mul_le_self _ _)
  · rintro ⟨k, hk⟩
    rw [consensus.claimPortion_eq, hk, Nat.mul_div_cancel_left _ hpos, Nat.mul_assoc,
      Nat.mul_div_cancel_left _ hpos]

/-- C36, witness: a pool of 123456 and the first sample output, of claim start
300 and value 2500: the wallet reports 30789, consensus pays 30000. -/
theorem ConfirmedBalance.claim_ge_consensus_witness :
    (300 ≤ consensus.getTurtleDexfundPool consensus.sampleClaimDB)
    ∧ (ConfirmedBalance.fundOutput (consensus.sampleEnv true)
          (consensus.getTurtleDexfundPool consensus.sampleClaimDB) (0, 0)
          { Value := 2500, UnlockHash := Hash.zero, ClaimStart := 300 }).2 = 30789
    ∧ consensus.claimPortion (consensus.sampleEnv true) consensus.sampleClaimDB
          { Value := 2500, UnlockHash := Hash.zero, ClaimStart := 300 } = 30000 :=
  have h := ConfirmedBalance.claim_ge_consensus (consensus.sampleEnv true)
    consensus.sampleClaimDB { Value := 2500, UnlockHash := Hash.zero, ClaimStart := 300 }
    (0, 0) (by decide)
  ⟨by decide, h.1.trans (by decide), by decide⟩

end wallet

namespace explorer

open types modules

set_option maxRecDepth 100000 in
/-- C40, evaluated. In a release build, from a database at the height 5 that
knows the contract `[70]`, the change that applies a block with a storage
proof for that contract and then the change that reverts the block are both
processed without an error; afterwards the block height, the block, the
transactions and the history of the contract are those of before, but the
bucket of the contract in the index of file contract identifiers still holds
the transaction of the proof, which the database did not hold before. With
`build.DEBUG` set, processing the change that reverts the block panics. For a
block that creates a contract and revises it, applied to the empty database,
processing the change that reverts the block fails (the history of the
contract is deleted before the revision is taken off it) and the transaction
of the block stays in the index of transactions. -/
theorem ProcessConsensusChange_not_undone :
    (ProcessConsensusChange (consensus.sampleEnv false) sampleExplorer sampleDB
        (applies sampleProofBlock)).isDone = true
    ∧ (appliedThenReverted (consensus.sampleEnv false) sampleExplorer sampleDB
        sampleProofBlock).isDone = true
    ∧ ((appliedThenReverted (consensus.sampleEnv false) sampleExplorer sampleDB
        sampleProofBlock).db sampleDB).internalBlockHeight = sampleDB.internalBlockHeight
    ∧ ((appliedThenReverted (consensus.sampleEnv false) sampleExplorer sampleDB
        sampleProofBlock).db sampleDB).BlockIDs (sampleExplorer.ID sampleProofBlock) = none
    ∧ ((appliedThenReverted (consensus.sampleEnv false) sampleExplorer sampleDB
        sampleProofBlock).db sampleDB).TransactionIDs
          (sampleProofTransaction.ID (consensus.sampleEnv false)) = none
    ∧ ((appliedThenReverted (consensus.sampleEnv false) sampleExplorer sampleDB
        sampleProofBlock).db sampleDB).FileContractHistories [70]
          = sampleDB.FileContractHistories [70]
    ∧ sampleDB.FileContractIDs [70] = some [[71]]
    ∧ ((appliedThenReverted (consensus.sampleEnv false) sampleExplorer sampleDB
        sampleProofBlock).db sampleDB).FileContractIDs [70]
          = some [[71], sampleProofTransaction.ID (consensus.sampleEnv false)]
    ∧ (appliedThenReverted (consensus.sampleEnv true) sampleExplorer sampleDB
        sampleProofBlock).isPanicked = true
    ∧ (ProcessConsensusChange (consensus.sampleEnv false) sampleExplorer (Tx.empty 5)
        (applies sampleReviseBlock)).isDone = true
    ∧ (appliedThenReverted (consensus.sampleEnv false) sampleExplorer (Tx.empty 5)
        sampleReviseBlock).isDone = false
    ∧ ((appliedThenReverted (consensus.sampleEnv false) sampleExplorer (Tx.empty 5)
        sampleReviseBlock).db (Tx.empty 5)).TransactionIDs
          (sampleCreate.ID (consensus.sampleEnv false)) = some 6
    ∧ (Tx.empty 5).TransactionIDs (sampleCreate.ID (consensus.sampleEnv false)) = none := by
  decide

end explorer

end TurtleDex
